import Mathlib

/-!
# VROmafPacking: tile-track and extractor-track segmentation contexts

A shallow embedding of `DefaultSegmentation.cpp` (the construction of the
segmentation contexts and the first phase of `VideoSegmentation`), followed by
theorems about it.

Conventions of the embedding.

* `std::map<K, V>` is an association list kept in ascending key order;
  `mapInsert` is `std::map::insert` (an existing key is never overwritten).
  Maps keyed by an object pointer (`MediaStream*`, `ExtractorTrack*`) are keyed
  by the index of that object in its owning map.
* `std::set<uint64_t>` is an ascending list without repetition.
* A run that reads outside an array, divides by zero or dereferences a null
  pointer has no defined result: the embedding returns `none` there.
* `operator new` is taken to succeed, so the branches guarded by a null result
  of `new` are not reachable and are left out.
* Unsigned 8-bit locals of the source are reduced modulo 256 where the source
  declares them so (`qualityLevel`, `vsIdx`, `origTileIdx`).
* Track ids, the track-id counter, bit rates and picture sizes are natural
  numbers: the widths of `TrackId` and of the members of the stream and context
  structures are declared in headers outside the two source files.
-/

namespace VROmafPacking

/-! ## Return codes -/

/-- Return codes used by the segmentation core. -/
inductive ErrorCode where
  | ERROR_NONE
  | OMAF_ERROR_NULL_PTR
  | OMAF_ERROR_DATA_SIZE
  | OMAF_ERROR_INVALID_HEADER
  | OMAF_ERROR_INVALID_SPS
  | OMAF_ERROR_INVALID_PPS
  | OMAF_ERROR_INVALID_PROJECTIONTYPE
  | OMAF_ERROR_STREAM_NOT_FOUND
  | OMAF_ERROR_EXTRACTORTRACK_NOT_FOUND
  | OMAF_ERROR_INVALID_DATA
  | OMAF_ERROR_CREATE_THREAD
  | OMAF_ERROR_SCVP_INIT_FAILED
  | OMAF_ERROR_UNDEFINED_OPERATION
  | OTHER (code : Int)
  deriving DecidableEq, Repr

open ErrorCode

/-! ## Ordered containers -/

/-- Lookup of a key, `std::map::find`. -/
def mapFind {α : Type} (k : Nat) : List (Nat × α) → Option α
  | [] => none
  | (k', v) :: rest => if k' = k then some v else mapFind k rest

/-- Insertion of a fresh key at its place in ascending key order. -/
def orderedInsert {α : Type} (k : Nat) (v : α) : List (Nat × α) → List (Nat × α)
  | [] => [(k, v)]
  | (k', v') :: rest =>
    if k < k' then (k, v) :: (k', v') :: rest
    else (k', v') :: orderedInsert k v rest

/-- Insertion `std::map::insert`: nothing happens when the key is present. -/
def mapInsert {α : Type} (k : Nat) (v : α) (m : List (Nat × α)) : List (Nat × α) :=
  match mapFind k m with
  | some _ => m
  | none => orderedInsert k v m

/-- Keys of a map in iteration order. -/
def mapKeys {α : Type} (m : List (Nat × α)) : List Nat := m.map Prod.fst

/-- Subscript `std::map::operator[]` on a map of track ids: an absent key is
inserted with a value-constructed id, which is then returned. -/
def mapIndex (dflt : Nat) (k : Nat) (m : List (Nat × Nat)) : Nat × List (Nat × Nat) :=
  match mapFind k m with
  | some v => (v, m)
  | none => (dflt, orderedInsert k dflt m)

/-- Insertion `std::set<uint64_t>::insert`. -/
def setInsert (x : Nat) : List Nat → List Nat
  | [] => [x]
  | y :: rest =>
    if x < y then x :: y :: rest
    else if x = y then y :: rest
    else y :: setInsert x rest

/-! ## Input streams -/

/-- A NAL unit handle: a data pointer (absent when null) and a byte count. -/
structure Nalu where
  data : Option (List Nat)
  dataSize : Nat
  deriving DecidableEq, Repr

/-- Frame rate as a fraction. -/
structure Rational where
  num : Nat
  den : Nat
  deriving DecidableEq, Repr

/-- Geometry of one tile as reported by the NAL-unit parser. -/
structure TileInfo where
  horizontalPos : Nat
  verticalPos : Nat
  tileWidth : Nat
  tileHeight : Nat
  deriving DecidableEq, Repr

/-- One rectangular region of a region-wise packing. -/
structure RectangularRegionWisePacking where
  transformType : Nat
  guardBandFlag : Bool
  projRegWidth : Nat
  projRegHeight : Nat
  projRegTop : Nat
  projRegLeft : Nat
  packedRegWidth : Nat
  packedRegHeight : Nat
  packedRegTop : Nat
  packedRegLeft : Nat
  leftGbWidth : Nat
  rightGbWidth : Nat
  topGbHeight : Nat
  bottomGbHeight : Nat
  gbNotUsedForPredFlag : Bool
  gbType0 : Nat
  gbType1 : Nat
  gbType2 : Nat
  gbType3 : Nat
  deriving DecidableEq, Repr

/-- Region-wise packing of a picture; `rectRegionPacking` is the region array. -/
structure RegionWisePacking where
  constituentPicMatching : Nat
  numRegions : Nat
  projPicWidth : Nat
  projPicHeight : Nat
  packedPicWidth : Nat
  packedPicHeight : Nat
  rectRegionPacking : List RectangularRegionWisePacking
  deriving DecidableEq, Repr

/-- Spherical region of a content coverage. -/
structure SphereRegion where
  viewIdc : Nat
  centreAzimuth : Int
  centreElevation : Int
  centreTilt : Int
  azimuthRange : Nat
  elevationRange : Nat
  interpolate : Bool
  deriving DecidableEq, Repr

/-- Content coverage; `sphereRegions` is the region array (absent when null). -/
structure ContentCoverage where
  coverageShapeType : Nat
  numRegions : Nat
  viewIdcPresenceFlag : Bool
  defaultViewIdc : Nat
  sphereRegions : Option (List SphereRegion)
  deriving DecidableEq, Repr

/-- Media kind reported by `GetMediaType`. -/
inductive MediaType where
  | VIDEOTYPE
  | AUDIOTYPE
  deriving DecidableEq, Repr

/-- Codec id `CODEC_ID_H264`. -/
def CODEC_ID_H264 : Nat := 0

/-- Codec id `CODEC_ID_H265`. -/
def CODEC_ID_H265 : Nat := 1

/-- Projection format `PF_ERP`. -/
def PF_ERP : Nat := 0

/-- Projection format `PF_CUBEMAP`. -/
def PF_CUBEMAP : Nat := 1

/-- An input stream as seen by the segmentation: the members of `VideoStream`
read through its accessors. `parserVPS`, `parserSPS` and `parserPPS` are the
handles held by the NAL-unit parser (absent when null); `tilesInfo` is the
array `m_tilesInfo` and `srcRwpk` the object `m_srcRwpk` (absent when null). -/
structure MediaStream where
  mediaType : MediaType
  codecId : Nat
  width : Nat
  height : Nat
  tileInRow : Nat
  tileInCol : Nat
  tilesInfo : List TileInfo
  projType : Nat
  frameRate : Rational
  bitRate : Nat
  segDur : Nat
  parserVPS : Option Nalu
  parserSPS : Option Nalu
  parserPPS : Option Nalu
  srcRwpk : Option RegionWisePacking
  deriving DecidableEq, Repr

/-- Accessor `VideoStream::GetVPSNalu`: the parser's VPS for H265, null otherwise. -/
def GetVPSNalu (vs : MediaStream) : Option Nalu :=
  if vs.codecId = CODEC_ID_H265 then vs.parserVPS else none

/-- Accessor `VideoStream::GetSPSNalu`. -/
def GetSPSNalu (vs : MediaStream) : Option Nalu := vs.parserSPS

/-- Accessor `VideoStream::GetPPSNalu`. -/
def GetPPSNalu (vs : MediaStream) : Option Nalu := vs.parserPPS

/-- The test `!nalu || !(nalu->data) || !(nalu->dataSize)` of the header checks. -/
def naluMissing : Option Nalu → Bool
  | none => true
  | some n => n.data.isNone || n.dataSize == 0

/-- The local `uint32_t tilesNum = GetTileInRow() * GetTileInCol()`. -/
def tilesNum (vs : MediaStream) : Nat := (vs.tileInRow * vs.tileInCol) % 2 ^ 32

/-! ## Quality ranking -/

/-- One step of the first loop of `ConstructTileTrackSegCtx`: a video stream
puts its bit rate into the set. -/
def bitRateStep (acc : List Nat) (e : Nat × MediaStream) : List Nat :=
  if e.2.mediaType = MediaType.VIDEOTYPE then setInsert e.2.bitRate acc else acc

/-- First loop of `ConstructTileTrackSegCtx`: the set of the bit rates of the
video streams, filled in the order of the stream map. -/
def bitRateRanking (streams : List (Nat × MediaStream)) : List Nat :=
  streams.foldl bitRateStep []

/-- The search loop over the bit-rate set: the 8-bit counter `qualityLevel`
is decremented once per element passed, until the stream's bit rate is met. -/
def qualityLevelLoop (bitRate : Nat) : List Nat → Nat → Nat
  | [], q => q
  | b :: rest, q =>
    if b = bitRate then q else qualityLevelLoop bitRate rest ((q + 255) % 256)

/-- The value of `qualityLevel` after the loop: it starts at the size of the
set narrowed to 8 bits. -/
def qualityLevelOf (ranking : List Nat) (bitRate : Nat) : Nat :=
  qualityLevelLoop bitRate ranking (ranking.length % 256)

/-! ## Segmenter configuration and coded metadata -/

/-- Fraction `StreamSegmenter::RatU64`, also used for `FrameTime` and
`FrameDuration`. -/
structure RatU64 where
  num : Nat
  den : Nat
  deriving DecidableEq, Repr

/-- Division of fractions as used for `subsgtDuration`. -/
def RatU64.div (a b : RatU64) : RatU64 := ⟨a.num * b.den, a.den * b.num⟩

/-- Media kind `StreamSegmenter::MediaType`. -/
inductive SegMediaType where
  | Video
  | Audio
  deriving DecidableEq, Repr

/-- Input format `DataInputFormat`. -/
inductive DataInputFormat where
  | VideoMono
  deriving DecidableEq, Repr

/-- Operating mode of the init segmenter. -/
inductive OperatingMode where
  | OMAF
  deriving DecidableEq, Repr

/-- Coded format of a track. -/
inductive CodedFormat where
  | NoneFormat
  | H265
  | H265Extractor
  deriving DecidableEq, Repr

/-- Frame type of an access unit. -/
inductive FrameType where
  | IDR
  | NONIDR
  deriving DecidableEq, Repr

/-- Projection written into the coded metadata. -/
inductive OmafProjectionType where
  | EQUIRECTANGULAR
  | CUBEMAP
  deriving DecidableEq, Repr

/-- Kind of a decoder configuration record. -/
inductive ConfigType where
  | VPS
  | SPS
  | PPS
  deriving DecidableEq, Repr

/-- Track description `StreamSegmenter::TrackMeta`. -/
structure TrackMeta where
  trackId : Nat
  timescale : RatU64
  type : SegMediaType
  deriving DecidableEq, Repr

/-- Track entry of an init-segment configuration. -/
structure TrackConfig where
  meta : TrackMeta
  trackReferences : List (String × List Nat)
  pipelineOutput : DataInputFormat
  deriving DecidableEq, Repr

/-- Configuration of the init segmenter, `dashInitCfg`. -/
structure InitSegConfig where
  tracks : List (Nat × TrackConfig)
  fragmented : Bool
  writeToBitstream : Bool
  packedSubPictures : Bool
  mode : OperatingMode
  streamIds : List Nat
  initSegName : String
  deriving DecidableEq, Repr

/-- Configuration of the media segmenter, `dashCfg`. -/
structure GeneralSegConfig where
  sgtDuration : RatU64
  subsgtDuration : RatU64
  needCheckIDR : Bool
  tracks : List (Nat × TrackMeta)
  useSeparatedSidx : Bool
  streamsIdx : List Nat
  tileSegBaseName : String
  deriving DecidableEq, Repr

/-- One region of the packing stored in the coded metadata. -/
structure Region where
  projTop : Nat
  projLeft : Nat
  projWidth : Nat
  projHeight : Nat
  transform : Nat
  packedTop : Nat
  packedLeft : Nat
  packedWidth : Nat
  packedHeight : Nat
  deriving DecidableEq, Repr

/-- Region packing stored in the coded metadata. -/
structure RegionPacking where
  constituentPictMatching : Nat
  projPictureWidth : Nat
  projPictureHeight : Nat
  packedPictureWidth : Nat
  packedPictureHeight : Nat
  regions : List Region
  deriving DecidableEq, Repr

/-- Spherical coverage stored in the coded metadata. -/
structure Spherical where
  cAzimuth : Int
  cElevation : Int
  cTilt : Int
  rAzimuth : Nat
  rElevation : Nat
  deriving DecidableEq, Repr

/-- One entry of the quality-rank coverage. -/
structure QualityInfo where
  origWidth : Nat
  origHeight : Nat
  qualityRank : Nat
  sphere : Spherical
  deriving DecidableEq, Repr

/-- Quality-rank coverage `Quality3d`. -/
structure Quality3d where
  qualityInfo : List QualityInfo
  remainingArea : Bool
  deriving DecidableEq, Repr

/-- Bit rates of a track. -/
structure Bitrate where
  avgBitrate : Nat
  maxBitrate : Nat
  deriving DecidableEq, Repr

/-- Per-frame metadata handed to the segment writer. The three optional
members are unset in a freshly constructed value. -/
structure CodedMeta where
  presIndex : Nat
  codingIndex : Nat
  codingTime : RatU64
  presTime : RatU64
  duration : RatU64
  trackId : Nat
  inCodingOrder : Bool
  format : CodedFormat
  decoderConfig : List (ConfigType × List Nat)
  width : Nat
  height : Nat
  bitrate : Bitrate
  type : FrameType
  segmentDuration : RatU64
  regionPacking : Option RegionPacking
  sphericalCoverage : Option Spherical
  qualityRankCoverage : Option Quality3d
  projection : OmafProjectionType
  isEOS : Bool
  deriving DecidableEq, Repr

/-- Context of one track, `TrackSegmentCtx`. `initSegmenter` and
`dashSegmenter` record whether the writer object has been created. -/
structure TrackSegmentCtx where
  isExtractorTrack : Bool
  tileInfo : Option TileInfo
  tileIdx : Nat
  extractorTrackIdx : Nat
  extractors : Nat
  extractorTrackNalu : Nalu
  refTrackIdxs : List Nat
  trackIdx : Nat
  dashInitCfg : InitSegConfig
  dashCfg : GeneralSegConfig
  initSegmenter : Bool
  dashSegmenter : Bool
  qualityRanking : Nat
  codedMeta : CodedMeta
  deriving DecidableEq, Repr

/-- Picture resolution of one source stream of an extractor track. -/
structure PicResolution where
  width : Nat
  height : Nat
  deriving DecidableEq, Repr

/-- Conversion of one source region by the loop body of `ConvertRwpk`. -/
def convertRegion (r : RectangularRegionWisePacking) : Region :=
  { projTop := r.projRegTop
    projLeft := r.projRegLeft
    projWidth := r.projRegWidth
    projHeight := r.projRegHeight
    transform := r.transformType
    packedTop := r.packedRegTop
    packedLeft := r.packedRegLeft
    packedWidth := r.packedRegWidth
    packedHeight := r.packedRegHeight }

/-- The loop of `ConvertRwpk` over the region indices: every index reads the
region array. -/
def convertRegions (rects : List RectangularRegionWisePacking) :
    List Nat → Option (List Region)
  | [] => some []
  | i :: rest =>
    match rects[i]?, convertRegions rects rest with
    | some r, some rs => some (convertRegion r :: rs)
    | _, _ => none

/-- Function `ConvertRwpk`: a null packing gives `OMAF_ERROR_NULL_PTR` and
leaves the metadata as it is. The loop counter has 8 bits, so a region count
of 256 or more is never reached by it and the call has no result. -/
def ConvertRwpk (rwpk : Option RegionWisePacking) (codedMeta : CodedMeta) :
    Option (ErrorCode × CodedMeta) :=
  match rwpk with
  | none => some (OMAF_ERROR_NULL_PTR, codedMeta)
  | some p =>
    if 256 ≤ p.numRegions then none
    else
      match convertRegions p.rectRegionPacking (List.range p.numRegions) with
      | none => none
      | some rs =>
        some (ERROR_NONE,
          { codedMeta with
            regionPacking := some
              { constituentPictMatching := p.constituentPicMatching
                projPictureWidth := p.projPicWidth
                projPictureHeight := p.projPicHeight
                packedPictureWidth := p.packedPicWidth
                packedPictureHeight := p.packedPicHeight
                regions := rs } })

/-- Function `ConvertCovi`; the argument is the first element of the sphere
region array it is called with (absent for a null pointer). -/
def ConvertCovi (spr : Option SphereRegion) (codedMeta : CodedMeta) :
    ErrorCode × CodedMeta :=
  match spr with
  | none => (OMAF_ERROR_NULL_PTR, codedMeta)
  | some r =>
    (ERROR_NONE,
      { codedMeta with
        sphericalCoverage := some
          { cAzimuth := r.centreAzimuth
            cElevation := r.centreElevation
            cTilt := r.centreTilt
            rAzimuth := r.azimuthRange
            rElevation := r.elevationRange } })

/-- The loop of `FillQualityRank`: `resNum` is the 8-bit counter, `starter`
the constant `MAINSTREAM_QUALITY_RANK`. Every entry reads the spherical
coverage of the metadata, which has to be set. -/
def fillQualityInfos (starter : Nat) (cov : Option Spherical) :
    List PicResolution → Nat → Option (List QualityInfo)
  | [], _ => some []
  | picRes :: rest, resNum =>
    match cov, fillQualityInfos starter cov rest ((resNum + 1) % 256) with
    | some c, some infos =>
      some ({ origWidth := picRes.width
              origHeight := picRes.height
              qualityRank := starter + resNum
              sphere :=
                { cAzimuth := c.cAzimuth
                  cElevation := c.cElevation
                  cTilt := c.cTilt
                  rAzimuth := c.rAzimuth
                  rElevation := c.rElevation } } :: infos)
    | _, _ => none

/-- Function `FillQualityRank`. -/
def FillQualityRank (starter : Nat) (codedMeta : CodedMeta)
    (picResList : Option (List PicResolution)) : Option (ErrorCode × CodedMeta) :=
  match picResList with
  | none => some (OMAF_ERROR_NULL_PTR, codedMeta)
  | some l =>
    match fillQualityInfos starter codedMeta.sphericalCoverage l 0 with
    | none => none
    | some infos =>
      some (ERROR_NONE,
        { codedMeta with
          qualityRankCoverage := some { qualityInfo := infos, remainingArea := true } })

/-! ## The segmentation object -/

/-- Configuration `m_segInfo` of the segmentation. -/
structure SegmentationInfo where
  dirName : String
  outName : String
  isLive : Bool
  windowSize : Nat
  extraWindowSize : Nat
  extractorTracksPerSegThread : Nat
  deriving DecidableEq, Repr

/-- Constants declared outside the two source files: the rank given to the
main stream, the base of the extractor track ids, and the value of a
value-constructed track id. -/
structure Constants where
  MAINSTREAM_QUALITY_RANK : Nat
  DEFAULT_EXTRACTORTRACK_TRACKIDBASE : Nat
  defaultTrackId : Nat
  deriving DecidableEq, Repr

/-- Members of `DefaultSegmentation` used by the construction of the contexts
and by the first phase of `VideoSegmentation`. `m_trackSegCtx` maps a track id
to the place (stream index, tile index) of the context it points to. -/
structure DefaultSegmentation where
  m_segInfo : SegmentationInfo
  m_trackIdStarter : Nat
  m_streamSegCtx : List (Nat × List TrackSegmentCtx)
  m_extractorSegCtx : List (Nat × TrackSegmentCtx)
  m_trackSegCtx : List (Nat × (Nat × Nat))
  m_allTileTracks : List (Nat × TrackConfig)
  m_tilesTrackIdxs : List (Nat × List (Nat × Nat))
  m_framesIsKey : List (Nat × Bool)
  m_streamsIsEOS : List (Nat × Bool)
  m_frameRate : Rational
  m_projType : Nat
  m_videoSegInfo : Option Nat
  m_segNum : Nat
  m_prevSegNum : Nat
  m_framesNum : Nat
  m_aveETPerSegThread : Nat
  m_lastETPerSegThread : Nat
  m_threadNumForET : Nat
  deriving DecidableEq, Repr

/-- A segmentation object before any context is built: empty maps and the
track-id counter at `s`. -/
def DefaultSegmentation.fresh (segInfo : SegmentationInfo) (s : Nat) :
    DefaultSegmentation :=
  { m_segInfo := segInfo
    m_trackIdStarter := s
    m_streamSegCtx := []
    m_extractorSegCtx := []
    m_trackSegCtx := []
    m_allTileTracks := []
    m_tilesTrackIdxs := []
    m_framesIsKey := []
    m_streamsIsEOS := []
    m_frameRate := ⟨0, 0⟩
    m_projType := 0
    m_videoSegInfo := none
    m_segNum := 0
    m_prevSegNum := 0
    m_framesNum := 0
    m_aveETPerSegThread := 0
    m_lastETPerSegThread := 0
    m_threadNumForET := 0 }

/-- Output of `snprintf` into a buffer of 1024 bytes: at most 1023 characters. -/
def snprintf1024 (s : String) : String := s.take 1023

/-- Bytes copied from a NAL unit: `dataSize` bytes from its data pointer. -/
def naluBytes : Option Nalu → List Nat
  | none => []
  | some n => (n.data.getD []).take n.dataSize

/-- The projection branch at the end of both context constructions. -/
def projectionOf (projType : Nat) : Option OmafProjectionType :=
  if projType = PF_ERP then some OmafProjectionType.EQUIRECTANGULAR
  else if projType = PF_CUBEMAP then some OmafProjectionType.CUBEMAP
  else none

/-- The `TrackConfig` built for a tile track (lines 254 to 258). -/
def tileTrackConfig (frameRate : Rational) (trackId : Nat) : TrackConfig :=
  { meta :=
      { trackId := trackId
        timescale := ⟨frameRate.den, frameRate.num * 1000⟩
        type := SegMediaType.Video }
    trackReferences := []
    pipelineOutput := DataInputFormat.VideoMono }

/-- The context written for tile `i` of a video stream by one pass of the tile
loop of `ConstructTileTrackSegCtx`, up to the projection branch, whose result
is passed in. It reads `tilesInfo[i]` and region `i` of the source packing. -/
def tileCtx (segInfo : SegmentationInfo) (streamIdx : Nat) (vs : MediaStream)
    (starter qualityLevel : Nat) (projection : OmafProjectionType) (i : Nat) :
    Option TrackSegmentCtx :=
  match vs.tilesInfo[i]?, vs.srcRwpk with
  | some ti, some rwpk =>
    match rwpk.rectRegionPacking[i]? with
    | none => none
    | some rect =>
      let trackIdx := starter + i
      let sgtDuration : RatU64 := ⟨vs.segDur, 1⟩
      let codedMeta : CodedMeta :=
        { presIndex := 0
          codingIndex := 0
          codingTime := ⟨0, 1⟩
          presTime := ⟨0, 1000⟩
          duration := ⟨vs.frameRate.den * 1000, vs.frameRate.num * 1000⟩
          trackId := trackIdx
          inCodingOrder := true
          format := CodedFormat.H265
          decoderConfig :=
            [(ConfigType.VPS, naluBytes (GetVPSNalu vs)),
             (ConfigType.SPS, naluBytes (GetSPSNalu vs)),
             (ConfigType.PPS, naluBytes (GetPPSNalu vs))]
          width := ti.tileWidth
          height := ti.tileHeight
          bitrate := { avgBitrate := vs.bitRate / tilesNum vs, maxBitrate := 0 }
          type := FrameType.IDR
          segmentDuration := ⟨0, 1⟩
          regionPacking := none
          sphericalCoverage := none
          qualityRankCoverage := none
          projection := projection
          isEOS := false }
      let regionPacking : RegionWisePacking :=
        { constituentPicMatching := rwpk.constituentPicMatching
          numRegions := 1
          projPicWidth := rwpk.projPicWidth
          projPicHeight := rwpk.projPicHeight
          packedPicWidth := rwpk.packedPicWidth
          packedPicHeight := rwpk.packedPicHeight
          rectRegionPacking := [rect] }
      match ConvertRwpk (some regionPacking) codedMeta with
      | none => none
      | some (_, codedMeta1) =>
        some
          { isExtractorTrack := false
            tileInfo := some ti
            tileIdx := i
            extractorTrackIdx := 0
            extractors := 0
            extractorTrackNalu := ⟨none, 0⟩
            refTrackIdxs := []
            trackIdx := trackIdx
            dashInitCfg :=
              { tracks := mapInsert trackIdx (tileTrackConfig vs.frameRate trackIdx) []
                fragmented := true
                writeToBitstream := true
                packedSubPictures := true
                mode := OperatingMode.OMAF
                streamIds := [trackIdx]
                initSegName := snprintf1024
                  (segInfo.dirName ++ segInfo.outName ++ "_track" ++ toString trackIdx
                    ++ ".init.mp4") }
            dashCfg :=
              { sgtDuration := sgtDuration
                subsgtDuration := sgtDuration.div ⟨1, 1⟩
                needCheckIDR := true
                tracks := mapInsert trackIdx
                  { trackId := trackIdx
                    timescale := ⟨vs.frameRate.den, vs.frameRate.num * 1000⟩
                    type := SegMediaType.Video } []
                useSeparatedSidx := false
                streamsIdx := [streamIdx]
                tileSegBaseName := snprintf1024
                  (segInfo.dirName ++ segInfo.outName ++ "_track" ++ toString trackIdx) }
            initSegmenter := true
            dashSegmenter := true
            qualityRanking := qualityLevel
            codedMeta := codedMeta1 }
  | _, _ => none

/-- State of the tile loop: the segmentation object, the filled part of the
array `trackSegCtxs` and the local map `tilesTrackIndex`. -/
structure TileLoop where
  seg : DefaultSegmentation
  trackSegCtxs : List TrackSegmentCtx
  tilesTrackIndex : List (Nat × Nat)
  deriving DecidableEq, Repr

/-- One pass of the tile loop (lines 246 to 383) for tile `i`. The track is
entered into `m_allTileTracks` first; a projection that is neither ERP nor
CUBEMAP frees the array and returns `OMAF_ERROR_INVALID_PROJECTIONTYPE`;
otherwise the tile is entered into `tilesTrackIndex` and `m_trackSegCtx`. -/
def tileStep (streamIdx : Nat) (vs : MediaStream) (starter qualityLevel : Nat)
    (i : Nat) (ls : TileLoop) : Option (ErrorCode × TileLoop) :=
  let trackIdx := starter + i
  let seg1 : DefaultSegmentation :=
    { ls.seg with
      m_allTileTracks :=
        mapInsert trackIdx (tileTrackConfig vs.frameRate trackIdx) ls.seg.m_allTileTracks }
  match tileCtx ls.seg.m_segInfo streamIdx vs starter qualityLevel
      ((projectionOf ls.seg.m_projType).getD OmafProjectionType.EQUIRECTANGULAR) i with
  | none => none
  | some ctx =>
    match projectionOf ls.seg.m_projType with
    | none =>
      some (OMAF_ERROR_INVALID_PROJECTIONTYPE,
        { seg := seg1, trackSegCtxs := [], tilesTrackIndex := ls.tilesTrackIndex })
    | some _ =>
      some (ERROR_NONE,
        { seg := { seg1 with
                   m_trackSegCtx := mapInsert trackIdx (streamIdx, i) seg1.m_trackSegCtx }
          trackSegCtxs := ls.trackSegCtxs ++ [ctx]
          tilesTrackIndex := mapInsert i trackIdx ls.tilesTrackIndex })

/-- The tile loop over the indices still to be visited; it stops at the first
pass that returns a code. -/
def tileLoop (streamIdx : Nat) (vs : MediaStream) (starter qualityLevel : Nat) :
    List Nat → TileLoop → Option (ErrorCode × TileLoop)
  | [], ls => some (ERROR_NONE, ls)
  | i :: rest, ls =>
    match tileStep streamIdx vs starter qualityLevel i ls with
    | none => none
    | some (e, ls1) =>
      if e = ERROR_NONE then tileLoop streamIdx vs starter qualityLevel rest ls1
      else some (e, ls1)

/-- Body of the second loop of `ConstructTileTrackSegCtx` for one video stream
with map key `streamIdx` (lines 197 to 388). -/
def streamBody (ranking : List Nat) (streamIdx : Nat) (vs : MediaStream)
    (st : DefaultSegmentation) : Option (ErrorCode × DefaultSegmentation) :=
  let qualityLevel := qualityLevelOf ranking vs.bitRate
  let st1 : DefaultSegmentation :=
    { st with
      m_frameRate := vs.frameRate
      m_projType := vs.projType
      m_videoSegInfo := some vs.segDur }
  if naluMissing (GetVPSNalu vs) then some (OMAF_ERROR_INVALID_HEADER, st1)
  else if naluMissing (GetSPSNalu vs) then some (OMAF_ERROR_INVALID_SPS, st1)
  else if naluMissing (GetPPSNalu vs) then some (OMAF_ERROR_INVALID_PPS, st1)
  else if tilesNum vs = 0 then none
  else
    match tileLoop streamIdx vs st.m_trackIdStarter qualityLevel
        (List.range (tilesNum vs)) { seg := st1, trackSegCtxs := [], tilesTrackIndex := [] } with
    | none => none
    | some (e, ls) =>
      if e = ERROR_NONE then
        some (ERROR_NONE,
          { ls.seg with
            m_trackIdStarter := ls.seg.m_trackIdStarter + tilesNum vs
            m_streamSegCtx := mapInsert streamIdx ls.trackSegCtxs ls.seg.m_streamSegCtx
            m_framesIsKey := mapInsert streamIdx true ls.seg.m_framesIsKey
            m_streamsIsEOS := mapInsert streamIdx false ls.seg.m_streamsIsEOS
            m_tilesTrackIdxs := mapInsert streamIdx ls.tilesTrackIndex ls.seg.m_tilesTrackIdxs })
      else some (e, ls.seg)

/-- The second loop of `ConstructTileTrackSegCtx` over the stream map; streams
that are not video are passed over, the first code returned by a body ends
the function. -/
def streamLoop (ranking : List Nat) :
    List (Nat × MediaStream) → DefaultSegmentation → Option (ErrorCode × DefaultSegmentation)
  | [], st => some (ERROR_NONE, st)
  | (k, ms) :: rest, st =>
    if ms.mediaType = MediaType.VIDEOTYPE then
      match streamBody ranking k ms st with
      | none => none
      | some (e, st1) =>
        if e = ERROR_NONE then streamLoop ranking rest st1 else some (e, st1)
    else streamLoop ranking rest st

/-- Function `DefaultSegmentation::ConstructTileTrackSegCtx` on the stream map
`streams` (ascending in the stream index). -/
def ConstructTileTrackSegCtx (streams : List (Nat × MediaStream))
    (st : DefaultSegmentation) : Option (ErrorCode × DefaultSegmentation) :=
  streamLoop (bitRateRanking streams) streams st

/-! ## Extractor tracks -/

/-- A tile reference of a merge layout. -/
structure SingleTile where
  streamIdxInMedia : Nat
  origTileIdx : Nat
  deriving DecidableEq, Repr

/-- An extractor track as seen through its accessors (absent members are null
pointers). `tilesMergeDir` is the list `tilesArrangeInCol` of tile columns. -/
structure ExtractorTrack where
  vps : Option Nalu
  sps : Option Nalu
  pps : Option Nalu
  rwpk : Option RegionWisePacking
  covi : Option ContentCoverage
  picResList : Option (List PicResolution)
  projSEI : Option Nalu
  rwpkSEI : Option Nalu
  tilesMergeDir : Option (List (List SingleTile))
  extractors : Nat
  deriving DecidableEq, Repr

/-- Inner loop of the layout scan (lines 448 to 465) over the tiles of one
column: an unknown stream index ends the scan with
`OMAF_ERROR_STREAM_NOT_FOUND`; the tile index is looked up with the subscript
operator on a copy of the stream's index. -/
def scanTiles (K : Constants) (tilesTrackIdxs : List (Nat × List (Nat × Nat))) :
    List SingleTile → List Nat → ErrorCode × List Nat
  | [], refs => (ERROR_NONE, refs)
  | tile :: rest, refs =>
    let vsIdx := tile.streamIdxInMedia % 256
    let origTileIdx := tile.origTileIdx % 256
    match mapFind vsIdx tilesTrackIdxs with
    | none => (OMAF_ERROR_STREAM_NOT_FOUND, refs)
    | some tilesIndex =>
      scanTiles K tilesTrackIdxs rest
        (refs ++ [(mapIndex K.defaultTrackId origTileIdx tilesIndex).1])

/-- Outer loop of the layout scan (lines 443 to 466) over the columns. -/
def scanCols (K : Constants) (tilesTrackIdxs : List (Nat × List (Nat × Nat))) :
    List (List SingleTile) → List Nat → ErrorCode × List Nat
  | [], refs => (ERROR_NONE, refs)
  | col :: rest, refs =>
    match scanTiles K tilesTrackIdxs col refs with
    | (e, refs1) =>
      if e = ERROR_NONE then scanCols K tilesTrackIdxs rest refs1 else (e, refs1)

/-- The context of an extractor track after the layout scan (lines 468 to 554),
up to the projection branch, whose result is passed in. -/
def extractorCtx (K : Constants) (st : DefaultSegmentation) (extractorIdx : Nat)
    (et : ExtractorTrack) (vps sps pps : Nalu) (nalu : Nalu) (refs : List Nat)
    (projection : OmafProjectionType) : Option TrackSegmentCtx :=
  match et.rwpk, et.covi, st.m_videoSegInfo with
  | some rwpk, some covi, some segDur =>
    let trackIdx := K.DEFAULT_EXTRACTORTRACK_TRACKIDBASE + extractorIdx
    let allTrackIds := mapKeys st.m_allTileTracks
    let tracks0 : List (Nat × TrackConfig) :=
      st.m_allTileTracks.foldl (fun acc e => mapInsert e.1 e.2 acc) []
    let trackConfig : TrackConfig :=
      { meta :=
          { trackId := trackIdx
            timescale := ⟨st.m_frameRate.den, st.m_frameRate.num * 1000⟩
            type := SegMediaType.Video }
        trackReferences := [("scal", allTrackIds)]
        pipelineOutput := DataInputFormat.VideoMono }
    let sgtDuration : RatU64 := ⟨segDur, 1⟩
    let codedMeta : CodedMeta :=
      { presIndex := 0
        codingIndex := 0
        codingTime := ⟨0, 1⟩
        presTime := ⟨0, 1000⟩
        duration := ⟨st.m_frameRate.den * 1000, st.m_frameRate.num * 1000⟩
        trackId := trackIdx
        inCodingOrder := true
        format := CodedFormat.H265Extractor
        decoderConfig :=
          [(ConfigType.VPS, naluBytes (some vps)),
           (ConfigType.SPS, naluBytes (some sps)),
           (ConfigType.PPS, naluBytes (some pps))]
        width := rwpk.packedPicWidth
        height := rwpk.packedPicHeight
        bitrate := { avgBitrate := 0, maxBitrate := 0 }
        type := FrameType.IDR
        segmentDuration := ⟨0, 1⟩
        regionPacking := none
        sphericalCoverage := none
        qualityRankCoverage := none
        projection := projection
        isEOS := false }
    match ConvertRwpk (some rwpk) codedMeta with
    | none => none
    | some (_, codedMeta1) =>
      match covi.sphereRegions with
      | some [] => none
      | sphereRegions =>
        let codedMeta2 := (ConvertCovi (sphereRegions.bind List.head?) codedMeta1).2
        match FillQualityRank K.MAINSTREAM_QUALITY_RANK codedMeta2 et.picResList with
        | none => none
        | some (_, codedMeta3) =>
          some
            { isExtractorTrack := true
              tileInfo := none
              tileIdx := 0
              extractorTrackIdx := extractorIdx
              extractors := et.extractors
              extractorTrackNalu := nalu
              refTrackIdxs := refs
              trackIdx := trackIdx
              dashInitCfg :=
                { tracks := mapInsert trackIdx trackConfig tracks0
                  fragmented := true
                  writeToBitstream := true
                  packedSubPictures := true
                  mode := OperatingMode.OMAF
                  streamIds := trackIdx :: allTrackIds
                  initSegName := snprintf1024
                    (st.m_segInfo.dirName ++ st.m_segInfo.outName ++ "_track"
                      ++ toString trackIdx ++ ".init.mp4") }
              dashCfg :=
                { sgtDuration := sgtDuration
                  subsgtDuration := sgtDuration.div ⟨1, 1⟩
                  needCheckIDR := true
                  tracks := mapInsert trackIdx
                    { trackId := trackIdx
                      timescale := ⟨st.m_frameRate.den, st.m_frameRate.num * 1000⟩
                      type := SegMediaType.Video } []
                  useSeparatedSidx := false
                  streamsIdx := [trackIdx]
                  tileSegBaseName := snprintf1024
                    (st.m_segInfo.dirName ++ st.m_segInfo.outName ++ "_track"
                      ++ toString trackIdx) }
              initSegmenter := true
              dashSegmenter := true
              qualityRanking := 0
              codedMeta := codedMeta3 }
  | _, _, _ => none

/-- Body of the loop of `ConstructExtractorTrackSegCtx` for the extractor track
with map key `extractorIdx` (lines 401 to 575). -/
def extractorBody (K : Constants) (extractorIdx : Nat) (et : ExtractorTrack)
    (st : DefaultSegmentation) : Option (ErrorCode × DefaultSegmentation) :=
  match et.vps, et.sps, et.pps, et.projSEI, et.rwpkSEI, et.tilesMergeDir with
  | some vps, some sps, some pps, some projSEI, some rwpkSEI, some cols =>
    let nalu : Nalu :=
      { data := some (naluBytes (some projSEI) ++ naluBytes (some rwpkSEI))
        dataSize := projSEI.dataSize + rwpkSEI.dataSize }
    match scanCols K st.m_tilesTrackIdxs cols [] with
    | (e, refs) =>
      if e = ERROR_NONE then
        match extractorCtx K st extractorIdx et vps sps pps nalu refs
            ((projectionOf st.m_projType).getD OmafProjectionType.EQUIRECTANGULAR) with
        | none => none
        | some ctx =>
          match projectionOf st.m_projType with
          | none => some (OMAF_ERROR_INVALID_PROJECTIONTYPE, st)
          | some _ =>
            some (ERROR_NONE,
              { st with m_extractorSegCtx := mapInsert extractorIdx ctx st.m_extractorSegCtx })
      else some (e, st)
  | _, _, _, _, _, _ => none

/-- Function `DefaultSegmentation::ConstructExtractorTrackSegCtx` on the map
of extractor tracks (ascending in the extractor index). -/
def ConstructExtractorTrackSegCtx (K : Constants) :
    List (Nat × ExtractorTrack) → DefaultSegmentation →
      Option (ErrorCode × DefaultSegmentation)
  | [], st => some (ERROR_NONE, st)
  | (idx, et) :: rest, st =>
    match extractorBody K idx et st with
    | none => none
    | some (e, st1) =>
      if e = ERROR_NONE then ConstructExtractorTrackSegCtx K rest st1 else some (e, st1)

/-! ## First phase of `VideoSegmentation` -/

/-- A call into the segment writers. -/
inductive WriterCall where
  | GenerateInitSegment (trackId : Nat)
  | SegmentData (trackId : Nat)
  deriving DecidableEq, Repr

/-- Results of the collaborators called by the first phase: the code returned
by `MpdGenerator::Initialize` and the code returned by `GenerateInitSegment`
for a track id. -/
structure Collaborators where
  mpdInit : ErrorCode
  generateInitSegment : Nat → ErrorCode

/-- Result of a phase of `VideoSegmentation`: the returned code, the
segmentation object and the writer calls made so far, in order. -/
abbrev PhaseResult := Option (ErrorCode × DefaultSegmentation × List WriterCall)

/-- Init segments of the tile tracks of one stream (lines 919 to 929). -/
def initSegmentsOfStream (C : Collaborators) (trackSegCtxs : List TrackSegmentCtx) :
    List Nat → List WriterCall → Option (ErrorCode × List WriterCall)
  | [], calls => some (ERROR_NONE, calls)
  | tileIdx :: rest, calls =>
    match trackSegCtxs[tileIdx]? with
    | none => none
    | some ctx =>
      if ctx.initSegmenter = false then some (OMAF_ERROR_NULL_PTR, calls)
      else
        let calls1 := calls ++ [WriterCall.GenerateInitSegment ctx.trackIdx]
        let ret := C.generateInitSegment ctx.trackIdx
        if ret = ERROR_NONE then initSegmentsOfStream C trackSegCtxs rest calls1
        else some (ret, calls1)

/-- Init segments of all tile tracks (lines 910 to 931). -/
def initSegmentsOfStreams (C : Collaborators) (streams : List (Nat × MediaStream)) :
    List (Nat × List TrackSegmentCtx) → List WriterCall → Option (ErrorCode × List WriterCall)
  | [], calls => some (ERROR_NONE, calls)
  | (k, trackSegCtxs) :: rest, calls =>
    match mapFind k streams with
    | none => none
    | some vs =>
      if vs.mediaType = MediaType.VIDEOTYPE then
        match initSegmentsOfStream C trackSegCtxs (List.range (tilesNum vs)) calls with
        | none => none
        | some (e, calls1) =>
          if e = ERROR_NONE then initSegmentsOfStreams C streams rest calls1
          else some (e, calls1)
      else initSegmentsOfStreams C streams rest calls

/-- Init segments of the extractor tracks (lines 934 to 947). -/
def initSegmentsOfExtractors (C : Collaborators) :
    List (Nat × TrackSegmentCtx) → List WriterCall → ErrorCode × List WriterCall
  | [], calls => (ERROR_NONE, calls)
  | (_, ctx) :: rest, calls =>
    if ctx.initSegmenter = false then (OMAF_ERROR_NULL_PTR, calls)
    else
      let calls1 := calls ++ [WriterCall.GenerateInitSegment ctx.trackIdx]
      let ret := C.generateInitSegment ctx.trackIdx
      if ret = ERROR_NONE then initSegmentsOfExtractors C rest calls1
      else (ret, calls1)

/-- The computation of the worker sharding (lines 949 to 963);
`extractorTrackNum` is a 16-bit local. -/
def computeSharding (st : DefaultSegmentation) : Option DefaultSegmentation :=
  let extractorTrackNum := st.m_extractorSegCtx.length % 2 ^ 16
  let per := st.m_segInfo.extractorTracksPerSegThread
  if per = 0 then none
  else if extractorTrackNum % per = 0 then
    some { st with
           m_prevSegNum := st.m_segNum
           m_aveETPerSegThread := per
           m_lastETPerSegThread := per
           m_threadNumForET := extractorTrackNum / per }
  else
    some { st with
           m_prevSegNum := st.m_segNum
           m_aveETPerSegThread := per
           m_lastETPerSegThread := extractorTrackNum % per
           m_threadNumForET := extractorTrackNum / per + 1 }

/-- Function `DefaultSegmentation::VideoSegmentation`: the construction of the
contexts, the MPD generator, the init segments and the sharding (lines 885 to
967), followed by the frame loop `frameLoop` (lines 969 to 1192), which is
entered only when every earlier step returned `ERROR_NONE`. -/
def VideoSegmentation (K : Constants) (C : Collaborators)
    (frameLoop : DefaultSegmentation → List WriterCall → PhaseResult)
    (streams : List (Nat × MediaStream)) (extractorTracks : List (Nat × ExtractorTrack))
    (st : DefaultSegmentation) : PhaseResult :=
  match ConstructTileTrackSegCtx streams st with
  | none => none
  | some (ret, st1) =>
    if ret ≠ ERROR_NONE then some (ret, st1, [])
    else
      match ConstructExtractorTrackSegCtx K extractorTracks st1 with
      | none => none
      | some (ret2, st2) =>
        if ret2 ≠ ERROR_NONE then some (ret2, st2, [])
        else if C.mpdInit ≠ ERROR_NONE then some (C.mpdInit, st2, [])
        else
          match initSegmentsOfStreams C streams st2.m_streamSegCtx [] with
          | none => none
          | some (ret3, calls) =>
            if ret3 ≠ ERROR_NONE then some (ret3, st2, calls)
            else
              match initSegmentsOfExtractors C st2.m_extractorSegCtx calls with
              | (ret4, calls1) =>
                if ret4 ≠ ERROR_NONE then some (ret4, st2, calls1)
                else
                  match computeSharding st2 with
                  | none => none
                  | some st3 => frameLoop st3 calls1

/-! ## Conditions on the input and closed forms of the loops -/

/-- The three header checks of lines 214 to 224 pass. -/
def headersPresent (vs : MediaStream) : Bool :=
  !naluMissing (GetVPSNalu vs) && !naluMissing (GetSPSNalu vs) && !naluMissing (GetPPSNalu vs)

/-- The tile array and the region array of the source packing hold an entry
for every tile index below `tilesNum`. -/
def tilesAllocated (vs : MediaStream) : Bool :=
  decide (tilesNum vs ≤ vs.tilesInfo.length) &&
    match vs.srcRwpk with
    | some r => decide (tilesNum vs ≤ r.rectRegionPacking.length)
    | none => false

/-- A video stream on which the body of the stream loop runs to its end:
headers present, at least one tile, arrays allocated. The projection is left
open. -/
def streamReady (vs : MediaStream) : Bool :=
  headersPresent vs && decide (1 ≤ tilesNum vs) && tilesAllocated vs

/-- A video stream that is ready and reports ERP or CUBEMAP. -/
def streamWellFormed (vs : MediaStream) : Bool :=
  streamReady vs && (projectionOf vs.projType).isSome

/-- Every video stream of the map satisfies `p`. -/
def allVideo (p : MediaStream → Bool) (streams : List (Nat × MediaStream)) : Bool :=
  streams.all (fun e => e.2.mediaType != MediaType.VIDEOTYPE || p e.2)

/-- The keys of a stream map: strictly ascending. -/
def keysAscending {α : Type} (m : List (Nat × α)) : Prop :=
  (mapKeys m).Pairwise (fun a b => a < b)

/-- Number of tiles of all video streams of a map. -/
def totalTiles : List (Nat × MediaStream) → Nat
  | [] => 0
  | (_, ms) :: rest =>
    (if ms.mediaType = MediaType.VIDEOTYPE then tilesNum ms else 0) + totalTiles rest

/-- The contexts of the tiles of a stream, in tile order. -/
def tileCtxs (segInfo : SegmentationInfo) (streamIdx : Nat) (vs : MediaStream)
    (starter qualityLevel : Nat) (projection : OmafProjectionType) (tiles : List Nat) :
    List TrackSegmentCtx :=
  tiles.filterMap (tileCtx segInfo streamIdx vs starter qualityLevel projection)

/-- Closed form of the object after a tile loop in which no pass returned a code. -/
def tileLoopDone (streamIdx : Nat) (vs : MediaStream) (starter qualityLevel : Nat)
    (projection : OmafProjectionType) (tiles : List Nat) (ls : TileLoop) : TileLoop :=
  { seg :=
      { ls.seg with
        m_allTileTracks :=
          tiles.foldl (fun m i => mapInsert (starter + i)
            (tileTrackConfig vs.frameRate (starter + i)) m) ls.seg.m_allTileTracks
        m_trackSegCtx :=
          tiles.foldl (fun m i => mapInsert (starter + i) (streamIdx, i) m)
            ls.seg.m_trackSegCtx }
    trackSegCtxs :=
      ls.trackSegCtxs ++
        tileCtxs ls.seg.m_segInfo streamIdx vs starter qualityLevel projection tiles
    tilesTrackIndex :=
      tiles.foldl (fun m i => mapInsert i (starter + i) m) ls.tilesTrackIndex }

/-- Closed form of the object after the body of the stream loop ran to its end
for one video stream. -/
def streamDone (ranking : List Nat) (streamIdx : Nat) (vs : MediaStream)
    (projection : OmafProjectionType) (st : DefaultSegmentation) : DefaultSegmentation :=
  let tiles := List.range (tilesNum vs)
  let starter := st.m_trackIdStarter
  { st with
    m_frameRate := vs.frameRate
    m_projType := vs.projType
    m_videoSegInfo := some vs.segDur
    m_allTileTracks :=
      tiles.foldl (fun m i => mapInsert (starter + i)
        (tileTrackConfig vs.frameRate (starter + i)) m) st.m_allTileTracks
    m_trackSegCtx :=
      tiles.foldl (fun m i => mapInsert (starter + i) (streamIdx, i) m) st.m_trackSegCtx
    m_trackIdStarter := starter + tilesNum vs
    m_streamSegCtx :=
      mapInsert streamIdx
        (tileCtxs st.m_segInfo streamIdx vs starter (qualityLevelOf ranking vs.bitRate)
          projection tiles) st.m_streamSegCtx
    m_framesIsKey := mapInsert streamIdx true st.m_framesIsKey
    m_streamsIsEOS := mapInsert streamIdx false st.m_streamsIsEOS
    m_tilesTrackIdxs :=
      mapInsert streamIdx (tiles.foldl (fun m i => mapInsert i (starter + i) m) [])
        st.m_tilesTrackIdxs }

/-- Closed form of the object after the stream loop ran to its end. -/
def streamsDone (ranking : List Nat) :
    List (Nat × MediaStream) → DefaultSegmentation → DefaultSegmentation
  | [], st => st
  | (k, ms) :: rest, st =>
    if ms.mediaType = MediaType.VIDEOTYPE then
      streamsDone ranking rest
        (streamDone ranking k ms
          ((projectionOf ms.projType).getD OmafProjectionType.EQUIRECTANGULAR) st)
    else streamsDone ranking rest st

/-! ## The ranking in the words of the specification -/

/-- Bit rates of the video streams of a map, in map order. -/
def videoBitRates (streams : List (Nat × MediaStream)) : List Nat :=
  (streams.filter (fun e => e.2.mediaType == MediaType.VIDEOTYPE)).map (fun e => e.2.bitRate)

/-- Number of distinct bit rates in a list. -/
def distinctCount (bitRates : List Nat) : Nat := bitRates.dedup.length

/-- Position of a bit rate among the distinct bit rates in ascending order,
counted from 0: the number of distinct bit rates strictly below it. -/
def ascendingPosition (bitRates : List Nat) (b : Nat) : Nat :=
  ((bitRates.filter (fun x => decide (x < b))).dedup).length

/-- Dense rank counted from the top: one more than the number of distinct bit
rates strictly above. -/
def denseRankFromTop (bitRates : List Nat) (b : Nat) : Nat :=
  1 + ((bitRates.filter (fun x => decide (b < x))).dedup).length

/-! ## Sample inputs -/

/-- Tile `i` of a grid with `cols` columns whose tiles measure `w` by `h`. -/
def gridTile (cols w h i : Nat) : TileInfo :=
  { horizontalPos := (i % cols) * w, verticalPos := (i / cols) * h, tileWidth := w,
    tileHeight := h }

/-- The packing region of a tile at its own place, without guard bands. -/
def gridRegion (t : TileInfo) : RectangularRegionWisePacking :=
  { transformType := 0, guardBandFlag := false
    projRegWidth := t.tileWidth, projRegHeight := t.tileHeight
    projRegTop := t.verticalPos, projRegLeft := t.horizontalPos
    packedRegWidth := t.tileWidth, packedRegHeight := t.tileHeight
    packedRegTop := t.verticalPos, packedRegLeft := t.horizontalPos
    leftGbWidth := 0, rightGbWidth := 0, topGbHeight := 0, bottomGbHeight := 0
    gbNotUsedForPredFlag := true, gbType0 := 0, gbType1 := 0, gbType2 := 0, gbType3 := 0 }

/-- A header NAL unit of five bytes. -/
def sampleNalu : Nalu := { data := some [0, 0, 0, 1, 64], dataSize := 5 }

/-- An H265 video stream at 30 frames per second with a grid of `rows` by
`cols` tiles of 960 by 960 samples. -/
def sampleStream (bitRate rows cols projType : Nat) : MediaStream :=
  { mediaType := MediaType.VIDEOTYPE
    codecId := CODEC_ID_H265
    width := cols * 960
    height := rows * 960
    tileInRow := rows
    tileInCol := cols
    tilesInfo := (List.range (rows * cols)).map (gridTile cols 960 960)
    projType := projType
    frameRate := ⟨30, 1⟩
    bitRate := bitRate
    segDur := 1
    parserVPS := some sampleNalu
    parserSPS := some sampleNalu
    parserPPS := some sampleNalu
    srcRwpk := some
      { constituentPicMatching := 0
        numRegions := rows * cols
        projPicWidth := cols * 960
        projPicHeight := rows * 960
        packedPicWidth := cols * 960
        packedPicHeight := rows * 960
        rectRegionPacking :=
          (List.range (rows * cols)).map (fun i => gridRegion (gridTile cols 960 960 i)) } }

/-- Segmentation configuration of the samples. -/
def sampleSegInfo : SegmentationInfo :=
  { dirName := "out/", outName := "seg", isLive := false, windowSize := 0,
    extraWindowSize := 0, extractorTracksPerSegThread := 1 }

/-- Two ERP streams of 2 by 2 tiles at 10 and 5 Mbit/s. -/
def twoStreams : List (Nat × MediaStream) :=
  [(0, sampleStream 10000000 2 2 0), (1, sampleStream 5000000 2 2 0)]

/-- 256 ERP streams of one tile each; stream `i` has bit rate `i + 1`. -/
def manyStreams : List (Nat × MediaStream) :=
  (List.range 256).map (fun i => (i, sampleStream (i + 1) 1 1 0))

/-- One ERP stream of 2 by 2 tiles whose bit rate, 10, is no multiple of 4. -/
def oddStreams : List (Nat × MediaStream) := [(0, sampleStream 10 2 2 0)]

/-- Sum of the average bit rates stored in a list of contexts. -/
def sumAvgBitrate (ctxs : List TrackSegmentCtx) : Nat :=
  (ctxs.map (fun c => c.codedMeta.bitrate.avgBitrate)).sum

/-- A NAL unit handle that is not null, with data that is not null and a size
that is not zero. -/
def naluValid (n : Option Nalu) : Prop :=
  ∃ x d, n = some x ∧ x.data = some d ∧ x.dataSize ≠ 0

/-- The sample stream at 5 Mbit/s whose parser holds no SPS. -/
def streamWithoutSPS : MediaStream :=
  { sampleStream 5000000 2 2 0 with parserSPS := none }

/-- A well-formed stream followed by a stream without SPS. -/
def spsMissingStreams : List (Nat × MediaStream) :=
  [(0, sampleStream 10000000 2 2 0), (1, streamWithoutSPS)]

/-- A well-formed ERP stream followed by a stream that reports projection 2. -/
def badProjectionStreams : List (Nat × MediaStream) :=
  [(0, sampleStream 10000000 2 2 0), (1, sampleStream 5000000 2 2 2)]

/-- Sample constants: the main stream is ranked 1, the extractor track ids
start at 1000, a value-constructed track id is 0. -/
def sampleConstants : Constants :=
  { MAINSTREAM_QUALITY_RANK := 1, DEFAULT_EXTRACTORTRACK_TRACKIDBASE := 1000,
    defaultTrackId := 0 }

/-- Collaborators that never fail. -/
def sampleCollaborators : Collaborators :=
  { mpdInit := ERROR_NONE, generateInitSegment := fun _ => ERROR_NONE }

/-- The code returned by the header checks of lines 214 to 224 on a stream
that fails one of them. -/
def headerCode (vs : MediaStream) : ErrorCode :=
  if naluMissing (GetVPSNalu vs) then OMAF_ERROR_INVALID_HEADER
  else if naluMissing (GetSPSNalu vs) then OMAF_ERROR_INVALID_SPS
  else OMAF_ERROR_INVALID_PPS

/-- A sample extractor track with the given tile columns: a merged picture of
two tiles, one sphere region, one picture resolution. -/
def sampleExtractor (cols : List (List SingleTile)) : ExtractorTrack :=
  { vps := some sampleNalu
    sps := some sampleNalu
    pps := some sampleNalu
    rwpk := some
      { constituentPicMatching := 0
        numRegions := 2
        projPicWidth := 1920
        projPicHeight := 1920
        packedPicWidth := 1920
        packedPicHeight := 960
        rectRegionPacking :=
          [gridRegion (gridTile 2 960 960 0), gridRegion (gridTile 2 960 960 1)] }
    covi := some
      { coverageShapeType := 1
        numRegions := 1
        viewIdcPresenceFlag := false
        defaultViewIdc := 0
        sphereRegions := some
          [{ viewIdc := 0, centreAzimuth := 0, centreElevation := 0, centreTilt := 0,
             azimuthRange := 11796480, elevationRange := 5898240, interpolate := false }] }
    picResList := some [{ width := 1920, height := 1920 }]
    projSEI := some sampleNalu
    rwpkSEI := some sampleNalu
    tilesMergeDir := some cols
    extractors := 0 }

/-- An extractor layout whose only reference names tile 7 of stream 0, a
stream that has the tiles 0 to 3. -/
def unknownTileExtractors : List (Nat × ExtractorTrack) :=
  [(0, sampleExtractor [[{ streamIdxInMedia := 0, origTileIdx := 7 }]])]

/-- An extractor layout whose second reference names stream 5, which is not
in the stream map. -/
def unknownStreamExtractors : List (Nat × ExtractorTrack) :=
  [(0, sampleExtractor
    [[{ streamIdxInMedia := 0, origTileIdx := 1 }, { streamIdxInMedia := 5, origTileIdx := 0 }]])]

/-- The segmentation object after `ConstructTileTrackSegCtx` ran on the two
sample streams with the counter at 1. -/
def twoStreamsBuilt : DefaultSegmentation :=
  streamsDone (bitRateRanking twoStreams) twoStreams (DefaultSegmentation.fresh sampleSegInfo 1)

/-! ## Definitions for the extractor contexts and the frame loop -/

/-- A list of 257 picture resolutions. -/
def manyResolutions : List PicResolution :=
  (List.range 257).map (fun i => { width := 1920 + i, height := 960 })

/-- A coded metadata value with a spherical coverage set. -/
def sampleCodedMeta : CodedMeta :=
  { presIndex := 0, codingIndex := 0, codingTime := ⟨0, 1⟩, presTime := ⟨0, 1000⟩
    duration := ⟨1000, 30000⟩, trackId := 1000, inCodingOrder := true
    format := CodedFormat.H265Extractor, decoderConfig := [], width := 1920, height := 960
    bitrate := { avgBitrate := 0, maxBitrate := 0 }, type := FrameType.IDR
    segmentDuration := ⟨0, 1⟩, regionPacking := none
    sphericalCoverage := some
      { cAzimuth := 0, cElevation := 0, cTilt := 0, rAzimuth := 11796480,
        rElevation := 5898240 }
    qualityRankCoverage := none, projection := OmafProjectionType.EQUIRECTANGULAR
    isEOS := false }

/-- The track id entered into `refTrackIdxs` for one tile reference when its
stream index is known (lines 451 to 464). -/
def resolveTile (K : Constants) (tilesTrackIdxs : List (Nat × List (Nat × Nat)))
    (t : SingleTile) : Nat :=
  match mapFind (t.streamIdxInMedia % 256) tilesTrackIdxs with
  | some tilesIndex => (mapIndex K.defaultTrackId (t.origTileIdx % 256) tilesIndex).1
  | none => K.defaultTrackId

/-- Every tile reference of the layout names a stream index of the index. -/
def streamsKnown (tilesTrackIdxs : List (Nat × List (Nat × Nat)))
    (cols : List (List SingleTile)) : Bool :=
  cols.all (fun col => col.all (fun t =>
    (mapFind (t.streamIdxInMedia % 256) tilesTrackIdxs).isSome))

/-- The objects read after the layout scan are there: the packing with fewer
than 256 regions, all of them in its region array, the coverage with a sphere
region array that is not empty (or null, when no resolution needs a sphere),
and the segment information of a video stream. -/
def extractorAllocated (st : DefaultSegmentation) (et : ExtractorTrack) : Bool :=
  match et.rwpk, et.covi, st.m_videoSegInfo with
  | some rwpk, some covi, some _ =>
    decide (rwpk.numRegions < 256) &&
    decide (rwpk.numRegions ≤ rwpk.rectRegionPacking.length) &&
    (match covi.sphereRegions with
     | some [] => false
     | some (_ :: _) => true
     | none =>
       match et.picResList with
       | some (_ :: _) => false
       | _ => true)
  | _, _, _ => false

/-- An extractor track on which the body of the loop of
`ConstructExtractorTrackSegCtx` runs to its end and registers a context. -/
def extractorReady (st : DefaultSegmentation) (et : ExtractorTrack) : Bool :=
  et.vps.isSome && et.sps.isSome && et.pps.isSome && et.projSEI.isSome &&
    et.rwpkSEI.isSome &&
    (match et.tilesMergeDir with
     | some cols => streamsKnown st.m_tilesTrackIdxs cols
     | none => false) &&
    extractorAllocated st et && (projectionOf st.m_projType).isSome

/-- The `TrackConfig` built for an extractor track (lines 479 to 484): its
track references hold, under `scal`, the keys of `m_allTileTracks`. -/
def extractorTrackConfig (K : Constants) (st : DefaultSegmentation) (extractorIdx : Nat) :
    TrackConfig :=
  { meta :=
      { trackId := K.DEFAULT_EXTRACTORTRACK_TRACKIDBASE + extractorIdx
        timescale := ⟨st.m_frameRate.den, st.m_frameRate.num * 1000⟩
        type := SegMediaType.Video }
    trackReferences := [("scal", mapKeys st.m_allTileTracks)]
    pipelineOutput := DataInputFormat.VideoMono }

/-- The context that the body of the loop of `ConstructExtractorTrackSegCtx`
registers for an extractor track whose layout names known streams only. -/
def extractorCtxOf (K : Constants) (st : DefaultSegmentation) (extractorIdx : Nat)
    (et : ExtractorTrack) : Option TrackSegmentCtx :=
  match et.vps, et.sps, et.pps, et.projSEI, et.rwpkSEI, et.tilesMergeDir with
  | some vps, some sps, some pps, some projSEI, some rwpkSEI, some cols =>
    extractorCtx K st extractorIdx et vps sps pps
      { data := some (naluBytes (some projSEI) ++ naluBytes (some rwpkSEI))
        dataSize := projSEI.dataSize + rwpkSEI.dataSize }
      (cols.flatten.map (resolveTile K st.m_tilesTrackIdxs))
      ((projectionOf st.m_projType).getD OmafProjectionType.EQUIRECTANGULAR)
  | _, _, _, _, _, _ => none

/-- The contexts registered for a map of extractor tracks, with their keys. -/
def extractorPairs (K : Constants) (st : DefaultSegmentation)
    (ets : List (Nat × ExtractorTrack)) : List (Nat × TrackSegmentCtx) :=
  ets.filterMap (fun e => (extractorCtxOf K st e.1 e.2).map (fun c => (e.1, c)))

/-- Closed form of the object after `ConstructExtractorTrackSegCtx` ran to its
end: only the map of extractor contexts has grown. -/
def extractorsDone (K : Constants) (ets : List (Nat × ExtractorTrack))
    (st : DefaultSegmentation) : DefaultSegmentation :=
  { st with
    m_extractorSegCtx :=
      (extractorPairs K st ets).foldl (fun m p => mapInsert p.1 p.2 m) st.m_extractorSegCtx }

/-- Every extractor track of the map satisfies `extractorReady`. -/
def allExtractorsReady (st : DefaultSegmentation) (ets : List (Nat × ExtractorTrack)) : Bool :=
  ets.all (fun e => extractorReady st e.2)

/-- The track id that the index of tile tracks holds for the pair of a stream
index and a tile index, when both are keys. -/
def recordedTrackId (tilesTrackIdxs : List (Nat × List (Nat × Nat))) (t : SingleTile) :
    Option Nat :=
  (mapFind t.streamIdxInMedia tilesTrackIdxs).bind (fun tilesIndex =>
    mapFind t.origTileIdx tilesIndex)

/-- Every tile reference of the layout resolves: its stream index and its tile
index fit the 8-bit locals they are read into, and the index of tile tracks
holds an id for the pair. -/
def layoutResolves (tilesTrackIdxs : List (Nat × List (Nat × Nat)))
    (cols : List (List SingleTile)) : Bool :=
  cols.flatten.all (fun t =>
    decide (t.streamIdxInMedia < 256) && decide (t.origTileIdx < 256) &&
      (recordedTrackId tilesTrackIdxs t).isSome)

/-- Two extractor tracks over the two sample streams: the first merges two
columns of two tiles, the second one column of two tiles. -/
def layoutExtractors : List (Nat × ExtractorTrack) :=
  [(0, sampleExtractor
      [[{ streamIdxInMedia := 0, origTileIdx := 0 }, { streamIdxInMedia := 1, origTileIdx := 1 }],
       [{ streamIdxInMedia := 0, origTileIdx := 2 }, { streamIdxInMedia := 1, origTileIdx := 3 }]]),
   (1, sampleExtractor
      [[{ streamIdxInMedia := 1, origTileIdx := 0 }, { streamIdxInMedia := 0, origTileIdx := 1 }]])]

/-- The segmentation object after `ConstructTileTrackSegCtx` ran on the two
sample streams with the counter at 993: the eight tile tracks have the ids
993 to 1000. -/
def lateStarterBuilt : DefaultSegmentation :=
  streamsDone (bitRateRanking twoStreams) twoStreams (DefaultSegmentation.fresh sampleSegInfo 993)

/-- Segmentation settings with three extractor tracks per worker. -/
def shardSegInfo : SegmentationInfo :=
  { sampleSegInfo with extractorTracksPerSegThread := 3 }

/-- Seven extractor tracks over the two sample streams. -/
def sevenExtractors : List (Nat × ExtractorTrack) :=
  (List.range 7).map (fun i =>
    (i, sampleExtractor
      [[{ streamIdxInMedia := 0, origTileIdx := i % 4 },
        { streamIdxInMedia := 1, origTileIdx := i % 4 }]]))

/-- The segmentation object after both constructions ran on the two sample
streams and the seven extractor tracks, with three extractor tracks per
worker. -/
def sevenBuilt : DefaultSegmentation :=
  extractorsDone sampleConstants sevenExtractors
    (streamsDone (bitRateRanking twoStreams) twoStreams
      (DefaultSegmentation.fresh shardSegInfo 1))

/-! ## Frame writes -/

/-- Assignment `m[k] = v` through `std::map::operator[]`, also used for a
write through a pointer into the value of an existing key: the value of an
existing key is replaced, an absent key is inserted in key order. -/
def mapAssign {α : Type} (k : Nat) (v : α) : List (Nat × α) → List (Nat × α)
  | [] => [(k, v)]
  | (a, b) :: rest =>
    if k < a then (k, v) :: (a, b) :: rest
    else if k = a then (a, v) :: rest
    else (a, b) :: mapAssign k v rest

/-- The segment writers, as far as the frame loop sees them: the code that
`DashSegmenter::SegmentData` returns for a track id after the writer calls made
so far, the value of `GetSegmentsNum` of the writer of a track after the calls
made so far, and the member `extractorTrackNalu` that `SegmentData` leaves in
the context of an extractor track, which line 669 passes to it by a pointer
and whose data pointer the worker tests after every write (line 789); a writer
given without the third member leaves `extractorTrackNalu` as it is. -/
structure Writer where
  segmentData : List WriterCall → Nat → ErrorCode
  getSegmentsNum : List WriterCall → Nat → Nat
  naluAfter : List WriterCall → TrackSegmentCtx → Nalu := fun _ ctx => ctx.extractorTrackNalu

/-- Step of the presentation time in lines 632 and 675,
`1000 / (m_frameRate.num / m_frameRate.den)`: two unsigned integer divisions;
a zero divisor is undefined behaviour. -/
def presTimeStep (r : Rational) : Option Nat :=
  if r.den = 0 then none
  else if r.num / r.den = 0 then none
  else some (1000 / (r.num / r.den))

/-- Lines 619 to 624 and 658 to 663: the frame type and the EOS flag are
written into the coded metadata before the writer is called. -/
def markFrame (isKeyFrame isEOS : Bool) (ctx : TrackSegmentCtx) : TrackSegmentCtx :=
  { ctx with
    codedMeta :=
      { ctx.codedMeta with
        type := if isKeyFrame then FrameType.IDR else FrameType.NONIDR
        isEOS := isEOS } }

/-- Lines 630 to 633 and 673 to 676: the counters and the presentation time
advance after a successful `SegmentData`. -/
def advanceFrame (step : Nat) (ctx : TrackSegmentCtx) : TrackSegmentCtx :=
  { ctx with
    codedMeta :=
      { ctx.codedMeta with
        presIndex := ctx.codedMeta.presIndex + 1
        codingIndex := ctx.codedMeta.codingIndex + 1
        presTime := { num := ctx.codedMeta.presTime.num + step, den := 1000 } } }

/-- Tile loop of `WriteSegmentForEachVideo` (lines 613 to 636) with `n` tiles
left from index `tileIdx`; the result is the returned code, the context array,
`m_segNum` and the writer calls. Reading the array past its end is undefined
behaviour. -/
def writeTiles (W : Writer) (frameRate : Rational) (isKeyFrame isEOS : Bool) :
    Nat → Nat → List TrackSegmentCtx → Nat → List WriterCall →
      Option (ErrorCode × List TrackSegmentCtx × Nat × List WriterCall)
  | 0, _, ctxs, segNum, calls => some (ERROR_NONE, ctxs, segNum, calls)
  | n + 1, tileIdx, ctxs, segNum, calls =>
    match ctxs[tileIdx]? with
    | none => none
    | some ctx =>
      if ctx.dashSegmenter = false then some (OMAF_ERROR_NULL_PTR, ctxs, segNum, calls)
      else
        let ctx1 := markFrame isKeyFrame isEOS ctx
        let ret := W.segmentData calls ctx1.trackIdx
        let calls1 := calls ++ [WriterCall.SegmentData ctx1.trackIdx]
        if ret ≠ ERROR_NONE then some (ret, ctxs.set tileIdx ctx1, segNum, calls1)
        else
          match presTimeStep frameRate with
          | none => none
          | some step =>
            writeTiles W frameRate isKeyFrame isEOS n (tileIdx + 1)
              (ctxs.set tileIdx (advanceFrame step ctx1))
              (W.getSegmentsNum calls1 ctx1.trackIdx) calls1

/-- Function `DefaultSegmentation::WriteSegmentForEachVideo` (lines 598 to
639) for the stream `vs` stored under `streamIdx`; the stream pointer comes
from the stream map and is not null. -/
def WriteSegmentForEachVideo (W : Writer) (streamIdx : Nat) (vs : MediaStream)
    (isKeyFrame isEOS : Bool) (st : DefaultSegmentation) (calls : List WriterCall) :
    Option (ErrorCode × DefaultSegmentation × List WriterCall) :=
  match mapFind streamIdx st.m_streamSegCtx with
  | none => some (OMAF_ERROR_STREAM_NOT_FOUND, st, calls)
  | some trackSegCtxs =>
    match writeTiles W st.m_frameRate isKeyFrame isEOS (tilesNum vs) 0 trackSegCtxs
        st.m_segNum calls with
    | none => none
    | some (ret, ctxs, segNum, calls1) =>
      some (ret,
        { st with
          m_streamSegCtx := mapAssign streamIdx ctxs st.m_streamSegCtx
          m_segNum := segNum },
        calls1)

/-- Function `DefaultSegmentation::WriteSegmentForEachExtractorTrack` (lines
641 to 679) for the extractor track stored under `key`; the pointer to the
extractor track and the context stored for it are not null. -/
def WriteSegmentForEachExtractorTrack (W : Writer) (key : Nat) (isKeyFrame isEOS : Bool)
    (st : DefaultSegmentation) (calls : List WriterCall) :
    Option (ErrorCode × DefaultSegmentation × List WriterCall) :=
  match mapFind key st.m_extractorSegCtx with
  | none => some (OMAF_ERROR_EXTRACTORTRACK_NOT_FOUND, st, calls)
  | some ctx =>
    let ctx1 := markFrame isKeyFrame isEOS ctx
    let st1 := { st with m_extractorSegCtx := mapAssign key ctx1 st.m_extractorSegCtx }
    if ctx1.dashSegmenter = false then some (OMAF_ERROR_NULL_PTR, st1, calls)
    else
      let ret := W.segmentData calls ctx1.trackIdx
      let calls1 := calls ++ [WriterCall.SegmentData ctx1.trackIdx]
      let ctx2 := { ctx1 with extractorTrackNalu := W.naluAfter calls ctx1 }
      if ret ≠ ERROR_NONE then
        some (ret, { st with m_extractorSegCtx := mapAssign key ctx2 st.m_extractorSegCtx },
          calls1)
      else
        match presTimeStep st.m_frameRate with
        | none => none
        | some step =>
          some (ERROR_NONE,
            { st with
              m_extractorSegCtx :=
                mapAssign key (advanceFrame step ctx2) st.m_extractorSegCtx },
            calls1)

/-- A writer that accepts every frame and never closes a segment. -/
def sampleWriter : Writer :=
  { segmentData := fun _ _ => ERROR_NONE, getSegmentsNum := fun _ _ => 0 }

/-- One ERP stream of one tile at 30000/1001 frames per second. -/
def ntscStream : MediaStream :=
  { sampleStream 10000000 1 1 0 with frameRate := ⟨30000, 1001⟩ }

/-- The segmentation object after `ConstructTileTrackSegCtx` ran on the stream
`ntscStream` with the counter at 1. -/
def ntscBuilt : DefaultSegmentation :=
  streamsDone (bitRateRanking [(0, ntscStream)]) [(0, ntscStream)]
    (DefaultSegmentation.fresh sampleSegInfo 1)

/-! ## The frame loop -/

/-- Calls that the frame loop and the workers make into the other objects, in
the order in which they are made: the MPD generator, the video streams, the
extractor tracks, the thread library and the file system. The writer calls are
kept in their own list. -/
inductive Event where
  | UpdateMpd (segNum framesNum : Nat)
  | WriteMpd (framesNum : Nat)
  | UpdateTilesNalu (streamIdx : Nat)
  | SetFramesReady (key : Nat)
  | StartExtractorTrackSegmentation (anchor : Nat)
  | StartLastExtractorTrackSegmentation (anchor : Nat)
  | ConstructExtractors (key : Nat)
  | DestroyCurrSegNalus (key : Nat)
  | AddExtractorsNaluToSeg (key : Nat) (data : List Nat)
  | IncreaseProcessedFrmNum (key : Nat)
  | DestroyCurrSegmentFrames (streamIdx : Nat)
  | AddFrameToSegment (streamIdx : Nat)
  | Remove (trackId : Nat) (index : Int) (file : String)
  deriving DecidableEq, Repr

/-- Conversion of an integer to `int32_t`. -/
def toInt32 (x : Int) : Int := (x + 2 ^ 31) % 2 ^ 32 - 2 ^ 31

/-- The name rendered by the `snprintf` of lines 1155 and 1166 for a track id
and the index `removeCnt`. -/
def removedFile (segInfo : SegmentationInfo) (trackId : Nat) (removeCnt : Int) : String :=
  snprintf1024
    (segInfo.dirName ++ segInfo.outName ++ "_track" ++ toString trackId ++ "."
      ++ toString removeCnt ++ ".mp4")

/-- The live-window step of a tick (lines 1141 to 1171) for the segment count
`segNum`, the ids `tileIds` of the tile tracks and the ids `extractorIds` of
the extractor tracks: the calls of `remove` it makes. -/
def liveWindow (segInfo : SegmentationInfo) (segNum : Nat)
    (tileIds extractorIds : List Nat) : List Event :=
  if segInfo.isLive then
    if segInfo.windowSize ≠ 0 ∧ segInfo.extraWindowSize ≠ 0 then
      let removeCnt :=
        toInt32 ((segNum : Int) - (segInfo.windowSize : Int) - (segInfo.extraWindowSize : Int))
      if 0 < removeCnt then
        tileIds.map (fun id => Event.Remove id removeCnt (removedFile segInfo id removeCnt)) ++
          extractorIds.map (fun id =>
            Event.Remove id removeCnt (removedFile segInfo id removeCnt))
      else []
    else []
  else []

/-- The live-window step on the segmentation object. -/
def liveWindowOf (st : DefaultSegmentation) : List Event :=
  liveWindow st.m_segInfo st.m_segNum (mapKeys st.m_allTileTracks)
    (st.m_extractorSegCtx.map (fun e => e.2.trackIdx))

/-- The calls of `remove` made by the live-window steps of successive ticks
whose segment counts are `segNums`, the track registries being those built
before the loop. -/
def liveWindowRun (segInfo : SegmentationInfo) (segNums : List Nat)
    (tileIds extractorIds : List Nat) : List Event :=
  segNums.flatMap (fun segNum => liveWindow segInfo segNum tileIds extractorIds)

/-- Live settings with a window of three segments and one extra segment. -/
def liveSegInfo : SegmentationInfo :=
  { sampleSegInfo with isLive := true, windowSize := 3, extraWindowSize := 1 }

/-- Live settings with a window size of 0 and two extra segments. -/
def zeroWindowSegInfo : SegmentationInfo :=
  { sampleSegInfo with isLive := true, windowSize := 0, extraWindowSize := 2 }

/-- Live settings with a window of 2^31 - 1 segments and 2^31 - 1 extra
segments. -/
def wideWindowSegInfo : SegmentationInfo :=
  { sampleSegInfo with isLive := true, windowSize := 2147483647, extraWindowSize := 2147483647 }

/-- The track id and the index of each call of `remove` in a list of calls. -/
def removedIndices (events : List Event) : List (Nat × Int) :=
  events.filterMap (fun ev =>
    match ev with
    | Event.Remove trackId index _ => some (trackId, index)
    | _ => none)

/-- What the frame loop takes from its surroundings. `frames tick streamIdx` is
the outcome of the frame fetch of lines 986 to 996 for a stream in a tick: the
key-frame flag of the frame that arrives, or `none` when the stream reports
EOS without a frame. `createThread n` tells whether `pthread_create` succeeds
when `n` workers exist. `updateMpd` and `writeMpd` are the codes returned by
the MPD generator. -/
structure Env where
  frames : Nat → Nat → Option Bool
  createThread : Nat → Bool
  updateMpd : Nat → Nat → ErrorCode
  writeMpd : Nat → ErrorCode
  writer : Writer

/-- An entry of `m_extractorThreadIds`: the anchor extractor track of a worker,
whether it runs `LastExtractorTrackSegmentation`, and whether its routine has
not returned yet. -/
structure Worker where
  anchor : Nat
  isLast : Bool
  running : Bool
  deriving DecidableEq, Repr

/-- State of the frame loop: the segmentation object, its members
`m_nowKeyFrame`, `m_isEOS` and `m_extractorThreadIds` (in the order of
creation), the number of the tick, and the calls made so far. -/
structure LoopState where
  seg : DefaultSegmentation
  m_nowKeyFrame : Bool
  m_isEOS : Bool
  m_extractorThreadIds : List Worker
  tick : Nat
  calls : List WriterCall
  events : List Event

/-- Body of the stream loop of a tick for one video stream (lines 985 to
1012); the code returned by `WriteSegmentForEachVideo` is not read. -/
def fetchAndWrite (E : Env) (streamIdx : Nat) (vs : MediaStream) (ls : LoopState) :
    Option LoopState :=
  match E.frames ls.tick streamIdx with
  | some isKeyFrame =>
    let seg1 :=
      { ls.seg with
        m_framesIsKey := mapAssign streamIdx isKeyFrame ls.seg.m_framesIsKey
        m_streamsIsEOS := mapAssign streamIdx false ls.seg.m_streamsIsEOS }
    match WriteSegmentForEachVideo E.writer streamIdx vs isKeyFrame false seg1 ls.calls with
    | none => none
    | some (_, seg2, calls2) =>
      some { ls with
             seg := seg2
             calls := calls2
             events := ls.events ++ [Event.UpdateTilesNalu streamIdx] }
  | none =>
    let seg1 :=
      { ls.seg with
        m_framesIsKey := mapAssign streamIdx false ls.seg.m_framesIsKey
        m_streamsIsEOS := mapAssign streamIdx true ls.seg.m_streamsIsEOS }
    match WriteSegmentForEachVideo E.writer streamIdx vs false true seg1 ls.calls with
    | none => none
    | some (_, seg2, calls2) => some { ls with seg := seg2, calls := calls2 }

/-- Stream loop of a tick (lines 979 to 1014). -/
def streamPhase (E : Env) : List (Nat × MediaStream) → LoopState → Option LoopState
  | [], ls => some ls
  | (streamIdx, vs) :: rest, ls =>
    if vs.mediaType = MediaType.VIDEOTYPE then
      match fetchAndWrite E streamIdx vs ls with
      | none => none
      | some ls1 => streamPhase E rest ls1
    else streamPhase E rest ls

/-- The loops of lines 1021 to 1027 and 1035 to 1040: no later entry differs
from the first value. -/
def flagsAgree (first : Bool) : List (Nat × Bool) → Bool
  | [] => true
  | (_, flag) :: rest => if first ≠ flag then false else flagsAgree first rest

/-- Check of the key-frame flags (lines 1016 to 1027): the common flag, or the
code returned. -/
def checkKeyFrames : List (Nat × Bool) → Except ErrorCode Bool
  | [] => Except.error OMAF_ERROR_INVALID_DATA
  | (_, frameIsKey) :: rest =>
    if flagsAgree frameIsKey rest then Except.ok frameIsKey
    else Except.error OMAF_ERROR_INVALID_DATA

/-- Check of the EOS flags (lines 1030 to 1040): the common flag, or the code
returned. -/
def checkEOS : List (Nat × Bool) → Except ErrorCode Bool
  | [] => Except.error OMAF_ERROR_STREAM_NOT_FOUND
  | (_, nowEOS) :: rest =>
    if flagsAgree nowEOS rest then Except.ok nowEOS
    else Except.error OMAF_ERROR_INVALID_DATA

/-- The iterator increments of lines 1057 to 1060 and 1070 to 1073 with the
16-bit counter `num`: `ave` steps from the current position; stepping past the
end of the map is undefined behaviour, and so is the loop that the counter
cannot leave. -/
def advance (ave : Nat) (l : List (Nat × ExtractorTrack)) :
    Option (List (Nat × ExtractorTrack)) :=
  if ave ≤ l.length ∧ ave < 2 ^ 16 then some (l.drop ave) else none

/-- Publish and spawn loop of a tick (lines 1044 to 1092) from the position
`l` of the map of extractor tracks; `fuel` bounds the number of iterations. A
result `some code` in the first component is a code returned by
`VideoSegmentation`. -/
def publishLoop (E : Env) (ave last threadNum : Nat) :
    Nat → List (Nat × ExtractorTrack) → List Worker → List Event →
      Option (Option ErrorCode × List Worker × List Event)
  | _, [], threads, events => some (none, threads, events)
  | 0, _ :: _, _, _ => none
  | fuel + 1, (key, et) :: rest, threads, events =>
    let events1 := events ++ [Event.SetFramesReady key]
    if threads.length < threadNum then
      if ave = last ∨ threads.length % 2 ^ 16 < threadNum - 1 then
        if E.createThread threads.length = false then
          some (some OMAF_ERROR_CREATE_THREAD, threads, events1)
        else
          match advance ave ((key, et) :: rest) with
          | none => none
          | some l1 =>
            publishLoop E ave last threadNum fuel l1
              (threads ++ [{ anchor := key, isLast := false, running := true }])
              (events1 ++ [Event.StartExtractorTrackSegmentation key])
      else
        if E.createThread threads.length = false then
          some (some OMAF_ERROR_CREATE_THREAD, threads, events1)
        else
          publishLoop E ave last threadNum fuel []
            (threads ++ [{ anchor := key, isLast := true, running := true }])
            (events1 ++ [Event.StartLastExtractorTrackSegmentation key])
    else publishLoop E ave last threadNum fuel rest threads events1

/-- Lines 770 to 797 of a worker routine for the extractor track under `key`;
the code returned by `WriteSegmentForEachExtractorTrack` is not read. A result
`some code` in the first component is a code returned by the routine. -/
def processExtractor (W : Writer) (key : Nat) (ls : LoopState) :
    Option (Option ErrorCode × LoopState) :=
  let events1 := ls.events ++ [Event.ConstructExtractors key]
  match WriteSegmentForEachExtractorTrack W key ls.m_nowKeyFrame ls.m_isEOS ls.seg ls.calls with
  | none => none
  | some (_, seg1, calls1) =>
    match mapFind key seg1.m_extractorSegCtx with
    | none =>
      some (some OMAF_ERROR_INVALID_DATA,
        { ls with seg := seg1, calls := calls1, events := events1 })
    | some ctx =>
      let events2 :=
        if seg1.m_segNum = seg1.m_prevSegNum + 1 then
          events1 ++ [Event.DestroyCurrSegNalus key]
        else events1
      let events3 :=
        match ctx.extractorTrackNalu.data with
        | some data => events2 ++ [Event.AddExtractorsNaluToSeg key data]
        | none => events2
      let ctx1 := { ctx with extractorTrackNalu := { data := none, dataSize := 0 } }
      some (none,
        { ls with
          seg := { seg1 with m_extractorSegCtx := mapAssign key ctx1 seg1.m_extractorSegCtx }
          calls := calls1
          events := events3 ++ [Event.IncreaseProcessedFrmNum key] })

/-- The loop of lines 760 to 798 (and 836 to 874) with its 8-bit counter
`etId`, from the position `l` of the map of extractor tracks. -/
def workerLoop (W : Writer) (bound : Nat) :
    List (Nat × ExtractorTrack) → Nat → LoopState → Option (Option ErrorCode × LoopState)
  | [], etId, ls =>
    if etId < bound then some (some OMAF_ERROR_INVALID_DATA, ls) else some (none, ls)
  | (key, _) :: rest, etId, ls =>
    if etId < bound then
      match processExtractor W key ls with
      | none => none
      | some (some code, ls1) => some (some code, ls1)
      | some (none, ls1) => workerLoop W bound rest ((etId + 1) % 256) ls1
    else some (none, ls)

/-- One pass of the outer loop of `ExtractorTrackSegmentation` (lines 733 to
802) or `LastExtractorTrackSegmentation` (lines 809 to 878) for the worker
`w`, once the frames of its anchor are ready. A result `some code` in the
first component is the code returned by the routine; `none` means that the
routine goes on to its next pass. -/
def workerPass (W : Writer) (ets : List (Nat × ExtractorTrack)) (w : Worker)
    (ls : LoopState) : Option (Option ErrorCode × LoopState) :=
  match ets.dropWhile (fun e => e.1 != w.anchor) with
  | [] => some (some OMAF_ERROR_INVALID_DATA, ls)
  | e :: rest =>
    match workerLoop W
        (if w.isLast then ls.seg.m_lastETPerSegThread else ls.seg.m_aveETPerSegThread)
        (e :: rest) 0 ls with
    | none => none
    | some (some code, ls1) => some (some code, ls1)
    | some (none, ls1) =>
      if ls1.m_isEOS then some (some ERROR_NONE, ls1) else some (none, ls1)

/-- Modelled from the spec: the `framesReady` and `processedFrameNum` handshake
lets every worker whose routine has not returned make one pass in each tick,
after the publish loop; the passes are taken in the order in which the workers
were created. -/
def workersPhase (W : Writer) (ets : List (Nat × ExtractorTrack)) :
    List Worker → LoopState → Option (List Worker × LoopState)
  | [], ls => some ([], ls)
  | w :: rest, ls =>
    if w.running then
      match workerPass W ets w ls with
      | none => none
      | some (r, ls1) =>
        match workersPhase W ets rest ls1 with
        | none => none
        | some (ws, ls2) => some ({ w with running := r.isNone } :: ws, ls2)
    else
      match workersPhase W ets rest ls with
      | none => none
      | some (ws, ls2) => some (w :: ws, ls2)

/-- Modelled from the spec: `GetProcessedFrmNum` of an extractor track is the
number of calls of `IncreaseProcessedFrmNum` made on it. -/
def processedFrmNum (events : List Event) (key : Nat) : Nat :=
  events.count (Event.IncreaseProcessedFrmNum key)

/-- The wait of lines 1100 to 1112 ends: no extractor track has a processed
count equal to `m_framesNum`. -/
def waitEnds (ets : List (Nat × ExtractorTrack)) (ls : LoopState) : Bool :=
  ets.all (fun e => processedFrmNum ls.events e.1 != ls.seg.m_framesNum)

/-- Lines 1114 to 1128: the calls made on the video streams after the wait. -/
def closeFrames (closed : Bool) : List (Nat × MediaStream) → List Event
  | [] => []
  | (streamIdx, vs) :: rest =>
    if vs.mediaType = MediaType.VIDEOTYPE then
      (if closed then [Event.DestroyCurrSegmentFrames streamIdx] else []) ++
        Event.AddFrameToSegment streamIdx :: closeFrames closed rest
    else closeFrames closed rest

/-- Lines 1173 to 1189: the end of a tick. -/
def endOfTick (E : Env) (ls : LoopState) : Option ErrorCode × LoopState :=
  if ls.m_isEOS then
    if ls.seg.m_segInfo.isLive then
      let ret := E.updateMpd ls.seg.m_segNum ls.seg.m_framesNum
      (some ret,
        { ls with
          events := ls.events ++ [Event.UpdateMpd ls.seg.m_segNum ls.seg.m_framesNum] })
    else
      let ret := E.writeMpd ls.seg.m_framesNum
      (some ret, { ls with events := ls.events ++ [Event.WriteMpd ls.seg.m_framesNum] })
  else
    (none,
      { ls with
        seg := { ls.seg with m_framesNum := ls.seg.m_framesNum + 1 }
        tick := ls.tick + 1 })

/-- The two checks of lines 1016 to 1041, which set `m_nowKeyFrame` and
`m_isEOS`. A result `some code` in the first component is the code returned by
`VideoSegmentation`. -/
def flagChecks (ls1 : LoopState) : Option ErrorCode × LoopState :=
  match checkKeyFrames ls1.seg.m_framesIsKey with
  | Except.error code => (some code, ls1)
  | Except.ok frameIsKey =>
    let ls2 := { ls1 with m_nowKeyFrame := frameIsKey }
    match checkEOS ls2.seg.m_streamsIsEOS with
    | Except.error code => (some code, ls2)
    | Except.ok nowEOS => (none, { ls2 with m_isEOS := nowEOS })

/-- The MPD update of lines 971 to 977, made when the first segment is closed
in live mode. -/
def firstSegmentMpd (ls : LoopState) : LoopState :=
  if ls.seg.m_segNum = 1 ∧ ls.seg.m_segInfo.isLive = true then
    { ls with events := ls.events ++ [Event.UpdateMpd ls.seg.m_segNum ls.seg.m_framesNum] }
  else ls

/-- First part of a pass of the loop (lines 971 to 1041): the MPD update of
the first segment in live mode, the stream loop and the two checks. -/
def tickChecks (E : Env) (streams : List (Nat × MediaStream)) (ls : LoopState) :
    Option (Option ErrorCode × LoopState) :=
  match streamPhase E streams (firstSegmentMpd ls) with
  | none => none
  | some ls1 => some (flagChecks ls1)

/-- Second part of a pass of the loop (lines 1043 to 1189): the publish and
spawn loop, the passes of the workers, the wait, the calls on the streams, the
live window and the end of the tick. -/
def tickRest (E : Env) (streams : List (Nat × MediaStream))
    (ets : List (Nat × ExtractorTrack)) (ls3 : LoopState) :
    Option (Option ErrorCode × LoopState) :=
  match publishLoop E ls3.seg.m_aveETPerSegThread ls3.seg.m_lastETPerSegThread
      ls3.seg.m_threadNumForET (ets.length + ls3.seg.m_threadNumForET + 1) ets
      ls3.m_extractorThreadIds ls3.events with
  | none => none
  | some (some code, threads, events) =>
    some (some code, { ls3 with m_extractorThreadIds := threads, events := events })
  | some (none, threads, events) =>
    match workersPhase E.writer ets threads { ls3 with events := events } with
    | none => none
    | some (threads1, ls4) =>
      if waitEnds ets ls4 = false then none
      else
        let closed := decide (ls4.seg.m_segNum = ls4.seg.m_prevSegNum + 1)
        let seg5 :=
          if closed then { ls4.seg with m_prevSegNum := ls4.seg.m_prevSegNum + 1 }
          else ls4.seg
        let ls5 :=
          { ls4 with
            seg := seg5
            m_extractorThreadIds := threads1
            events := ls4.events ++ closeFrames closed streams ++ liveWindowOf seg5 }
        let r := endOfTick E ls5
        match r.1 with
        | some ret =>
          if ret ≠ ERROR_NONE then some (some ret, r.2) else some (some ERROR_NONE, r.2)
        | none => some (none, r.2)

/-- One pass of the loop of lines 969 to 1190. A result `some code` in the
first component is the code returned by `VideoSegmentation`; `none` means that
the loop goes on to its next pass. The result is `none` when the pass runs
into undefined behaviour or into a wait that does not end. -/
def frameTick (E : Env) (streams : List (Nat × MediaStream))
    (ets : List (Nat × ExtractorTrack)) (ls : LoopState) :
    Option (Option ErrorCode × LoopState) :=
  match tickChecks E streams ls with
  | none => none
  | some (some code, ls1) => some (some code, ls1)
  | some (none, ls3) => tickRest E streams ets ls3

/-- The loop of lines 969 to 1190 for at most `fuel` passes: the code returned
and the last state; `none` when a pass has no result or the passes allowed do
not reach a return. -/
def frameLoopFrom (E : Env) (streams : List (Nat × MediaStream))
    (ets : List (Nat × ExtractorTrack)) : Nat → LoopState → Option (ErrorCode × LoopState)
  | 0, _ => none
  | fuel + 1, ls =>
    match frameTick E streams ets ls with
    | none => none
    | some (some code, ls1) => some (code, ls1)
    | some (none, ls1) => frameLoopFrom E streams ets fuel ls1

/-- The state in which the frame loop is entered. -/
def LoopState.enter (st : DefaultSegmentation) (calls : List WriterCall) : LoopState :=
  { seg := st, m_nowKeyFrame := false, m_isEOS := false, m_extractorThreadIds := [],
    tick := 0, calls := calls, events := [] }

/-- The frame loop as the last phase of `VideoSegmentation`. -/
def frameLoop (E : Env) (fuel : Nat) (streams : List (Nat × MediaStream))
    (ets : List (Nat × ExtractorTrack)) (st : DefaultSegmentation)
    (calls : List WriterCall) : PhaseResult :=
  (frameLoopFrom E streams ets fuel (LoopState.enter st calls)).map
    (fun r => (r.1, r.2.seg, r.2.calls))

/-- A writer whose `SegmentData` fails with code 7 on the first frame write,
which is the ninth writer call after the eight init segments of the two sample
streams, and accepts every other call. -/
def faultyWriter : Writer :=
  { segmentData := fun calls _ => if calls.length = 8 then ErrorCode.OTHER 7 else ERROR_NONE
    getSegmentsNum := fun _ _ => 0 }

/-- Surroundings in which every stream delivers a key frame in tick 0 and
reports EOS in tick 1, threads start, the MPD generator succeeds and the
writer is `faultyWriter`. -/
def faultyEnv : Env :=
  { frames := fun tick _ => if tick = 0 then some true else none
    createThread := fun _ => true
    updateMpd := fun _ _ => ERROR_NONE
    writeMpd := fun _ => ERROR_NONE
    writer := faultyWriter }

/-- Key-frame flag that the stream loop records for the outcome of a frame
fetch (lines 1000 and 1008). -/
def keyFlag (frame : Option Bool) : Bool := frame.getD false

/-- The EOS flag that the stream loop records for the outcome of a frame fetch
(lines 1001 and 1009). -/
def eosFlag (frame : Option Bool) : Bool := frame.isNone

/-- Keys of the video streams of a stream map, in iteration order. -/
def videoKeys : List (Nat × MediaStream) → List Nat
  | [] => []
  | (streamIdx, vs) :: rest =>
    if vs.mediaType = MediaType.VIDEOTYPE then streamIdx :: videoKeys rest
    else videoKeys rest

/-- The flag map after the assignments `m[k] = flag k` for the keys `ks`, in
order. -/
def assignFlags (flag : Nat → Bool) (ks : List Nat) (m : List (Nat × Bool)) :
    List (Nat × Bool) :=
  ks.foldl (fun acc k => mapAssign k (flag k) acc) m

/-- The frame writes of a tick do not run into undefined behaviour: the frame
rate has `1 ≤ den ≤ num`, and the context array of every stream of the map
that has one holds every tile of the stream. -/
def framesWritable (st : DefaultSegmentation) (streams : List (Nat × MediaStream)) : Bool :=
  decide (1 ≤ st.m_frameRate.den) && decide (st.m_frameRate.den ≤ st.m_frameRate.num) &&
    streams.all (fun e =>
      match mapFind e.1 st.m_streamSegCtx with
      | some ctxs => decide (tilesNum e.2 ≤ ctxs.length)
      | none => true)

/-- The two flag maps are ordered maps whose keys are keys of video streams of
the stream map, as `ConstructTileTrackSegCtx` leaves them. -/
def flagsTracked (st : DefaultSegmentation) (streams : List (Nat × MediaStream)) : Bool :=
  decide ((mapKeys st.m_framesIsKey).Pairwise (fun a b => a < b)) &&
    (mapKeys st.m_framesIsKey).all (fun k => decide (k ∈ videoKeys streams)) &&
    decide ((mapKeys st.m_streamsIsEOS).Pairwise (fun a b => a < b)) &&
    (mapKeys st.m_streamsIsEOS).all (fun k => decide (k ∈ videoKeys streams))

/-- Surroundings in which stream 0 delivers a key frame and every other stream
a frame that is not a key frame, in every tick. -/
def mixedEnv : Env :=
  { frames := fun _ streamIdx => if streamIdx = 0 then some true else some false
    createThread := fun _ => true
    updateMpd := fun _ _ => ERROR_NONE
    writeMpd := fun _ => ERROR_NONE
    writer := sampleWriter }

/-- An H264 stream with the geometry and the parameter sets of the sample
stream of 2 by 2 tiles. -/
def h264Stream : MediaStream :=
  { sampleStream 5000000 2 2 0 with codecId := CODEC_ID_H264 }

/-- A well-formed H265 stream followed by an H264 stream. -/
def h264Streams : List (Nat × MediaStream) :=
  [(0, sampleStream 10000000 2 2 0), (1, h264Stream)]

/-- The two registries of tile tracks hold the same track ids. -/
def registriesAgree (st : DefaultSegmentation) : Prop :=
  ∀ x, x ∈ mapKeys st.m_allTileTracks ↔ x ∈ mapKeys st.m_trackSegCtx


/-- One access unit as `AddFrameInfo` reads and stores it: the members `data`
(the buffer behind the pointer, absent when null), `dataSize`, `pts` and
`isKeyFrame` of `FrameBSInfo`. -/
structure FrameBSInfo where
  data : Option (List Nat)
  dataSize : Nat
  pts : Nat
  isKeyFrame : Bool
  deriving DecidableEq, Repr

/-- The members of `VideoStream` that `FillRegionWisePacking`,
`FillContentCoverage`, `AddFrameInfo` and `SetCurrFrameInfo` read and write;
`m_tilesInfo`, `m_srcRwpk`, `m_srcCovi` and `m_currFrameInfo` are absent when
the pointer is null, `m_frameInfoList` is the list of pending frames from its
front to its back. -/
structure VideoStream where
  m_width : Nat
  m_height : Nat
  m_tileInRow : Nat
  m_tileInCol : Nat
  m_tilesInfo : Option (List TileInfo)
  m_projType : Nat
  m_srcRwpk : Option RegionWisePacking
  m_srcCovi : Option ContentCoverage
  m_frameInfoList : List FrameBSInfo
  m_currFrameInfo : Option FrameBSInfo
  deriving DecidableEq, Repr

/-- Library call `memcpy` of `n` bytes out of the buffer `src`; reading past the
end of the buffer is undefined behaviour. -/
def memcpy (src : List Nat) (n : Nat) : Option (List Nat) :=
  if n ≤ src.length then some (src.take n) else none

/-- Function `VideoStream::AddFrameInfo` (lines 340 to 371); `frameInfo` is
absent when the pointer is null. -/
def AddFrameInfo (frameInfo : Option FrameBSInfo) (vs : VideoStream) :
    Option (ErrorCode × VideoStream) :=
  match frameInfo with
  | none => some (OMAF_ERROR_NULL_PTR, vs)
  | some f =>
    match f.data with
    | none => some (OMAF_ERROR_NULL_PTR, vs)
    | some bytes =>
      if f.dataSize = 0 then some (OMAF_ERROR_DATA_SIZE, vs)
      else
        match memcpy bytes f.dataSize with
        | none => none
        | some localData =>
          some (ERROR_NONE,
            { vs with
              m_frameInfoList := vs.m_frameInfoList ++
                [{ data := some localData, dataSize := f.dataSize, pts := f.pts,
                   isKeyFrame := f.isKeyFrame }] })

/-- Function `VideoStream::SetCurrFrameInfo` (lines 373 to 380). -/
def SetCurrFrameInfo (vs : VideoStream) : VideoStream :=
  if 0 < vs.m_frameInfoList.length then
    { vs with
      m_currFrameInfo := vs.m_frameInfoList.head?
      m_frameInfoList := vs.m_frameInfoList.tail }
  else vs

/-- Function `VideoStream::GetCurrFrameInfo` (lines 400 to 403). -/
def GetCurrFrameInfo (vs : VideoStream) : Option FrameBSInfo := vs.m_currFrameInfo

/-- Successive calls of `AddFrameInfo`, one for each frame of the list, with
the codes they return. -/
def addFrames : List FrameBSInfo → VideoStream → Option (List ErrorCode × VideoStream)
  | [], vs => some ([], vs)
  | f :: rest, vs =>
    match AddFrameInfo (some f) vs with
    | none => none
    | some (e, vs1) => (addFrames rest vs1).map (fun r => (e :: r.1, r.2))

/-- A frame that `AddFrameInfo` accepts: a buffer of at least `dataSize` bytes
and a positive `dataSize`. -/
def validFrame (f : FrameBSInfo) : Bool :=
  match f.data with
  | none => false
  | some bytes => decide (0 < f.dataSize) && decide (f.dataSize ≤ bytes.length)

/-- Two frames with the same `dataSize`, `pts` and `isKeyFrame` whose buffers
hold the same `dataSize` bytes. -/
def sameFrame (f g : FrameBSInfo) : Prop :=
  f.data.map (List.take f.dataSize) = g.data.map (List.take g.dataSize) ∧
    f.dataSize = g.dataSize ∧ f.pts = g.pts ∧ f.isKeyFrame = g.isKeyFrame

/-- Every pending frame of the stream has a buffer and a positive size. -/
def pendingValid (vs : VideoStream) : Prop :=
  ∀ g ∈ vs.m_frameInfoList, g.data ≠ none ∧ 0 < g.dataSize

/-- A region as `memset` leaves it. -/
def zeroRegion : RectangularRegionWisePacking :=
  { transformType := 0, guardBandFlag := false
    projRegWidth := 0, projRegHeight := 0, projRegTop := 0, projRegLeft := 0
    packedRegWidth := 0, packedRegHeight := 0, packedRegTop := 0, packedRegLeft := 0
    leftGbWidth := 0, rightGbWidth := 0, topGbHeight := 0, bottomGbHeight := 0
    gbNotUsedForPredFlag := false, gbType0 := 0, gbType1 := 0, gbType2 := 0, gbType3 := 0 }

/-- Body of the region loop of `FillRegionWisePacking` (lines 186 to 210) for
the tile `tileInfo`. -/
def fillRegion (tileInfo : TileInfo) : RectangularRegionWisePacking :=
  { zeroRegion with
    transformType := 0
    guardBandFlag := false
    projRegWidth := tileInfo.tileWidth
    projRegHeight := tileInfo.tileHeight
    projRegLeft := tileInfo.horizontalPos
    projRegTop := tileInfo.verticalPos
    packedRegWidth := tileInfo.tileWidth
    packedRegHeight := tileInfo.tileHeight
    packedRegLeft := tileInfo.horizontalPos
    packedRegTop := tileInfo.verticalPos
    leftGbWidth := 0
    rightGbWidth := 0
    topGbHeight := 0
    bottomGbHeight := 0
    gbNotUsedForPredFlag := true
    gbType0 := 0
    gbType1 := 0
    gbType2 := 0
    gbType3 := 0 }

/-- The loop `for (uint8_t regionIdx = 0; regionIdx < numRegions; regionIdx++)`
of lines 184 and 242 from the counter value `regionIdx` on: each pass stores
`body regionIdx` into the element `regionIdx` of the array; the counter has 8
bits. A body that reads outside an array is undefined behaviour; the first
argument bounds the number of passes. -/
def fillLoop {β : Type} (numRegions : Nat) (body : Nat → Option β) :
    Nat → Nat → List β → Option (List β)
  | 0, _, _ => none
  | fuel + 1, regionIdx, arr =>
    if regionIdx < numRegions then
      match arr[regionIdx]?, body regionIdx with
      | some _, some b =>
        fillLoop numRegions body fuel ((regionIdx + 1) % 256) (arr.set regionIdx b)
      | _, _ => none
    else some arr

/-- Function `VideoStream::FillRegionWisePacking` (lines 165 to 214); the new
array is taken as zeroed, every element of it is written before it is read. -/
def FillRegionWisePacking (fuel : Nat) (vs : VideoStream) : Option (ErrorCode × VideoStream) :=
  match vs.m_srcRwpk with
  | none => some (OMAF_ERROR_NULL_PTR, vs)
  | some rwpk =>
    match vs.m_tilesInfo with
    | none => some (OMAF_ERROR_NULL_PTR, vs)
    | some tiles =>
      let numRegions := vs.m_tileInRow * vs.m_tileInCol
      match fillLoop numRegions (fun regionIdx => (tiles[regionIdx]?).map fillRegion) fuel 0
          (List.replicate numRegions zeroRegion) with
      | none => none
      | some regions =>
        some (ERROR_NONE,
          { vs with
            m_srcRwpk := some
              { rwpk with
                constituentPicMatching := 0
                numRegions := numRegions
                projPicWidth := vs.m_width
                projPicHeight := vs.m_height
                packedPicWidth := vs.m_width
                packedPicHeight := vs.m_height
                rectRegionPacking := regions } })

/-- The floating-point expressions of lines 249 to 253 with their conversions
to integers, as functions of the picture size and of the position and the size
of the region along the same axis. -/
structure CoverageArith where
  centreAzimuth : Nat → Nat → Nat → Int
  centreElevation : Nat → Nat → Nat → Int
  azimuthRange : Nat → Nat → Nat
  elevationRange : Nat → Nat → Nat

/-- A sphere region as `memset` leaves it. -/
def zeroSphere : SphereRegion :=
  { viewIdc := 0, centreAzimuth := 0, centreElevation := 0, centreTilt := 0
    azimuthRange := 0, elevationRange := 0, interpolate := false }

/-- Body of the region loop of `FillContentCoverage` (lines 244 to 254) for the
packing region `rectRwpk`. -/
def fillSphere (A : CoverageArith) (width height : Nat)
    (rectRwpk : RectangularRegionWisePacking) : SphereRegion :=
  { zeroSphere with
    viewIdc := 0
    centreAzimuth := A.centreAzimuth width rectRwpk.projRegLeft rectRwpk.projRegWidth
    centreElevation := A.centreElevation height rectRwpk.projRegTop rectRwpk.projRegHeight
    centreTilt := 0
    azimuthRange := A.azimuthRange width rectRwpk.projRegWidth
    elevationRange := A.elevationRange height rectRwpk.projRegHeight
    interpolate := false }

/-- Function `VideoStream::FillContentCoverage` (lines 216 to 258). -/
def FillContentCoverage (A : CoverageArith) (fuel : Nat) (vs : VideoStream) :
    Option (ErrorCode × VideoStream) :=
  match vs.m_srcCovi with
  | none => some (OMAF_ERROR_NULL_PTR, vs)
  | some covi =>
    match vs.m_srcRwpk with
    | none => some (OMAF_ERROR_NULL_PTR, vs)
    | some rwpk =>
      let numRegions := vs.m_tileInRow * vs.m_tileInCol
      match fillLoop numRegions
          (fun regionIdx =>
            (rwpk.rectRegionPacking[regionIdx]?).map (fillSphere A vs.m_width vs.m_height))
          fuel 0 (List.replicate numRegions zeroSphere) with
      | none => none
      | some spheres =>
        some (ERROR_NONE,
          { vs with
            m_srcCovi := some
              { covi with
                coverageShapeType := if vs.m_projType = 0 then 1 else 0
                numRegions := numRegions
                viewIdcPresenceFlag := false
                defaultViewIdc := 0
                sphereRegions := some spheres } })

/-- The expressions of `CoverageArith` computed over the integers. -/
def integerArith : CoverageArith :=
  { centreAzimuth := fun width left w =>
      ((((width / 2 : Nat) : Int) - ((left + w / 2 : Nat) : Int)) * 360 * 65536) / (width : Int)
    centreElevation := fun height top h =>
      ((((height / 2 : Nat) : Int) - ((top + h / 2 : Nat) : Int)) * 180 * 65536) / (height : Int)
    azimuthRange := fun width w => (w * 360 * 65536) / width
    elevationRange := fun height h => (h * 180 * 65536) / height }

/-- A stream of `rows` by `cols` tiles of 960 by 960 samples as `ParseHeader`
and `Initialize` leave it before the two fill functions: the packing and the
coverage objects are allocated and empty, no frame is pending. -/
def parsedStream (rows cols projType : Nat) : VideoStream :=
  { m_width := cols * 960
    m_height := rows * 960
    m_tileInRow := rows
    m_tileInCol := cols
    m_tilesInfo := some ((List.range (rows * cols)).map (gridTile cols 960 960))
    m_projType := projType
    m_srcRwpk := some
      { constituentPicMatching := 0, numRegions := 0, projPicWidth := 0, projPicHeight := 0
        packedPicWidth := 0, packedPicHeight := 0, rectRegionPacking := [] }
    m_srcCovi := some
      { coverageShapeType := 0, numRegions := 0, viewIdcPresenceFlag := false
        defaultViewIdc := 0, sphereRegions := none }
    m_frameInfoList := []
    m_currFrameInfo := none }

/-- Three access units: a key frame of three bytes in a buffer of four, and two
further frames. -/
def sampleFrames : List FrameBSInfo :=
  [{ data := some [0, 0, 1, 38], dataSize := 3, pts := 0, isKeyFrame := true },
   { data := some [0, 0, 1, 2, 9], dataSize := 5, pts := 1, isKeyFrame := false },
   { data := some [0, 0, 1, 2], dataSize := 4, pts := 2, isKeyFrame := false }]

/-- The parsed stream of 2 by 2 tiles after `FillRegionWisePacking`. -/
def packedStream : VideoStream :=
  { parsedStream 2 2 0 with
    m_srcRwpk := some
      { constituentPicMatching := 0, numRegions := 4, projPicWidth := 1920
        projPicHeight := 1920, packedPicWidth := 1920, packedPicHeight := 1920
        rectRegionPacking := (List.range 4).map (fun i => fillRegion (gridTile 2 960 960 i)) } }

/-- The parsed stream of 2 by 2 tiles after both fill functions, with the
coverage computed over the integers. -/
def coveredStream : VideoStream :=
  { packedStream with
    m_srcCovi := some
      { coverageShapeType := 1, numRegions := 4, viewIdcPresenceFlag := false
        defaultViewIdc := 0
        sphereRegions := some ((List.range 4).map (fun i =>
          fillSphere integerArith 1920 1920 (fillRegion (gridTile 2 960 960 i)))) } }

/-- One call of a write function: `WriteSegmentForEachVideo` for the stream
`vs` stored under `streamIdx`, or `WriteSegmentForEachExtractorTrack` for the
extractor track stored under `key`. -/
inductive WriteOp where
  | video (streamIdx : Nat) (vs : MediaStream) (isKeyFrame isEOS : Bool)
  | extractorTrack (key : Nat) (isKeyFrame isEOS : Bool)
  deriving DecidableEq, Repr

/-- The call `op` on the segmentation object `st`. -/
def writeOp (W : Writer) :
    WriteOp → DefaultSegmentation → List WriterCall →
      Option (ErrorCode × DefaultSegmentation × List WriterCall)
  | WriteOp.video streamIdx vs isKeyFrame isEOS, st, calls =>
    WriteSegmentForEachVideo W streamIdx vs isKeyFrame isEOS st calls
  | WriteOp.extractorTrack key isKeyFrame isEOS, st, calls =>
    WriteSegmentForEachExtractorTrack W key isKeyFrame isEOS st calls

/-- Successive calls of the write functions, up to the first one that returns a
code other than `ERROR_NONE`. -/
def writeRun (W : Writer) :
    List WriteOp → DefaultSegmentation → List WriterCall →
      Option (ErrorCode × DefaultSegmentation × List WriterCall)
  | [], st, calls => some (ERROR_NONE, st, calls)
  | op :: rest, st, calls =>
    match writeOp W op st calls with
    | none => none
    | some (e, st1, calls1) =>
      if e = ERROR_NONE then writeRun W rest st1 calls1 else some (e, st1, calls1)

/-- The flags `(isKeyFrame, isEOS)` of the calls for the stream `streamIdx`. -/
def videoWrites (streamIdx : Nat) : List WriteOp → List (Bool × Bool)
  | [] => []
  | WriteOp.video k _ isKeyFrame isEOS :: rest =>
    if k = streamIdx then (isKeyFrame, isEOS) :: videoWrites streamIdx rest
    else videoWrites streamIdx rest
  | WriteOp.extractorTrack _ _ _ :: rest => videoWrites streamIdx rest

/-- The flags `(isKeyFrame, isEOS)` of the calls for the extractor track `key`. -/
def extractorWrites (key : Nat) : List WriteOp → List (Bool × Bool)
  | [] => []
  | WriteOp.video _ _ _ _ :: rest => extractorWrites key rest
  | WriteOp.extractorTrack k isKeyFrame isEOS :: rest =>
    if k = key then (isKeyFrame, isEOS) :: extractorWrites key rest
    else extractorWrites key rest

/-- The coded metadata of a track after the frame writes with the flags
`flags`, in the words of the specification: both counters equal the number of
writes, the presentation time is that number of steps over 1000, and after at
least one write the type is IDR exactly when the last write was flagged as a
key frame and the EOS flag is the one of the last write. -/
def metaAfter (step : Nat) (flags : List (Bool × Bool)) (m : CodedMeta) : Prop :=
  m.presIndex = flags.length ∧ m.codingIndex = flags.length ∧
    m.presTime = ⟨flags.length * step, 1000⟩ ∧
    ∀ isKeyFrame isEOS, flags.getLast? = some (isKeyFrame, isEOS) →
      (m.type = FrameType.IDR ↔ isKeyFrame = true) ∧ m.isEOS = isEOS

/-- Three frame writes on the one-tile stream: a key frame, a frame, and a
frame with the EOS flag. -/
def ntscWrites : List WriteOp :=
  [WriteOp.video 0 ntscStream true false, WriteOp.video 0 ntscStream false false,
   WriteOp.video 0 ntscStream false true]

/-- The keys of the extractor tracks on which `SetFramesReady` was called, in
the order of the calls. -/
def readyKeys (events : List Event) : List Nat :=
  events.filterMap (fun ev =>
    match ev with
    | Event.SetFramesReady key => some key
    | _ => none)

/-- The event is a call on the MPD generator. -/
def isMpdCall : Event → Bool
  | Event.UpdateMpd _ _ => true
  | Event.WriteMpd _ => true
  | _ => false

/-- The calls made on the MPD generator, in the order of the calls. -/
def mpdCalls (events : List Event) : List Event := events.filter isMpdCall

/-- The event is a call that a worker routine makes on an extractor track. -/
def isWorkerCall : Event → Bool
  | Event.ConstructExtractors _ => true
  | Event.DestroyCurrSegNalus _ => true
  | Event.AddExtractorsNaluToSeg _ _ => true
  | Event.IncreaseProcessedFrmNum _ => true
  | _ => false

/-- The calls of `ConstructExtractors`, `AddExtractorsNaluToSeg` and
`IncreaseProcessedFrmNum` made on the extractor track `key`, in the order of
the calls. -/
def trackCalls (key : Nat) (events : List Event) : List Event :=
  events.filter (fun ev =>
    match ev with
    | Event.ConstructExtractors k => decide (k = key)
    | Event.AddExtractorsNaluToSeg k _ => decide (k = key)
    | Event.IncreaseProcessedFrmNum k => decide (k = key)
    | _ => false)

/-- The calls of a pass over the extractor track `key` for its frame `n` in the
words of the specification: `ConstructExtractors`, the hand-over of the prefix
when the frame is the first of a segment, and `IncreaseProcessedFrmNum`. -/
def passCalls (key : Nat) (starts : Nat → Bool) (pre : Nalu) (n : Nat) : List Event :=
  [Event.ConstructExtractors key] ++
    (if starts n then pre.data.toList.map (fun data => Event.AddExtractorsNaluToSeg key data)
      else []) ++
    [Event.IncreaseProcessedFrmNum key]

/-- The calls of the passes over the extractor track `key` for `count` frames
from frame `first`, in the words of the specification. -/
def segmentCalls (key : Nat) (starts : Nat → Bool) (pre : Nalu) (first count : Nat) :
    List Event :=
  (List.range' first count).flatMap (passCalls key starts pre)

/-- The context of an extractor track between two passes over the track: it
has a segment writer, and its `extractorTrackNalu` has null data and size 0,
or no frame has been written and it holds the prefix of the track, as
`ConstructExtractorTrackSegCtx` leaves it. -/
def betweenPasses (pre : Nat → Nalu) (c : TrackSegmentCtx) : Prop :=
  c.dashSegmenter = true ∧
    (c.extractorTrackNalu = { data := none, dataSize := 0 } ∨
      (c.codedMeta.presIndex = 0 ∧ c.extractorTrackNalu = pre c.trackIdx))

/-- What a stretch of the run does for the extractor track `key`, `m` and `m1`
being the context maps before and after it and `events` the calls it makes: a
context that was between two passes is between two passes again, its frame
count has not gone down, and the calls made on the track are those of the
passes for the frames written in the stretch. -/
def servedOver (starts : Nat → Nat → Bool) (pre : Nat → Nalu) (key : Nat)
    (m : List (Nat × TrackSegmentCtx)) (events : List Event)
    (m1 : List (Nat × TrackSegmentCtx)) : Prop :=
  ∀ c, mapFind key m = some c → betweenPasses pre c →
    ∃ c1, mapFind key m1 = some c1 ∧ betweenPasses pre c1 ∧ c1.trackIdx = c.trackIdx ∧
      c.codedMeta.presIndex ≤ c1.codedMeta.presIndex ∧
      trackCalls key events =
        segmentCalls key (starts c.trackIdx) (pre c.trackIdx) c.codedMeta.presIndex
          (c1.codedMeta.presIndex - c.codedMeta.presIndex)

/-- What a stretch of the run does for the extractor tracks: the calls made are
added to the calls made before, and every extractor track is in the relation
`servedOver` over the stretch. -/
def servedRun (starts : Nat → Nat → Bool) (pre : Nat → Nalu) (ls ls1 : LoopState) : Prop :=
  ∃ evs, ls1.events = ls.events ++ evs ∧
    ∀ key, servedOver starts pre key ls.seg.m_extractorSegCtx evs ls1.seg.m_extractorSegCtx

theorem mapFind_eq_none_iff {α : Type} (k : Nat) (m : List (Nat × α)) :
    mapFind k m = none ↔ k ∉ mapKeys m := by
  induction m with
  | nil => simp [mapFind, mapKeys]
  | cons e rest ih =>
    obtain ⟨a, b⟩ := e
    by_cases h : a = k
    · simp [mapFind, mapKeys, h]
    · have h2 : ¬ k = a := fun x => h x.symm
      simp only [mapFind, h, if_false, ih]
      simp [mapKeys, h2]

theorem mapFind_orderedInsert_ne {α : Type} (k k2 : Nat) (v : α) (m : List (Nat × α))
    (h : k2 ≠ k) : mapFind k2 (orderedInsert k v m) = mapFind k2 m := by
  induction m with
  | nil => simp [orderedInsert, mapFind, h.symm]
  | cons e rest ih =>
    obtain ⟨a, b⟩ := e
    by_cases hlt : k < a
    · simp [orderedInsert, hlt, mapFind, h.symm]
    · simp [orderedInsert, hlt, mapFind, ih]

theorem mapFind_orderedInsert_self {α : Type} (k : Nat) (v : α) (m : List (Nat × α))
    (h : mapFind k m = none) : mapFind k (orderedInsert k v m) = some v := by
  induction m with
  | nil => simp [orderedInsert, mapFind]
  | cons e rest ih =>
    obtain ⟨a, b⟩ := e
    by_cases hlt : k < a
    · simp [orderedInsert, hlt, mapFind]
    · by_cases hak : a = k
      · simp [mapFind, hak] at h
      · simp only [mapFind, hak, if_false] at h
        simp [orderedInsert, hlt, mapFind, hak, ih h]

theorem mapFind_mapInsert {α : Type} (k k2 : Nat) (v : α) (m : List (Nat × α)) :
    mapFind k2 (mapInsert k v m) =
      if k2 = k then some ((mapFind k m).getD v) else mapFind k2 m := by
  unfold mapInsert
  by_cases h : k2 = k
  · subst h
    cases hf : mapFind k2 m with
    | none => simp [mapFind_orderedInsert_self _ _ _ hf]
    | some w => simp [hf]
  · cases hf : mapFind k m with
    | none => simp [h, mapFind_orderedInsert_ne _ _ _ _ h]
    | some w => simp [h]

theorem mem_mapKeys_orderedInsert {α : Type} (k x : Nat) (v : α) (m : List (Nat × α)) :
    x ∈ mapKeys (orderedInsert k v m) ↔ x = k ∨ x ∈ mapKeys m := by
  induction m with
  | nil => simp [orderedInsert, mapKeys]
  | cons e rest ih =>
    obtain ⟨a, b⟩ := e
    by_cases hlt : k < a
    · simp [orderedInsert, hlt, mapKeys]
    · have ih2 : x ∈ List.map Prod.fst (orderedInsert k v rest) ↔
          x = k ∨ x ∈ List.map Prod.fst rest := ih
      simp only [orderedInsert, hlt, if_false, mapKeys, List.map_cons, List.mem_cons, ih2]
      tauto

theorem mem_mapKeys_mapInsert {α : Type} (k x : Nat) (v : α) (m : List (Nat × α)) :
    x ∈ mapKeys (mapInsert k v m) ↔ x = k ∨ x ∈ mapKeys m := by
  unfold mapInsert
  cases hf : mapFind k m with
  | none => simp [mem_mapKeys_orderedInsert]
  | some w =>
    have hk : k ∈ mapKeys m := by
      by_contra hc
      rw [(mapFind_eq_none_iff k m).2 hc] at hf
      cases hf
    simp only
    constructor
    · intro hx; exact Or.inr hx
    · rintro (rfl | hx)
      · exact hk
      · exact hx

theorem mapFind_mapInsert_of_some {α : Type} (k k2 : Nat) (v w : α) (m : List (Nat × α))
    (h : mapFind k2 m = some w) : mapFind k2 (mapInsert k v m) = some w := by
  rw [mapFind_mapInsert]
  by_cases hk : k2 = k
  · subst hk; simp [h]
  · simp [hk, h]

/-! ## Lemmas on the tile loop -/

theorem tilesAllocated_reads (vs : MediaStream) (h : tilesAllocated vs = true) (i : Nat)
    (hi : i < tilesNum vs) :
    ∃ ti rwpk rect, vs.tilesInfo[i]? = some ti ∧ vs.srcRwpk = some rwpk ∧
      rwpk.rectRegionPacking[i]? = some rect := by
  unfold tilesAllocated at h
  cases hr : vs.srcRwpk with
  | none => simp [hr] at h
  | some r =>
    simp only [hr, Bool.and_eq_true, decide_eq_true_eq] at h
    have h1 : i < vs.tilesInfo.length := lt_of_lt_of_le hi h.1
    have h2 : i < r.rectRegionPacking.length := lt_of_lt_of_le hi h.2
    exact ⟨vs.tilesInfo[i], r, r.rectRegionPacking[i], List.getElem?_eq_getElem h1, rfl,
      List.getElem?_eq_getElem h2⟩

theorem tileCtx_fields (segInfo : SegmentationInfo) (k : Nat) (vs : MediaStream)
    (starter q : Nat) (p : OmafProjectionType) (i : Nat) (ti : TileInfo)
    (rwpk : RegionWisePacking) (rect : RectangularRegionWisePacking)
    (h1 : vs.tilesInfo[i]? = some ti) (h2 : vs.srcRwpk = some rwpk)
    (h3 : rwpk.rectRegionPacking[i]? = some rect) :
    ∃ c, tileCtx segInfo k vs starter q p i = some c ∧
      c.qualityRanking = q ∧ c.trackIdx = starter + i ∧ c.tileIdx = i ∧
      c.isExtractorTrack = false ∧
      c.codedMeta.trackId = starter + i ∧
      c.codedMeta.bitrate.avgBitrate = vs.bitRate / tilesNum vs ∧
      c.codedMeta.width = ti.tileWidth ∧ c.codedMeta.height = ti.tileHeight ∧
      c.codedMeta.projection = p ∧
      c.codedMeta.regionPacking = some
        { constituentPictMatching := rwpk.constituentPicMatching
          projPictureWidth := rwpk.projPicWidth
          projPictureHeight := rwpk.projPicHeight
          packedPictureWidth := rwpk.packedPicWidth
          packedPictureHeight := rwpk.packedPicHeight
          regions := [convertRegion rect] } := by
  simp [tileCtx, h1, h2, h3, ConvertRwpk, convertRegions, List.range_succ]

theorem tileCtx_isSome (segInfo : SegmentationInfo) (k : Nat) (vs : MediaStream)
    (starter q : Nat) (p : OmafProjectionType) (h : tilesAllocated vs = true) (i : Nat)
    (hi : i < tilesNum vs) : ∃ c, tileCtx segInfo k vs starter q p i = some c := by
  obtain ⟨ti, rwpk, rect, h1, h2, h3⟩ := tilesAllocated_reads vs h i hi
  obtain ⟨c, hc, _⟩ := tileCtx_fields segInfo k vs starter q p i ti rwpk rect h1 h2 h3
  exact ⟨c, hc⟩

theorem tileLoop_ok (k : Nat) (vs : MediaStream) (starter q : Nat) (p : OmafProjectionType)
    (tiles : List Nat) :
    ∀ ls : TileLoop, projectionOf ls.seg.m_projType = some p →
      (∀ i ∈ tiles, ∃ c, tileCtx ls.seg.m_segInfo k vs starter q p i = some c) →
      tileLoop k vs starter q tiles ls =
        some (ERROR_NONE, tileLoopDone k vs starter q p tiles ls) := by
  induction tiles with
  | nil =>
    intro ls _ _
    simp [tileLoop, tileLoopDone, tileCtxs]
  | cons i rest ih =>
    intro ls hp hall
    obtain ⟨c, hc⟩ := hall i (List.mem_cons_self _ _)
    have hrest : ∀ j ∈ rest, ∃ c, tileCtx ls.seg.m_segInfo k vs starter q p j = some c :=
      fun j hj => hall j (List.mem_cons_of_mem _ hj)
    simp only [tileLoop, tileStep, hp, Option.getD_some, hc, if_true]
    refine Eq.trans (ih _ ?_ ?_) ?_
    · exact hp
    · exact hrest
    · simp [tileLoopDone, tileCtxs, List.filterMap_cons, hc]

theorem tileLoop_badProjection (k : Nat) (vs : MediaStream) (starter q : Nat) (i : Nat)
    (rest : List Nat) (ls : TileLoop) (hp : projectionOf ls.seg.m_projType = none)
    (c : TrackSegmentCtx)
    (hc : tileCtx ls.seg.m_segInfo k vs starter q OmafProjectionType.EQUIRECTANGULAR i = some c) :
    tileLoop k vs starter q (i :: rest) ls =
      some (OMAF_ERROR_INVALID_PROJECTIONTYPE,
        { seg :=
            { ls.seg with
              m_allTileTracks :=
                mapInsert (starter + i) (tileTrackConfig vs.frameRate (starter + i))
                  ls.seg.m_allTileTracks }
          trackSegCtxs := []
          tilesTrackIndex := ls.tilesTrackIndex }) := by
  simp [tileLoop, tileStep, hp, hc]

/-! ## Lemmas on the body of the stream loop -/

theorem streamReady_parts (vs : MediaStream) (h : streamReady vs = true) :
    naluMissing (GetVPSNalu vs) = false ∧ naluMissing (GetSPSNalu vs) = false ∧
      naluMissing (GetPPSNalu vs) = false ∧ 1 ≤ tilesNum vs ∧ tilesAllocated vs = true := by
  simp only [streamReady, headersPresent, Bool.and_eq_true, Bool.not_eq_true',
    decide_eq_true_eq] at h
  exact ⟨h.1.1.1.1, h.1.1.1.2, h.1.1.2, h.1.2, h.2⟩

theorem streamBody_ok (ranking : List Nat) (k : Nat) (vs : MediaStream)
    (p : OmafProjectionType) (st : DefaultSegmentation) (hr : streamReady vs = true)
    (hp : projectionOf vs.projType = some p) :
    streamBody ranking k vs st = some (ERROR_NONE, streamDone ranking k vs p st) := by
  obtain ⟨h1, h2, h3, h4, h5⟩ := streamReady_parts vs hr
  have h0 : tilesNum vs ≠ 0 := by omega
  have hloop := tileLoop_ok k vs st.m_trackIdStarter (qualityLevelOf ranking vs.bitRate) p
    (List.range (tilesNum vs))
    { seg := { st with m_frameRate := vs.frameRate, m_projType := vs.projType,
                       m_videoSegInfo := some vs.segDur }
      trackSegCtxs := [], tilesTrackIndex := [] } hp
    (fun i hi => tileCtx_isSome _ k vs _ _ p h5 i (List.mem_range.1 hi))
  simp only [streamBody, h1, h2, h3, h0, if_false, Bool.false_eq_true]
  rw [hloop]
  simp [tileLoopDone, streamDone]

theorem streamBody_badProjection (ranking : List Nat) (k : Nat) (vs : MediaStream)
    (st : DefaultSegmentation) (hr : streamReady vs = true)
    (hp : projectionOf vs.projType = none) :
    streamBody ranking k vs st =
      some (OMAF_ERROR_INVALID_PROJECTIONTYPE,
        { st with
          m_frameRate := vs.frameRate
          m_projType := vs.projType
          m_videoSegInfo := some vs.segDur
          m_allTileTracks :=
            mapInsert (st.m_trackIdStarter + 0)
              (tileTrackConfig vs.frameRate (st.m_trackIdStarter + 0)) st.m_allTileTracks }) := by
  obtain ⟨h1, h2, h3, h4, h5⟩ := streamReady_parts vs hr
  have h0 : tilesNum vs ≠ 0 := by omega
  obtain ⟨m, hm⟩ : ∃ m, tilesNum vs = m + 1 := ⟨tilesNum vs - 1, by omega⟩
  obtain ⟨c, hc⟩ := tileCtx_isSome st.m_segInfo k vs st.m_trackIdStarter
    (qualityLevelOf ranking vs.bitRate) OmafProjectionType.EQUIRECTANGULAR h5 0 (by omega)
  have hloop := tileLoop_badProjection k vs st.m_trackIdStarter
    (qualityLevelOf ranking vs.bitRate) 0 (List.map Nat.succ (List.range m))
    { seg := { st with m_frameRate := vs.frameRate, m_projType := vs.projType,
                       m_videoSegInfo := some vs.segDur }
      trackSegCtxs := [], tilesTrackIndex := [] } hp c hc
  simp only [streamBody, h1, h2, h3, h0, if_false, Bool.false_eq_true]
  rw [hm, List.range_succ_eq_map, hloop]
  simp

theorem streamBody_headers (ranking : List Nat) (k : Nat) (vs : MediaStream)
    (st : DefaultSegmentation) (hh : headersPresent vs = false) :
    streamBody ranking k vs st =
      some (if naluMissing (GetVPSNalu vs) then OMAF_ERROR_INVALID_HEADER
            else if naluMissing (GetSPSNalu vs) then OMAF_ERROR_INVALID_SPS
            else OMAF_ERROR_INVALID_PPS,
        { st with
          m_frameRate := vs.frameRate
          m_projType := vs.projType
          m_videoSegInfo := some vs.segDur }) := by
  unfold streamBody
  by_cases h1 : naluMissing (GetVPSNalu vs) = true
  · simp [h1]
  · by_cases h2 : naluMissing (GetSPSNalu vs) = true
    · simp [h1, h2]
    · by_cases h3 : naluMissing (GetPPSNalu vs) = true
      · simp [h1, h2, h3]
      · simp [headersPresent, h1, h2, h3] at hh

theorem streamBody_success_headers (ranking : List Nat) (k : Nat) (vs : MediaStream)
    (st st1 : DefaultSegmentation)
    (h : streamBody ranking k vs st = some (ERROR_NONE, st1)) :
    headersPresent vs = true := by
  by_contra hc
  have hh : headersPresent vs = false := by simpa using hc
  rw [streamBody_headers ranking k vs st hh] at h
  by_cases h1 : naluMissing (GetVPSNalu vs) = true
  · simp [h1] at h
  · by_cases h2 : naluMissing (GetSPSNalu vs) = true
    · simp [h1, h2] at h
    · simp [h1, h2] at h

/-! ## Lemmas on the stream loop -/

theorem allVideo_cons (p : MediaStream → Bool) (e : Nat × MediaStream)
    (rest : List (Nat × MediaStream)) :
    allVideo p (e :: rest) = true ↔
      (e.2.mediaType = MediaType.VIDEOTYPE → p e.2 = true) ∧ allVideo p rest = true := by
  simp only [allVideo, List.all_cons, Bool.and_eq_true, Bool.or_eq_true, bne_iff_ne, ne_eq]
  constructor
  · rintro ⟨h1, h2⟩
    exact ⟨fun hv => h1.resolve_left (fun hn => hn hv), h2⟩
  · rintro ⟨h1, h2⟩
    refine ⟨?_, h2⟩
    by_cases hv : e.2.mediaType = MediaType.VIDEOTYPE
    · exact Or.inr (h1 hv)
    · exact Or.inl hv

theorem allVideo_mem (p : MediaStream → Bool) (streams : List (Nat × MediaStream))
    (h : allVideo p streams = true) (e : Nat × MediaStream) (he : e ∈ streams)
    (hv : e.2.mediaType = MediaType.VIDEOTYPE) : p e.2 = true := by
  induction streams with
  | nil => cases he
  | cons a rest ih =>
    rw [allVideo_cons] at h
    rcases List.mem_cons.1 he with rfl | hm
    · exact h.1 hv
    · exact ih h.2 hm

theorem allVideo_append (p : MediaStream → Bool) (l1 l2 : List (Nat × MediaStream)) :
    allVideo p (l1 ++ l2) = true ↔ allVideo p l1 = true ∧ allVideo p l2 = true := by
  simp [allVideo, List.all_append]

theorem streamWellFormed_parts (vs : MediaStream) (h : streamWellFormed vs = true) :
    streamReady vs = true ∧ ∃ p, projectionOf vs.projType = some p := by
  simp only [streamWellFormed, Bool.and_eq_true, Option.isSome_iff_exists] at h
  exact h

theorem streamLoop_append (ranking : List Nat) (pre : List (Nat × MediaStream)) :
    ∀ (rest : List (Nat × MediaStream)) (st : DefaultSegmentation),
      allVideo streamWellFormed pre = true →
      streamLoop ranking (pre ++ rest) st =
        streamLoop ranking rest (streamsDone ranking pre st) := by
  induction pre with
  | nil => intro rest st _; simp [streamsDone]
  | cons e pre ih =>
    intro rest st h
    obtain ⟨k, ms⟩ := e
    rw [allVideo_cons] at h
    by_cases hv : ms.mediaType = MediaType.VIDEOTYPE
    · obtain ⟨hr, p, hp⟩ := streamWellFormed_parts ms (h.1 hv)
      simp only [List.cons_append, streamLoop, hv, if_true, streamsDone,
        streamBody_ok ranking k ms p st hr hp, hp, Option.getD_some]
      exact ih rest _ h.2
    · simp only [List.cons_append, streamLoop, hv, if_false, streamsDone]
      exact ih rest _ h.2

theorem streamLoop_ok (ranking : List Nat) (streams : List (Nat × MediaStream))
    (st : DefaultSegmentation) (h : allVideo streamWellFormed streams = true) :
    streamLoop ranking streams st = some (ERROR_NONE, streamsDone ranking streams st) := by
  have := streamLoop_append ranking streams [] st h
  simpa [streamLoop] using this

theorem streamLoop_success_headers (ranking : List Nat) (streams : List (Nat × MediaStream)) :
    ∀ (st st1 : DefaultSegmentation),
      streamLoop ranking streams st = some (ERROR_NONE, st1) →
      allVideo headersPresent streams = true := by
  induction streams with
  | nil => intro _ _ _; rfl
  | cons e rest ih =>
    intro st st1 h
    obtain ⟨k, ms⟩ := e
    rw [allVideo_cons]
    by_cases hv : ms.mediaType = MediaType.VIDEOTYPE
    · simp only [streamLoop, hv, if_true] at h
      cases hb : streamBody ranking k ms st with
      | none => simp [hb] at h
      | some r =>
        obtain ⟨e, st2⟩ := r
        simp only [hb] at h
        by_cases he : e = ERROR_NONE
        · subst he
          simp only [if_true] at h
          exact ⟨fun _ => streamBody_success_headers ranking k ms st st2 hb, ih _ _ h⟩
        · rw [if_neg he] at h
          injection h with h
          injection h with h1 h2
          exact absurd h1 he
    · simp only [streamLoop, hv, if_false] at h
      exact ⟨fun hv2 => absurd hv2 hv, ih _ _ h⟩

/-! ## Lemmas on the closed forms -/

theorem mem_mapKeys_foldl_insert {α : Type} (a : Nat) (f : Nat → α) (x : Nat)
    (tiles : List Nat) :
    ∀ m0 : List (Nat × α),
      x ∈ mapKeys (tiles.foldl (fun m i => mapInsert (a + i) (f i) m) m0) ↔
        x ∈ mapKeys m0 ∨ ∃ i ∈ tiles, x = a + i := by
  induction tiles with
  | nil => intro m0; simp
  | cons j rest ih =>
    intro m0
    simp only [List.foldl_cons, ih, mem_mapKeys_mapInsert, List.mem_cons, exists_eq_or_imp]
    tauto

theorem mem_mapKeys_foldl_range {α : Type} (a : Nat) (f : Nat → α) (x n : Nat)
    (m0 : List (Nat × α)) :
    x ∈ mapKeys ((List.range n).foldl (fun m i => mapInsert (a + i) (f i) m) m0) ↔
      x ∈ mapKeys m0 ∨ (a ≤ x ∧ x < a + n) := by
  rw [mem_mapKeys_foldl_insert]
  constructor
  · rintro (h | ⟨i, hi, rfl⟩)
    · exact Or.inl h
    · exact Or.inr ⟨by omega, by have := List.mem_range.1 hi; omega⟩
  · rintro (h | ⟨h1, h2⟩)
    · exact Or.inl h
    · exact Or.inr ⟨x - a, List.mem_range.2 (by omega), by omega⟩

theorem mapFind_foldl_index (a : Nat) (tiles : List Nat) :
    ∀ (m0 : List (Nat × Nat)) (i : Nat),
      mapFind i (tiles.foldl (fun m j => mapInsert j (a + j) m) m0) =
        match mapFind i m0 with
        | some v => some v
        | none => if i ∈ tiles then some (a + i) else none := by
  induction tiles with
  | nil => intro m0 i; cases h : mapFind i m0 <;> simp [h]
  | cons j rest ih =>
    intro m0 i
    simp only [List.foldl_cons, ih, mapFind_mapInsert]
    by_cases hij : i = j
    · subst hij
      cases h : mapFind i m0 <;> simp [h]
    · cases h : mapFind i m0 <;> simp [h, hij]

theorem mapFind_tilesTrackIndex (a n i : Nat) :
    mapFind i ((List.range n).foldl (fun m j => mapInsert j (a + j) m) []) =
      if i < n then some (a + i) else none := by
  rw [mapFind_foldl_index]
  simp [mapFind, List.mem_range]

theorem streamDone_streamSegCtx (ranking : List Nat) (k : Nat) (vs : MediaStream)
    (p : OmafProjectionType) (st : DefaultSegmentation) :
    (streamDone ranking k vs p st).m_streamSegCtx =
      mapInsert k
        (tileCtxs st.m_segInfo k vs st.m_trackIdStarter (qualityLevelOf ranking vs.bitRate)
          p (List.range (tilesNum vs))) st.m_streamSegCtx := rfl

theorem streamDone_tilesTrackIdxs (ranking : List Nat) (k : Nat) (vs : MediaStream)
    (p : OmafProjectionType) (st : DefaultSegmentation) :
    (streamDone ranking k vs p st).m_tilesTrackIdxs =
      mapInsert k
        ((List.range (tilesNum vs)).foldl
          (fun m i => mapInsert i (st.m_trackIdStarter + i) m) [])
        st.m_tilesTrackIdxs := rfl

theorem streamDone_trackSegCtx (ranking : List Nat) (k : Nat) (vs : MediaStream)
    (p : OmafProjectionType) (st : DefaultSegmentation) :
    (streamDone ranking k vs p st).m_trackSegCtx =
      (List.range (tilesNum vs)).foldl
        (fun m i => mapInsert (st.m_trackIdStarter + i) (k, i) m) st.m_trackSegCtx := rfl

theorem streamDone_allTileTracks (ranking : List Nat) (k : Nat) (vs : MediaStream)
    (p : OmafProjectionType) (st : DefaultSegmentation) :
    (streamDone ranking k vs p st).m_allTileTracks =
      (List.range (tilesNum vs)).foldl
        (fun m i => mapInsert (st.m_trackIdStarter + i)
          (tileTrackConfig vs.frameRate (st.m_trackIdStarter + i)) m)
        st.m_allTileTracks := rfl

theorem streamDone_starter (ranking : List Nat) (k : Nat) (vs : MediaStream)
    (p : OmafProjectionType) (st : DefaultSegmentation) :
    (streamDone ranking k vs p st).m_trackIdStarter = st.m_trackIdStarter + tilesNum vs ∧
      (streamDone ranking k vs p st).m_segInfo = st.m_segInfo ∧
      (streamDone ranking k vs p st).m_extractorSegCtx = st.m_extractorSegCtx :=
  ⟨rfl, rfl, rfl⟩

theorem streamsDone_append (ranking : List Nat) (pre : List (Nat × MediaStream)) :
    ∀ (post : List (Nat × MediaStream)) (st : DefaultSegmentation),
      streamsDone ranking (pre ++ post) st =
        streamsDone ranking post (streamsDone ranking pre st) := by
  induction pre with
  | nil => intro post st; rfl
  | cons e pre ih =>
    intro post st
    obtain ⟨k, ms⟩ := e
    by_cases hv : ms.mediaType = MediaType.VIDEOTYPE
    · simp only [List.cons_append, streamsDone, hv, if_true]
      exact ih post _
    · simp only [List.cons_append, streamsDone, hv, if_false]
      exact ih post _

theorem streamsDone_starter (ranking : List Nat) (streams : List (Nat × MediaStream)) :
    ∀ st : DefaultSegmentation,
      (streamsDone ranking streams st).m_trackIdStarter =
        st.m_trackIdStarter + totalTiles streams ∧
      (streamsDone ranking streams st).m_segInfo = st.m_segInfo ∧
      (streamsDone ranking streams st).m_extractorSegCtx = st.m_extractorSegCtx := by
  induction streams with
  | nil => intro st; simp [streamsDone, totalTiles]
  | cons e rest ih =>
    intro st
    obtain ⟨k, ms⟩ := e
    by_cases hv : ms.mediaType = MediaType.VIDEOTYPE
    · simp only [streamsDone, totalTiles, hv, if_true]
      obtain ⟨h1, h2, h3⟩ := ih (streamDone ranking k ms
        ((projectionOf ms.projType).getD OmafProjectionType.EQUIRECTANGULAR) st)
      obtain ⟨g1, g2, g3⟩ := streamDone_starter ranking k ms
        ((projectionOf ms.projType).getD OmafProjectionType.EQUIRECTANGULAR) st
      refine ⟨?_, ?_, ?_⟩
      · rw [h1, g1]; omega
      · rw [h2, g2]
      · rw [h3, g3]
    · simp only [streamsDone, totalTiles, hv, if_false]
      obtain ⟨h1, h2, h3⟩ := ih st
      exact ⟨by rw [h1]; omega, h2, h3⟩

theorem streamsDone_find_mono (ranking : List Nat) (streams : List (Nat × MediaStream)) :
    ∀ (st : DefaultSegmentation) (k : Nat),
      (∀ v, mapFind k st.m_streamSegCtx = some v →
        mapFind k (streamsDone ranking streams st).m_streamSegCtx = some v) ∧
      (∀ v, mapFind k st.m_tilesTrackIdxs = some v →
        mapFind k (streamsDone ranking streams st).m_tilesTrackIdxs = some v) := by
  induction streams with
  | nil => intro st k; exact ⟨fun v h => h, fun v h => h⟩
  | cons e rest ih =>
    intro st k
    obtain ⟨j, ms⟩ := e
    by_cases hv : ms.mediaType = MediaType.VIDEOTYPE
    · simp only [streamsDone, hv, if_true]
      refine ⟨fun v h => (ih _ k).1 v ?_, fun v h => (ih _ k).2 v ?_⟩
      · rw [streamDone_streamSegCtx]
        exact mapFind_mapInsert_of_some _ _ _ _ _ h
      · rw [streamDone_tilesTrackIdxs]
        exact mapFind_mapInsert_of_some _ _ _ _ _ h
    · simp only [streamsDone, hv, if_false]
      exact ih st k

/-- Keys of the video streams of a stream map. -/
theorem streamsDone_keys (ranking : List Nat) (streams : List (Nat × MediaStream)) :
    ∀ (st : DefaultSegmentation) (x : Nat),
      (x ∈ mapKeys (streamsDone ranking streams st).m_streamSegCtx ↔
        x ∈ mapKeys st.m_streamSegCtx ∨
          ∃ e ∈ streams, e.2.mediaType = MediaType.VIDEOTYPE ∧ e.1 = x) ∧
      (x ∈ mapKeys (streamsDone ranking streams st).m_tilesTrackIdxs ↔
        x ∈ mapKeys st.m_tilesTrackIdxs ∨
          ∃ e ∈ streams, e.2.mediaType = MediaType.VIDEOTYPE ∧ e.1 = x) := by
  induction streams with
  | nil => intro st x; simp [streamsDone]
  | cons e rest ih =>
    intro st x
    obtain ⟨j, ms⟩ := e
    by_cases hv : ms.mediaType = MediaType.VIDEOTYPE
    · simp only [streamsDone, hv, if_true]
      obtain ⟨h1, h2⟩ := ih (streamDone ranking j ms
        ((projectionOf ms.projType).getD OmafProjectionType.EQUIRECTANGULAR) st) x
      rw [h1, h2, streamDone_streamSegCtx, streamDone_tilesTrackIdxs]
      simp only [mem_mapKeys_mapInsert, List.mem_cons, exists_eq_or_imp, hv, true_and]
      have hc : j = x ↔ x = j := eq_comm
      rw [hc]
      generalize (x ∈ mapKeys st.m_streamSegCtx) = A
      generalize (x ∈ mapKeys st.m_tilesTrackIdxs) = B
      generalize (∃ a ∈ rest, a.2.mediaType = MediaType.VIDEOTYPE ∧ a.1 = x) = D
      constructor <;> tauto
    · simp only [streamsDone, hv, if_false]
      obtain ⟨h1, h2⟩ := ih st x
      rw [h1, h2]
      simp [hv]

theorem streamsDone_trackKeys (ranking : List Nat) (streams : List (Nat × MediaStream)) :
    ∀ (st : DefaultSegmentation) (x : Nat),
      (x ∈ mapKeys (streamsDone ranking streams st).m_trackSegCtx ↔
        x ∈ mapKeys st.m_trackSegCtx ∨
          (st.m_trackIdStarter ≤ x ∧ x < st.m_trackIdStarter + totalTiles streams)) ∧
      (x ∈ mapKeys (streamsDone ranking streams st).m_allTileTracks ↔
        x ∈ mapKeys st.m_allTileTracks ∨
          (st.m_trackIdStarter ≤ x ∧ x < st.m_trackIdStarter + totalTiles streams)) := by
  induction streams with
  | nil => intro st x; simp [streamsDone, totalTiles]
  | cons e rest ih =>
    intro st x
    obtain ⟨j, ms⟩ := e
    by_cases hv : ms.mediaType = MediaType.VIDEOTYPE
    · simp only [streamsDone, totalTiles, hv, if_true]
      obtain ⟨h1, h2⟩ := ih (streamDone ranking j ms
        ((projectionOf ms.projType).getD OmafProjectionType.EQUIRECTANGULAR) st) x
      obtain ⟨g1, _, _⟩ := streamDone_starter ranking j ms
        ((projectionOf ms.projType).getD OmafProjectionType.EQUIRECTANGULAR) st
      rw [h1, h2, streamDone_trackSegCtx, streamDone_allTileTracks, g1]
      simp only [mem_mapKeys_foldl_range]
      generalize (x ∈ mapKeys st.m_trackSegCtx) = A
      generalize (x ∈ mapKeys st.m_allTileTracks) = B
      constructor <;> constructor <;> intro h
      · rcases h with (h | h) | h
        · exact Or.inl h
        · exact Or.inr ⟨h.1, by omega⟩
        · exact Or.inr ⟨by omega, by omega⟩
      · rcases h with h | h
        · exact Or.inl (Or.inl h)
        · by_cases hx : x < st.m_trackIdStarter + tilesNum ms
          · exact Or.inl (Or.inr ⟨h.1, hx⟩)
          · exact Or.inr ⟨by omega, by omega⟩
      · rcases h with (h | h) | h
        · exact Or.inl h
        · exact Or.inr ⟨h.1, by omega⟩
        · exact Or.inr ⟨by omega, by omega⟩
      · rcases h with h | h
        · exact Or.inl (Or.inl h)
        · by_cases hx : x < st.m_trackIdStarter + tilesNum ms
          · exact Or.inl (Or.inr ⟨h.1, hx⟩)
          · exact Or.inr ⟨by omega, by omega⟩
    · simp only [streamsDone, totalTiles, hv, if_false, Nat.zero_add]
      exact ih st x

theorem keysAscending_split {α : Type} (pre post : List (Nat × α)) (k : Nat) (v : α)
    (h : keysAscending (pre ++ (k, v) :: post)) :
    (∀ e ∈ pre, e.1 < k) ∧ (∀ e ∈ post, k < e.1) := by
  unfold keysAscending mapKeys at h
  rw [List.map_append, List.map_cons, List.pairwise_append] at h
  obtain ⟨_, h2, h3⟩ := h
  constructor
  · intro e he
    exact h3 e.1 (List.mem_map_of_mem _ he) k (List.mem_cons_self _ _)
  · intro e he
    exact (List.pairwise_cons.1 h2).1 e.1 (List.mem_map_of_mem _ he)

theorem streamsDone_find (ranking : List Nat) (pre post : List (Nat × MediaStream))
    (k : Nat) (vs : MediaStream) (st : DefaultSegmentation)
    (hv : vs.mediaType = MediaType.VIDEOTYPE)
    (hk : k ∉ mapKeys st.m_streamSegCtx) (hk2 : k ∉ mapKeys st.m_tilesTrackIdxs)
    (hpre : ∀ e ∈ pre, e.1 ≠ k) :
    mapFind k (streamsDone ranking (pre ++ (k, vs) :: post) st).m_streamSegCtx =
        some (tileCtxs st.m_segInfo k vs (st.m_trackIdStarter + totalTiles pre)
          (qualityLevelOf ranking vs.bitRate)
          ((projectionOf vs.projType).getD OmafProjectionType.EQUIRECTANGULAR)
          (List.range (tilesNum vs))) ∧
      mapFind k (streamsDone ranking (pre ++ (k, vs) :: post) st).m_tilesTrackIdxs =
        some ((List.range (tilesNum vs)).foldl
          (fun m i => mapInsert i (st.m_trackIdStarter + totalTiles pre + i) m) []) := by
  rw [streamsDone_append]
  simp only [streamsDone, hv, if_true]
  obtain ⟨g1, g2, _⟩ := streamsDone_starter ranking pre st
  have hn1 : mapFind k (streamsDone ranking pre st).m_streamSegCtx = none := by
    rw [mapFind_eq_none_iff, (streamsDone_keys ranking pre st k).1]
    rintro (h | ⟨e, he, _, hek⟩)
    · exact hk h
    · exact hpre e he hek
  have hn2 : mapFind k (streamsDone ranking pre st).m_tilesTrackIdxs = none := by
    rw [mapFind_eq_none_iff, (streamsDone_keys ranking pre st k).2]
    rintro (h | ⟨e, he, _, hek⟩)
    · exact hk2 h
    · exact hpre e he hek
  constructor
  · apply (streamsDone_find_mono ranking post _ k).1
    rw [streamDone_streamSegCtx, mapFind_mapInsert, hn1, g1, g2]
    simp
  · apply (streamsDone_find_mono ranking post _ k).2
    rw [streamDone_tilesTrackIdxs, mapFind_mapInsert, hn2, g1]
    simp

theorem filterMap_map_some {α β : Type} (f : α → Option β) (l : List α)
    (h : ∀ a ∈ l, ∃ b, f a = some b) : (l.filterMap f).map some = l.map f := by
  induction l with
  | nil => rfl
  | cons a rest ih =>
    obtain ⟨b, hb⟩ := h a (List.mem_cons_self _ _)
    have ih2 := ih (fun x hx => h x (List.mem_cons_of_mem _ hx))
    simp [List.filterMap_cons, hb, ih2]

theorem tileCtxs_getElem (segInfo : SegmentationInfo) (k : Nat) (vs : MediaStream)
    (starter q : Nat) (p : OmafProjectionType) (h : tilesAllocated vs = true) :
    (tileCtxs segInfo k vs starter q p (List.range (tilesNum vs))).length = tilesNum vs ∧
      ∀ i, i < tilesNum vs →
        (tileCtxs segInfo k vs starter q p (List.range (tilesNum vs)))[i]? =
          tileCtx segInfo k vs starter q p i := by
  have hmap := filterMap_map_some (tileCtx segInfo k vs starter q p)
    (List.range (tilesNum vs))
    (fun i hi => tileCtx_isSome segInfo k vs starter q p h i (List.mem_range.1 hi))
  constructor
  · have := congrArg List.length hmap
    simpa [tileCtxs] using this
  · intro i hi
    have hi2 := congrArg (fun l => l[i]?) hmap
    simp only [List.getElem?_map, List.getElem?_range hi, Option.map_some'] at hi2
    unfold tileCtxs
    cases hc : (List.filterMap (tileCtx segInfo k vs starter q p)
        (List.range (tilesNum vs)))[i]? with
    | none => rw [hc] at hi2; cases hi2
    | some c =>
      rw [hc] at hi2
      simp only [Option.map_some', Option.some.injEq] at hi2
      exact hi2

theorem tileCtxs_mem (segInfo : SegmentationInfo) (k : Nat) (vs : MediaStream)
    (starter q : Nat) (p : OmafProjectionType) (tiles : List Nat) (c : TrackSegmentCtx)
    (h : c ∈ tileCtxs segInfo k vs starter q p tiles) :
    ∃ i ∈ tiles, tileCtx segInfo k vs starter q p i = some c := by
  unfold tileCtxs at h
  rw [List.mem_filterMap] at h
  exact h

/-! ## Lemmas on the quality ranking -/

theorem mem_setInsert (x y : Nat) (l : List Nat) : y ∈ setInsert x l ↔ y = x ∨ y ∈ l := by
  induction l with
  | nil => simp [setInsert]
  | cons a rest ih =>
    by_cases h1 : x < a
    · simp [setInsert, h1]
    · by_cases h2 : x = a
      · subst h2; simp [setInsert]
      · simp only [setInsert, h1, h2, if_false, List.mem_cons, ih]
        tauto

theorem pairwise_setInsert (x : Nat) (l : List Nat) (h : l.Pairwise (fun a b => a < b)) :
    (setInsert x l).Pairwise (fun a b => a < b) := by
  induction l with
  | nil => simp [setInsert]
  | cons a rest ih =>
    have hr := (List.pairwise_cons.1 h)
    by_cases h1 : x < a
    · simp only [setInsert, h1, if_true]
      refine List.pairwise_cons.2 ⟨?_, h⟩
      intro b hb
      rcases List.mem_cons.1 hb with rfl | hb2
      · exact h1
      · exact lt_trans h1 (hr.1 b hb2)
    · by_cases h2 : x = a
      · subst h2
        simp only [setInsert, lt_irrefl, if_false, if_true]
        exact h
      · simp only [setInsert, h1, h2, if_false]
        refine List.pairwise_cons.2 ⟨?_, ih hr.2⟩
        intro b hb
        rcases (mem_setInsert x b rest).1 hb with rfl | hb2
        · omega
        · exact hr.1 b hb2

theorem videoBitRates_cons (e : Nat × MediaStream) (rest : List (Nat × MediaStream)) :
    videoBitRates (e :: rest) =
      if e.2.mediaType = MediaType.VIDEOTYPE then e.2.bitRate :: videoBitRates rest
      else videoBitRates rest := by
  by_cases hv : e.2.mediaType = MediaType.VIDEOTYPE
  · simp [videoBitRates, List.filter_cons, hv]
  · simp [videoBitRates, List.filter_cons, hv]

theorem bitRateRanking_fold (streams : List (Nat × MediaStream)) :
    ∀ acc : List Nat, acc.Pairwise (fun a b => a < b) →
      (streams.foldl bitRateStep acc).Pairwise (fun a b => a < b) ∧
      ∀ b, b ∈ streams.foldl bitRateStep acc ↔ b ∈ acc ∨ b ∈ videoBitRates streams := by
  induction streams with
  | nil => intro acc h; simp [videoBitRates, h]
  | cons e rest ih =>
    intro acc h
    by_cases hv : e.2.mediaType = MediaType.VIDEOTYPE
    · have hstep : bitRateStep acc e = setInsert e.2.bitRate acc := by simp [bitRateStep, hv]
      obtain ⟨h1, h2⟩ := ih (setInsert e.2.bitRate acc) (pairwise_setInsert _ _ h)
      rw [List.foldl_cons, hstep, videoBitRates_cons, if_pos hv]
      refine ⟨h1, fun b => ?_⟩
      rw [h2, mem_setInsert, List.mem_cons]
      tauto
    · have hstep : bitRateStep acc e = acc := by simp [bitRateStep, hv]
      rw [List.foldl_cons, hstep, videoBitRates_cons, if_neg hv]
      exact ih acc h

theorem bitRateRanking_sorted (streams : List (Nat × MediaStream)) :
    (bitRateRanking streams).Pairwise (fun a b => a < b) :=
  (bitRateRanking_fold streams [] List.Pairwise.nil).1

theorem mem_bitRateRanking (streams : List (Nat × MediaStream)) (b : Nat) :
    b ∈ bitRateRanking streams ↔ b ∈ videoBitRates streams := by
  have := (bitRateRanking_fold streams [] List.Pairwise.nil).2 b
  simpa [bitRateRanking] using this

theorem mem_videoBitRates (streams : List (Nat × MediaStream)) (e : Nat × MediaStream)
    (he : e ∈ streams) (hv : e.2.mediaType = MediaType.VIDEOTYPE) :
    e.2.bitRate ∈ videoBitRates streams := by
  unfold videoBitRates
  refine List.mem_map.2 ⟨e, List.mem_filter.2 ⟨he, by simp [hv]⟩, rfl⟩

theorem qualityLevelLoop_sorted (b : Nat) (l : List Nat) :
    ∀ q, l.Pairwise (fun x y => x < y) → b ∈ l →
      (l.filter (fun x => decide (x < b))).length ≤ q → q < 256 →
      qualityLevelLoop b l q = q - (l.filter (fun x => decide (x < b))).length := by
  induction l with
  | nil => intro q _ hb; cases hb
  | cons a rest ih =>
    intro q hs hb hq hq2
    obtain ⟨h1, h2⟩ := List.pairwise_cons.1 hs
    by_cases hab : a = b
    · subst hab
      have hnone : rest.filter (fun x => decide (x < a)) = [] := by
        rw [List.filter_eq_nil_iff]
        intro x hx
        have := h1 x hx
        simp only [decide_eq_true_eq]
        omega
      simp [qualityLevelLoop, List.filter_cons, hnone]
    · have hb2 : b ∈ rest := by
        rcases List.mem_cons.1 hb with h | h
        · exact absurd h.symm hab
        · exact h
      have hlt : a < b := h1 b hb2
      have hf : (a :: rest).filter (fun x => decide (x < b)) =
          a :: rest.filter (fun x => decide (x < b)) := by
        simp [List.filter_cons, hlt]
      rw [hf, List.length_cons] at hq ⊢
      have hdec : (q + 255) % 256 = q - 1 := by omega
      simp only [qualityLevelLoop, hab, if_false, hdec]
      rw [ih (q - 1) h2 hb2 (by omega) (by omega)]
      omega

theorem sorted_length_split (b : Nat) (l : List Nat) :
    l.Pairwise (fun x y => x < y) → b ∈ l →
      l.length = (l.filter (fun x => decide (x < b))).length + 1 +
        (l.filter (fun x => decide (b < x))).length := by
  induction l with
  | nil => intro _ hb; cases hb
  | cons a rest ih =>
    intro hs hb
    obtain ⟨h1, h2⟩ := List.pairwise_cons.1 hs
    by_cases hab : a = b
    · subst hab
      have hnone : rest.filter (fun x => decide (x < a)) = [] := by
        rw [List.filter_eq_nil_iff]
        intro x hx
        have := h1 x hx
        simp only [decide_eq_true_eq]
        omega
      have hall : rest.filter (fun x => decide (a < x)) = rest := by
        rw [List.filter_eq_self]
        intro x hx
        simpa using h1 x hx
      simp [List.filter_cons, hnone, hall]
      omega
    · have hb2 : b ∈ rest := by
        rcases List.mem_cons.1 hb with h | h
        · exact absurd h.symm hab
        · exact h
      have hlt : a < b := h1 b hb2
      have hnlt : ¬ b < a := by omega
      simp only [List.filter_cons, hlt, hnlt, decide_True, decide_False, if_true,
        List.length_cons, ih h2 hb2]
      simp
      omega

theorem filter_length_dedup (p : Nat → Bool) (R L : List Nat) (hR : R.Nodup)
    (hmem : ∀ x, x ∈ R ↔ x ∈ L) :
    (R.filter p).length = ((L.filter p).dedup).length := by
  apply List.Perm.length_eq
  rw [List.perm_ext_iff_of_nodup (hR.filter p) (List.nodup_dedup _)]
  intro a
  simp only [List.mem_filter, List.mem_dedup, hmem]

theorem bitRateRanking_nodup (streams : List (Nat × MediaStream)) :
    (bitRateRanking streams).Nodup :=
  (bitRateRanking_sorted streams).imp (fun h => Nat.ne_of_lt h)

theorem bitRateRanking_length (streams : List (Nat × MediaStream)) :
    (bitRateRanking streams).length = distinctCount (videoBitRates streams) := by
  have h := filter_length_dedup (fun _ => true) (bitRateRanking streams)
    (videoBitRates streams) (bitRateRanking_nodup streams) (mem_bitRateRanking streams)
  simpa [distinctCount] using h

theorem filter_length_lt (p q : Nat → Bool) (l : List Nat)
    (hpq : ∀ x ∈ l, p x = true → q x = true) (x : Nat) (hx : x ∈ l) (hq : q x = true)
    (hp : p x = false) : (l.filter p).length < (l.filter q).length := by
  induction l with
  | nil => cases hx
  | cons a rest ih =>
    have hle : (rest.filter p).length ≤ (rest.filter q).length := by
      rw [← List.countP_eq_length_filter, ← List.countP_eq_length_filter]
      exact List.countP_mono_left (fun y hy => hpq y (List.mem_cons_of_mem _ hy))
    rcases List.mem_cons.1 hx with rfl | hx2
    · simp only [List.filter_cons, hq, hp, if_true, List.length_cons]
      simp only [Bool.false_eq_true, if_false]
      omega
    · have := ih (fun y hy => hpq y (List.mem_cons_of_mem _ hy)) hx2
      by_cases hpa : p a = true
      · have hqa := hpq a (List.mem_cons_self _ _) hpa
        simp only [List.filter_cons, hpa, hqa, if_true, List.length_cons]
        omega
      · by_cases hqa : q a = true
        · have hpa2 : p a = false := by simpa using hpa
          simp only [List.filter_cons, hpa2, hqa, if_true, List.length_cons,
            Bool.false_eq_true, if_false]
          omega
        · have hpa2 : p a = false := by simpa using hpa
          have hqa2 : q a = false := by simpa using hqa
          simp only [List.filter_cons, hpa2, hqa2, Bool.false_eq_true, if_false]
          exact this

/-- The value of `qualityLevel` when the set has at most 255 elements: the
size of the set less the position of the bit rate, which is one more than the
number of distinct bit rates above it. -/
theorem qualityLevelOf_eq (streams : List (Nat × MediaStream)) (b : Nat)
    (hb : b ∈ videoBitRates streams) (hsmall : distinctCount (videoBitRates streams) ≤ 255) :
    qualityLevelOf (bitRateRanking streams) b =
        distinctCount (videoBitRates streams) - ascendingPosition (videoBitRates streams) b ∧
      qualityLevelOf (bitRateRanking streams) b = denseRankFromTop (videoBitRates streams) b := by
  have hs := bitRateRanking_sorted streams
  have hn := bitRateRanking_nodup streams
  have hm := mem_bitRateRanking streams
  have hbR : b ∈ bitRateRanking streams := (hm b).2 hb
  have hlen := bitRateRanking_length streams
  have hlt := filter_length_dedup (fun x => decide (x < b)) _ _ hn hm
  have hgt := filter_length_dedup (fun x => decide (b < x)) _ _ hn hm
  have hsplit := sorted_length_split b _ hs hbR
  have hmod : (bitRateRanking streams).length % 256 = (bitRateRanking streams).length := by
    omega
  have hq := qualityLevelLoop_sorted b (bitRateRanking streams)
    ((bitRateRanking streams).length) hs hbR (by omega) (by omega)
  unfold qualityLevelOf denseRankFromTop ascendingPosition
  rw [hmod, hq, ← hlen, ← hlt, ← hgt]
  omega

theorem denseRankFromTop_lt (L : List Nat) (b1 b2 : Nat) (h1 : b1 ∈ L) (hlt : b2 < b1) :
    denseRankFromTop L b1 < denseRankFromTop L b2 := by
  unfold denseRankFromTop
  have hlen : ∀ b, ((L.filter (fun x => decide (b < x))).dedup).length =
      (L.dedup.filter (fun x => decide (b < x))).length := by
    intro b
    exact (filter_length_dedup (fun x => decide (b < x)) L.dedup L (List.nodup_dedup L)
      (fun x => List.mem_dedup)).symm
  rw [hlen b1, hlen b2]
  have := filter_length_lt (fun x => decide (b1 < x)) (fun x => decide (b2 < x)) L.dedup
    (fun x _ hx => by simp only [decide_eq_true_eq] at hx ⊢; omega) b1
    (List.mem_dedup.2 h1) (by simpa using hlt) (by simp)
  omega

/-! ## The index of track ids and its inverse -/

theorem mapFind_foldl_mono {α : Type} (g : Nat → Nat) (f : Nat → α) (tiles : List Nat) :
    ∀ (m0 : List (Nat × α)) (t : Nat) (v : α), mapFind t m0 = some v →
      mapFind t (tiles.foldl (fun m j => mapInsert (g j) (f j) m) m0) = some v := by
  induction tiles with
  | nil => intro m0 t v h; exact h
  | cons j rest ih =>
    intro m0 t v h
    rw [List.foldl_cons]
    exact ih _ t v (mapFind_mapInsert_of_some _ _ _ _ _ h)

theorem mapFind_foldl_track {α : Type} (a : Nat) (f : Nat → α) (tiles : List Nat) :
    ∀ (m0 : List (Nat × α)) (i : Nat), i ∈ tiles → mapFind (a + i) m0 = none →
      mapFind (a + i) (tiles.foldl (fun m j => mapInsert (a + j) (f j) m) m0) =
        some (f i) := by
  induction tiles with
  | nil => intro m0 i hi; cases hi
  | cons j rest ih =>
    intro m0 i hi hnone
    rw [List.foldl_cons]
    by_cases hij : i = j
    · subst hij
      apply mapFind_foldl_mono (fun j => a + j) f rest
      rw [mapFind_mapInsert, hnone]; simp
    · have hi2 : i ∈ rest := by
        rcases List.mem_cons.1 hi with h | h
        · exact absurd h hij
        · exact h
      apply ih _ i hi2
      rw [mapFind_mapInsert, if_neg (by omega), hnone]

theorem streamsDone_track_mono (ranking : List Nat) (streams : List (Nat × MediaStream)) :
    ∀ (st : DefaultSegmentation) (t : Nat) (v : Nat × Nat),
      mapFind t st.m_trackSegCtx = some v →
        mapFind t (streamsDone ranking streams st).m_trackSegCtx = some v := by
  induction streams with
  | nil => intro st t v h; exact h
  | cons e rest ih =>
    intro st t v h
    obtain ⟨j, ms⟩ := e
    by_cases hv : ms.mediaType = MediaType.VIDEOTYPE
    · simp only [streamsDone, hv, if_true]
      apply ih
      rw [streamDone_trackSegCtx]
      exact mapFind_foldl_mono (fun i => st.m_trackIdStarter + i) (fun i => (j, i)) _ _ t v h
    · simp only [streamsDone, hv, if_false]
      exact ih st t v h

theorem streamsDone_track_find (ranking : List Nat) (pre post : List (Nat × MediaStream))
    (k : Nat) (vs : MediaStream) (segInfo : SegmentationInfo) (s : Nat)
    (hv : vs.mediaType = MediaType.VIDEOTYPE) (i : Nat) (hi : i < tilesNum vs) :
    mapFind (s + totalTiles pre + i)
        (streamsDone ranking (pre ++ (k, vs) :: post)
          (DefaultSegmentation.fresh segInfo s)).m_trackSegCtx = some (k, i) := by
  rw [streamsDone_append]
  simp only [streamsDone, hv, if_true]
  apply streamsDone_track_mono
  obtain ⟨g1, _, _⟩ := streamsDone_starter ranking pre (DefaultSegmentation.fresh segInfo s)
  have hs : (DefaultSegmentation.fresh segInfo s).m_trackIdStarter = s := rfl
  rw [streamDone_trackSegCtx, g1, hs]
  apply mapFind_foldl_track (s + totalTiles pre) (fun i => (k, i)) _ _ i
    (List.mem_range.2 hi)
  rw [mapFind_eq_none_iff, (streamsDone_trackKeys ranking pre _ _).1]
  rintro (h | h)
  · simp [DefaultSegmentation.fresh, mapKeys] at h
  · rw [hs] at h; omega

/-! ## The run of `ConstructTileTrackSegCtx` on well-formed streams -/

theorem tileCtx_inv (segInfo : SegmentationInfo) (k : Nat) (vs : MediaStream)
    (starter q : Nat) (p : OmafProjectionType) (i : Nat) (c : TrackSegmentCtx)
    (h : tileCtx segInfo k vs starter q p i = some c) :
    ∃ ti rwpk rect, vs.tilesInfo[i]? = some ti ∧ vs.srcRwpk = some rwpk ∧
      rwpk.rectRegionPacking[i]? = some rect := by
  cases h1 : vs.tilesInfo[i]? with
  | none => simp [tileCtx, h1] at h
  | some ti =>
    cases h2 : vs.srcRwpk with
    | none => simp [tileCtx, h1, h2] at h
    | some rwpk =>
      cases h3 : rwpk.rectRegionPacking[i]? with
      | none => simp [tileCtx, h1, h2, h3] at h
      | some rect => exact ⟨ti, rwpk, rect, rfl, rfl, h3⟩

theorem tileCtx_some_fields (segInfo : SegmentationInfo) (k : Nat) (vs : MediaStream)
    (starter q : Nat) (p : OmafProjectionType) (i : Nat) (c : TrackSegmentCtx)
    (h : tileCtx segInfo k vs starter q p i = some c) :
    c.qualityRanking = q ∧ c.trackIdx = starter + i ∧
      c.codedMeta.bitrate.avgBitrate = vs.bitRate / tilesNum vs := by
  obtain ⟨ti, rwpk, rect, h1, h2, h3⟩ := tileCtx_inv segInfo k vs starter q p i c h
  obtain ⟨c2, hc2, f1, f2, _, _, _, f3, _⟩ :=
    tileCtx_fields segInfo k vs starter q p i ti rwpk rect h1 h2 h3
  rw [h] at hc2
  cases hc2
  exact ⟨f1, f2, f3⟩

theorem construct_ok (streams : List (Nat × MediaStream)) (st : DefaultSegmentation)
    (h : allVideo streamWellFormed streams = true) :
    ConstructTileTrackSegCtx streams st =
      some (ERROR_NONE, streamsDone (bitRateRanking streams) streams st) :=
  streamLoop_ok _ streams st h

theorem construct_find (segInfo : SegmentationInfo) (s : Nat)
    (pre post : List (Nat × MediaStream)) (k : Nat) (vs : MediaStream)
    (hkeys : keysAscending (pre ++ (k, vs) :: post))
    (hv : vs.mediaType = MediaType.VIDEOTYPE) (ranking : List Nat) :
    mapFind k (streamsDone ranking (pre ++ (k, vs) :: post)
        (DefaultSegmentation.fresh segInfo s)).m_streamSegCtx =
        some (tileCtxs segInfo k vs (s + totalTiles pre)
          (qualityLevelOf ranking vs.bitRate)
          ((projectionOf vs.projType).getD OmafProjectionType.EQUIRECTANGULAR)
          (List.range (tilesNum vs))) ∧
      mapFind k (streamsDone ranking (pre ++ (k, vs) :: post)
        (DefaultSegmentation.fresh segInfo s)).m_tilesTrackIdxs =
        some ((List.range (tilesNum vs)).foldl
          (fun m i => mapInsert i (s + totalTiles pre + i) m) []) := by
  obtain ⟨hpre, _⟩ := keysAscending_split pre post k vs hkeys
  exact streamsDone_find ranking pre post k vs (DefaultSegmentation.fresh segInfo s) hv
    (by simp [DefaultSegmentation.fresh, mapKeys])
    (by simp [DefaultSegmentation.fresh, mapKeys])
    (fun e he => Nat.ne_of_lt (hpre e he))

/-- On well-formed streams the run ends with `ERROR_NONE` and every video
stream owns one context per tile, each carrying the stream's quality level. -/
theorem construct_stream (segInfo : SegmentationInfo) (s : Nat)
    (streams : List (Nat × MediaStream)) (hkeys : keysAscending streams)
    (hwf : allVideo streamWellFormed streams = true) (k : Nat) (vs : MediaStream)
    (hmem : (k, vs) ∈ streams) (hv : vs.mediaType = MediaType.VIDEOTYPE) :
    ∃ st ctxs,
      ConstructTileTrackSegCtx streams (DefaultSegmentation.fresh segInfo s) =
        some (ERROR_NONE, st) ∧
      mapFind k st.m_streamSegCtx = some ctxs ∧ ctxs.length = tilesNum vs ∧
      ∀ c ∈ ctxs, c.qualityRanking = qualityLevelOf (bitRateRanking streams) vs.bitRate ∧
        c.codedMeta.bitrate.avgBitrate = vs.bitRate / tilesNum vs := by
  obtain ⟨pre, post, hsplit⟩ := List.append_of_mem hmem
  subst hsplit
  have hwfk := streamWellFormed_parts vs (allVideo_mem _ _ hwf (k, vs) hmem hv)
  have hta := (streamReady_parts vs hwfk.1).2.2.2.2
  refine ⟨_, _, construct_ok _ _ hwf,
    (construct_find segInfo s pre post k vs hkeys hv _).1,
    (tileCtxs_getElem _ _ _ _ _ _ hta).1, ?_⟩
  intro c hc
  obtain ⟨i, _, hi⟩ := tileCtxs_mem _ _ _ _ _ _ _ c hc
  obtain ⟨f1, _, f3⟩ := tileCtx_some_fields _ _ _ _ _ _ _ c hi
  exact ⟨f1, f3⟩

/-! ## The run succeeds on well-formed streams only -/

theorem tileStep_success (k : Nat) (vs : MediaStream) (starter q i : Nat) (ls ls1 : TileLoop)
    (h : tileStep k vs starter q i ls = some (ERROR_NONE, ls1)) :
    (∃ p c, projectionOf ls.seg.m_projType = some p ∧
      tileCtx ls.seg.m_segInfo k vs starter q p i = some c) ∧
    ls1.seg.m_projType = ls.seg.m_projType ∧ ls1.seg.m_segInfo = ls.seg.m_segInfo := by
  unfold tileStep at h
  cases hp : projectionOf ls.seg.m_projType with
  | none =>
    cases hc : tileCtx ls.seg.m_segInfo k vs starter q OmafProjectionType.EQUIRECTANGULAR i with
    | none => simp [hp, hc] at h
    | some c => simp [hp, hc] at h
  | some p =>
    cases hc : tileCtx ls.seg.m_segInfo k vs starter q p i with
    | none => simp [hp, hc] at h
    | some c =>
      simp only [hp, hc, Option.getD_some, Option.some.injEq, Prod.mk.injEq, true_and] at h
      subst h
      exact ⟨⟨p, c, rfl, hc⟩, rfl, rfl⟩

theorem tileLoop_success (k : Nat) (vs : MediaStream) (starter q : Nat) (tiles : List Nat) :
    ∀ ls ls1 : TileLoop, tileLoop k vs starter q tiles ls = some (ERROR_NONE, ls1) →
      ∀ i ∈ tiles, ∃ p c, projectionOf ls.seg.m_projType = some p ∧
        tileCtx ls.seg.m_segInfo k vs starter q p i = some c := by
  induction tiles with
  | nil => intro ls ls1 _ i hi; cases hi
  | cons j rest ih =>
    intro ls ls1 h i hi
    simp only [tileLoop] at h
    cases hs : tileStep k vs starter q j ls with
    | none => simp [hs] at h
    | some r =>
      obtain ⟨e, ls2⟩ := r
      simp only [hs] at h
      by_cases he : e = ERROR_NONE
      · subst he
        simp only [if_true] at h
        obtain ⟨hj, hproj, hseg⟩ := tileStep_success k vs starter q j ls ls2 hs
        rcases List.mem_cons.1 hi with rfl | hm
        · exact hj
        · have := ih ls2 ls1 h i hm
          rw [hproj, hseg] at this
          exact this
      · rw [if_neg he] at h
        injection h with h
        injection h with h1 _
        exact absurd h1 he

theorem streamBody_success (ranking : List Nat) (k : Nat) (vs : MediaStream)
    (st st1 : DefaultSegmentation)
    (h : streamBody ranking k vs st = some (ERROR_NONE, st1)) :
    streamWellFormed vs = true := by
  have hh := streamBody_success_headers ranking k vs st st1 h
  have hh2 := hh
  simp only [headersPresent, Bool.and_eq_true, Bool.not_eq_true'] at hh2
  obtain ⟨⟨h1, h2⟩, h3⟩ := hh2
  by_cases h0 : tilesNum vs = 0
  · simp [streamBody, h1, h2, h3, h0] at h
  · simp only [streamBody, h1, h2, h3, h0, if_false, Bool.false_eq_true] at h
    cases hl : tileLoop k vs st.m_trackIdStarter (qualityLevelOf ranking vs.bitRate)
        (List.range (tilesNum vs))
        { seg := { st with m_frameRate := vs.frameRate, m_projType := vs.projType,
                           m_videoSegInfo := some vs.segDur }
          trackSegCtxs := [], tilesTrackIndex := [] } with
    | none => simp [hl] at h
    | some r =>
      obtain ⟨e, ls⟩ := r
      simp only [hl] at h
      by_cases he : e = ERROR_NONE
      · subst he
        have hall := tileLoop_success k vs _ _ _ _ ls hl
        have hlast : tilesNum vs - 1 ∈ List.range (tilesNum vs) :=
          List.mem_range.2 (by omega)
        obtain ⟨p, c, hp, hc⟩ := hall _ hlast
        obtain ⟨ti, rwpk, rect, r1, r2, r3⟩ := tileCtx_inv _ _ _ _ _ _ _ c hc
        have l1 := (List.getElem?_eq_some.1 r1).1
        have l2 := (List.getElem?_eq_some.1 r3).1
        have hp2 : projectionOf vs.projType = some p := hp
        simp only [streamWellFormed, streamReady, hh, tilesAllocated, r2, hp2,
          Bool.and_eq_true, decide_eq_true_eq, Option.isSome_some, true_and, and_true]
        omega
      · rw [if_neg he] at h
        injection h with h
        injection h with h1 _
        exact absurd h1 he

/-- The run ends with `ERROR_NONE` exactly on the stream maps whose video
streams are all well formed. -/
theorem construct_success_iff (streams : List (Nat × MediaStream))
    (st : DefaultSegmentation) :
    (∃ st1, ConstructTileTrackSegCtx streams st = some (ERROR_NONE, st1)) ↔
      allVideo streamWellFormed streams = true := by
  constructor
  · rintro ⟨st1, h⟩
    unfold ConstructTileTrackSegCtx at h
    generalize bitRateRanking streams = ranking at h
    induction streams generalizing st with
    | nil => rfl
    | cons e rest ih =>
      obtain ⟨k, ms⟩ := e
      rw [allVideo_cons]
      by_cases hv : ms.mediaType = MediaType.VIDEOTYPE
      · simp only [streamLoop, hv, if_true] at h
        cases hb : streamBody ranking k ms st with
        | none => simp [hb] at h
        | some r =>
          obtain ⟨e, st2⟩ := r
          simp only [hb] at h
          by_cases he : e = ERROR_NONE
          · subst he
            simp only [if_true] at h
            exact ⟨fun _ => streamBody_success ranking k ms st st2 hb, ih st2 h⟩
          · rw [if_neg he] at h
            injection h with h
            injection h with h1 _
            exact absurd h1 he
      · simp only [streamLoop, hv, if_false] at h
        exact ⟨fun hv2 => absurd hv2 hv, ih st h⟩
  · intro h
    exact ⟨_, construct_ok streams st h⟩

/-! ## Facts about the sample inputs -/

theorem sampleStream_wellFormed (b : Nat) :
    streamWellFormed (sampleStream b 1 1 0) = true := rfl

theorem sampleStream_video (b rows cols proj : Nat) :
    (sampleStream b rows cols proj).mediaType = MediaType.VIDEOTYPE := rfl

theorem manyStreams_wellFormed : allVideo streamWellFormed manyStreams = true := by
  unfold allVideo manyStreams
  rw [List.all_eq_true]
  intro e he
  obtain ⟨i, _, rfl⟩ := List.mem_map.1 he
  simp [sampleStream_wellFormed]

theorem manyStreams_keys : keysAscending manyStreams := by
  unfold keysAscending mapKeys manyStreams
  rw [List.map_map]
  have : (Prod.fst ∘ fun i => (i, sampleStream (i + 1) 1 1 0)) = id := rfl
  rw [this, List.map_id]
  exact List.pairwise_lt_range 256

theorem manyStreams_mem (i : Nat) (hi : i < 256) :
    (i, sampleStream (i + 1) 1 1 0) ∈ manyStreams :=
  List.mem_map.2 ⟨i, List.mem_range.2 hi, rfl⟩

set_option maxRecDepth 100000 in
theorem manyStreams_level_lowest : qualityLevelOf (bitRateRanking manyStreams) 1 = 0 := by
  decide

set_option maxRecDepth 100000 in
theorem manyStreams_level_second : qualityLevelOf (bitRateRanking manyStreams) 2 = 255 := by
  decide

theorem twoStreams_wellFormed : allVideo streamWellFormed twoStreams = true := by decide

theorem twoStreams_keys : keysAscending twoStreams := by
  unfold keysAscending mapKeys twoStreams
  decide

theorem exists_mem_of_length_pos {α : Type} (l : List α) (h : 0 < l.length) : ∃ c, c ∈ l := by
  cases l with
  | nil => simp at h
  | cons a rest => exact ⟨a, List.mem_cons_self _ _⟩

/-! ## Claims C1 to C3: the quality ranking -/

/-- C1, as stated, fails on 256 video streams with pairwise different bit
rates: the 8-bit `qualityLevel` starts at 256 mod 256 = 0, so the stream with
the lowest bit rate (key 0) is ranked 0 while the stream with the second lowest
bit rate (key 1) is ranked 255. -/
theorem qualityRanking_order_fails_at_256 :
    ∃ st ctxsA ctxsB cA cB,
      ConstructTileTrackSegCtx manyStreams (DefaultSegmentation.fresh sampleSegInfo 1) =
        some (ERROR_NONE, st) ∧
      (1, sampleStream 2 1 1 0) ∈ manyStreams ∧ (0, sampleStream 1 1 1 0) ∈ manyStreams ∧
      (sampleStream 1 1 1 0).bitRate < (sampleStream 2 1 1 0).bitRate ∧
      mapFind 1 st.m_streamSegCtx = some ctxsA ∧ mapFind 0 st.m_streamSegCtx = some ctxsB ∧
      cA ∈ ctxsA ∧ cB ∈ ctxsB ∧ ¬ cA.qualityRanking < cB.qualityRanking := by
  obtain ⟨st, ctxsA, hrun, hA, hlenA, hqA⟩ := construct_stream sampleSegInfo 1 manyStreams
    manyStreams_keys manyStreams_wellFormed 1 (sampleStream 2 1 1 0)
    (manyStreams_mem 1 (by omega)) rfl
  obtain ⟨st2, ctxsB, hrun2, hB, hlenB, hqB⟩ := construct_stream sampleSegInfo 1 manyStreams
    manyStreams_keys manyStreams_wellFormed 0 (sampleStream 1 1 1 0)
    (manyStreams_mem 0 (by omega)) rfl
  rw [hrun] at hrun2
  injection hrun2 with hrun2
  injection hrun2 with _ hst
  subst hst
  obtain ⟨cA, hcA⟩ := exists_mem_of_length_pos ctxsA (by rw [hlenA]; decide)
  obtain ⟨cB, hcB⟩ := exists_mem_of_length_pos ctxsB (by rw [hlenB]; decide)
  refine ⟨st, ctxsA, ctxsB, cA, cB, hrun, manyStreams_mem 1 (by omega),
    manyStreams_mem 0 (by omega), by decide, hA, hB, hcA, hcB, ?_⟩
  have h1 : cA.qualityRanking = 255 := by
    rw [(hqA cA hcA).1]; exact manyStreams_level_second
  have h2 : cB.qualityRanking = 0 := by
    rw [(hqB cB hcB).1]; exact manyStreams_level_lowest
  omega

/-- C1, amended: when the video streams have at most 255 distinct bit rates,
`ConstructTileTrackSegCtx` (on streams it accepts) stores in every tile-track
context of a video stream A a `qualityRanking` strictly smaller than in every
tile-track context of a video stream B with a lower bit rate. -/
theorem qualityRanking_lt_of_bitRate_gt (segInfo : SegmentationInfo) (s : Nat)
    (streams : List (Nat × MediaStream)) (hkeys : keysAscending streams)
    (hwf : allVideo streamWellFormed streams = true)
    (hsmall : distinctCount (videoBitRates streams) ≤ 255)
    (a b : Nat) (A B : MediaStream) (hA : (a, A) ∈ streams) (hB : (b, B) ∈ streams)
    (hvA : A.mediaType = MediaType.VIDEOTYPE) (hvB : B.mediaType = MediaType.VIDEOTYPE)
    (hlt : B.bitRate < A.bitRate) :
    ∃ st ctxsA ctxsB,
      ConstructTileTrackSegCtx streams (DefaultSegmentation.fresh segInfo s) =
        some (ERROR_NONE, st) ∧
      mapFind a st.m_streamSegCtx = some ctxsA ∧ mapFind b st.m_streamSegCtx = some ctxsB ∧
      ctxsA.length = tilesNum A ∧ ctxsB.length = tilesNum B ∧
      ∀ cA ∈ ctxsA, ∀ cB ∈ ctxsB, cA.qualityRanking < cB.qualityRanking := by
  obtain ⟨st, ctxsA, hrun, hfA, hlenA, hqA⟩ :=
    construct_stream segInfo s streams hkeys hwf a A hA hvA
  obtain ⟨st2, ctxsB, hrun2, hfB, hlenB, hqB⟩ :=
    construct_stream segInfo s streams hkeys hwf b B hB hvB
  rw [hrun] at hrun2
  injection hrun2 with hrun2
  injection hrun2 with _ hst
  subst hst
  refine ⟨st, ctxsA, ctxsB, hrun, hfA, hfB, hlenA, hlenB, ?_⟩
  intro cA hcA cB hcB
  have hmA := mem_videoBitRates streams (a, A) hA hvA
  have hmB := mem_videoBitRates streams (b, B) hB hvB
  rw [(hqA cA hcA).1, (hqB cB hcB).1, (qualityLevelOf_eq streams _ hmA hsmall).2,
    (qualityLevelOf_eq streams _ hmB hsmall).2]
  exact denseRankFromTop_lt _ _ _ hmA hlt

/-- Witness of C1 as amended: the two sample streams at 10 and 5 Mbit/s. -/
theorem qualityRanking_lt_of_bitRate_gt_witness :
    ∃ st ctxsA ctxsB,
      ConstructTileTrackSegCtx twoStreams (DefaultSegmentation.fresh sampleSegInfo 1) =
        some (ERROR_NONE, st) ∧
      mapFind 0 st.m_streamSegCtx = some ctxsA ∧ mapFind 1 st.m_streamSegCtx = some ctxsB ∧
      ctxsA.length = tilesNum (sampleStream 10000000 2 2 0) ∧
      ctxsB.length = tilesNum (sampleStream 5000000 2 2 0) ∧
      ∀ cA ∈ ctxsA, ∀ cB ∈ ctxsB, cA.qualityRanking < cB.qualityRanking :=
  qualityRanking_lt_of_bitRate_gt sampleSegInfo 1 twoStreams
    (by unfold keysAscending mapKeys twoStreams; decide) (by decide) (by decide) 0 1 (sampleStream 10000000 2 2 0)
    (sampleStream 5000000 2 2 0) (by simp [twoStreams]) (by simp [twoStreams]) rfl rfl
    (by decide)

theorem filter_length_succ (p q : Nat → Bool) (D : List Nat) (b : Nat) :
    D.Nodup → b ∈ D → (∀ x ∈ D, q x = (p x || decide (x = b))) → p b = false →
      (D.filter q).length = (D.filter p).length + 1 := by
  induction D with
  | nil => intro _ hb; cases hb
  | cons a t ih =>
    intro hD hb hq hp
    obtain ⟨hat, ht⟩ := List.nodup_cons.1 hD
    by_cases hab : a = b
    · subst hab
      have hqa : q a = true := by rw [hq a (List.mem_cons_self _ _)]; simp
      have hcongr : t.filter q = t.filter p := by
        apply List.filter_congr
        intro x hx
        have hxa : x ≠ a := fun h => hat (h ▸ hx)
        rw [hq x (List.mem_cons_of_mem _ hx)]
        simp [hxa]
      simp [List.filter_cons, hqa, hp, hcongr]
    · have hb2 : b ∈ t := by
        rcases List.mem_cons.1 hb with h | h
        · exact absurd h.symm hab
        · exact h
      have ih2 := ih ht hb2 (fun x hx => hq x (List.mem_cons_of_mem _ hx)) hp
      have hqa : q a = p a := by rw [hq a (List.mem_cons_self _ _)]; simp [hab]
      cases hpa : p a with
      | true => simp [List.filter_cons, hqa, hpa, ih2]
      | false => simp [List.filter_cons, hqa, hpa, ih2]

theorem denseRankFromTop_max (L : List Nat) (b : Nat) (h : ∀ x ∈ L, x ≤ b) :
    denseRankFromTop L b = 1 := by
  unfold denseRankFromTop
  have : L.filter (fun x => decide (b < x)) = [] := by
    rw [List.filter_eq_nil_iff]
    intro x hx
    have := h x hx
    simp only [decide_eq_true_eq]
    omega
  rw [this]
  rfl

theorem ascendingPosition_min (L : List Nat) (b : Nat) (h : ∀ x ∈ L, b ≤ x) :
    ascendingPosition L b = 0 := by
  unfold ascendingPosition
  have : L.filter (fun x => decide (x < b)) = [] := by
    rw [List.filter_eq_nil_iff]
    intro x hx
    have := h x hx
    simp only [decide_eq_true_eq]
    omega
  rw [this]
  rfl

theorem denseRankFromTop_succ (L : List Nat) (b1 b2 : Nat) (h1 : b1 ∈ L) (hlt : b2 < b1)
    (hbetween : ∀ x ∈ L, ¬ (b2 < x ∧ x < b1)) :
    denseRankFromTop L b2 = denseRankFromTop L b1 + 1 := by
  unfold denseRankFromTop
  have hlen : ∀ b, ((L.filter (fun x => decide (b < x))).dedup).length =
      (L.dedup.filter (fun x => decide (b < x))).length := by
    intro b
    exact (filter_length_dedup (fun x => decide (b < x)) L.dedup L (List.nodup_dedup L)
      (fun x => List.mem_dedup)).symm
  rw [hlen b1, hlen b2]
  have := filter_length_succ (fun x => decide (b1 < x)) (fun x => decide (b2 < x)) L.dedup b1
    (List.nodup_dedup L) (List.mem_dedup.2 h1)
    (fun x hx => by
      have hb := hbetween x (List.mem_dedup.1 hx)
      rw [Bool.eq_iff_iff]
      simp only [decide_eq_true_eq, Bool.or_eq_true]
      constructor
      · intro h; omega
      · intro h; omega)
    (by simp)
  omega

/-- C2, as stated, fails on 256 video streams with pairwise different bit
rates: the stream with the lowest bit rate is ranked 0, which is not one more
than a count of bit rates. -/
theorem qualityRanking_denseRank_fails_at_256 :
    ∃ st ctxs c,
      ConstructTileTrackSegCtx manyStreams (DefaultSegmentation.fresh sampleSegInfo 1) =
        some (ERROR_NONE, st) ∧
      (0, sampleStream 1 1 1 0) ∈ manyStreams ∧
      mapFind 0 st.m_streamSegCtx = some ctxs ∧ c ∈ ctxs ∧
      c.qualityRanking ≠
        denseRankFromTop (videoBitRates manyStreams) (sampleStream 1 1 1 0).bitRate := by
  obtain ⟨st, ctxs, hrun, hf, hlen, hq⟩ := construct_stream sampleSegInfo 1 manyStreams
    manyStreams_keys manyStreams_wellFormed 0 (sampleStream 1 1 1 0)
    (manyStreams_mem 0 (by omega)) rfl
  obtain ⟨c, hc⟩ := exists_mem_of_length_pos ctxs (by rw [hlen]; decide)
  refine ⟨st, ctxs, c, hrun, manyStreams_mem 0 (by omega), hf, hc, ?_⟩
  have h0 : c.qualityRanking = 0 := by
    rw [(hq c hc).1]; exact manyStreams_level_lowest
  rw [h0]
  unfold denseRankFromTop
  omega

/-- C2, amended: when the video streams have at most 255 distinct bit rates,
`ConstructTileTrackSegCtx` gives every tile of a video stream one and the same
`qualityRanking`: the number of distinct bit rates less the 0-based position
of the stream's bit rate in ascending order, which is one more than the number
of distinct bit rates strictly above it; a stream with the highest bit rate is
ranked 1. -/
theorem qualityRanking_eq_denseRank (segInfo : SegmentationInfo) (s : Nat)
    (streams : List (Nat × MediaStream)) (hkeys : keysAscending streams)
    (hwf : allVideo streamWellFormed streams = true)
    (hsmall : distinctCount (videoBitRates streams) ≤ 255)
    (k : Nat) (vs : MediaStream) (hmem : (k, vs) ∈ streams)
    (hv : vs.mediaType = MediaType.VIDEOTYPE) :
    ∃ st ctxs,
      ConstructTileTrackSegCtx streams (DefaultSegmentation.fresh segInfo s) =
        some (ERROR_NONE, st) ∧
      mapFind k st.m_streamSegCtx = some ctxs ∧ ctxs.length = tilesNum vs ∧
      ∀ c ∈ ctxs,
        c.qualityRanking =
          distinctCount (videoBitRates streams) -
            ascendingPosition (videoBitRates streams) vs.bitRate ∧
        c.qualityRanking = denseRankFromTop (videoBitRates streams) vs.bitRate ∧
        ((∀ x ∈ videoBitRates streams, x ≤ vs.bitRate) → c.qualityRanking = 1) := by
  obtain ⟨st, ctxs, hrun, hf, hlen, hq⟩ :=
    construct_stream segInfo s streams hkeys hwf k vs hmem hv
  refine ⟨st, ctxs, hrun, hf, hlen, ?_⟩
  intro c hc
  have hm := mem_videoBitRates streams (k, vs) hmem hv
  obtain ⟨e1, e2⟩ := qualityLevelOf_eq streams _ hm hsmall
  rw [(hq c hc).1]
  exact ⟨e1, e2, fun hmax => by rw [e2]; exact denseRankFromTop_max _ _ hmax⟩

/-- Witness of C2 as amended: the sample stream at 10 Mbit/s of the two
sample streams. -/
theorem qualityRanking_eq_denseRank_witness :
    ∃ st ctxs,
      ConstructTileTrackSegCtx twoStreams (DefaultSegmentation.fresh sampleSegInfo 1) =
        some (ERROR_NONE, st) ∧
      mapFind 0 st.m_streamSegCtx = some ctxs ∧
      ctxs.length = tilesNum (sampleStream 10000000 2 2 0) ∧
      ∀ c ∈ ctxs,
        c.qualityRanking =
          distinctCount (videoBitRates twoStreams) -
            ascendingPosition (videoBitRates twoStreams)
              (sampleStream 10000000 2 2 0).bitRate ∧
        c.qualityRanking =
          denseRankFromTop (videoBitRates twoStreams) (sampleStream 10000000 2 2 0).bitRate ∧
        ((∀ x ∈ videoBitRates twoStreams, x ≤ (sampleStream 10000000 2 2 0).bitRate) →
          c.qualityRanking = 1) :=
  qualityRanking_eq_denseRank sampleSegInfo 1 twoStreams
    (by unfold keysAscending mapKeys twoStreams; decide) (by decide) (by decide) 0
    (sampleStream 10000000 2 2 0) (by simp [twoStreams]) rfl

/-- C3, as stated, fails on the two sample streams: the stream with the lowest
bit rate (5 Mbit/s, key 1) is not ranked 1; its tiles are ranked 2. -/
theorem lowest_bitRate_ranked_last :
    ∃ st ctxs,
      ConstructTileTrackSegCtx twoStreams (DefaultSegmentation.fresh sampleSegInfo 1) =
        some (ERROR_NONE, st) ∧
      (1, sampleStream 5000000 2 2 0) ∈ twoStreams ∧
      (∀ x ∈ videoBitRates twoStreams, (sampleStream 5000000 2 2 0).bitRate ≤ x) ∧
      mapFind 1 st.m_streamSegCtx = some ctxs ∧ ctxs.length = 4 ∧
      ∀ c ∈ ctxs, c.qualityRanking = 2 ∧ c.qualityRanking ≠ 1 := by
  obtain ⟨st, ctxs, hrun, hf, hlen, hq⟩ := construct_stream sampleSegInfo 1 twoStreams
    twoStreams_keys twoStreams_wellFormed 1 (sampleStream 5000000 2 2 0)
    (by simp [twoStreams]) rfl
  refine ⟨st, ctxs, hrun, by simp [twoStreams], by decide, hf, hlen, ?_⟩
  intro c hc
  have h2 : c.qualityRanking = 2 := by
    rw [(hq c hc).1]; decide
  exact ⟨h2, by omega⟩

/-- C3, amended: when the video streams have at most 255 distinct bit rates,
`ConstructTileTrackSegCtx` ranks in descending order of bit rate: the tiles of
a stream with the highest bit rate get `qualityRanking` 1, the tiles of a
stream B whose bit rate is the next distinct one below that of a stream A get
the rank of A plus 1, and the tiles of a stream with the lowest bit rate get
the number of distinct bit rates. -/
theorem qualityRanking_descending (segInfo : SegmentationInfo) (s : Nat)
    (streams : List (Nat × MediaStream)) (hkeys : keysAscending streams)
    (hwf : allVideo streamWellFormed streams = true)
    (hsmall : distinctCount (videoBitRates streams) ≤ 255)
    (a b : Nat) (A B : MediaStream) (hA : (a, A) ∈ streams) (hB : (b, B) ∈ streams)
    (hvA : A.mediaType = MediaType.VIDEOTYPE) (hvB : B.mediaType = MediaType.VIDEOTYPE) :
    ∃ st ctxsA ctxsB,
      ConstructTileTrackSegCtx streams (DefaultSegmentation.fresh segInfo s) =
        some (ERROR_NONE, st) ∧
      mapFind a st.m_streamSegCtx = some ctxsA ∧ mapFind b st.m_streamSegCtx = some ctxsB ∧
      ctxsA.length = tilesNum A ∧ ctxsB.length = tilesNum B ∧
      ∀ cA ∈ ctxsA, ∀ cB ∈ ctxsB,
        ((∀ x ∈ videoBitRates streams, x ≤ A.bitRate) → cA.qualityRanking = 1) ∧
        ((∀ x ∈ videoBitRates streams, A.bitRate ≤ x) →
          cA.qualityRanking = distinctCount (videoBitRates streams)) ∧
        (B.bitRate < A.bitRate →
          (∀ x ∈ videoBitRates streams, ¬ (B.bitRate < x ∧ x < A.bitRate)) →
          cB.qualityRanking = cA.qualityRanking + 1) := by
  obtain ⟨st, ctxsA, hrun, hfA, hlenA, hqA⟩ :=
    construct_stream segInfo s streams hkeys hwf a A hA hvA
  obtain ⟨st2, ctxsB, hrun2, hfB, hlenB, hqB⟩ :=
    construct_stream segInfo s streams hkeys hwf b B hB hvB
  rw [hrun] at hrun2
  injection hrun2 with hrun2
  injection hrun2 with _ hst
  subst hst
  refine ⟨st, ctxsA, ctxsB, hrun, hfA, hfB, hlenA, hlenB, ?_⟩
  intro cA hcA cB hcB
  have hmA := mem_videoBitRates streams (a, A) hA hvA
  have hmB := mem_videoBitRates streams (b, B) hB hvB
  obtain ⟨a1, a2⟩ := qualityLevelOf_eq streams _ hmA hsmall
  obtain ⟨_, b2⟩ := qualityLevelOf_eq streams _ hmB hsmall
  rw [(hqA cA hcA).1, (hqB cB hcB).1]
  refine ⟨fun hmax => ?_, fun hmin => ?_, fun hlt hbetween => ?_⟩
  · rw [a2]; exact denseRankFromTop_max _ _ hmax
  · rw [a1, ascendingPosition_min _ _ hmin]; rfl
  · rw [a2, b2]; exact denseRankFromTop_succ _ _ _ hmA hlt hbetween

/-- Witness of C3 as amended: the two sample streams, A at 10 Mbit/s and B at
5 Mbit/s. -/
theorem qualityRanking_descending_witness :
    ∃ st ctxsA ctxsB,
      ConstructTileTrackSegCtx twoStreams (DefaultSegmentation.fresh sampleSegInfo 1) =
        some (ERROR_NONE, st) ∧
      mapFind 0 st.m_streamSegCtx = some ctxsA ∧ mapFind 1 st.m_streamSegCtx = some ctxsB ∧
      ctxsA.length = tilesNum (sampleStream 10000000 2 2 0) ∧
      ctxsB.length = tilesNum (sampleStream 5000000 2 2 0) ∧
      ∀ cA ∈ ctxsA, ∀ cB ∈ ctxsB,
        ((∀ x ∈ videoBitRates twoStreams, x ≤ (sampleStream 10000000 2 2 0).bitRate) →
          cA.qualityRanking = 1) ∧
        ((∀ x ∈ videoBitRates twoStreams, (sampleStream 10000000 2 2 0).bitRate ≤ x) →
          cA.qualityRanking = distinctCount (videoBitRates twoStreams)) ∧
        ((sampleStream 5000000 2 2 0).bitRate < (sampleStream 10000000 2 2 0).bitRate →
          (∀ x ∈ videoBitRates twoStreams,
            ¬ ((sampleStream 5000000 2 2 0).bitRate < x ∧
              x < (sampleStream 10000000 2 2 0).bitRate)) →
          cB.qualityRanking = cA.qualityRanking + 1) :=
  qualityRanking_descending sampleSegInfo 1 twoStreams
    (by unfold keysAscending mapKeys twoStreams; decide) (by decide) (by decide) 0 1
    (sampleStream 10000000 2 2 0) (sampleStream 5000000 2 2 0) (by simp [twoStreams])
    (by simp [twoStreams]) rfl rfl

/-! ## Claim C4: the tile bit rates -/

theorem sumAvgBitrate_const (ctxs : List TrackSegmentCtx) (q : Nat)
    (h : ∀ c ∈ ctxs, c.codedMeta.bitrate.avgBitrate = q) :
    sumAvgBitrate ctxs = ctxs.length * q := by
  unfold sumAvgBitrate
  induction ctxs with
  | nil => simp
  | cons c rest ih =>
    have h1 := h c (List.mem_cons_self _ _)
    have h2 := ih (fun x hx => h x (List.mem_cons_of_mem _ hx))
    simp only [List.map_cons, List.sum_cons, List.length_cons, h1, h2]
    ring

/-- C4, as stated, fails on a stream of 2 by 2 tiles with bit rate 10: every
tile gets 10 / 4 = 2 and the four tiles sum to 8, not to 10. -/
theorem tile_bitrates_sum_short :
    ∃ st ctxs,
      ConstructTileTrackSegCtx oddStreams (DefaultSegmentation.fresh sampleSegInfo 1) =
        some (ERROR_NONE, st) ∧
      1 ≤ tilesNum (sampleStream 10 2 2 0) ∧
      mapFind 0 st.m_streamSegCtx = some ctxs ∧
      sumAvgBitrate ctxs = 8 ∧ sumAvgBitrate ctxs ≠ (sampleStream 10 2 2 0).bitRate := by
  obtain ⟨st, ctxs, hrun, hf, hlen, hq⟩ := construct_stream sampleSegInfo 1 oddStreams
    (by unfold keysAscending mapKeys oddStreams; decide) (by decide) 0
    (sampleStream 10 2 2 0) (by simp [oddStreams]) rfl
  have hsum := sumAvgBitrate_const ctxs _ (fun c hc => (hq c hc).2)
  rw [hlen] at hsum
  have h8 : sumAvgBitrate ctxs = 8 := by rw [hsum]; decide
  exact ⟨st, ctxs, hrun, by decide, hf, h8, by rw [h8]; decide⟩

/-- C4, amended: for every video stream the sum over its tile-track contexts
of `codedMeta.bitrate.avgBitrate` (each `bitRate / tilesNum`) is the stream's
bit rate less the remainder `bitRate % tilesNum`; it never exceeds the bit
rate and equals it exactly when `tilesNum` divides the bit rate. -/
theorem tile_bitrates_sum (segInfo : SegmentationInfo) (s : Nat)
    (streams : List (Nat × MediaStream)) (hkeys : keysAscending streams)
    (hwf : allVideo streamWellFormed streams = true)
    (k : Nat) (vs : MediaStream) (hmem : (k, vs) ∈ streams)
    (hv : vs.mediaType = MediaType.VIDEOTYPE) :
    ∃ st ctxs,
      ConstructTileTrackSegCtx streams (DefaultSegmentation.fresh segInfo s) =
        some (ERROR_NONE, st) ∧
      mapFind k st.m_streamSegCtx = some ctxs ∧ ctxs.length = tilesNum vs ∧
      (∀ c ∈ ctxs, c.codedMeta.bitrate.avgBitrate = vs.bitRate / tilesNum vs) ∧
      sumAvgBitrate ctxs = vs.bitRate - vs.bitRate % tilesNum vs ∧
      sumAvgBitrate ctxs ≤ vs.bitRate ∧
      (sumAvgBitrate ctxs = vs.bitRate ↔ tilesNum vs ∣ vs.bitRate) := by
  obtain ⟨st, ctxs, hrun, hf, hlen, hq⟩ :=
    construct_stream segInfo s streams hkeys hwf k vs hmem hv
  have hsum := sumAvgBitrate_const ctxs _ (fun c hc => (hq c hc).2)
  rw [hlen] at hsum
  have hdm := Nat.div_add_mod vs.bitRate (tilesNum vs)
  have hmod : vs.bitRate % tilesNum vs ≤ vs.bitRate := Nat.mod_le _ _
  refine ⟨st, ctxs, hrun, hf, hlen, fun c hc => (hq c hc).2, ?_, ?_, ?_⟩
  · rw [hsum]; omega
  · rw [hsum]; omega
  · rw [hsum, Nat.dvd_iff_mod_eq_zero]
    constructor
    · intro h; omega
    · intro h; omega

/-- Witness of C4 as amended: the sample stream at 10 Mbit/s with 4 tiles. -/
theorem tile_bitrates_sum_witness :
    ∃ st ctxs,
      ConstructTileTrackSegCtx twoStreams (DefaultSegmentation.fresh sampleSegInfo 1) =
        some (ERROR_NONE, st) ∧
      mapFind 0 st.m_streamSegCtx = some ctxs ∧
      ctxs.length = tilesNum (sampleStream 10000000 2 2 0) ∧
      (∀ c ∈ ctxs, c.codedMeta.bitrate.avgBitrate =
        (sampleStream 10000000 2 2 0).bitRate / tilesNum (sampleStream 10000000 2 2 0)) ∧
      sumAvgBitrate ctxs =
        (sampleStream 10000000 2 2 0).bitRate -
          (sampleStream 10000000 2 2 0).bitRate % tilesNum (sampleStream 10000000 2 2 0) ∧
      sumAvgBitrate ctxs ≤ (sampleStream 10000000 2 2 0).bitRate ∧
      (sumAvgBitrate ctxs = (sampleStream 10000000 2 2 0).bitRate ↔
        tilesNum (sampleStream 10000000 2 2 0) ∣ (sampleStream 10000000 2 2 0).bitRate) :=
  tile_bitrates_sum sampleSegInfo 1 twoStreams
    (by unfold keysAscending mapKeys twoStreams; decide) (by decide) 0
    (sampleStream 10000000 2 2 0) (by simp [twoStreams]) rfl

/-! ## Claim C5: the region packing of a tile track -/

/-- C5: for every video stream and every tile index `i < tilesNum`, the
region packing stored in the coded metadata of tile track `i` has exactly one
region; its projected and packed top, left, width, height and its transform
are those of region `i` of the stream's source packing, and the projected and
packed picture sizes are those of the source packing. -/
theorem tile_regionPacking_single (segInfo : SegmentationInfo) (s : Nat)
    (streams : List (Nat × MediaStream)) (hkeys : keysAscending streams)
    (hwf : allVideo streamWellFormed streams = true)
    (k : Nat) (vs : MediaStream) (hmem : (k, vs) ∈ streams)
    (hv : vs.mediaType = MediaType.VIDEOTYPE) (i : Nat) (hi : i < tilesNum vs) :
    ∃ st ctxs c rwpk rect rp r,
      ConstructTileTrackSegCtx streams (DefaultSegmentation.fresh segInfo s) =
        some (ERROR_NONE, st) ∧
      mapFind k st.m_streamSegCtx = some ctxs ∧ ctxs[i]? = some c ∧
      vs.srcRwpk = some rwpk ∧ rwpk.rectRegionPacking[i]? = some rect ∧
      c.codedMeta.regionPacking = some rp ∧ rp.regions = [r] ∧
      r.projTop = rect.projRegTop ∧ r.projLeft = rect.projRegLeft ∧
      r.projWidth = rect.projRegWidth ∧ r.projHeight = rect.projRegHeight ∧
      r.packedTop = rect.packedRegTop ∧ r.packedLeft = rect.packedRegLeft ∧
      r.packedWidth = rect.packedRegWidth ∧ r.packedHeight = rect.packedRegHeight ∧
      r.transform = rect.transformType ∧
      rp.projPictureWidth = rwpk.projPicWidth ∧ rp.projPictureHeight = rwpk.projPicHeight ∧
      rp.packedPictureWidth = rwpk.packedPicWidth ∧
      rp.packedPictureHeight = rwpk.packedPicHeight := by
  obtain ⟨pre, post, hsplit⟩ := List.append_of_mem hmem
  subst hsplit
  have hwfk := streamWellFormed_parts vs (allVideo_mem _ _ hwf (k, vs) hmem hv)
  have hta := (streamReady_parts vs hwfk.1).2.2.2.2
  obtain ⟨ti, rwpk, rect, h1, h2, h3⟩ := tilesAllocated_reads vs hta i hi
  obtain ⟨c, hc, _, _, _, _, _, _, _, _, _, hrp⟩ :=
    tileCtx_fields segInfo k vs (s + totalTiles pre)
      (qualityLevelOf (bitRateRanking (pre ++ (k, vs) :: post)) vs.bitRate)
      ((projectionOf vs.projType).getD OmafProjectionType.EQUIRECTANGULAR) i ti rwpk rect
      h1 h2 h3
  refine ⟨_, _, c, rwpk, rect, _, convertRegion rect, construct_ok _ _ hwf,
    (construct_find segInfo s pre post k vs hkeys hv _).1, ?_, h2, h3, hrp, rfl,
    rfl, rfl, rfl, rfl, rfl, rfl, rfl, rfl, rfl, rfl, rfl, rfl, rfl⟩
  rw [(tileCtxs_getElem _ _ _ _ _ _ hta).2 i hi]
  exact hc

/-- Witness of C5: tile 3 of the sample stream with key 1. -/
theorem tile_regionPacking_single_witness :
    ∃ st ctxs c rwpk rect rp r,
      ConstructTileTrackSegCtx twoStreams (DefaultSegmentation.fresh sampleSegInfo 1) =
        some (ERROR_NONE, st) ∧
      mapFind 1 st.m_streamSegCtx = some ctxs ∧ ctxs[3]? = some c ∧
      (sampleStream 5000000 2 2 0).srcRwpk = some rwpk ∧
      rwpk.rectRegionPacking[3]? = some rect ∧
      c.codedMeta.regionPacking = some rp ∧ rp.regions = [r] ∧
      r.projTop = rect.projRegTop ∧ r.projLeft = rect.projRegLeft ∧
      r.projWidth = rect.projRegWidth ∧ r.projHeight = rect.projRegHeight ∧
      r.packedTop = rect.packedRegTop ∧ r.packedLeft = rect.packedRegLeft ∧
      r.packedWidth = rect.packedRegWidth ∧ r.packedHeight = rect.packedRegHeight ∧
      r.transform = rect.transformType ∧
      rp.projPictureWidth = rwpk.projPicWidth ∧ rp.projPictureHeight = rwpk.projPicHeight ∧
      rp.packedPictureWidth = rwpk.packedPicWidth ∧
      rp.packedPictureHeight = rwpk.packedPicHeight :=
  tile_regionPacking_single sampleSegInfo 1 twoStreams
    (by unfold keysAscending mapKeys twoStreams; decide) (by decide) 1
    (sampleStream 5000000 2 2 0) (by simp [twoStreams]) rfl 3 (by decide)

/-! ## Claim C6: the track ids -/

theorem construct_index_inverse (segInfo : SegmentationInfo) (s : Nat)
    (streams : List (Nat × MediaStream)) (hkeys : keysAscending streams)
    (k : Nat) (idx : List (Nat × Nat)) (i t : Nat)
    (hk : mapFind k (streamsDone (bitRateRanking streams) streams
      (DefaultSegmentation.fresh segInfo s)).m_tilesTrackIdxs = some idx)
    (hi : mapFind i idx = some t) :
    mapFind t (streamsDone (bitRateRanking streams) streams
      (DefaultSegmentation.fresh segInfo s)).m_trackSegCtx = some (k, i) := by
  have hmem : k ∈ mapKeys (streamsDone (bitRateRanking streams) streams
      (DefaultSegmentation.fresh segInfo s)).m_tilesTrackIdxs := by
    by_contra hc
    rw [(mapFind_eq_none_iff _ _).2 hc] at hk
    cases hk
  rw [(streamsDone_keys _ streams _ k).2] at hmem
  rcases hmem with h | ⟨e, he, hv, hek⟩
  · simp [DefaultSegmentation.fresh, mapKeys] at h
  · obtain ⟨k2, vs⟩ := e
    simp only at hek hv
    subst hek
    obtain ⟨pre, post, hsplit⟩ := List.append_of_mem he
    have hf := (construct_find segInfo s pre post k2 vs (hsplit ▸ hkeys) hv
      (bitRateRanking streams)).2
    rw [← hsplit, hk] at hf
    injection hf with hf
    subst hf
    rw [mapFind_tilesTrackIndex] at hi
    by_cases hlt : i < tilesNum vs
    · rw [if_pos hlt] at hi
      injection hi with hi
      subst hi
      have := streamsDone_track_find (bitRateRanking streams) pre post k2 vs segInfo s hv i hlt
      rw [← hsplit] at this
      exact this
    · rw [if_neg hlt] at hi
      cases hi

/-- C6: started with the track-id counter at `s`, `ConstructTileTrackSegCtx`
gives tile `i` of a video stream the track id `s` + (number of tiles of the
video streams before it in the stream map) + `i`, both in the context and in
the recorded index, and leaves the counter at `s` + (total number of tiles);
the recorded index (stream index, tile index) to track id is injective and
the registered tile-track ids are exactly the ids `t` with
`s ≤ t < s + total`. -/
theorem trackIds_contiguous (segInfo : SegmentationInfo) (s : Nat)
    (streams : List (Nat × MediaStream)) (hkeys : keysAscending streams)
    (hwf : allVideo streamWellFormed streams = true) :
    ∃ st,
      ConstructTileTrackSegCtx streams (DefaultSegmentation.fresh segInfo s) =
        some (ERROR_NONE, st) ∧
      st.m_trackIdStarter = s + totalTiles streams ∧
      (∀ pre k vs post, streams = pre ++ (k, vs) :: post →
        vs.mediaType = MediaType.VIDEOTYPE → ∀ i, i < tilesNum vs →
        ∃ idx ctxs c,
          mapFind k st.m_tilesTrackIdxs = some idx ∧
          mapFind i idx = some (s + totalTiles pre + i) ∧
          mapFind k st.m_streamSegCtx = some ctxs ∧ ctxs[i]? = some c ∧
          c.trackIdx = s + totalTiles pre + i ∧
          mapFind (s + totalTiles pre + i) st.m_trackSegCtx = some (k, i)) ∧
      (∀ k1 k2 idx1 idx2 i1 i2 t,
        mapFind k1 st.m_tilesTrackIdxs = some idx1 → mapFind i1 idx1 = some t →
        mapFind k2 st.m_tilesTrackIdxs = some idx2 → mapFind i2 idx2 = some t →
        k1 = k2 ∧ i1 = i2) ∧
      (∀ t, t ∈ mapKeys st.m_trackSegCtx ↔ s ≤ t ∧ t < s + totalTiles streams) ∧
      (∀ t, t ∈ mapKeys st.m_allTileTracks ↔ s ≤ t ∧ t < s + totalTiles streams) := by
  refine ⟨_, construct_ok _ _ hwf, ?_, ?_, ?_, ?_, ?_⟩
  · exact (streamsDone_starter _ streams _).1
  · intro pre k vs post hsplit hv i hi
    subst hsplit
    have hmem : (k, vs) ∈ pre ++ (k, vs) :: post := by simp
    have hwfk := streamWellFormed_parts vs (allVideo_mem _ _ hwf (k, vs) hmem hv)
    have hta := (streamReady_parts vs hwfk.1).2.2.2.2
    obtain ⟨f1, f2⟩ := construct_find segInfo s pre post k vs hkeys hv
      (bitRateRanking (pre ++ (k, vs) :: post))
    obtain ⟨c, hc⟩ := tileCtx_isSome segInfo k vs (s + totalTiles pre)
      (qualityLevelOf (bitRateRanking (pre ++ (k, vs) :: post)) vs.bitRate)
      ((projectionOf vs.projType).getD OmafProjectionType.EQUIRECTANGULAR) hta i hi
    refine ⟨_, _, c, f2, ?_, f1, ?_, (tileCtx_some_fields _ _ _ _ _ _ _ c hc).2.1,
      streamsDone_track_find _ pre post k vs segInfo s hv i hi⟩
    · rw [mapFind_tilesTrackIndex, if_pos hi]
    · rw [(tileCtxs_getElem _ _ _ _ _ _ hta).2 i hi]
      exact hc
  · intro k1 k2 idx1 idx2 i1 i2 t h1 h2 h3 h4
    have e1 := construct_index_inverse segInfo s streams hkeys k1 idx1 i1 t h1 h2
    have e2 := construct_index_inverse segInfo s streams hkeys k2 idx2 i2 t h3 h4
    rw [e1] at e2
    injection e2 with e2
    injection e2 with e3 e4
    exact ⟨e3, e4⟩
  · intro t
    rw [(streamsDone_trackKeys _ streams _ t).1]
    simp [DefaultSegmentation.fresh, mapKeys]
  · intro t
    rw [(streamsDone_trackKeys _ streams _ t).2]
    simp [DefaultSegmentation.fresh, mapKeys]

/-- Witness of C6: two streams of 2 by 2 tiles with the counter at 1 give the
ids 1 to 8. -/
theorem trackIds_contiguous_witness :
    totalTiles twoStreams = 8 ∧ ∃ st,
      ConstructTileTrackSegCtx twoStreams (DefaultSegmentation.fresh sampleSegInfo 1) =
        some (ERROR_NONE, st) ∧
      st.m_trackIdStarter = 1 + totalTiles twoStreams ∧
      (∀ pre k vs post, twoStreams = pre ++ (k, vs) :: post →
        vs.mediaType = MediaType.VIDEOTYPE → ∀ i, i < tilesNum vs →
        ∃ idx ctxs c,
          mapFind k st.m_tilesTrackIdxs = some idx ∧
          mapFind i idx = some (1 + totalTiles pre + i) ∧
          mapFind k st.m_streamSegCtx = some ctxs ∧ ctxs[i]? = some c ∧
          c.trackIdx = 1 + totalTiles pre + i ∧
          mapFind (1 + totalTiles pre + i) st.m_trackSegCtx = some (k, i)) ∧
      (∀ k1 k2 idx1 idx2 i1 i2 t,
        mapFind k1 st.m_tilesTrackIdxs = some idx1 → mapFind i1 idx1 = some t →
        mapFind k2 st.m_tilesTrackIdxs = some idx2 → mapFind i2 idx2 = some t →
        k1 = k2 ∧ i1 = i2) ∧
      (∀ t, t ∈ mapKeys st.m_trackSegCtx ↔ 1 ≤ t ∧ t < 1 + totalTiles twoStreams) ∧
      (∀ t, t ∈ mapKeys st.m_allTileTracks ↔ 1 ≤ t ∧ t < 1 + totalTiles twoStreams) :=
  ⟨by decide, trackIds_contiguous sampleSegInfo 1 twoStreams
    (by unfold keysAscending mapKeys twoStreams; decide) (by decide)⟩

/-! ## Claim C7: the header checks -/

theorem naluMissing_eq_false_iff (n : Option Nalu) : naluMissing n = false ↔ naluValid n := by
  unfold naluValid
  cases n with
  | none => simp [naluMissing]
  | some x =>
    cases hd : x.data with
    | none => simp [naluMissing, hd]
    | some d => simp [naluMissing, hd]

theorem headersPresent_iff (vs : MediaStream) :
    headersPresent vs = true ↔
      naluValid (GetVPSNalu vs) ∧ naluValid (GetSPSNalu vs) ∧ naluValid (GetPPSNalu vs) := by
  simp only [headersPresent, Bool.and_eq_true, Bool.not_eq_true', naluMissing_eq_false_iff]
  tauto

theorem headerCode_ne (vs : MediaStream) : headerCode vs ≠ ERROR_NONE := by
  unfold headerCode
  split
  · simp
  · split <;> simp

theorem construct_header_failure (pre : List (Nat × MediaStream)) (k : Nat)
    (vs : MediaStream) (post : List (Nat × MediaStream)) (st : DefaultSegmentation)
    (hwf : allVideo streamWellFormed pre = true) (hv : vs.mediaType = MediaType.VIDEOTYPE)
    (hh : headersPresent vs = false) :
    ConstructTileTrackSegCtx (pre ++ (k, vs) :: post) st =
      some (headerCode vs,
        { streamsDone (bitRateRanking (pre ++ (k, vs) :: post)) pre st with
          m_frameRate := vs.frameRate
          m_projType := vs.projType
          m_videoSegInfo := some vs.segDur }) := by
  unfold ConstructTileTrackSegCtx
  rw [streamLoop_append _ pre _ st hwf]
  simp only [streamLoop, hv, if_true, streamBody_headers _ k vs _ hh]
  have hne := headerCode_ne vs
  unfold headerCode at hne ⊢
  rw [if_neg hne]

/-- C7: `ConstructTileTrackSegCtx` returns `ERROR_NONE` only if every video
stream has VPS, SPS and PPS handles that are each not null, with data not null
and size not zero. For the first video stream that violates this, the earlier
streams being well formed, it returns `OMAF_ERROR_INVALID_HEADER` if the VPS is
missing or empty, otherwise `OMAF_ERROR_INVALID_SPS` if the SPS is missing or
empty, otherwise `OMAF_ERROR_INVALID_PPS`. -/
theorem header_checks (streams : List (Nat × MediaStream)) (st : DefaultSegmentation) :
    (∀ st1, ConstructTileTrackSegCtx streams st = some (ERROR_NONE, st1) →
      ∀ e ∈ streams, e.2.mediaType = MediaType.VIDEOTYPE →
        naluValid (GetVPSNalu e.2) ∧ naluValid (GetSPSNalu e.2) ∧
          naluValid (GetPPSNalu e.2)) ∧
    (∀ pre k vs post, streams = pre ++ (k, vs) :: post →
      allVideo streamWellFormed pre = true → vs.mediaType = MediaType.VIDEOTYPE →
      ¬ (naluValid (GetVPSNalu vs) ∧ naluValid (GetSPSNalu vs) ∧
          naluValid (GetPPSNalu vs)) →
      ∃ code st1, ConstructTileTrackSegCtx streams st = some (code, st1) ∧
        (¬ naluValid (GetVPSNalu vs) → code = OMAF_ERROR_INVALID_HEADER) ∧
        (naluValid (GetVPSNalu vs) → ¬ naluValid (GetSPSNalu vs) →
          code = OMAF_ERROR_INVALID_SPS) ∧
        (naluValid (GetVPSNalu vs) → naluValid (GetSPSNalu vs) →
          code = OMAF_ERROR_INVALID_PPS)) := by
  constructor
  · intro st1 hrun e he hv
    have hall := streamLoop_success_headers _ streams st st1 hrun
    exact (headersPresent_iff e.2).1 (allVideo_mem _ _ hall e he hv)
  · intro pre k vs post hsplit hwf hv hbad
    have hh : headersPresent vs = false := by
      cases hp : headersPresent vs with
      | false => rfl
      | true => exact absurd ((headersPresent_iff vs).1 hp) hbad
    have hrun := construct_header_failure pre k vs post st hwf hv hh
    rw [← hsplit] at hrun
    refine ⟨headerCode vs, _, hrun, ?_, ?_, ?_⟩
    · intro h1
      have : naluMissing (GetVPSNalu vs) = true := by
        cases hm : naluMissing (GetVPSNalu vs) with
        | true => rfl
        | false => exact absurd ((naluMissing_eq_false_iff _).1 hm) h1
      simp [headerCode, this]
    · intro h1 h2
      have e1 : naluMissing (GetVPSNalu vs) = false := (naluMissing_eq_false_iff _).2 h1
      have e2 : naluMissing (GetSPSNalu vs) = true := by
        cases hm : naluMissing (GetSPSNalu vs) with
        | true => rfl
        | false => exact absurd ((naluMissing_eq_false_iff _).1 hm) h2
      simp [headerCode, e1, e2]
    · intro h1 h2
      have e1 : naluMissing (GetVPSNalu vs) = false := (naluMissing_eq_false_iff _).2 h1
      have e2 : naluMissing (GetSPSNalu vs) = false := (naluMissing_eq_false_iff _).2 h2
      simp [headerCode, e1, e2]

/-- Witness of C7: a well-formed stream followed by a stream without SPS gives
`OMAF_ERROR_INVALID_SPS`. -/
theorem header_checks_witness :
    ∃ code st1,
      ConstructTileTrackSegCtx spsMissingStreams
        (DefaultSegmentation.fresh sampleSegInfo 1) = some (code, st1) ∧
      code = OMAF_ERROR_INVALID_SPS := by
  have hvps : naluValid (GetVPSNalu streamWithoutSPS) :=
    ⟨sampleNalu, [0, 0, 0, 1, 64], rfl, rfl, by decide⟩
  have hsps : ¬ naluValid (GetSPSNalu streamWithoutSPS) := by
    rintro ⟨x, d, h, _⟩
    cases h
  obtain ⟨code, st1, hrun, _, h2, _⟩ :=
    (header_checks spsMissingStreams (DefaultSegmentation.fresh sampleSegInfo 1)).2
      [(0, sampleStream 10000000 2 2 0)] 1 streamWithoutSPS [] rfl (by decide) rfl
      (fun h => hsps h.2.1)
  exact ⟨code, st1, hrun, h2 hvps hsps⟩

/-! ## Claim C8: what is retained after `OMAF_ERROR_INVALID_SPS` -/

theorem streamsDone_nonvideo (ranking : List Nat) (pre : List (Nat × MediaStream))
    (st : DefaultSegmentation) (h : ∀ e ∈ pre, e.2.mediaType ≠ MediaType.VIDEOTYPE) :
    streamsDone ranking pre st = st := by
  induction pre with
  | nil => rfl
  | cons e rest ih =>
    obtain ⟨k, ms⟩ := e
    have hv : ¬ ms.mediaType = MediaType.VIDEOTYPE := h (k, ms) (List.mem_cons_self _ _)
    simp only [streamsDone, hv, if_false]
    exact ih (fun x hx => h x (List.mem_cons_of_mem _ hx))

theorem headerCode_sps (vs : MediaStream) (hvps : naluValid (GetVPSNalu vs))
    (hsps : ¬ naluValid (GetSPSNalu vs)) :
    headersPresent vs = false ∧ headerCode vs = OMAF_ERROR_INVALID_SPS := by
  have e1 : naluMissing (GetVPSNalu vs) = false := (naluMissing_eq_false_iff _).2 hvps
  have e2 : naluMissing (GetSPSNalu vs) = true := by
    cases hm : naluMissing (GetSPSNalu vs) with
    | true => rfl
    | false => exact absurd ((naluMissing_eq_false_iff _).1 hm) hsps
  constructor
  · simp [headersPresent, e1, e2]
  · simp [headerCode, e1, e2]

/-- C8, as stated, fails when the stream without SPS is not the first video
stream: on a well-formed stream of 4 tiles followed by a stream without SPS the
function returns `OMAF_ERROR_INVALID_SPS` while the four maps keep the entries
of the first stream. -/
theorem invalid_sps_keeps_earlier_contexts :
    ∃ st1 ctxs,
      ConstructTileTrackSegCtx spsMissingStreams
        (DefaultSegmentation.fresh sampleSegInfo 1) = some (OMAF_ERROR_INVALID_SPS, st1) ∧
      mapFind 0 st1.m_streamSegCtx = some ctxs ∧ ctxs.length = 4 ∧
      0 ∈ mapKeys st1.m_tilesTrackIdxs ∧
      1 ∈ mapKeys st1.m_trackSegCtx ∧ 1 ∈ mapKeys st1.m_allTileTracks := by
  have hvps : naluValid (GetVPSNalu streamWithoutSPS) :=
    ⟨sampleNalu, [0, 0, 0, 1, 64], rfl, rfl, by decide⟩
  have hsps : ¬ naluValid (GetSPSNalu streamWithoutSPS) := by
    rintro ⟨x, d, h, _⟩
    cases h
  obtain ⟨hh, hcode⟩ := headerCode_sps streamWithoutSPS hvps hsps
  have hrun := construct_header_failure [(0, sampleStream 10000000 2 2 0)] 1
    streamWithoutSPS [] (DefaultSegmentation.fresh sampleSegInfo 1) (by decide) rfl hh
  rw [hcode] at hrun
  have hfind := (construct_find sampleSegInfo 1 [] [] 0 (sampleStream 10000000 2 2 0)
    (by unfold keysAscending mapKeys; decide) rfl
    (bitRateRanking ([(0, sampleStream 10000000 2 2 0)] ++ [(1, streamWithoutSPS)]))).1
  refine ⟨_, _, hrun, hfind, ?_, ?_, ?_, ?_⟩
  · exact (tileCtxs_getElem _ _ _ _ _ _ (by decide)).1
  · exact (streamsDone_keys _ _ _ 0).2.2 (Or.inr ⟨_, List.mem_singleton.2 rfl, rfl, rfl⟩)
  · exact (streamsDone_trackKeys _ _ _ 1).1.2 (Or.inr ⟨by decide, by decide⟩)
  · exact (streamsDone_trackKeys _ _ _ 1).2.2 (Or.inr ⟨by decide, by decide⟩)

/-- C8, amended: when `ConstructTileTrackSegCtx`, started with empty context
maps, returns `OMAF_ERROR_INVALID_SPS` for a video stream (the streams before
it being well formed), the maps `m_streamSegCtx`, `m_trackSegCtx`,
`m_allTileTracks` and `m_tilesTrackIdxs` hold exactly the entries of the video
streams before that stream, and none for that stream or a later one; they are
empty when the stream without SPS is the first video stream. -/
theorem invalid_sps_retained (segInfo : SegmentationInfo) (s : Nat)
    (pre : List (Nat × MediaStream)) (k : Nat) (vs : MediaStream)
    (post : List (Nat × MediaStream))
    (hwf : allVideo streamWellFormed pre = true) (hv : vs.mediaType = MediaType.VIDEOTYPE)
    (hvps : naluValid (GetVPSNalu vs)) (hsps : ¬ naluValid (GetSPSNalu vs)) :
    ∃ st1,
      ConstructTileTrackSegCtx (pre ++ (k, vs) :: post)
        (DefaultSegmentation.fresh segInfo s) = some (OMAF_ERROR_INVALID_SPS, st1) ∧
      (∀ x, x ∈ mapKeys st1.m_streamSegCtx ↔
        ∃ e ∈ pre, e.2.mediaType = MediaType.VIDEOTYPE ∧ e.1 = x) ∧
      (∀ x, x ∈ mapKeys st1.m_tilesTrackIdxs ↔
        ∃ e ∈ pre, e.2.mediaType = MediaType.VIDEOTYPE ∧ e.1 = x) ∧
      (∀ t, t ∈ mapKeys st1.m_trackSegCtx ↔ s ≤ t ∧ t < s + totalTiles pre) ∧
      (∀ t, t ∈ mapKeys st1.m_allTileTracks ↔ s ≤ t ∧ t < s + totalTiles pre) ∧
      ((∀ e ∈ pre, e.2.mediaType ≠ MediaType.VIDEOTYPE) →
        st1.m_streamSegCtx = [] ∧ st1.m_trackSegCtx = [] ∧ st1.m_allTileTracks = [] ∧
          st1.m_tilesTrackIdxs = []) := by
  obtain ⟨hh, hcode⟩ := headerCode_sps vs hvps hsps
  have hrun := construct_header_failure pre k vs post (DefaultSegmentation.fresh segInfo s)
    hwf hv hh
  rw [hcode] at hrun
  refine ⟨_, hrun, ?_, ?_, ?_, ?_, ?_⟩
  · intro x
    have := (streamsDone_keys (bitRateRanking (pre ++ (k, vs) :: post)) pre
      (DefaultSegmentation.fresh segInfo s) x).1
    simpa [DefaultSegmentation.fresh, mapKeys] using this
  · intro x
    have := (streamsDone_keys (bitRateRanking (pre ++ (k, vs) :: post)) pre
      (DefaultSegmentation.fresh segInfo s) x).2
    simpa [DefaultSegmentation.fresh, mapKeys] using this
  · intro t
    have := (streamsDone_trackKeys (bitRateRanking (pre ++ (k, vs) :: post)) pre
      (DefaultSegmentation.fresh segInfo s) t).1
    simpa [DefaultSegmentation.fresh, mapKeys] using this
  · intro t
    have := (streamsDone_trackKeys (bitRateRanking (pre ++ (k, vs) :: post)) pre
      (DefaultSegmentation.fresh segInfo s) t).2
    simpa [DefaultSegmentation.fresh, mapKeys] using this
  · intro hnone
    rw [streamsDone_nonvideo _ pre _ hnone]
    exact ⟨rfl, rfl, rfl, rfl⟩

/-- Witness of C8 as amended: a well-formed stream followed by a stream
without SPS. -/
theorem invalid_sps_retained_witness :
    ∃ st1,
      ConstructTileTrackSegCtx ([(0, sampleStream 10000000 2 2 0)] ++ (1, streamWithoutSPS) :: [])
        (DefaultSegmentation.fresh sampleSegInfo 1) = some (OMAF_ERROR_INVALID_SPS, st1) ∧
      (∀ x, x ∈ mapKeys st1.m_streamSegCtx ↔
        ∃ e ∈ [(0, sampleStream 10000000 2 2 0)],
          e.2.mediaType = MediaType.VIDEOTYPE ∧ e.1 = x) ∧
      (∀ x, x ∈ mapKeys st1.m_tilesTrackIdxs ↔
        ∃ e ∈ [(0, sampleStream 10000000 2 2 0)],
          e.2.mediaType = MediaType.VIDEOTYPE ∧ e.1 = x) ∧
      (∀ t, t ∈ mapKeys st1.m_trackSegCtx ↔
        1 ≤ t ∧ t < 1 + totalTiles [(0, sampleStream 10000000 2 2 0)]) ∧
      (∀ t, t ∈ mapKeys st1.m_allTileTracks ↔
        1 ≤ t ∧ t < 1 + totalTiles [(0, sampleStream 10000000 2 2 0)]) ∧
      ((∀ e ∈ [(0, sampleStream 10000000 2 2 0)], e.2.mediaType ≠ MediaType.VIDEOTYPE) →
        st1.m_streamSegCtx = [] ∧ st1.m_trackSegCtx = [] ∧ st1.m_allTileTracks = [] ∧
          st1.m_tilesTrackIdxs = []) :=
  invalid_sps_retained sampleSegInfo 1 [(0, sampleStream 10000000 2 2 0)] 1
    streamWithoutSPS [] (by decide) rfl
    ⟨sampleNalu, [0, 0, 0, 1, 64], rfl, rfl, by decide⟩
    (fun h => by obtain ⟨x, d, h1, _⟩ := h; cases h1)

/-! ## Claim C9: a projection that is neither ERP nor CUBEMAP -/

theorem projectionOf_eq_none_iff (p : Nat) :
    projectionOf p = none ↔ p ≠ PF_ERP ∧ p ≠ PF_CUBEMAP := by
  unfold projectionOf
  by_cases h1 : p = PF_ERP
  · simp [h1]
  · by_cases h2 : p = PF_CUBEMAP
    · subst h2
      simp [PF_ERP, PF_CUBEMAP]
    · simp [h1, h2]

theorem streamLoop_badProjection (ranking : List Nat) (streams : List (Nat × MediaStream)) :
    ∀ st : DefaultSegmentation, allVideo streamReady streams = true →
      (∃ e ∈ streams, e.2.mediaType = MediaType.VIDEOTYPE ∧ projectionOf e.2.projType = none) →
      ∃ st1, streamLoop ranking streams st =
        some (OMAF_ERROR_INVALID_PROJECTIONTYPE, st1) := by
  induction streams with
  | nil =>
    intro st _ hbad
    obtain ⟨e, he, _⟩ := hbad
    cases he
  | cons e rest ih =>
    intro st hready hbad
    obtain ⟨k, ms⟩ := e
    rw [allVideo_cons] at hready
    have hrest : ¬ (ms.mediaType = MediaType.VIDEOTYPE ∧ projectionOf ms.projType = none) →
        ∃ e ∈ rest, e.2.mediaType = MediaType.VIDEOTYPE ∧ projectionOf e.2.projType = none := by
      intro hn
      obtain ⟨e, he, hv, hp⟩ := hbad
      rcases List.mem_cons.1 he with rfl | hm
      · exact absurd ⟨hv, hp⟩ hn
      · exact ⟨e, hm, hv, hp⟩
    by_cases hv : ms.mediaType = MediaType.VIDEOTYPE
    · have hr := hready.1 hv
      cases hp : projectionOf ms.projType with
      | none =>
        have hb := streamBody_badProjection ranking k ms st hr hp
        exact ⟨_, by simp only [streamLoop, hv, if_true, hb]; rw [if_neg (by simp)]⟩
      | some p =>
        obtain ⟨st1, h1⟩ := ih (streamDone ranking k ms p st) hready.2
          (hrest (fun h => by rw [hp] at h; cases h.2))
        refine ⟨st1, ?_⟩
        simp only [streamLoop, hv, if_true, streamBody_ok ranking k ms p st hr hp]
        exact h1
    · obtain ⟨st1, h1⟩ := ih st hready.2 (hrest (fun h => hv h.1))
      refine ⟨st1, ?_⟩
      simp only [streamLoop, hv, if_false]
      exact h1

/-- C9: when every video stream has valid VPS, SPS and PPS, at least one tile
and its tile and region arrays allocated, and some video stream reports a
projection type that is neither ERP nor CUBEMAP, `VideoSegmentation` returns
`OMAF_ERROR_INVALID_PROJECTIONTYPE` without any call to `GenerateInitSegment` or
`SegmentData`, whatever the collaborators and the frame loop would do. -/
theorem videoSegmentation_badProjection (K : Constants) (C : Collaborators)
    (frameLoop : DefaultSegmentation → List WriterCall → PhaseResult)
    (streams : List (Nat × MediaStream)) (extractorTracks : List (Nat × ExtractorTrack))
    (st : DefaultSegmentation) (hready : allVideo streamReady streams = true)
    (hbad : ∃ e ∈ streams, e.2.mediaType = MediaType.VIDEOTYPE ∧
      e.2.projType ≠ PF_ERP ∧ e.2.projType ≠ PF_CUBEMAP) :
    ∃ st1, VideoSegmentation K C frameLoop streams extractorTracks st =
      some (OMAF_ERROR_INVALID_PROJECTIONTYPE, st1, []) := by
  obtain ⟨e, he, hv, hp⟩ := hbad
  obtain ⟨st1, h1⟩ := streamLoop_badProjection (bitRateRanking streams) streams st hready
    ⟨e, he, hv, (projectionOf_eq_none_iff _).2 hp⟩
  refine ⟨st1, ?_⟩
  unfold VideoSegmentation ConstructTileTrackSegCtx
  rw [h1]
  simp

/-- Witness of C9: an ERP stream followed by a stream that reports
projection 2. -/
theorem videoSegmentation_badProjection_witness :
    ∃ st1, VideoSegmentation sampleConstants sampleCollaborators (fun _ _ => none)
        badProjectionStreams [] (DefaultSegmentation.fresh sampleSegInfo 1) =
      some (OMAF_ERROR_INVALID_PROJECTIONTYPE, st1, []) :=
  videoSegmentation_badProjection sampleConstants sampleCollaborators (fun _ _ => none)
    badProjectionStreams [] (DefaultSegmentation.fresh sampleSegInfo 1) (by decide)
    ⟨(1, sampleStream 5000000 2 2 2), by simp [badProjectionStreams], rfl, by decide,
      by decide⟩

/-! ## Claim C10: tile references that do not resolve -/

theorem scanTiles_code (K : Constants) (idxs : List (Nat × List (Nat × Nat)))
    (col : List SingleTile) :
    ∀ refs : List Nat,
      ((scanTiles K idxs col refs).1 = ERROR_NONE ∧
        ∀ t ∈ col, mapFind (t.streamIdxInMedia % 256) idxs ≠ none) ∨
      ((scanTiles K idxs col refs).1 = OMAF_ERROR_STREAM_NOT_FOUND ∧
        ∃ t ∈ col, mapFind (t.streamIdxInMedia % 256) idxs = none) := by
  induction col with
  | nil => intro refs; exact Or.inl ⟨rfl, fun t ht => by cases ht⟩
  | cons tile rest ih =>
    intro refs
    cases hf : mapFind (tile.streamIdxInMedia % 256) idxs with
    | none =>
      refine Or.inr ⟨?_, tile, List.mem_cons_self _ _, hf⟩
      simp [scanTiles, hf]
    | some tilesIndex =>
      have hstep : scanTiles K idxs (tile :: rest) refs =
          scanTiles K idxs rest
            (refs ++ [(mapIndex K.defaultTrackId (tile.origTileIdx % 256) tilesIndex).1]) := by
        simp [scanTiles, hf]
      rw [hstep]
      rcases ih (refs ++ [(mapIndex K.defaultTrackId (tile.origTileIdx % 256) tilesIndex).1])
        with ⟨h1, h2⟩ | ⟨h1, t, ht, h2⟩
      · refine Or.inl ⟨h1, fun t ht => ?_⟩
        rcases List.mem_cons.1 ht with rfl | hm
        · rw [hf]; simp
        · exact h2 t hm
      · exact Or.inr ⟨h1, t, List.mem_cons_of_mem _ ht, h2⟩

theorem scanCols_unknown_stream (K : Constants) (idxs : List (Nat × List (Nat × Nat)))
    (cols : List (List SingleTile)) :
    ∀ refs : List Nat,
      (∃ col ∈ cols, ∃ t ∈ col, mapFind (t.streamIdxInMedia % 256) idxs = none) →
      (scanCols K idxs cols refs).1 = OMAF_ERROR_STREAM_NOT_FOUND := by
  induction cols with
  | nil => intro refs h; obtain ⟨col, hc, _⟩ := h; cases hc
  | cons col rest ih =>
    intro refs h
    rcases scanTiles_code K idxs col refs with ⟨h1, h2⟩ | ⟨h1, _⟩
    · have hrest : ∃ c ∈ rest, ∃ t ∈ c, mapFind (t.streamIdxInMedia % 256) idxs = none := by
        obtain ⟨c, hc, t, ht, hn⟩ := h
        rcases List.mem_cons.1 hc with rfl | hm
        · exact absurd hn (h2 t ht)
        · exact ⟨c, hm, t, ht, hn⟩
      have hstep : scanCols K idxs (col :: rest) refs =
          scanCols K idxs rest (scanTiles K idxs col refs).2 := by
        simp only [scanCols, h1, if_true]
      rw [hstep]
      exact ih _ hrest
    · have hne : (scanTiles K idxs col refs).1 ≠ ERROR_NONE := by rw [h1]; simp
      have hstep : scanCols K idxs (col :: rest) refs = scanTiles K idxs col refs := by
        simp only [scanCols, hne, if_false]
      rw [hstep, h1]

/-- The part of C10 that the code meets: a layout with a reference to a stream
index that is not in the index makes the construction return
`OMAF_ERROR_STREAM_NOT_FOUND` and leaves the object, hence the map of extractor
contexts, as it was. -/
theorem extractor_unknown_stream (K : Constants) (idx : Nat) (et : ExtractorTrack)
    (rest : List (Nat × ExtractorTrack)) (st : DefaultSegmentation)
    (vps sps pps projSEI rwpkSEI : Nalu) (cols : List (List SingleTile))
    (h1 : et.vps = some vps) (h2 : et.sps = some sps) (h3 : et.pps = some pps)
    (h4 : et.projSEI = some projSEI) (h5 : et.rwpkSEI = some rwpkSEI)
    (h6 : et.tilesMergeDir = some cols)
    (hbad : ∃ col ∈ cols, ∃ t ∈ col,
      mapFind (t.streamIdxInMedia % 256) st.m_tilesTrackIdxs = none) :
    ConstructExtractorTrackSegCtx K ((idx, et) :: rest) st =
      some (OMAF_ERROR_STREAM_NOT_FOUND, st) := by
  have hscan := scanCols_unknown_stream K st.m_tilesTrackIdxs cols [] hbad
  have hne : (scanCols K st.m_tilesTrackIdxs cols []).1 ≠ ERROR_NONE := by
    rw [hscan]; simp
  have hbody : extractorBody K idx et st = some (OMAF_ERROR_STREAM_NOT_FOUND, st) := by
    simp only [extractorBody, h1, h2, h3, h4, h5, h6, hne, if_false, hscan]
    rw [if_neg (by simp)]
  simp only [ConstructExtractorTrackSegCtx, hbody]
  rw [if_neg (by simp)]

theorem twoStreams_run :
    ConstructTileTrackSegCtx twoStreams (DefaultSegmentation.fresh sampleSegInfo 1) =
      some (ERROR_NONE, twoStreamsBuilt) :=
  construct_ok twoStreams _ twoStreams_wellFormed

set_option maxRecDepth 100000 in
theorem twoStreamsBuilt_no_tile7 :
    (mapFind 0 twoStreamsBuilt.m_tilesTrackIdxs).map (mapFind 7) = some none := by
  decide

set_option maxRecDepth 100000 in
theorem unknownTileExtractors_run :
    (ConstructExtractorTrackSegCtx sampleConstants unknownTileExtractors
        twoStreamsBuilt).map
      (fun r => (r.1, (mapFind 0 r.2.m_extractorSegCtx).map (fun c => c.refTrackIdxs))) =
      some (ERROR_NONE, some [0]) := by
  decide

/-- C10 at a failing input: stream 0 has the tiles 0 to 3, so the reference
(stream 0, tile 7) has no entry in the index built by
`ConstructTileTrackSegCtx`; `ConstructExtractorTrackSegCtx` nevertheless returns
`ERROR_NONE` and registers the extractor context, whose `refTrackIdxs` holds the
value-constructed track id 0. -/
theorem extractor_unknown_tile_accepted :
    ConstructTileTrackSegCtx twoStreams (DefaultSegmentation.fresh sampleSegInfo 1) =
        some (ERROR_NONE, twoStreamsBuilt) ∧
      (mapFind 0 twoStreamsBuilt.m_tilesTrackIdxs).map (mapFind 7) = some none ∧
      (ConstructExtractorTrackSegCtx sampleConstants unknownTileExtractors
          twoStreamsBuilt).map
        (fun r => (r.1, (mapFind 0 r.2.m_extractorSegCtx).map (fun c => c.refTrackIdxs))) =
        some (ERROR_NONE, some [0]) :=
  ⟨twoStreams_run, twoStreamsBuilt_no_tile7, unknownTileExtractors_run⟩

/-! ## Claim C13: the quality-rank coverage -/

theorem fillQualityInfos_cons (starter : Nat) (c : Spherical) (p : PicResolution)
    (rest : List PicResolution) (r : Nat) :
    fillQualityInfos starter (some c) (p :: rest) r =
      (fillQualityInfos starter (some c) rest ((r + 1) % 256)).map
        (fun infos =>
          ({ origWidth := p.width, origHeight := p.height, qualityRank := starter + r,
             sphere := c } : QualityInfo) :: infos) := by
  show (match some c, fillQualityInfos starter (some c) rest ((r + 1) % 256) with
    | some c, some infos =>
      some (({ origWidth := p.width, origHeight := p.height, qualityRank := starter + r,
               sphere := { cAzimuth := c.cAzimuth, cElevation := c.cElevation,
                           cTilt := c.cTilt, rAzimuth := c.rAzimuth,
                           rElevation := c.rElevation } } : QualityInfo) :: infos)
    | _, _ => none) = _
  cases fillQualityInfos starter (some c) rest ((r + 1) % 256) <;> rfl

theorem fillQualityInfos_spec (starter : Nat) (c : Spherical) (l : List PicResolution) :
    ∀ r : Nat, ∃ infos, fillQualityInfos starter (some c) l r = some infos ∧
      infos.length = l.length ∧
      ∀ i (hi : i < l.length), ∃ info, infos[i]? = some info ∧
        info.origWidth = l[i].width ∧ info.origHeight = l[i].height ∧
        info.qualityRank = starter + (if i = 0 then r else (r + i) % 256) ∧
        info.sphere = c := by
  induction l with
  | nil => intro r; exact ⟨[], rfl, rfl, fun i hi => absurd hi (by simp)⟩
  | cons p rest ih =>
    intro r
    obtain ⟨infos, h1, h2, h3⟩ := ih ((r + 1) % 256)
    refine ⟨({ origWidth := p.width, origHeight := p.height, qualityRank := starter + r,
               sphere := c } : QualityInfo) :: infos,
      by rw [fillQualityInfos_cons, h1]; rfl, by simp [h2], ?_⟩
    intro i hi
    cases i with
    | zero =>
      exact ⟨{ origWidth := p.width, origHeight := p.height, qualityRank := starter + r,
               sphere := c }, by simp, rfl, rfl, rfl, rfl⟩
    | succ j =>
      have hj : j < rest.length := by simpa using hi
      obtain ⟨info, g1, g2, g3, g4, g5⟩ := h3 j hj
      refine ⟨info, by simpa using g1, by simpa using g2, by simpa using g3, ?_, g5⟩
      rw [g4]
      by_cases h0 : j = 0
      · subst h0; simp
      · simp only [h0, if_false, Nat.succ_ne_zero]
        congr 1
        omega

theorem fillQualityRank_run (starter : Nat) (cm : CodedMeta) (cov : Spherical)
    (hcov : cm.sphericalCoverage = some cov) (l : List PicResolution) :
    ∃ q, FillQualityRank starter cm (some l) =
        some (ERROR_NONE, { cm with qualityRankCoverage := some q }) ∧
      q.remainingArea = true ∧ q.qualityInfo.length = l.length ∧
      ∀ i (hi : i < l.length), ∃ info, q.qualityInfo[i]? = some info ∧
        info.origWidth = l[i].width ∧ info.origHeight = l[i].height ∧
        info.qualityRank = starter + i % 256 ∧ info.sphere = cov := by
  obtain ⟨infos, h1, h2, h3⟩ := fillQualityInfos_spec starter cov l 0
  refine ⟨{ qualityInfo := infos, remainingArea := true }, ?_, rfl, h2, ?_⟩
  · simp only [FillQualityRank, hcov, h1]
  · intro i hi
    obtain ⟨info, g1, g2, g3, g4, g5⟩ := h3 i hi
    refine ⟨info, g1, g2, g3, ?_, g5⟩
    rw [g4]
    by_cases h0 : i = 0
    · subst h0; rfl
    · simp [h0]

/-- C13, as stated, fails on a list of 257 resolutions: the 8-bit counter
`resNum` is back at 0 for the entry with index 256, whose rank is
`MAINSTREAM_QUALITY_RANK + 0`. -/
theorem fillQualityRank_wraps_at_256 :
    ∃ q info, FillQualityRank 1 sampleCodedMeta (some manyResolutions) =
        some (ERROR_NONE, { sampleCodedMeta with qualityRankCoverage := some q }) ∧
      manyResolutions.length = 257 ∧
      q.qualityInfo[256]? = some info ∧ info.qualityRank = 1 ∧
      info.qualityRank ≠ 1 + 256 := by
  have hlen : manyResolutions.length = 257 := by simp [manyResolutions]
  obtain ⟨q, h1, _, _, h4⟩ := fillQualityRank_run 1 sampleCodedMeta _ rfl manyResolutions
  obtain ⟨info, g1, _, _, g4, _⟩ := h4 256 (by omega)
  exact ⟨q, info, h1, hlen, g1, by rw [g4], by rw [g4]; decide⟩

/-- C13, amended: for every list `picResList` of length `n ≤ 256` that is not
null and every coded metadata with a spherical coverage, `FillQualityRank`
returns `ERROR_NONE` and stores a quality-rank coverage with exactly `n`
entries in list order, entry `i` carrying the width and height of the `i`-th
resolution, the rank `MAINSTREAM_QUALITY_RANK + i` and a sphere equal to the
spherical coverage, with `remainingArea` set; for a null list it returns
`OMAF_ERROR_NULL_PTR` and leaves the metadata unchanged. -/
theorem fillQualityRank_spec (starter : Nat) (cm : CodedMeta) (cov : Spherical)
    (hcov : cm.sphericalCoverage = some cov) (l : List PicResolution)
    (hl : l.length ≤ 256) :
    (∃ q, FillQualityRank starter cm (some l) =
        some (ERROR_NONE, { cm with qualityRankCoverage := some q }) ∧
      q.remainingArea = true ∧ q.qualityInfo.length = l.length ∧
      ∀ i (hi : i < l.length), ∃ info, q.qualityInfo[i]? = some info ∧
        info.origWidth = l[i].width ∧ info.origHeight = l[i].height ∧
        info.qualityRank = starter + i ∧ info.sphere = cov) ∧
    FillQualityRank starter cm none = some (OMAF_ERROR_NULL_PTR, cm) := by
  refine ⟨?_, rfl⟩
  obtain ⟨q, h1, h2, h3, h4⟩ := fillQualityRank_run starter cm cov hcov l
  refine ⟨q, h1, h2, h3, fun i hi => ?_⟩
  obtain ⟨info, g1, g2, g3, g4, g5⟩ := h4 i hi
  exact ⟨info, g1, g2, g3, by rw [g4, Nat.mod_eq_of_lt (by omega)], g5⟩

/-- Witness of C13 as amended: two resolutions. -/
theorem fillQualityRank_spec_witness :
    (∃ q, FillQualityRank 1 sampleCodedMeta
          (some [{ width := 3840, height := 1920 }, { width := 1920, height := 960 }]) =
        some (ERROR_NONE, { sampleCodedMeta with qualityRankCoverage := some q }) ∧
      q.remainingArea = true ∧
      q.qualityInfo.length =
        [({ width := 3840, height := 1920 } : PicResolution),
          { width := 1920, height := 960 }].length ∧
      ∀ i (hi : i < [({ width := 3840, height := 1920 } : PicResolution),
          { width := 1920, height := 960 }].length),
        ∃ info, q.qualityInfo[i]? = some info ∧
          info.origWidth = ([({ width := 3840, height := 1920 } : PicResolution),
            { width := 1920, height := 960 }][i]).width ∧
          info.origHeight = ([({ width := 3840, height := 1920 } : PicResolution),
            { width := 1920, height := 960 }][i]).height ∧
          info.qualityRank = 1 + i ∧
          info.sphere = { cAzimuth := 0, cElevation := 0, cTilt := 0, rAzimuth := 11796480,
                          rElevation := 5898240 }) ∧
    FillQualityRank 1 sampleCodedMeta none = some (OMAF_ERROR_NULL_PTR, sampleCodedMeta) :=
  fillQualityRank_spec 1 sampleCodedMeta _ rfl _ (by decide)

/-! ## The run of `ConstructExtractorTrackSegCtx` -/

theorem scanTiles_known (K : Constants) (idxs : List (Nat × List (Nat × Nat)))
    (col : List SingleTile) :
    ∀ refs : List Nat,
      (col.all (fun t => (mapFind (t.streamIdxInMedia % 256) idxs).isSome)) = true →
      scanTiles K idxs col refs = (ERROR_NONE, refs ++ col.map (resolveTile K idxs)) := by
  induction col with
  | nil => intro refs _; simp [scanTiles]
  | cons t rest ih =>
    intro refs h
    simp only [List.all_cons, Bool.and_eq_true] at h
    obtain ⟨tilesIndex, hf⟩ := Option.isSome_iff_exists.1 h.1
    simp only [scanTiles, hf, ih _ h.2, resolveTile, List.map_cons, List.append_assoc,
      List.singleton_append]

theorem scanCols_known (K : Constants) (idxs : List (Nat × List (Nat × Nat)))
    (cols : List (List SingleTile)) :
    ∀ refs : List Nat, streamsKnown idxs cols = true →
      scanCols K idxs cols refs = (ERROR_NONE, refs ++ cols.flatten.map (resolveTile K idxs)) := by
  induction cols with
  | nil => intro refs _; simp [scanCols]
  | cons col rest ih =>
    intro refs h
    simp only [streamsKnown, List.all_cons, Bool.and_eq_true] at h
    have hrest : streamsKnown idxs rest = true := h.2
    simp only [scanCols, scanTiles_known K idxs col refs h.1, if_true, ih _ hrest,
      List.flatten_cons, List.map_append, List.append_assoc]

theorem convertRegions_some (rects : List RectangularRegionWisePacking) (is : List Nat)
    (h : ∀ i ∈ is, i < rects.length) : ∃ rs, convertRegions rects is = some rs := by
  induction is with
  | nil => exact ⟨[], rfl⟩
  | cons i rest ih =>
    obtain ⟨rs, hrs⟩ := ih (fun j hj => h j (List.mem_cons_of_mem _ hj))
    have hi := h i (List.mem_cons_self _ _)
    refine ⟨convertRegion rects[i] :: rs, ?_⟩
    simp only [convertRegions, List.getElem?_eq_getElem hi, hrs]

theorem convertRwpk_some (rwpk : RegionWisePacking) (cm : CodedMeta)
    (h1 : rwpk.numRegions < 256) (h2 : rwpk.numRegions ≤ rwpk.rectRegionPacking.length) :
    ∃ rp, ConvertRwpk (some rwpk) cm = some (ERROR_NONE, { cm with regionPacking := some rp }) := by
  obtain ⟨rs, hrs⟩ := convertRegions_some rwpk.rectRegionPacking (List.range rwpk.numRegions)
    (fun i hi => lt_of_lt_of_le (List.mem_range.1 hi) h2)
  have hn : ¬ 256 ≤ rwpk.numRegions := by omega
  exact ⟨{ constituentPictMatching := rwpk.constituentPicMatching
           projPictureWidth := rwpk.projPicWidth
           projPictureHeight := rwpk.projPicHeight
           packedPictureWidth := rwpk.packedPicWidth
           packedPictureHeight := rwpk.packedPicHeight
           regions := rs }, by simp only [ConvertRwpk, hn, if_false, hrs]⟩

theorem fillQualityRank_some (starter : Nat) (cm : CodedMeta)
    (picResList : Option (List PicResolution))
    (h : cm.sphericalCoverage.isSome = true ∨ picResList = none ∨ picResList = some []) :
    ∃ e cm1, FillQualityRank starter cm picResList = some (e, cm1) ∧
      cm1.presIndex = cm.presIndex ∧ cm1.codingIndex = cm.codingIndex ∧
      cm1.presTime = cm.presTime ∧ cm1.trackId = cm.trackId ∧ cm1.format = cm.format ∧
      cm1.regionPacking = cm.regionPacking ∧ cm1.sphericalCoverage = cm.sphericalCoverage ∧
      cm1.width = cm.width ∧ cm1.height = cm.height := by
  cases picResList with
  | none => exact ⟨_, _, rfl, rfl, rfl, rfl, rfl, rfl, rfl, rfl, rfl, rfl⟩
  | some l =>
    cases l with
    | nil => exact ⟨_, _, rfl, rfl, rfl, rfl, rfl, rfl, rfl, rfl, rfl, rfl⟩
    | cons p rest =>
      rcases h with h | h | h
      · obtain ⟨cov, hcov⟩ := Option.isSome_iff_exists.1 h
        obtain ⟨q, hq, _⟩ := fillQualityRank_run starter cm cov hcov (p :: rest)
        exact ⟨_, _, hq, rfl, rfl, rfl, rfl, rfl, rfl, rfl, rfl, rfl⟩
      · cases h
      · cases h

theorem convertRwpk_inv (rwpk : Option RegionWisePacking) (cm cm1 : CodedMeta) (e : ErrorCode)
    (h : ConvertRwpk rwpk cm = some (e, cm1)) :
    cm1.presIndex = cm.presIndex ∧ cm1.codingIndex = cm.codingIndex ∧
      cm1.presTime = cm.presTime ∧ cm1.sphericalCoverage = cm.sphericalCoverage := by
  unfold ConvertRwpk at h
  split at h
  · injection h with h; injection h with _ h; subst h; exact ⟨rfl, rfl, rfl, rfl⟩
  · split at h
    · cases h
    · split at h
      · cases h
      · injection h with h; injection h with _ h; subst h; exact ⟨rfl, rfl, rfl, rfl⟩

theorem convertCovi_inv (spr : Option SphereRegion) (cm : CodedMeta) :
    (ConvertCovi spr cm).2.presIndex = cm.presIndex ∧
      (ConvertCovi spr cm).2.codingIndex = cm.codingIndex ∧
      (ConvertCovi spr cm).2.presTime = cm.presTime ∧
      (spr.isSome = true → (ConvertCovi spr cm).2.sphericalCoverage.isSome = true) := by
  cases spr with
  | none => exact ⟨rfl, rfl, rfl, fun h => by cases h⟩
  | some r => exact ⟨rfl, rfl, rfl, fun _ => rfl⟩

theorem fillQualityRank_inv (starter : Nat) (cm cm1 : CodedMeta)
    (picResList : Option (List PicResolution)) (e : ErrorCode)
    (h : FillQualityRank starter cm picResList = some (e, cm1)) :
    cm1.presIndex = cm.presIndex ∧ cm1.codingIndex = cm.codingIndex ∧
      cm1.presTime = cm.presTime := by
  unfold FillQualityRank at h
  split at h
  · injection h with h; injection h with _ h; subst h; exact ⟨rfl, rfl, rfl⟩
  · split at h
    · cases h
    · injection h with h; injection h with _ h; subst h; exact ⟨rfl, rfl, rfl⟩

theorem fillQualityRank_ne_none (starter : Nat) (cm : CodedMeta)
    (picResList : Option (List PicResolution))
    (h : cm.sphericalCoverage.isSome = true ∨ picResList = none ∨ picResList = some []) :
    FillQualityRank starter cm picResList ≠ none := by
  obtain ⟨e, cm1, hf, _⟩ := fillQualityRank_some starter cm picResList h
  rw [hf]; simp

theorem convertRwpk_ne_none (rwpk : RegionWisePacking) (cm : CodedMeta)
    (h1 : rwpk.numRegions < 256) (h2 : rwpk.numRegions ≤ rwpk.rectRegionPacking.length) :
    ConvertRwpk (some rwpk) cm ≠ none := by
  obtain ⟨rp, hrp⟩ := convertRwpk_some rwpk cm h1 h2
  rw [hrp]; simp

theorem extractorCtx_fields (K : Constants) (st : DefaultSegmentation) (idx : Nat)
    (et : ExtractorTrack) (vps sps pps nalu : Nalu) (refs : List Nat)
    (proj : OmafProjectionType) (ctx : TrackSegmentCtx)
    (h : extractorCtx K st idx et vps sps pps nalu refs proj = some ctx) :
    ctx.refTrackIdxs = refs ∧
      ctx.trackIdx = K.DEFAULT_EXTRACTORTRACK_TRACKIDBASE + idx ∧
      ctx.extractorTrackIdx = idx ∧ ctx.isExtractorTrack = true ∧
      ctx.extractorTrackNalu = nalu ∧ ctx.initSegmenter = true ∧ ctx.dashSegmenter = true ∧
      ctx.dashInitCfg.tracks =
        mapInsert (K.DEFAULT_EXTRACTORTRACK_TRACKIDBASE + idx) (extractorTrackConfig K st idx)
          (st.m_allTileTracks.foldl (fun acc e => mapInsert e.1 e.2 acc) []) ∧
      ctx.dashInitCfg.streamIds =
        (K.DEFAULT_EXTRACTORTRACK_TRACKIDBASE + idx) :: mapKeys st.m_allTileTracks ∧
      ctx.codedMeta.presIndex = 0 ∧ ctx.codedMeta.codingIndex = 0 ∧
      ctx.codedMeta.presTime = ⟨0, 1000⟩ := by
  unfold extractorCtx at h
  split at h
  · rename_i rwpk covi segDur hr hc hv
    simp only at h
    split at h
    · cases h
    · rename_i e1 cm1 hcr
      split at h
      · cases h
      · split at h
        · cases h
        · rename_i e3 cm3 hfq
          injection h with h
          subst h
          obtain ⟨a1, a2, a3, _⟩ := convertRwpk_inv _ _ _ _ hcr
          obtain ⟨b1, b2, b3⟩ := fillQualityRank_inv _ _ _ _ _ hfq
          obtain ⟨c1, c2, c3, _⟩ := convertCovi_inv
            (Option.bind covi.sphereRegions List.head?) cm1
          refine ⟨rfl, rfl, rfl, rfl, rfl, rfl, rfl, rfl, rfl, ?_, ?_, ?_⟩
          · simp only [b1, c1, a1]
          · simp only [b2, c2, a2]
          · simp only [b3, c3, a3]
  · cases h

theorem extractorCtx_isSome (K : Constants) (st : DefaultSegmentation) (idx : Nat)
    (et : ExtractorTrack) (vps sps pps nalu : Nalu) (refs : List Nat)
    (proj : OmafProjectionType) (h : extractorAllocated st et = true) :
    ∃ ctx, extractorCtx K st idx et vps sps pps nalu refs proj = some ctx := by
  unfold extractorAllocated at h
  cases hr : et.rwpk with
  | none => simp [hr] at h
  | some rwpk =>
    cases hc : et.covi with
    | none => simp [hr, hc] at h
    | some covi =>
      cases hv : st.m_videoSegInfo with
      | none => simp [hr, hc, hv] at h
      | some segDur =>
        simp only [hr, hc, hv, Bool.and_eq_true, decide_eq_true_eq] at h
        obtain ⟨⟨h1, h2⟩, h3⟩ := h
        rw [← Option.isSome_iff_exists]
        simp only [extractorCtx, hr, hc, hv]
        split
        · rename_i hcr
          exact absurd hcr (convertRwpk_ne_none _ _ h1 h2)
        · rename_i e1 cm1 hcr
          obtain ⟨_, _, _, a4⟩ := convertRwpk_inv _ _ _ _ hcr
          split
          · rename_i hs
            simp [hs] at h3
          · rename_i hs
            split
            · rename_i hfq
              refine absurd hfq (fillQualityRank_ne_none _ _ _ ?_)
              cases hsr : covi.sphereRegions with
              | none =>
                simp only [hsr] at h3
                cases hp : et.picResList with
                | none => exact Or.inr (Or.inl rfl)
                | some l =>
                  cases l with
                  | nil => exact Or.inr (Or.inr rfl)
                  | cons a b => simp [hp] at h3
              | some l =>
                cases l with
                | nil => exact absurd hsr (hs)
                | cons r rest =>
                  exact Or.inl ((convertCovi_inv _ cm1).2.2.2 rfl)
            · rfl

theorem mapFind_foldl_pairs {α : Type} (pairs : List (Nat × α)) :
    ∀ (m0 : List (Nat × α)) (k : Nat),
      mapFind k (pairs.foldl (fun m p => mapInsert p.1 p.2 m) m0) =
        match mapFind k m0 with
        | some v => some v
        | none => mapFind k pairs := by
  induction pairs with
  | nil => intro m0 k; cases h : mapFind k m0 <;> simp [h, mapFind]
  | cons p rest ih =>
    intro m0 k
    obtain ⟨a, b⟩ := p
    simp only [List.foldl_cons, ih, mapFind_mapInsert, mapFind]
    by_cases hk : k = a
    · subst hk
      cases h : mapFind k m0 <;> simp [h]
    · have hk2 : ¬ a = k := fun x => hk x.symm
      cases h : mapFind k m0 <;> simp [h, hk, hk2]

theorem mem_mapKeys_foldl_pairs {α : Type} (pairs : List (Nat × α)) :
    ∀ (m0 : List (Nat × α)) (k : Nat),
      k ∈ mapKeys (pairs.foldl (fun m p => mapInsert p.1 p.2 m) m0) ↔
        k ∈ mapKeys m0 ∨ k ∈ mapKeys pairs := by
  induction pairs with
  | nil => intro m0 k; simp [mapKeys]
  | cons p rest ih =>
    intro m0 k
    simp only [List.foldl_cons, ih, mem_mapKeys_mapInsert]
    simp only [mapKeys, List.map_cons, List.mem_cons]
    tauto

theorem extractorBody_ok (K : Constants) (idx : Nat) (et : ExtractorTrack)
    (st : DefaultSegmentation) (h : extractorReady st et = true) :
    ∃ ctx, extractorCtxOf K st idx et = some ctx ∧
      extractorBody K idx et st =
        some (ERROR_NONE,
          { st with m_extractorSegCtx := mapInsert idx ctx st.m_extractorSegCtx }) := by
  simp only [extractorReady, Bool.and_eq_true] at h
  obtain ⟨⟨⟨⟨⟨⟨⟨h1, h2⟩, h3⟩, h4⟩, h5⟩, h6⟩, h7⟩, h8⟩ := h
  obtain ⟨vps, e1⟩ := Option.isSome_iff_exists.1 h1
  obtain ⟨sps, e2⟩ := Option.isSome_iff_exists.1 h2
  obtain ⟨pps, e3⟩ := Option.isSome_iff_exists.1 h3
  obtain ⟨projSEI, e4⟩ := Option.isSome_iff_exists.1 h4
  obtain ⟨rwpkSEI, e5⟩ := Option.isSome_iff_exists.1 h5
  obtain ⟨p, hp⟩ := Option.isSome_iff_exists.1 h8
  cases e6 : et.tilesMergeDir with
  | none => simp [e6] at h6
  | some cols =>
    simp only [e6] at h6
    obtain ⟨ctx, hctx⟩ := extractorCtx_isSome K st idx et vps sps pps
      { data := some (naluBytes (some projSEI) ++ naluBytes (some rwpkSEI))
        dataSize := projSEI.dataSize + rwpkSEI.dataSize }
      (cols.flatten.map (resolveTile K st.m_tilesTrackIdxs)) p h7
    refine ⟨ctx, ?_, ?_⟩
    · simp only [extractorCtxOf, e1, e2, e3, e4, e5, e6, hp, Option.getD_some, hctx]
    · simp only [extractorBody, e1, e2, e3, e4, e5, e6, scanCols_known K _ cols [] h6,
        if_true, List.nil_append, hp, Option.getD_some, hctx]

theorem constructExtractor_ok (K : Constants) (ets : List (Nat × ExtractorTrack)) :
    ∀ st : DefaultSegmentation, allExtractorsReady st ets = true →
      ConstructExtractorTrackSegCtx K ets st = some (ERROR_NONE, extractorsDone K ets st) := by
  induction ets with
  | nil => intro st _; rfl
  | cons e rest ih =>
    intro st h
    obtain ⟨idx, et⟩ := e
    simp only [allExtractorsReady, List.all_cons, Bool.and_eq_true] at h
    obtain ⟨ctx, hctx, hbody⟩ := extractorBody_ok K idx et st h.1
    simp only [ConstructExtractorTrackSegCtx, hbody, if_true]
    have hrest : allExtractorsReady
        { st with m_extractorSegCtx := mapInsert idx ctx st.m_extractorSegCtx } rest = true :=
      h.2
    rw [ih _ hrest]
    have hpairs : extractorPairs K st ((idx, et) :: rest) =
        (idx, ctx) :: extractorPairs K st rest := by
      simp only [extractorPairs, List.filterMap_cons, hctx, Option.map_some']
    simp only [extractorsDone, hpairs, List.foldl_cons]
    rfl

/-! ## Claim C11: the references of an extractor context -/

theorem extractorPairs_find (K : Constants) (st : DefaultSegmentation)
    (pre post : List (Nat × ExtractorTrack)) (idx : Nat) (et : ExtractorTrack)
    (hkeys : keysAscending (pre ++ (idx, et) :: post)) :
    mapFind idx (extractorPairs K st (pre ++ (idx, et) :: post)) =
      extractorCtxOf K st idx et := by
  induction pre with
  | nil =>
    simp only [List.nil_append, extractorPairs, List.filterMap_cons]
    cases h : extractorCtxOf K st idx et with
    | some c => simp [mapFind]
    | none =>
      simp only [Option.map_none']
      rw [mapFind_eq_none_iff]
      intro hmem
      simp only [mapKeys, List.mem_map, List.mem_filterMap] at hmem
      obtain ⟨p, ⟨e, he, hp⟩, hk⟩ := hmem
      cases hc : extractorCtxOf K st e.1 e.2 with
      | none => simp [hc] at hp
      | some c =>
        simp only [hc, Option.map_some', Option.some.injEq] at hp
        subst hp
        simp only at hk
        have hlt : idx < e.1 := by
          simp only [keysAscending, mapKeys, List.nil_append, List.map_cons,
            List.pairwise_cons, List.mem_map] at hkeys
          exact hkeys.1 e.1 ⟨e, he, rfl⟩
        omega
  | cons p rest ih =>
    obtain ⟨a, b⟩ := p
    have hne : a ≠ idx := by
      simp only [keysAscending, mapKeys, List.cons_append, List.map_cons,
        List.pairwise_cons, List.map_append, List.mem_append, List.mem_cons] at hkeys
      have := hkeys.1 idx (Or.inr (Or.inl rfl))
      omega
    have hrest : keysAscending (rest ++ (idx, et) :: post) := by
      simp only [keysAscending, mapKeys, List.cons_append, List.map_cons,
        List.pairwise_cons] at hkeys
      exact hkeys.2
    simp only [List.cons_append, extractorPairs, List.filterMap_cons]
    cases hc : extractorCtxOf K st a b with
    | none => exact ih hrest
    | some c =>
      simp only [Option.map_some', mapFind, hne, if_false]
      exact ih hrest

theorem resolveTile_recorded (K : Constants) (idxs : List (Nat × List (Nat × Nat)))
    (t : SingleTile) (hs : t.streamIdxInMedia < 256) (ht : t.origTileIdx < 256)
    (h : (recordedTrackId idxs t).isSome = true) :
    some (resolveTile K idxs t) = recordedTrackId idxs t := by
  unfold recordedTrackId at h ⊢
  unfold resolveTile
  rw [Nat.mod_eq_of_lt hs, Nat.mod_eq_of_lt ht]
  cases h1 : mapFind t.streamIdxInMedia idxs with
  | none => simp [h1] at h
  | some tilesIndex =>
    simp only [h1, Option.some_bind] at h ⊢
    cases h2 : mapFind t.origTileIdx tilesIndex with
    | none => simp [h2] at h
    | some id => simp [mapIndex, h2]

theorem resolveTile_layout (K : Constants) (idxs : List (Nat × List (Nat × Nat))) :
    ∀ l : List SingleTile,
      (l.all (fun t =>
        decide (t.streamIdxInMedia < 256) && decide (t.origTileIdx < 256) &&
          (recordedTrackId idxs t).isSome) = true) →
      (l.map (resolveTile K idxs)).map some = l.map (recordedTrackId idxs) := by
  intro l
  induction l with
  | nil => intro _; rfl
  | cons t rest ih =>
    intro h
    simp only [List.all_cons, Bool.and_eq_true, decide_eq_true_eq] at h
    simp only [List.map_cons]
    rw [resolveTile_recorded K idxs t h.1.1.1 h.1.1.2 h.1.2]
    rw [ih (by simpa [List.all_eq_true] using h.2)]

theorem extractorCtxOf_refs (K : Constants) (st : DefaultSegmentation) (idx : Nat)
    (et : ExtractorTrack) (cols : List (List SingleTile)) (ctx : TrackSegmentCtx)
    (hdir : et.tilesMergeDir = some cols) (h : extractorCtxOf K st idx et = some ctx) :
    ctx.refTrackIdxs = cols.flatten.map (resolveTile K st.m_tilesTrackIdxs) := by
  unfold extractorCtxOf at h
  rw [hdir] at h
  split at h
  · rename_i vps sps pps projSEI rwpkSEI cols2 _ _ _ _ _ hc
    cases hc
    exact (extractorCtx_fields K st idx et _ _ _ _ _ _ ctx h).1
  · cases h

/-- C11. When `ConstructExtractorTrackSegCtx` runs on a map of extractor tracks
that are all ready, and every tile reference of the layout of one of them
resolves in the index of tile tracks that `ConstructTileTrackSegCtx` filled,
the run succeeds and the context registered for that extractor track has a
`refTrackIdxs` list with one entry for each reference, in the order of the
layout (columns in list order, tiles in list order within a column), the
entry being the track id recorded for the stream index and the tile index of
the reference. -/
theorem extractor_refTrackIdxs_layout (K : Constants) (st : DefaultSegmentation)
    (pre post : List (Nat × ExtractorTrack)) (idx : Nat) (et : ExtractorTrack)
    (cols : List (List SingleTile))
    (hkeys : keysAscending (pre ++ (idx, et) :: post))
    (hfresh : st.m_extractorSegCtx = [])
    (hready : allExtractorsReady st (pre ++ (idx, et) :: post) = true)
    (hdir : et.tilesMergeDir = some cols)
    (hres : layoutResolves st.m_tilesTrackIdxs cols = true) :
    ∃ st1 ctx,
      ConstructExtractorTrackSegCtx K (pre ++ (idx, et) :: post) st = some (ERROR_NONE, st1) ∧
      mapFind idx st1.m_extractorSegCtx = some ctx ∧
      ctx.refTrackIdxs.length = cols.flatten.length ∧
      ctx.refTrackIdxs.map some = cols.flatten.map (recordedTrackId st.m_tilesTrackIdxs) := by
  have hr : extractorReady st et = true := by
    simp only [allExtractorsReady, List.all_append, List.all_cons, Bool.and_eq_true] at hready
    exact hready.2.1
  obtain ⟨ctx, hctx, _⟩ := extractorBody_ok K idx et st hr
  have hrefs := extractorCtxOf_refs K st idx et cols ctx hdir hctx
  refine ⟨_, ctx, constructExtractor_ok K _ st hready, ?_, ?_, ?_⟩
  · show mapFind idx ((extractorPairs K st (pre ++ (idx, et) :: post)).foldl
      (fun m p => mapInsert p.1 p.2 m) st.m_extractorSegCtx) = some ctx
    rw [mapFind_foldl_pairs, hfresh, extractorPairs_find K st pre post idx et hkeys, hctx]
    rfl
  · rw [hrefs, List.length_map]
  · rw [hrefs]
    exact resolveTile_layout K st.m_tilesTrackIdxs cols.flatten hres

set_option maxRecDepth 100000 in
theorem layoutExtractors_ready :
    allExtractorsReady twoStreamsBuilt layoutExtractors = true := by
  decide

set_option maxRecDepth 100000 in
theorem layoutExtractors_resolve :
    layoutResolves twoStreamsBuilt.m_tilesTrackIdxs
      [[{ streamIdxInMedia := 0, origTileIdx := 0 }, { streamIdxInMedia := 1, origTileIdx := 1 }],
       [{ streamIdxInMedia := 0, origTileIdx := 2 }, { streamIdxInMedia := 1, origTileIdx := 3 }]]
      = true := by
  decide

set_option maxRecDepth 100000 in
theorem layoutExtractors_recorded :
    ([[{ streamIdxInMedia := 0, origTileIdx := 0 }, { streamIdxInMedia := 1, origTileIdx := 1 }],
      [{ streamIdxInMedia := 0, origTileIdx := 2 }, { streamIdxInMedia := 1, origTileIdx := 3 }]]
        : List (List SingleTile)).flatten.map (recordedTrackId twoStreamsBuilt.m_tilesTrackIdxs) =
      [some 1, some 6, some 3, some 8] := by
  decide

/-- Witness for C11: the first extractor track over the two sample streams has
four references, and they resolve to the track ids 1, 6, 3 and 8. -/
theorem extractor_refTrackIdxs_layout_witness :
    ∃ st1 ctx,
      ConstructExtractorTrackSegCtx sampleConstants layoutExtractors twoStreamsBuilt =
        some (ERROR_NONE, st1) ∧
      mapFind 0 st1.m_extractorSegCtx = some ctx ∧
      ctx.refTrackIdxs.length = 4 ∧
      ctx.refTrackIdxs.map some = [some 1, some 6, some 3, some 8] := by
  have h := extractor_refTrackIdxs_layout sampleConstants twoStreamsBuilt [] _ 0 _ _
    (by unfold keysAscending mapKeys; decide) rfl layoutExtractors_ready rfl
    layoutExtractors_resolve
  rw [layoutExtractors_recorded] at h
  exact h

/-! ## Claim C12: the tracks of the init config of an extractor track -/

theorem extractorCtxOf_inv (K : Constants) (st : DefaultSegmentation) (idx : Nat)
    (et : ExtractorTrack) (ctx : TrackSegmentCtx)
    (h : extractorCtxOf K st idx et = some ctx) :
    ∃ vps sps pps nalu refs proj,
      extractorCtx K st idx et vps sps pps nalu refs proj = some ctx := by
  unfold extractorCtxOf at h
  split at h
  · exact ⟨_, _, _, _, _, _, h⟩
  · cases h

theorem extractorsDone_find (K : Constants) (st : DefaultSegmentation)
    (pre post : List (Nat × ExtractorTrack)) (idx : Nat) (et : ExtractorTrack)
    (hkeys : keysAscending (pre ++ (idx, et) :: post))
    (hfresh : st.m_extractorSegCtx = []) :
    mapFind idx (extractorsDone K (pre ++ (idx, et) :: post) st).m_extractorSegCtx =
      extractorCtxOf K st idx et := by
  show mapFind idx ((extractorPairs K st (pre ++ (idx, et) :: post)).foldl
    (fun m p => mapInsert p.1 p.2 m) st.m_extractorSegCtx) = _
  rw [mapFind_foldl_pairs, hfresh, extractorPairs_find K st pre post idx et hkeys]
  rfl

theorem mapFind_foldl_nil {α : Type} (m : List (Nat × α)) (k : Nat) :
    mapFind k (m.foldl (fun acc e => mapInsert e.1 e.2 acc) []) = mapFind k m := by
  rw [mapFind_foldl_pairs]
  rfl

theorem layoutExtractors_keys : keysAscending layoutExtractors := by
  unfold keysAscending mapKeys layoutExtractors
  decide

theorem lateStarter_run :
    ConstructTileTrackSegCtx twoStreams (DefaultSegmentation.fresh sampleSegInfo 993) =
      some (ERROR_NONE, lateStarterBuilt) :=
  construct_ok twoStreams _ twoStreams_wellFormed

set_option maxRecDepth 100000 in
theorem lateStarter_ready : allExtractorsReady lateStarterBuilt layoutExtractors = true := by
  decide

set_option maxRecDepth 100000 in
theorem lateStarter_keys :
    mapKeys lateStarterBuilt.m_allTileTracks =
      [993, 994, 995, 996, 997, 998, 999, 1000] := by
  decide

set_option maxRecDepth 100000 in
theorem lateStarter_track1000 :
    (mapFind 1000 lateStarterBuilt.m_allTileTracks).map (fun cfg => cfg.trackReferences) =
      some [] := by
  decide

/-- C12, as stated, fails when the id of the extractor track is the id of a
tile track: after `ConstructTileTrackSegCtx` gave the eight tiles of the two
sample streams the ids 993 to 1000, the extractor track 0 has the id 1000, and
the entry of its init config under that id is the config of a tile track,
without any track reference. -/
theorem extractor_own_entry_shadowed :
    ∃ st st1 ctx cfg,
      ConstructTileTrackSegCtx twoStreams (DefaultSegmentation.fresh sampleSegInfo 993) =
        some (ERROR_NONE, st) ∧
      mapKeys st.m_allTileTracks = [993, 994, 995, 996, 997, 998, 999, 1000] ∧
      ConstructExtractorTrackSegCtx sampleConstants layoutExtractors st =
        some (ERROR_NONE, st1) ∧
      mapFind 0 st1.m_extractorSegCtx = some ctx ∧
      ctx.trackIdx = sampleConstants.DEFAULT_EXTRACTORTRACK_TRACKIDBASE + 0 ∧
      mapFind (sampleConstants.DEFAULT_EXTRACTORTRACK_TRACKIDBASE + 0) ctx.dashInitCfg.tracks =
        some cfg ∧
      cfg.trackReferences = [] := by
  have hr : extractorReady lateStarterBuilt
      (sampleExtractor
        [[{ streamIdxInMedia := 0, origTileIdx := 0 }, { streamIdxInMedia := 1, origTileIdx := 1 }],
         [{ streamIdxInMedia := 0, origTileIdx := 2 }, { streamIdxInMedia := 1, origTileIdx := 3 }]])
      = true := by
    have h := lateStarter_ready
    simp only [allExtractorsReady, layoutExtractors, List.all_cons, Bool.and_eq_true] at h
    exact h.1
  obtain ⟨ctx, hctx, _⟩ := extractorBody_ok sampleConstants 0 _ lateStarterBuilt hr
  obtain ⟨vps, sps, pps, nalu, refs, proj, hx⟩ := extractorCtxOf_inv _ _ _ _ _ hctx
  have hf := extractorCtx_fields _ _ _ _ _ _ _ _ _ _ _ hx
  have h1000 := lateStarter_track1000
  cases hcfg : mapFind 1000 lateStarterBuilt.m_allTileTracks with
  | none => rw [hcfg] at h1000; cases h1000
  | some cfg =>
    rw [hcfg] at h1000
    simp only [Option.map_some', Option.some.injEq] at h1000
    refine ⟨lateStarterBuilt, _, ctx, cfg, lateStarter_run, lateStarter_keys,
      constructExtractor_ok sampleConstants layoutExtractors _ lateStarter_ready, ?_,
      hf.2.1, ?_, h1000⟩
    · have := extractorsDone_find sampleConstants lateStarterBuilt [] _ 0 _
        layoutExtractors_keys rfl
      rw [← hctx]
      exact this
    · rw [hf.2.2.2.2.2.2.2.1]
      have hk : mapFind 1000 (lateStarterBuilt.m_allTileTracks.foldl
          (fun acc e => mapInsert e.1 e.2 acc) []) = some cfg := by
        rw [mapFind_foldl_nil]; exact hcfg
      exact mapFind_mapInsert_of_some _ _ _ _ _ hk

/-- C12, amended: when `ConstructExtractorTrackSegCtx` runs on a map of
extractor tracks that are all ready, and the id of one of them,
`DEFAULT_EXTRACTORTRACK_TRACKIDBASE` plus its index, is not the id of a tile
track, then the tracks map of the init config of its context holds the config
of every tile track that `ConstructTileTrackSegCtx` registered, its keys are
the tile-track ids and the own id, and the entry under the own id refers
under `scal` to the ids of all tile tracks. -/
theorem extractor_tracks_scal (K : Constants) (st : DefaultSegmentation)
    (pre post : List (Nat × ExtractorTrack)) (idx : Nat) (et : ExtractorTrack)
    (hkeys : keysAscending (pre ++ (idx, et) :: post))
    (hfresh : st.m_extractorSegCtx = [])
    (hready : allExtractorsReady st (pre ++ (idx, et) :: post) = true)
    (hown : mapFind (K.DEFAULT_EXTRACTORTRACK_TRACKIDBASE + idx) st.m_allTileTracks = none) :
    ∃ st1 ctx own,
      ConstructExtractorTrackSegCtx K (pre ++ (idx, et) :: post) st = some (ERROR_NONE, st1) ∧
      mapFind idx st1.m_extractorSegCtx = some ctx ∧
      ctx.trackIdx = K.DEFAULT_EXTRACTORTRACK_TRACKIDBASE + idx ∧
      (∀ id cfg, mapFind id st.m_allTileTracks = some cfg →
        mapFind id ctx.dashInitCfg.tracks = some cfg) ∧
      (∀ id, id ∈ mapKeys ctx.dashInitCfg.tracks ↔
        id = K.DEFAULT_EXTRACTORTRACK_TRACKIDBASE + idx ∨ id ∈ mapKeys st.m_allTileTracks) ∧
      mapFind (K.DEFAULT_EXTRACTORTRACK_TRACKIDBASE + idx) ctx.dashInitCfg.tracks = some own ∧
      own.trackReferences = [("scal", mapKeys st.m_allTileTracks)] := by
  have hr : extractorReady st et = true := by
    simp only [allExtractorsReady, List.all_append, List.all_cons, Bool.and_eq_true] at hready
    exact hready.2.1
  obtain ⟨ctx, hctx, _⟩ := extractorBody_ok K idx et st hr
  obtain ⟨vps, sps, pps, nalu, refs, proj, hx⟩ := extractorCtxOf_inv _ _ _ _ _ hctx
  have hf := extractorCtx_fields _ _ _ _ _ _ _ _ _ _ _ hx
  have htracks := hf.2.2.2.2.2.2.2.1
  refine ⟨_, ctx, extractorTrackConfig K st idx, constructExtractor_ok K _ st hready, ?_,
    hf.2.1, ?_, ?_, ?_, rfl⟩
  · rw [extractorsDone_find K st pre post idx et hkeys hfresh, hctx]
  · intro id cfg hid
    rw [htracks]
    apply mapFind_mapInsert_of_some
    rw [mapFind_foldl_nil]
    exact hid
  · intro id
    rw [htracks, mem_mapKeys_mapInsert, mem_mapKeys_foldl_pairs]
    simp [mapKeys]
  · rw [htracks, mapFind_mapInsert, if_pos rfl, mapFind_foldl_nil, hown]
    rfl

set_option maxRecDepth 100000 in
theorem twoStreamsBuilt_no_track1001 :
    mapFind (sampleConstants.DEFAULT_EXTRACTORTRACK_TRACKIDBASE + 1)
      twoStreamsBuilt.m_allTileTracks = none := by
  decide

/-- Witness for C12: the second extractor track over the two sample streams,
whose id 1001 is not among the tile-track ids 1 to 8. -/
theorem extractor_tracks_scal_witness :
    ∃ st1 ctx own,
      ConstructExtractorTrackSegCtx sampleConstants layoutExtractors twoStreamsBuilt =
        some (ERROR_NONE, st1) ∧
      mapFind 1 st1.m_extractorSegCtx = some ctx ∧
      ctx.trackIdx = sampleConstants.DEFAULT_EXTRACTORTRACK_TRACKIDBASE + 1 ∧
      (∀ id cfg, mapFind id twoStreamsBuilt.m_allTileTracks = some cfg →
        mapFind id ctx.dashInitCfg.tracks = some cfg) ∧
      (∀ id, id ∈ mapKeys ctx.dashInitCfg.tracks ↔
        id = sampleConstants.DEFAULT_EXTRACTORTRACK_TRACKIDBASE + 1 ∨
          id ∈ mapKeys twoStreamsBuilt.m_allTileTracks) ∧
      mapFind (sampleConstants.DEFAULT_EXTRACTORTRACK_TRACKIDBASE + 1) ctx.dashInitCfg.tracks =
        some own ∧
      own.trackReferences = [("scal", mapKeys twoStreamsBuilt.m_allTileTracks)] :=
  extractor_tracks_scal sampleConstants twoStreamsBuilt [(0, _)] [] 1 _
    (by unfold keysAscending mapKeys; decide) rfl layoutExtractors_ready
    twoStreamsBuilt_no_track1001

/-! ## Claim C14: the sharding of the extractor tracks -/

theorem sharding_arith (c per : Nat) (hc : 1 ≤ c) (hper : 1 ≤ per) :
    (c % per = 0 →
      c / per = (c + per - 1) / per ∧ (c / per - 1) * per + per = c) ∧
    (c % per ≠ 0 →
      c / per + 1 = (c + per - 1) / per ∧ 1 ≤ c % per ∧ c % per ≤ per ∧
        (c / per + 1 - 1) * per + c % per = c) := by
  have hdm : c / per * per + c % per = c := by
    rw [Nat.mul_comm]; exact Nat.div_add_mod c per
  have hlt := Nat.mod_lt c hper
  generalize hq : c / per = q at hdm ⊢
  generalize hr : c % per = r at hdm hlt ⊢
  constructor
  · intro h0
    subst h0
    have hq1 : 1 ≤ q := by
      rcases Nat.eq_zero_or_pos q with hz | hp
      · subst hz; simp at hdm; omega
      · exact hp
    constructor
    · symm
      apply Nat.div_eq_of_lt_le
      · omega
      · rw [Nat.add_mul]; omega
    · obtain ⟨k, rfl⟩ : ∃ k, q = k + 1 := ⟨q - 1, by omega⟩
      rw [Nat.add_sub_cancel]
      rw [Nat.add_mul] at hdm
      omega
  · intro h0
    refine ⟨?_, by omega, by omega, ?_⟩
    · symm
      apply Nat.div_eq_of_lt_le
      · rw [Nat.add_mul]; omega
      · rw [Nat.add_mul, Nat.add_mul]; omega
    · rw [Nat.add_sub_cancel]
      exact hdm

/-- C14. With `c` extractor contexts, `1 ≤ c` (and `c` below 2^16, the range
of the local `extractorTrackNum`; the map of extractor tracks has an 8-bit
key), and `ave = extractorTracksPerSegThread`, `1 ≤ ave`, the sharding step of
`VideoSegmentation` sets `m_aveETPerSegThread = ave`, a thread count equal to
the ceiling of `c / ave`, and a last share between 1 and `ave` such that
`(threadCount - 1) * ave + last = c`; when `ave` divides `c` the thread count
is `c / ave` and the last share is `ave`, otherwise they are `c / ave + 1` and
`c % ave`. -/
theorem sharding_spec (st : DefaultSegmentation)
    (hc : 1 ≤ st.m_extractorSegCtx.length)
    (hc16 : st.m_extractorSegCtx.length < 2 ^ 16)
    (hper : 1 ≤ st.m_segInfo.extractorTracksPerSegThread) :
    ∃ st1, computeSharding st = some st1 ∧
      st1.m_aveETPerSegThread = st.m_segInfo.extractorTracksPerSegThread ∧
      st1.m_threadNumForET =
        (st.m_extractorSegCtx.length + st.m_segInfo.extractorTracksPerSegThread - 1) /
          st.m_segInfo.extractorTracksPerSegThread ∧
      1 ≤ st1.m_lastETPerSegThread ∧
      st1.m_lastETPerSegThread ≤ st.m_segInfo.extractorTracksPerSegThread ∧
      (st1.m_threadNumForET - 1) * st.m_segInfo.extractorTracksPerSegThread +
        st1.m_lastETPerSegThread = st.m_extractorSegCtx.length ∧
      (st.m_extractorSegCtx.length % st.m_segInfo.extractorTracksPerSegThread = 0 →
        st1.m_threadNumForET =
            st.m_extractorSegCtx.length / st.m_segInfo.extractorTracksPerSegThread ∧
          st1.m_lastETPerSegThread = st.m_segInfo.extractorTracksPerSegThread) ∧
      (st.m_extractorSegCtx.length % st.m_segInfo.extractorTracksPerSegThread ≠ 0 →
        st1.m_threadNumForET =
            st.m_extractorSegCtx.length / st.m_segInfo.extractorTracksPerSegThread + 1 ∧
          st1.m_lastETPerSegThread =
            st.m_extractorSegCtx.length % st.m_segInfo.extractorTracksPerSegThread) := by
  have ha := sharding_arith _ _ hc hper
  have hne : st.m_segInfo.extractorTracksPerSegThread ≠ 0 := by omega
  have hmod : st.m_extractorSegCtx.length % 2 ^ 16 = st.m_extractorSegCtx.length :=
    Nat.mod_eq_of_lt hc16
  by_cases h0 : st.m_extractorSegCtx.length % st.m_segInfo.extractorTracksPerSegThread = 0
  · obtain ⟨h1, h2⟩ := ha.1 h0
    have hcs : computeSharding st = some
        { st with
          m_prevSegNum := st.m_segNum
          m_aveETPerSegThread := st.m_segInfo.extractorTracksPerSegThread
          m_lastETPerSegThread := st.m_segInfo.extractorTracksPerSegThread
          m_threadNumForET :=
            st.m_extractorSegCtx.length / st.m_segInfo.extractorTracksPerSegThread } := by
      simp only [computeSharding, hmod, hne, h0, if_true, if_false]
    refine ⟨_, hcs, rfl, ?_, ?_, ?_, ?_, ?_, ?_⟩
    · exact h1
    · exact hper
    · exact Nat.le_refl _
    · exact h2
    · intro _; exact ⟨rfl, rfl⟩
    · intro h; exact absurd h0 h
  · obtain ⟨h1, h2, h3, h4⟩ := ha.2 h0
    have hcs : computeSharding st = some
        { st with
          m_prevSegNum := st.m_segNum
          m_aveETPerSegThread := st.m_segInfo.extractorTracksPerSegThread
          m_lastETPerSegThread :=
            st.m_extractorSegCtx.length % st.m_segInfo.extractorTracksPerSegThread
          m_threadNumForET :=
            st.m_extractorSegCtx.length / st.m_segInfo.extractorTracksPerSegThread + 1 } := by
      simp only [computeSharding, hmod, hne, h0, if_false]
    refine ⟨_, hcs, rfl, ?_, ?_, ?_, ?_, ?_, ?_⟩
    · exact h1
    · exact h2
    · exact h3
    · exact h4
    · intro h; exact absurd h h0
    · intro _; exact ⟨rfl, rfl⟩

set_option maxRecDepth 100000 in
theorem sevenBuilt_count : sevenBuilt.m_extractorSegCtx.length = 7 := by
  decide

/-- Witness for C14: seven extractor contexts and three per worker give three
workers, the last one with one extractor track. -/
theorem sharding_spec_witness :
    ∃ st1, computeSharding sevenBuilt = some st1 ∧
      st1.m_aveETPerSegThread = 3 ∧ st1.m_threadNumForET = 3 ∧
      st1.m_lastETPerSegThread = 1 := by
  obtain ⟨st1, h1, h2, h3, _, _, _, _, h8⟩ := sharding_spec sevenBuilt
    (by rw [sevenBuilt_count]; decide) (by rw [sevenBuilt_count]; decide) (by decide)
  rw [sevenBuilt_count] at h3 h8
  exact ⟨st1, h1, h2, h3, (h8 (by decide)).2⟩

/-! ## Lemmas on the frame writes -/

theorem mapFind_mapAssign_self {α : Type} (k : Nat) (v : α) (m : List (Nat × α)) :
    mapFind k (mapAssign k v m) = some v := by
  induction m with
  | nil => simp [mapAssign, mapFind]
  | cons e rest ih =>
    obtain ⟨a, b⟩ := e
    unfold mapAssign
    by_cases h1 : k < a
    · simp [h1, mapFind]
    · by_cases h2 : k = a
      · subst h2; simp [mapFind]
      · have h3 : ¬ a = k := fun x => h2 x.symm
        simp [h1, h2, h3, mapFind, ih]

theorem mapFind_mapAssign_ne {α : Type} (k k2 : Nat) (v : α) (m : List (Nat × α))
    (hne : k2 ≠ k) : mapFind k2 (mapAssign k v m) = mapFind k2 m := by
  induction m with
  | nil =>
    have h3 : ¬ k = k2 := fun x => hne x.symm
    simp [mapAssign, mapFind, h3]
  | cons e rest ih =>
    obtain ⟨a, b⟩ := e
    have h3 : ¬ k = k2 := fun x => hne x.symm
    unfold mapAssign
    by_cases h1 : k < a
    · simp [h1, mapFind, h3]
    · by_cases h2 : k = a
      · subst h2; simp [mapFind, h3]
      · simp only [h1, h2, if_false, mapFind, ih]

theorem mem_mapKeys_mapAssign {α : Type} (k x : Nat) (v : α) (m : List (Nat × α)) :
    x ∈ mapKeys (mapAssign k v m) ↔ x = k ∨ x ∈ mapKeys m := by
  induction m with
  | nil => simp [mapAssign, mapKeys]
  | cons e rest ih =>
    obtain ⟨a, b⟩ := e
    unfold mapAssign
    by_cases h1 : k < a
    · simp [h1, mapKeys]
    · by_cases h2 : k = a
      · subst h2; simp [mapKeys]
      · simp only [h1, h2, if_false]
        simp only [mapKeys, List.map_cons, List.mem_cons] at ih ⊢
        rw [ih]
        tauto

theorem writeTiles_defined (W : Writer) (frameRate : Rational) (isKeyFrame isEOS : Bool)
    (step : Nat) (hstep : presTimeStep frameRate = some step) :
    ∀ (n tileIdx : Nat) (ctxs : List TrackSegmentCtx) (segNum : Nat) (calls : List WriterCall),
      tileIdx + n ≤ ctxs.length →
      ∃ ret ctxs1 segNum1 calls1,
        writeTiles W frameRate isKeyFrame isEOS n tileIdx ctxs segNum calls =
          some (ret, ctxs1, segNum1, calls1) ∧ ctxs1.length = ctxs.length := by
  intro n
  induction n with
  | zero => intro tileIdx ctxs segNum calls _; exact ⟨_, _, _, _, rfl, rfl⟩
  | succ n ih =>
    intro tileIdx ctxs segNum calls hlen
    have hlt : tileIdx < ctxs.length := by omega
    unfold writeTiles
    rw [List.getElem?_eq_getElem hlt]
    simp only
    by_cases hd : (ctxs[tileIdx]).dashSegmenter = false
    · rw [if_pos hd]; exact ⟨_, _, _, _, rfl, rfl⟩
    · rw [if_neg hd]
      by_cases hr : W.segmentData calls (markFrame isKeyFrame isEOS ctxs[tileIdx]).trackIdx ≠
          ERROR_NONE
      · rw [if_pos hr]; exact ⟨_, _, _, _, rfl, by simp⟩
      · rw [if_neg hr, hstep]
        simp only
        obtain ⟨ret, ctxs1, segNum1, calls1, h1, h2⟩ :=
          ih (tileIdx + 1)
            (ctxs.set tileIdx (advanceFrame step (markFrame isKeyFrame isEOS ctxs[tileIdx])))
            (W.getSegmentsNum
              (calls ++ [WriterCall.SegmentData (markFrame isKeyFrame isEOS ctxs[tileIdx]).trackIdx])
              (markFrame isKeyFrame isEOS ctxs[tileIdx]).trackIdx)
            (calls ++ [WriterCall.SegmentData (markFrame isKeyFrame isEOS ctxs[tileIdx]).trackIdx])
            (by simp; omega)
        exact ⟨ret, ctxs1, segNum1, calls1, h1, by simpa using h2⟩

theorem writeTiles_success (W : Writer) (frameRate : Rational) (isKeyFrame isEOS : Bool) :
    ∀ (n tileIdx : Nat) (ctxs : List TrackSegmentCtx) (segNum : Nat) (calls : List WriterCall)
      (ctxs1 : List TrackSegmentCtx) (segNum1 : Nat) (calls1 : List WriterCall),
      writeTiles W frameRate isKeyFrame isEOS n tileIdx ctxs segNum calls =
        some (ERROR_NONE, ctxs1, segNum1, calls1) →
      ∀ j, ctxs1[j]? =
        if tileIdx ≤ j ∧ j < tileIdx + n then
          (ctxs[j]?).map (fun c =>
            advanceFrame (1000 / (frameRate.num / frameRate.den)) (markFrame isKeyFrame isEOS c))
        else ctxs[j]? := by
  intro n
  induction n with
  | zero =>
    intro tileIdx ctxs segNum calls ctxs1 segNum1 calls1 h j
    simp only [writeTiles, Option.some.injEq, Prod.mk.injEq] at h
    rw [← h.2.1]
    have : ¬ (tileIdx ≤ j ∧ j < tileIdx + 0) := by omega
    rw [if_neg this]
  | succ n ih =>
    intro tileIdx ctxs segNum calls ctxs1 segNum1 calls1 h j
    unfold writeTiles at h
    cases hc : ctxs[tileIdx]? with
    | none => rw [hc] at h; cases h
    | some ctx =>
      rw [hc] at h
      simp only at h
      by_cases hd : ctx.dashSegmenter = false
      · rw [if_pos hd] at h
        simp only [Option.some.injEq, Prod.mk.injEq] at h
        exact absurd h.1 (by decide)
      · rw [if_neg hd] at h
        by_cases hr : W.segmentData calls (markFrame isKeyFrame isEOS ctx).trackIdx ≠ ERROR_NONE
        · rw [if_pos hr] at h
          simp only [Option.some.injEq, Prod.mk.injEq] at h
          exact absurd h.1 hr
        · rw [if_neg hr] at h
          cases hs : presTimeStep frameRate with
          | none => rw [hs] at h; cases h
          | some step =>
            rw [hs] at h
            simp only at h
            have hstep : step = 1000 / (frameRate.num / frameRate.den) := by
              unfold presTimeStep at hs
              split at hs
              · cases hs
              · split at hs
                · cases hs
                · exact (Option.some.inj hs).symm
            subst hstep
            rw [ih _ _ _ _ _ _ _ h j]
            have hlt : tileIdx < ctxs.length := by
              rcases Nat.lt_or_ge tileIdx ctxs.length with h1 | h1
              · exact h1
              · rw [List.getElem?_eq_none h1] at hc; cases hc
            by_cases hj : j = tileIdx
            · subst hj
              have h1 : ¬ (j + 1 ≤ j ∧ j < j + 1 + n) := by omega
              have h2 : j ≤ j ∧ j < j + (n + 1) := by omega
              rw [if_neg h1, if_pos h2, hc]
              simp [hlt]
            · have hne : tileIdx ≠ j := fun x => hj x.symm
              rw [List.getElem?_set_ne hne]
              by_cases h1 : tileIdx + 1 ≤ j ∧ j < tileIdx + 1 + n
              · have h2 : tileIdx ≤ j ∧ j < tileIdx + (n + 1) := by omega
                rw [if_pos h1, if_pos h2]
              · have h2 : ¬ (tileIdx ≤ j ∧ j < tileIdx + (n + 1)) := by omega
                rw [if_neg h1, if_neg h2]

theorem presTimeStep_some (r : Rational) (hden : 1 ≤ r.den) (hnum : r.den ≤ r.num) :
    presTimeStep r = some (1000 / (r.num / r.den)) := by
  have h1 : ¬ r.den = 0 := by omega
  have h2 : ¬ r.num / r.den = 0 := by
    intro h
    have := (Nat.div_eq_zero_iff (by omega : 0 < r.den)).1 h
    omega
  simp only [presTimeStep, h1, h2, if_false]

theorem step_of_dvd (num den : Nat) (hden : 1 ≤ den) (h : den ∣ num) :
    1000 / (num / den) = 1000 * den / num := by
  obtain ⟨q, rfl⟩ := h
  rw [Nat.mul_div_cancel_left q (by omega : 0 < den)]
  rw [Nat.mul_comm den q, Nat.mul_div_mul_right 1000 q (by omega : 0 < den)]

theorem writeVideo_step (W : Writer) (st : DefaultSegmentation)
    (hden : 1 ≤ st.m_frameRate.den) (hnum : st.m_frameRate.den ≤ st.m_frameRate.num)
    (streamIdx : Nat) (vs : MediaStream) (isKeyFrame isEOS : Bool) (calls : List WriterCall)
    (ctxs : List TrackSegmentCtx) (hfind : mapFind streamIdx st.m_streamSegCtx = some ctxs)
    (hlen : tilesNum vs ≤ ctxs.length) :
    ∃ ret st1 calls1 ctxs1,
      WriteSegmentForEachVideo W streamIdx vs isKeyFrame isEOS st calls =
        some (ret, st1, calls1) ∧
      mapFind streamIdx st1.m_streamSegCtx = some ctxs1 ∧
      (ret = ERROR_NONE → ∀ j ctx, j < tilesNum vs → ctxs[j]? = some ctx →
        ∃ ctx1, ctxs1[j]? = some ctx1 ∧
          ctx1.codedMeta.presTime =
            { num := ctx.codedMeta.presTime.num +
                1000 / (st.m_frameRate.num / st.m_frameRate.den),
              den := 1000 }) := by
  obtain ⟨ret, ctxs1, segNum1, calls1, hw, _⟩ :=
    writeTiles_defined W st.m_frameRate isKeyFrame isEOS _
      (presTimeStep_some _ hden hnum) (tilesNum vs) 0 ctxs st.m_segNum calls (by omega)
  refine ⟨ret,
    { st with
      m_streamSegCtx := mapAssign streamIdx ctxs1 st.m_streamSegCtx
      m_segNum := segNum1 }, calls1, ctxs1, ?_, ?_, ?_⟩
  · simp only [WriteSegmentForEachVideo, hfind, hw]
  · exact mapFind_mapAssign_self _ _ _
  · intro hret j ctx hj hctx
    subst hret
    have h := writeTiles_success W st.m_frameRate isKeyFrame isEOS _ _ _ _ _ _ _ _ hw j
    have hin : 0 ≤ j ∧ j < 0 + tilesNum vs := by omega
    rw [if_pos hin, hctx] at h
    exact ⟨_, h, rfl⟩

theorem writeExtractor_step (W : Writer) (st : DefaultSegmentation)
    (hden : 1 ≤ st.m_frameRate.den) (hnum : st.m_frameRate.den ≤ st.m_frameRate.num)
    (key : Nat) (isKeyFrame isEOS : Bool) (calls : List WriterCall)
    (ctx : TrackSegmentCtx) (hfind : mapFind key st.m_extractorSegCtx = some ctx) :
    ∃ ret st1 calls1 ctx1,
      WriteSegmentForEachExtractorTrack W key isKeyFrame isEOS st calls =
        some (ret, st1, calls1) ∧
      mapFind key st1.m_extractorSegCtx = some ctx1 ∧
      (ret = ERROR_NONE →
        ctx1.codedMeta.presTime =
          { num := ctx.codedMeta.presTime.num +
              1000 / (st.m_frameRate.num / st.m_frameRate.den),
            den := 1000 }) := by
  unfold WriteSegmentForEachExtractorTrack
  rw [hfind]
  simp only
  by_cases hd : (markFrame isKeyFrame isEOS ctx).dashSegmenter = false
  · rw [if_pos hd]
    exact ⟨_, _, _, _, rfl, mapFind_mapAssign_self _ _ _, fun h => absurd h (by decide)⟩
  · rw [if_neg hd]
    by_cases hr : W.segmentData calls (markFrame isKeyFrame isEOS ctx).trackIdx ≠ ERROR_NONE
    · rw [if_pos hr]
      exact ⟨_, _, _, _, rfl, mapFind_mapAssign_self _ _ _, fun h => absurd h hr⟩
    · rw [if_neg hr, presTimeStep_some _ hden hnum]
      exact ⟨_, _, _, _, rfl, mapFind_mapAssign_self _ _ _, fun _ => rfl⟩

/-! ## Claim C17: the step of the presentation time -/

set_option maxRecDepth 100000 in
theorem ntsc_write :
    ntscBuilt.m_frameRate = ⟨30000, 1001⟩ ∧
    (mapFind 0 ntscBuilt.m_streamSegCtx).map
        (fun ctxs => ctxs.map (fun c => c.codedMeta.presTime)) = some [⟨0, 1000⟩] ∧
    (WriteSegmentForEachVideo sampleWriter 0 ntscStream true false ntscBuilt []).map
        (fun r => (r.1, (mapFind 0 r.2.1.m_streamSegCtx).map
          (fun ctxs => ctxs.map (fun c => c.codedMeta.presTime)))) =
      some (ERROR_NONE, some [⟨34, 1000⟩]) ∧
    1000 * 1001 / 30000 = 33 := by
  decide

/-- C17, as stated, fails at 30000/1001 frames per second: the successful
write of a frame of the one-tile stream `ntscStream` moves the presentation
time of its context from 0/1000 to 34/1000, while `1000 * den / num` is 33. -/
theorem presTime_step_ntsc :
    ntscBuilt.m_frameRate = ⟨30000, 1001⟩ ∧
    (mapFind 0 ntscBuilt.m_streamSegCtx).map
        (fun ctxs => ctxs.map (fun c => c.codedMeta.presTime)) = some [⟨0, 1000⟩] ∧
    (WriteSegmentForEachVideo sampleWriter 0 ntscStream true false ntscBuilt []).map
        (fun r => (r.1, (mapFind 0 r.2.1.m_streamSegCtx).map
          (fun ctxs => ctxs.map (fun c => c.codedMeta.presTime)))) =
      some (ERROR_NONE, some [⟨34, 1000⟩]) ∧
    1000 * 1001 / 30000 = 33 :=
  ntsc_write

/-- C17, amended: for a frame rate with `1 ≤ den ≤ num`, a frame write by
`WriteSegmentForEachVideo` on a stream whose context array holds every tile,
and a frame write by `WriteSegmentForEachExtractorTrack` on a registered
extractor track, both return; when the returned code is `ERROR_NONE`, every
context written has `presTime.den = 1000` and a `presTime.num` increased by
`1000 / (num / den)`, both divisions being integer divisions. This step is
`1000 * den / num` when `den` divides `num`. -/
theorem presTime_step (W : Writer) (st : DefaultSegmentation)
    (hden : 1 ≤ st.m_frameRate.den) (hnum : st.m_frameRate.den ≤ st.m_frameRate.num) :
    (∀ streamIdx vs isKeyFrame isEOS calls ctxs,
      mapFind streamIdx st.m_streamSegCtx = some ctxs → tilesNum vs ≤ ctxs.length →
      ∃ ret st1 calls1 ctxs1,
        WriteSegmentForEachVideo W streamIdx vs isKeyFrame isEOS st calls =
          some (ret, st1, calls1) ∧
        mapFind streamIdx st1.m_streamSegCtx = some ctxs1 ∧
        (ret = ERROR_NONE → ∀ j ctx, j < tilesNum vs → ctxs[j]? = some ctx →
          ∃ ctx1, ctxs1[j]? = some ctx1 ∧
            ctx1.codedMeta.presTime =
              { num := ctx.codedMeta.presTime.num +
                  1000 / (st.m_frameRate.num / st.m_frameRate.den),
                den := 1000 })) ∧
    (∀ key isKeyFrame isEOS calls ctx,
      mapFind key st.m_extractorSegCtx = some ctx →
      ∃ ret st1 calls1 ctx1,
        WriteSegmentForEachExtractorTrack W key isKeyFrame isEOS st calls =
          some (ret, st1, calls1) ∧
        mapFind key st1.m_extractorSegCtx = some ctx1 ∧
        (ret = ERROR_NONE →
          ctx1.codedMeta.presTime =
            { num := ctx.codedMeta.presTime.num +
                1000 / (st.m_frameRate.num / st.m_frameRate.den),
              den := 1000 })) ∧
    (st.m_frameRate.den ∣ st.m_frameRate.num →
      1000 / (st.m_frameRate.num / st.m_frameRate.den) =
        1000 * st.m_frameRate.den / st.m_frameRate.num) :=
  ⟨fun streamIdx vs isKeyFrame isEOS calls ctxs hfind hlen =>
      writeVideo_step W st hden hnum streamIdx vs isKeyFrame isEOS calls ctxs hfind hlen,
   fun key isKeyFrame isEOS calls ctx hfind =>
      writeExtractor_step W st hden hnum key isKeyFrame isEOS calls ctx hfind,
   fun h => step_of_dvd _ _ hden h⟩

set_option maxRecDepth 100000 in
theorem ntscBuilt_rate :
    1 ≤ ntscBuilt.m_frameRate.den ∧ ntscBuilt.m_frameRate.den ≤ ntscBuilt.m_frameRate.num := by
  decide

set_option maxRecDepth 100000 in
theorem ntscBuilt_ctxs :
    ∃ ctx, mapFind 0 ntscBuilt.m_streamSegCtx = some [ctx] ∧
      ctx.codedMeta.presTime = ⟨0, 1000⟩ := by
  cases h : mapFind 0 ntscBuilt.m_streamSegCtx with
  | none => exact absurd h (by decide)
  | some ctxs =>
    match ctxs, h with
    | [ctx], h =>
      refine ⟨ctx, rfl, ?_⟩
      have h2 : (mapFind 0 ntscBuilt.m_streamSegCtx).map
          (fun ctxs => ctxs.map (fun c => c.codedMeta.presTime)) = some [⟨0, 1000⟩] :=
        ntsc_write.2.1
      rw [h] at h2
      simpa using h2
    | [], h =>
      have h2 := ntsc_write.2.1
      rw [h] at h2
      simp at h2
    | _ :: _ :: _, h =>
      have h2 := ntsc_write.2.1
      rw [h] at h2
      simp at h2

/-- Witness for C17: a frame of the one-tile stream at 30000/1001 frames per
second, written with a writer that accepts it, moves the presentation time of
the tile track from 0/1000 to 34/1000. -/
theorem presTime_step_witness :
    ∃ ret st1 calls1 ctxs1 ctx1,
      WriteSegmentForEachVideo sampleWriter 0 ntscStream true false ntscBuilt [] =
        some (ret, st1, calls1) ∧
      mapFind 0 st1.m_streamSegCtx = some ctxs1 ∧
      (ret = ERROR_NONE → ctxs1[0]? = some ctx1 ∧
        ctx1.codedMeta.presTime = ⟨0 + 1000 / (30000 / 1001), 1000⟩) := by
  obtain ⟨ctx, hfind, hpt⟩ := ntscBuilt_ctxs
  obtain ⟨ret, st1, calls1, ctxs1, h1, h2, h3⟩ :=
    (presTime_step sampleWriter ntscBuilt ntscBuilt_rate.1 ntscBuilt_rate.2).1
      0 ntscStream true false [] [ctx] hfind (show tilesNum ntscStream ≤ 1 by decide)
  by_cases hret : ret = ERROR_NONE
  · obtain ⟨ctx1, h4, h5⟩ := h3 hret 0 ctx (show 0 < tilesNum ntscStream by decide) rfl
    refine ⟨ret, st1, calls1, ctxs1, ctx1, h1, h2, fun _ => ⟨h4, ?_⟩⟩
    rw [h5, hpt, ntsc_write.1]
  · exact ⟨ret, st1, calls1, ctxs1, ctx, h1, h2, fun h => absurd h hret⟩

/-! ## Claims C19 and C20: the live window -/

theorem toInt32_of_small (x : Int) (h1 : -(2 ^ 31) ≤ x) (h2 : x < 2 ^ 31) : toInt32 x = x := by
  unfold toInt32
  have h3 : (x + 2 ^ 31) % 2 ^ 32 = x + 2 ^ 31 :=
    Int.emod_eq_of_lt (by omega) (by omega)
  omega

theorem liveWindow_of_positive (segInfo : SegmentationInfo) (segNum : Nat)
    (tileIds extractorIds : List Nat) (k : Int)
    (hlive : segInfo.isLive = true) (hw : segInfo.windowSize ≠ 0)
    (he : segInfo.extraWindowSize ≠ 0)
    (hk : toInt32 ((segNum : Int) - (segInfo.windowSize : Int) -
      (segInfo.extraWindowSize : Int)) = k) (hpos : 0 < k) :
    liveWindow segInfo segNum tileIds extractorIds =
      tileIds.map (fun id => Event.Remove id k (removedFile segInfo id k)) ++
        extractorIds.map (fun id => Event.Remove id k (removedFile segInfo id k)) := by
  unfold liveWindow
  rw [if_pos hlive, if_pos ⟨hw, he⟩]
  simp only [hk, hpos, if_true]

theorem liveWindow_mem (segInfo : SegmentationInfo) (segNum : Nat)
    (tileIds extractorIds : List Nat) (ev : Event)
    (h : ev ∈ liveWindow segInfo segNum tileIds extractorIds) :
    segInfo.isLive = true ∧ segInfo.windowSize ≠ 0 ∧ segInfo.extraWindowSize ≠ 0 ∧
      0 < toInt32 ((segNum : Int) - (segInfo.windowSize : Int) -
        (segInfo.extraWindowSize : Int)) ∧
      ∃ id, (id ∈ tileIds ∨ id ∈ extractorIds) ∧
        ev = Event.Remove id
          (toInt32 ((segNum : Int) - (segInfo.windowSize : Int) -
            (segInfo.extraWindowSize : Int)))
          (removedFile segInfo id
            (toInt32 ((segNum : Int) - (segInfo.windowSize : Int) -
              (segInfo.extraWindowSize : Int)))) := by
  unfold liveWindow at h
  by_cases hlive : segInfo.isLive = true
  · rw [if_pos hlive] at h
    by_cases hwe : segInfo.windowSize ≠ 0 ∧ segInfo.extraWindowSize ≠ 0
    · rw [if_pos hwe] at h
      simp only at h
      by_cases hpos : 0 < toInt32 ((segNum : Int) - (segInfo.windowSize : Int) -
          (segInfo.extraWindowSize : Int))
      · rw [if_pos hpos] at h
        refine ⟨hlive, hwe.1, hwe.2, hpos, ?_⟩
        rcases List.mem_append.1 h with h1 | h1
        · obtain ⟨id, hid, rfl⟩ := List.mem_map.1 h1
          exact ⟨id, Or.inl hid, rfl⟩
        · obtain ⟨id, hid, rfl⟩ := List.mem_map.1 h1
          exact ⟨id, Or.inr hid, rfl⟩
      · rw [if_neg hpos] at h; cases h
    · rw [if_neg hwe] at h; cases h
  · rw [if_neg hlive] at h; cases h

/-- C19, as stated, fails for a window size of 0: in live mode with
`windowSize = 0` and `extraWindowSize = 2`, the live-window steps of the ticks
with the segment counts 0 to 5 make no call of `remove` at all, although
`5 - 0 - 2` is 3. -/
theorem liveWindow_zero_window_keeps_all :
    zeroWindowSegInfo.isLive = true ∧
    zeroWindowSegInfo.windowSize = 0 ∧ zeroWindowSegInfo.extraWindowSize = 2 ∧
    liveWindowRun zeroWindowSegInfo [0, 1, 2, 3, 4, 5] [1] [1000] = [] := by
  decide

/-- C19, amended: in live mode with `1 ≤ windowSize` and `1 ≤ extraWindowSize`,
when the live-window step ran in ticks whose segment counts include every
value from 1 to `S` (with `S` below 2^31, the range of `removeCnt`), a call of
`remove` has been made for every tile-track id and every extractor-track id
and every index `k` with `1 ≤ k ≤ S - windowSize - extraWindowSize`, on the
name that `snprintf` renders from `dirName`, `outName`, the id and `k` into
its buffer of 1024 bytes. -/
theorem liveWindow_deletes_old (segInfo : SegmentationInfo) (S : Nat) (segNums : List Nat)
    (tileIds extractorIds : List Nat)
    (hlive : segInfo.isLive = true)
    (hw : 1 ≤ segInfo.windowSize) (he : 1 ≤ segInfo.extraWindowSize)
    (hS : S < 2 ^ 31)
    (hrise : ∀ s, 1 ≤ s → s ≤ S → s ∈ segNums) :
    ∀ id k, (id ∈ tileIds ∨ id ∈ extractorIds) → 1 ≤ k →
      k + segInfo.windowSize + segInfo.extraWindowSize ≤ S →
      Event.Remove id (k : Int) (removedFile segInfo id (k : Int)) ∈
        liveWindowRun segInfo segNums tileIds extractorIds := by
  intro id k hid hk1 hkS
  have hmem := hrise (k + segInfo.windowSize + segInfo.extraWindowSize) (by omega) hkS
  unfold liveWindowRun
  rw [List.mem_flatMap]
  refine ⟨_, hmem, ?_⟩
  have hval : toInt32 (((k + segInfo.windowSize + segInfo.extraWindowSize : Nat) : Int) -
      (segInfo.windowSize : Int) - (segInfo.extraWindowSize : Int)) = (k : Int) := by
    have : ((k + segInfo.windowSize + segInfo.extraWindowSize : Nat) : Int) -
        (segInfo.windowSize : Int) - (segInfo.extraWindowSize : Int) = (k : Int) := by
      push_cast; ring
    rw [this]
    apply toInt32_of_small <;> omega
  rw [liveWindow_of_positive segInfo _ tileIds extractorIds (k : Int) hlive (by omega)
    (by omega) hval (by omega)]
  rw [List.mem_append]
  rcases hid with hid | hid
  · exact Or.inl (List.mem_map.2 ⟨id, hid, rfl⟩)
  · exact Or.inr (List.mem_map.2 ⟨id, hid, rfl⟩)

/-- Witness for C19: with a window of 3 and 1 extra segment, after the steps
for the segment counts 0 to 6 the segment 2 of the extractor track 1000 has
been removed. -/
theorem liveWindow_deletes_old_witness :
    Event.Remove 1000 ((2 : Nat) : Int) (removedFile liveSegInfo 1000 ((2 : Nat) : Int)) ∈
      liveWindowRun liveSegInfo [0, 1, 2, 3, 4, 5, 6] [1] [1000] :=
  liveWindow_deletes_old liveSegInfo 6 [0, 1, 2, 3, 4, 5, 6] [1] [1000] rfl (by decide)
    (by decide) (by decide) (by intro s h1 h2; simp; omega) 1000 2
    (Or.inr (List.mem_singleton.2 rfl)) (by decide) (by decide)

set_option maxRecDepth 100000 in
theorem wideWindow_run :
    wideWindowSegInfo.isLive = true ∧
    wideWindowSegInfo.windowSize = 2147483647 ∧
    wideWindowSegInfo.extraWindowSize = 2147483647 ∧
    removedIndices (liveWindow wideWindowSegInfo 6 [1] [1000]) = [(1, 8), (1000, 8)] ∧
    ((6 : Int) - 2147483647 - 2147483647 < 0) := by
  decide

/-- Claim C20, as the code has it: in live mode with `windowSize` and
`extraWindowSize` both 2^31 - 1, the difference `6 - windowSize -
extraWindowSize` is negative, yet the 32-bit `removeCnt` of the step of the
tick with segment count 6 is 8, and `remove` is called with the index 8 for the
tile track 1 and for the extractor track 1000. -/
theorem liveWindow_wide_window_removes_ahead :
    wideWindowSegInfo.isLive = true ∧
    wideWindowSegInfo.windowSize = 2147483647 ∧
    wideWindowSegInfo.extraWindowSize = 2147483647 ∧
    removedIndices (liveWindow wideWindowSegInfo 6 [1] [1000]) = [(1, 8), (1000, 8)] ∧
    ((6 : Int) - 2147483647 - 2147483647 < 0) :=
  wideWindow_run

/-- Claim C20, amended: with a segment count `S` below 2^31 and
`windowSize + extraWindowSize` below 2^31 (so that the 32-bit `removeCnt` is
the exact difference), every call of `remove` made by the live-window step of
a tick is made in live mode, for a track id of one of the two registries and
for the index `S - windowSize - extraWindowSize`, which is positive; hence the
steps of ticks with segment counts up to `S` never remove an index above
`S - windowSize - extraWindowSize`; and in non-live mode the step makes no
call. -/
theorem liveWindow_only_oldest (segInfo : SegmentationInfo) (S : Nat)
    (tileIds extractorIds : List Nat)
    (hS : S < 2 ^ 31) (hwe : segInfo.windowSize + segInfo.extraWindowSize < 2 ^ 31) :
    (∀ ev ∈ liveWindow segInfo S tileIds extractorIds,
      segInfo.isLive = true ∧
      0 < (S : Int) - (segInfo.windowSize : Int) - (segInfo.extraWindowSize : Int) ∧
      ∃ id, (id ∈ tileIds ∨ id ∈ extractorIds) ∧
        ev = Event.Remove id
          ((S : Int) - (segInfo.windowSize : Int) - (segInfo.extraWindowSize : Int))
          (removedFile segInfo id
            ((S : Int) - (segInfo.windowSize : Int) - (segInfo.extraWindowSize : Int)))) ∧
    (∀ segNums : List Nat, (∀ s ∈ segNums, s ≤ S) →
      ∀ id k file, Event.Remove id k file ∈ liveWindowRun segInfo segNums tileIds extractorIds →
        1 ≤ k ∧
        k ≤ (S : Int) - (segInfo.windowSize : Int) - (segInfo.extraWindowSize : Int)) ∧
    (segInfo.isLive = false → ∀ s, liveWindow segInfo s tileIds extractorIds = []) := by
  have hsmall : ∀ s : Nat, s ≤ S →
      toInt32 ((s : Int) - (segInfo.windowSize : Int) - (segInfo.extraWindowSize : Int)) =
        (s : Int) - (segInfo.windowSize : Int) - (segInfo.extraWindowSize : Int) := by
    intro s hs
    apply toInt32_of_small <;> omega
  refine ⟨?_, ?_, ?_⟩
  · intro ev hev
    obtain ⟨h1, _, _, h4, id, hid, hev2⟩ := liveWindow_mem _ _ _ _ _ hev
    rw [hsmall S (Nat.le_refl S)] at h4 hev2
    exact ⟨h1, h4, id, hid, hev2⟩
  · intro segNums hall id k file hmem
    unfold liveWindowRun at hmem
    rw [List.mem_flatMap] at hmem
    obtain ⟨s, hs, hev⟩ := hmem
    obtain ⟨_, _, _, h4, id2, _, hev2⟩ := liveWindow_mem _ _ _ _ _ hev
    have hsS := hall s hs
    rw [hsmall s hsS] at h4 hev2
    injection hev2 with _ hk _
    subst hk
    constructor
    · omega
    · omega
  · intro hlive s
    unfold liveWindow
    simp [hlive]

theorem liveWindow_example :
    removedIndices (liveWindowRun liveSegInfo [0, 1, 2, 3, 4, 5, 6] [1] [1000]) =
      [(1, 1), (1000, 1), (1, 2), (1000, 2)] := by
  decide

/-- Witness for C20: with a window of 3 and 1 extra segment, the step of the
tick with segment count 6 removes index 2 only, and the steps of the ticks
with the counts 0 to 6 remove no index above 2. -/
theorem liveWindow_only_oldest_witness :
    (∀ ev ∈ liveWindow liveSegInfo 6 [1] [1000],
      liveSegInfo.isLive = true ∧
      0 < ((6 : Nat) : Int) - (liveSegInfo.windowSize : Int) -
        (liveSegInfo.extraWindowSize : Int) ∧
      ∃ id, (id ∈ [1] ∨ id ∈ [1000]) ∧
        ev = Event.Remove id
          (((6 : Nat) : Int) - (liveSegInfo.windowSize : Int) -
            (liveSegInfo.extraWindowSize : Int))
          (removedFile liveSegInfo id
            (((6 : Nat) : Int) - (liveSegInfo.windowSize : Int) -
              (liveSegInfo.extraWindowSize : Int)))) ∧
    (∀ segNums : List Nat, (∀ s ∈ segNums, s ≤ 6) →
      ∀ id k file, Event.Remove id k file ∈ liveWindowRun liveSegInfo segNums [1] [1000] →
        1 ≤ k ∧
        k ≤ ((6 : Nat) : Int) - (liveSegInfo.windowSize : Int) -
          (liveSegInfo.extraWindowSize : Int)) ∧
    (liveSegInfo.isLive = false → ∀ s, liveWindow liveSegInfo s [1] [1000] = []) :=
  liveWindow_only_oldest liveSegInfo 6 [1] [1000] (by decide) (by decide)

/-! ## Claim C18: a fault of the writer in the frame loop -/

set_option maxRecDepth 1000000 in
theorem faulty_run :
    (VideoSegmentation sampleConstants sampleCollaborators (frameLoop faultyEnv 2 twoStreams [])
      twoStreams [] (DefaultSegmentation.fresh sampleSegInfo 1)).map (fun r => (r.1, r.2.2)) =
    some (ERROR_NONE,
      [WriterCall.GenerateInitSegment 1, WriterCall.GenerateInitSegment 2,
       WriterCall.GenerateInitSegment 3, WriterCall.GenerateInitSegment 4,
       WriterCall.GenerateInitSegment 5, WriterCall.GenerateInitSegment 6,
       WriterCall.GenerateInitSegment 7, WriterCall.GenerateInitSegment 8,
       WriterCall.SegmentData 1,
       WriterCall.SegmentData 5, WriterCall.SegmentData 6, WriterCall.SegmentData 7,
       WriterCall.SegmentData 8,
       WriterCall.SegmentData 1, WriterCall.SegmentData 2, WriterCall.SegmentData 3,
       WriterCall.SegmentData 4, WriterCall.SegmentData 5, WriterCall.SegmentData 6,
       WriterCall.SegmentData 7, WriterCall.SegmentData 8]) := by
  decide

/-- C18, defect of the code: the code that `SegmentData` returns in the frame
loop is lost. On the two sample streams without extractor tracks, the first
`SegmentData`, for the tile track 1 in tick 0, returns the code 7;
`WriteSegmentForEachVideo` returns it, the frame loop does not read it, the
tile tracks 5 to 8 of the second stream are written in the same tick, all
eight tile tracks are written in the EOS tick, and `VideoSegmentation`
returns `ERROR_NONE`. -/
theorem writer_fault_not_returned :
    faultyEnv.writer.segmentData
        [WriterCall.GenerateInitSegment 1, WriterCall.GenerateInitSegment 2,
         WriterCall.GenerateInitSegment 3, WriterCall.GenerateInitSegment 4,
         WriterCall.GenerateInitSegment 5, WriterCall.GenerateInitSegment 6,
         WriterCall.GenerateInitSegment 7, WriterCall.GenerateInitSegment 8] 1 =
      ErrorCode.OTHER 7 ∧
    (VideoSegmentation sampleConstants sampleCollaborators (frameLoop faultyEnv 2 twoStreams [])
      twoStreams [] (DefaultSegmentation.fresh sampleSegInfo 1)).map (fun r => (r.1, r.2.2)) =
    some (ERROR_NONE,
      [WriterCall.GenerateInitSegment 1, WriterCall.GenerateInitSegment 2,
       WriterCall.GenerateInitSegment 3, WriterCall.GenerateInitSegment 4,
       WriterCall.GenerateInitSegment 5, WriterCall.GenerateInitSegment 6,
       WriterCall.GenerateInitSegment 7, WriterCall.GenerateInitSegment 8,
       WriterCall.SegmentData 1,
       WriterCall.SegmentData 5, WriterCall.SegmentData 6, WriterCall.SegmentData 7,
       WriterCall.SegmentData 8,
       WriterCall.SegmentData 1, WriterCall.SegmentData 2, WriterCall.SegmentData 3,
       WriterCall.SegmentData 4, WriterCall.SegmentData 5, WriterCall.SegmentData 6,
       WriterCall.SegmentData 7, WriterCall.SegmentData 8]) :=
  ⟨rfl, faulty_run⟩

/-! ## Lemmas on the flag maps -/

theorem mem_mapAssign_self {α : Type} (k : Nat) (v : α) (m : List (Nat × α)) :
    (k, v) ∈ mapAssign k v m := by
  induction m with
  | nil => simp [mapAssign]
  | cons e rest ih =>
    obtain ⟨a, b⟩ := e
    unfold mapAssign
    by_cases h1 : k < a
    · simp [h1]
    · by_cases h2 : k = a
      · subst h2; simp
      · simp only [h1, h2, if_false, List.mem_cons]
        exact Or.inr ih

theorem mem_mapAssign_of_ne {α : Type} (k : Nat) (v : α) (m : List (Nat × α))
    (e : Nat × α) (he : e ∈ m) (hne : e.1 ≠ k) : e ∈ mapAssign k v m := by
  induction m with
  | nil => cases he
  | cons e2 rest ih =>
    obtain ⟨a, b⟩ := e2
    unfold mapAssign
    by_cases h1 : k < a
    · simp only [h1, if_true, List.mem_cons]
      exact Or.inr (List.mem_cons.1 he)
    · by_cases h2 : k = a
      · subst h2
        simp only [Nat.lt_irrefl, if_false, if_true, List.mem_cons]
        rcases List.mem_cons.1 he with h | h
        · subst h; exact absurd rfl hne
        · exact Or.inr h
      · simp only [h1, h2, if_false, List.mem_cons]
        rcases List.mem_cons.1 he with h | h
        · exact Or.inl h
        · exact Or.inr (ih h)

theorem mapAssign_entries {α : Type} (k : Nat) (v : α) (m : List (Nat × α))
    (hm : keysAscending m) (e : Nat × α) (he : e ∈ mapAssign k v m) :
    e = (k, v) ∨ (e ∈ m ∧ e.1 ≠ k) := by
  induction m with
  | nil =>
    simp only [mapAssign, List.mem_singleton] at he
    exact Or.inl he
  | cons e2 rest ih =>
    obtain ⟨a, b⟩ := e2
    have hlt : ∀ x ∈ mapKeys rest, a < x := by
      simp only [keysAscending, mapKeys, List.map_cons, List.pairwise_cons] at hm
      exact hm.1
    have hrest : keysAscending rest := by
      simp only [keysAscending, mapKeys, List.map_cons, List.pairwise_cons] at hm
      exact hm.2
    unfold mapAssign at he
    by_cases h1 : k < a
    · simp only [h1, if_true, List.mem_cons] at he
      rcases he with h | h | h
      · exact Or.inl h
      · subst h; exact Or.inr ⟨List.mem_cons_self _ _, by simp; omega⟩
      · refine Or.inr ⟨List.mem_cons_of_mem _ h, ?_⟩
        have := hlt e.1 (List.mem_map.2 ⟨e, h, rfl⟩)
        omega
    · by_cases h2 : k = a
      · subst h2
        simp only [Nat.lt_irrefl, if_false, if_true, List.mem_cons] at he
        rcases he with h | h
        · exact Or.inl h
        · refine Or.inr ⟨List.mem_cons_of_mem _ h, ?_⟩
          have := hlt e.1 (List.mem_map.2 ⟨e, h, rfl⟩)
          omega
      · simp only [h1, h2, if_false, List.mem_cons] at he
        rcases he with h | h
        · subst h
          exact Or.inr ⟨List.mem_cons_self _ _, fun x => h2 x.symm⟩
        · rcases ih hrest h with h3 | h3
          · exact Or.inl h3
          · exact Or.inr ⟨List.mem_cons_of_mem _ h3.1, h3.2⟩

theorem keysAscending_mapAssign {α : Type} (k : Nat) (v : α) (m : List (Nat × α))
    (hm : keysAscending m) : keysAscending (mapAssign k v m) := by
  induction m with
  | nil => simp [mapAssign, keysAscending, mapKeys]
  | cons e2 rest ih =>
    obtain ⟨a, b⟩ := e2
    have hlt : ∀ x ∈ mapKeys rest, a < x := by
      simp only [keysAscending, mapKeys, List.map_cons, List.pairwise_cons] at hm
      exact hm.1
    have hrest : keysAscending rest := by
      simp only [keysAscending, mapKeys, List.map_cons, List.pairwise_cons] at hm
      exact hm.2
    unfold mapAssign
    by_cases h1 : k < a
    · simp only [h1, if_true]
      simp only [keysAscending, mapKeys, List.map_cons, List.pairwise_cons, List.mem_cons]
      simp only [keysAscending, mapKeys, List.map_cons, List.pairwise_cons] at hm
      refine ⟨?_, hm⟩
      intro x hx
      rcases hx with hx | hx
      · omega
      · have := hm.1 x hx
        omega
    · by_cases h2 : k = a
      · subst h2
        simp only [Nat.lt_irrefl, if_false, if_true]
        exact hm
      · simp only [h1, h2, if_false]
        simp only [keysAscending, mapKeys, List.map_cons, List.pairwise_cons]
        refine ⟨?_, ih hrest⟩
        intro x hx
        have hx2 : x ∈ mapKeys (mapAssign k v rest) := hx
        rw [mem_mapKeys_mapAssign] at hx2
        rcases hx2 with hx2 | hx2
        · omega
        · exact hlt x hx2

theorem assignFlags_spec (flag : Nat → Bool) (ks : List Nat) :
    ∀ m : List (Nat × Bool), keysAscending m →
      keysAscending (assignFlags flag ks m) ∧
      (∀ e ∈ assignFlags flag ks m,
        (e.1 ∈ ks ∧ e.2 = flag e.1) ∨ (e ∈ m ∧ e.1 ∉ ks)) ∧
      (∀ e ∈ m, e.1 ∉ ks → e ∈ assignFlags flag ks m) ∧
      (∀ k ∈ ks, (k, flag k) ∈ assignFlags flag ks m) := by
  induction ks with
  | nil =>
    intro m hm
    refine ⟨hm, ?_, ?_, ?_⟩
    · intro e he; exact Or.inr ⟨he, by simp⟩
    · intro e he _; exact he
    · intro k hk; cases hk
  | cons k ks ih =>
    intro m hm
    have hm1 := keysAscending_mapAssign k (flag k) m hm
    obtain ⟨h1, h2, h3, h4⟩ := ih (mapAssign k (flag k) m) hm1
    refine ⟨h1, ?_, ?_, ?_⟩
    · intro e he
      rcases h2 e he with h | h
      · exact Or.inl ⟨List.mem_cons_of_mem _ h.1, h.2⟩
      · rcases mapAssign_entries k (flag k) m hm e h.1 with h5 | h5
        · subst h5
          exact Or.inl ⟨List.mem_cons_self _ _, rfl⟩
        · refine Or.inr ⟨h5.1, ?_⟩
          intro hmem
          rcases List.mem_cons.1 hmem with h6 | h6
          · exact h5.2 h6
          · exact h.2 h6
    · intro e he hne
      have hne1 : e.1 ≠ k := fun x => hne (by rw [x]; exact List.mem_cons_self _ _)
      have hne2 : e.1 ∉ ks := fun x => hne (List.mem_cons_of_mem _ x)
      exact h3 e (mem_mapAssign_of_ne k (flag k) m e he hne1) hne2
    · intro k2 hk2
      by_cases hin : k2 ∈ ks
      · exact h4 k2 hin
      · rcases List.mem_cons.1 hk2 with h5 | h5
        · subst h5
          exact h3 (k2, flag k2) (mem_mapAssign_self _ _ _) hin
        · exact absurd h5 hin

theorem flagsAgree_iff (first : Bool) (m : List (Nat × Bool)) :
    flagsAgree first m = true ↔ ∀ e ∈ m, e.2 = first := by
  induction m with
  | nil => simp [flagsAgree]
  | cons e rest ih =>
    obtain ⟨a, b⟩ := e
    unfold flagsAgree
    by_cases h : first = b
    · subst h
      simp only [ne_eq, not_true_eq_false, if_false, ih, List.mem_cons, forall_eq_or_imp,
        true_and]
    · have h2 : ¬ b = first := fun x => h x.symm
      simp [h, h2]

theorem checkKeyFrames_ok (m : List (Nat × Bool)) (v : Bool) (e0 : Nat × Bool)
    (hmem : e0 ∈ m) (hall : ∀ e ∈ m, e.2 = v) : checkKeyFrames m = Except.ok v := by
  cases m with
  | nil => cases hmem
  | cons e rest =>
    obtain ⟨a, b⟩ := e
    have hb : b = v := hall (a, b) (List.mem_cons_self _ _)
    subst hb
    have : flagsAgree b rest = true :=
      (flagsAgree_iff b rest).2 (fun e he => hall e (List.mem_cons_of_mem _ he))
    simp only [checkKeyFrames, this, if_true]

theorem checkEOS_ok (m : List (Nat × Bool)) (v : Bool) (e0 : Nat × Bool)
    (hmem : e0 ∈ m) (hall : ∀ e ∈ m, e.2 = v) : checkEOS m = Except.ok v := by
  cases m with
  | nil => cases hmem
  | cons e rest =>
    obtain ⟨a, b⟩ := e
    have hb : b = v := hall (a, b) (List.mem_cons_self _ _)
    subst hb
    have : flagsAgree b rest = true :=
      (flagsAgree_iff b rest).2 (fun e he => hall e (List.mem_cons_of_mem _ he))
    simp only [checkEOS, this, if_true]

theorem checkKeyFrames_differ (m : List (Nat × Bool)) (e1 e2 : Nat × Bool)
    (h1 : e1 ∈ m) (h2 : e2 ∈ m) (hne : e1.2 ≠ e2.2) :
    checkKeyFrames m = Except.error OMAF_ERROR_INVALID_DATA := by
  cases m with
  | nil => rfl
  | cons e rest =>
    obtain ⟨a, b⟩ := e
    have : ¬ flagsAgree b rest = true := by
      intro hag
      rw [flagsAgree_iff] at hag
      have hall : ∀ e ∈ (a, b) :: rest, e.2 = b := by
        intro e he
        rcases List.mem_cons.1 he with h | h
        · subst h; rfl
        · exact hag e h
      exact hne ((hall e1 h1).trans (hall e2 h2).symm)
    show (if flagsAgree b rest = true then Except.ok b
      else Except.error OMAF_ERROR_INVALID_DATA) = _
    rw [if_neg this]

theorem checkEOS_differ (m : List (Nat × Bool)) (e1 e2 : Nat × Bool)
    (h1 : e1 ∈ m) (h2 : e2 ∈ m) (hne : e1.2 ≠ e2.2) :
    checkEOS m = Except.error OMAF_ERROR_INVALID_DATA := by
  cases m with
  | nil => cases h1
  | cons e rest =>
    obtain ⟨a, b⟩ := e
    have : ¬ flagsAgree b rest = true := by
      intro hag
      rw [flagsAgree_iff] at hag
      have hall : ∀ e ∈ (a, b) :: rest, e.2 = b := by
        intro e he
        rcases List.mem_cons.1 he with h | h
        · subst h; rfl
        · exact hag e h
      exact hne ((hall e1 h1).trans (hall e2 h2).symm)
    show (if flagsAgree b rest = true then Except.ok b
      else Except.error OMAF_ERROR_INVALID_DATA) = _
    rw [if_neg this]

/-! ## Lemmas on the stream loop of a tick -/

theorem writeVideo_inv (W : Writer) (st : DefaultSegmentation)
    (hden : 1 ≤ st.m_frameRate.den) (hnum : st.m_frameRate.den ≤ st.m_frameRate.num)
    (streamIdx : Nat) (vs : MediaStream) (isKeyFrame isEOS : Bool) (calls : List WriterCall)
    (halloc : ∀ ctxs, mapFind streamIdx st.m_streamSegCtx = some ctxs →
      tilesNum vs ≤ ctxs.length) :
    ∃ ret X Y calls1,
      WriteSegmentForEachVideo W streamIdx vs isKeyFrame isEOS st calls =
        some (ret, { st with m_streamSegCtx := X, m_segNum := Y }, calls1) ∧
      ∀ k2, (mapFind k2 X).map List.length =
        (mapFind k2 st.m_streamSegCtx).map List.length := by
  cases hfind : mapFind streamIdx st.m_streamSegCtx with
  | none =>
    refine ⟨OMAF_ERROR_STREAM_NOT_FOUND, st.m_streamSegCtx, st.m_segNum, calls, ?_,
      fun _ => rfl⟩
    simp only [WriteSegmentForEachVideo, hfind]
  | some ctxs =>
    obtain ⟨ret, ctxs1, segNum1, calls1, hw, hlen⟩ :=
      writeTiles_defined W st.m_frameRate isKeyFrame isEOS _
        (presTimeStep_some _ hden hnum) (tilesNum vs) 0 ctxs st.m_segNum calls
        (by have := halloc ctxs hfind; omega)
    refine ⟨ret, mapAssign streamIdx ctxs1 st.m_streamSegCtx, segNum1, calls1, ?_, ?_⟩
    · simp only [WriteSegmentForEachVideo, hfind, hw]
    · intro k2
      by_cases hk : k2 = streamIdx
      · subst hk
        rw [mapFind_mapAssign_self, hfind]
        simp [hlen]
      · rw [mapFind_mapAssign_ne _ _ _ _ hk]

theorem fetchAndWrite_inv (E : Env) (streamIdx : Nat) (vs : MediaStream) (ls : LoopState)
    (hden : 1 ≤ ls.seg.m_frameRate.den)
    (hnum : ls.seg.m_frameRate.den ≤ ls.seg.m_frameRate.num)
    (halloc : ∀ ctxs, mapFind streamIdx ls.seg.m_streamSegCtx = some ctxs →
      tilesNum vs ≤ ctxs.length) :
    ∃ ls1, fetchAndWrite E streamIdx vs ls = some ls1 ∧
      ls1.tick = ls.tick ∧
      ls1.seg.m_framesIsKey =
        mapAssign streamIdx (keyFlag (E.frames ls.tick streamIdx)) ls.seg.m_framesIsKey ∧
      ls1.seg.m_streamsIsEOS =
        mapAssign streamIdx (eosFlag (E.frames ls.tick streamIdx)) ls.seg.m_streamsIsEOS ∧
      ls1.seg.m_frameRate = ls.seg.m_frameRate ∧
      (∀ k2, (mapFind k2 ls1.seg.m_streamSegCtx).map List.length =
        (mapFind k2 ls.seg.m_streamSegCtx).map List.length) := by
  unfold fetchAndWrite
  cases hf : E.frames ls.tick streamIdx with
  | some isKeyFrame =>
    obtain ⟨ret, X, Y, calls1, hw, hl⟩ := writeVideo_inv E.writer
      { ls.seg with
        m_framesIsKey := mapAssign streamIdx isKeyFrame ls.seg.m_framesIsKey
        m_streamsIsEOS := mapAssign streamIdx false ls.seg.m_streamsIsEOS }
      hden hnum streamIdx vs isKeyFrame false ls.calls halloc
    simp only [hw]
    exact ⟨_, rfl, rfl, rfl, rfl, rfl, hl⟩
  | none =>
    obtain ⟨ret, X, Y, calls1, hw, hl⟩ := writeVideo_inv E.writer
      { ls.seg with
        m_framesIsKey := mapAssign streamIdx false ls.seg.m_framesIsKey
        m_streamsIsEOS := mapAssign streamIdx true ls.seg.m_streamsIsEOS }
      hden hnum streamIdx vs false true ls.calls halloc
    simp only [hw]
    exact ⟨_, rfl, rfl, rfl, rfl, rfl, hl⟩

theorem streamPhase_flags (E : Env) (streams : List (Nat × MediaStream)) :
    ∀ ls : LoopState,
      1 ≤ ls.seg.m_frameRate.den → ls.seg.m_frameRate.den ≤ ls.seg.m_frameRate.num →
      (∀ e ∈ streams, ∀ ctxs, mapFind e.1 ls.seg.m_streamSegCtx = some ctxs →
        tilesNum e.2 ≤ ctxs.length) →
      ∃ ls1, streamPhase E streams ls = some ls1 ∧
        ls1.tick = ls.tick ∧
        ls1.seg.m_framesIsKey =
          assignFlags (fun k => keyFlag (E.frames ls.tick k)) (videoKeys streams)
            ls.seg.m_framesIsKey ∧
        ls1.seg.m_streamsIsEOS =
          assignFlags (fun k => eosFlag (E.frames ls.tick k)) (videoKeys streams)
            ls.seg.m_streamsIsEOS := by
  induction streams with
  | nil => intro ls _ _ _; exact ⟨ls, rfl, rfl, rfl, rfl⟩
  | cons e rest ih =>
    intro ls hden hnum halloc
    obtain ⟨streamIdx, vs⟩ := e
    by_cases hv : vs.mediaType = MediaType.VIDEOTYPE
    · obtain ⟨ls1, h1, h2, h3, h4, h5, h6⟩ := fetchAndWrite_inv E streamIdx vs ls hden hnum
        (halloc (streamIdx, vs) (List.mem_cons_self _ _))
      have halloc1 : ∀ e ∈ rest, ∀ ctxs, mapFind e.1 ls1.seg.m_streamSegCtx = some ctxs →
          tilesNum e.2 ≤ ctxs.length := by
        intro e he ctxs hc
        have h7 := h6 e.1
        rw [hc] at h7
        cases hc0 : mapFind e.1 ls.seg.m_streamSegCtx with
        | none => rw [hc0] at h7; cases h7
        | some ctxs0 =>
          rw [hc0] at h7
          simp only [Option.map_some', Option.some.injEq] at h7
          have := halloc e (List.mem_cons_of_mem _ he) ctxs0 hc0
          omega
      obtain ⟨ls2, g1, g2, g3, g4⟩ := ih ls1 (by rw [h5]; exact hden) (by rw [h5]; exact hnum)
        halloc1
      refine ⟨ls2, ?_, ?_, ?_, ?_⟩
      · simp only [streamPhase, hv, if_true, h1, g1]
      · rw [g2, h2]
      · rw [g3, h2, h3]
        simp only [videoKeys, hv, if_true, assignFlags, List.foldl_cons]
      · rw [g4, h2, h4]
        simp only [videoKeys, hv, if_true, assignFlags, List.foldl_cons]
    · obtain ⟨ls2, g1, g2, g3, g4⟩ := ih ls hden hnum
        (fun e he => halloc e (List.mem_cons_of_mem _ he))
      refine ⟨ls2, ?_, g2, ?_, ?_⟩
      · simp only [streamPhase, hv, if_false, g1]
      · rw [g3]; simp only [videoKeys, hv, if_false]
      · rw [g4]; simp only [videoKeys, hv, if_false]

theorem mem_videoKeys (streams : List (Nat × MediaStream)) (k : Nat) :
    k ∈ videoKeys streams ↔
      ∃ vs, (k, vs) ∈ streams ∧ vs.mediaType = MediaType.VIDEOTYPE := by
  induction streams with
  | nil => simp [videoKeys]
  | cons e rest ih =>
    obtain ⟨a, va⟩ := e
    unfold videoKeys
    by_cases hv : va.mediaType = MediaType.VIDEOTYPE
    · simp only [hv, if_true, List.mem_cons, ih]
      constructor
      · rintro (h | ⟨vs, h1, h2⟩)
        · subst h; exact ⟨va, Or.inl rfl, hv⟩
        · exact ⟨vs, Or.inr h1, h2⟩
      · rintro ⟨vs, h1 | h1, h2⟩
        · injection h1 with h3 _
          exact Or.inl h3
        · exact Or.inr ⟨vs, h1, h2⟩
    · simp only [hv, if_false, ih, List.mem_cons]
      constructor
      · rintro ⟨vs, h1, h2⟩
        exact ⟨vs, Or.inr h1, h2⟩
      · rintro ⟨vs, h1 | h1, h2⟩
        · injection h1 with _ h4
          subst h4
          exact absurd h2 hv
        · exact ⟨vs, h1, h2⟩

theorem firstSegmentMpd_seg (ls : LoopState) :
    (firstSegmentMpd ls).seg = ls.seg ∧ (firstSegmentMpd ls).tick = ls.tick := by
  unfold firstSegmentMpd
  split <;> exact ⟨rfl, rfl⟩

theorem checkKeyFrames_error (m : List (Nat × Bool)) (code : ErrorCode)
    (h : checkKeyFrames m = Except.error code) : code = OMAF_ERROR_INVALID_DATA := by
  cases m with
  | nil =>
    simp only [checkKeyFrames] at h
    injection h with h
    exact h.symm
  | cons e rest =>
    obtain ⟨a, b⟩ := e
    simp only [checkKeyFrames] at h
    split at h
    · cases h
    · injection h with h
      exact h.symm

/-! ## Claim C16: the consistency checks of a tick -/

theorem tickChecks_flags (E : Env) (streams : List (Nat × MediaStream)) (ls : LoopState)
    (hwr : framesWritable ls.seg streams = true)
    (htr : flagsTracked ls.seg streams = true) :
    ∃ ls1, streamPhase E streams (firstSegmentMpd ls) = some ls1 ∧
      (∀ e ∈ ls1.seg.m_framesIsKey,
        e.1 ∈ videoKeys streams ∧ e.2 = keyFlag (E.frames ls.tick e.1)) ∧
      (∀ k ∈ videoKeys streams,
        (k, keyFlag (E.frames ls.tick k)) ∈ ls1.seg.m_framesIsKey) ∧
      (∀ e ∈ ls1.seg.m_streamsIsEOS,
        e.1 ∈ videoKeys streams ∧ e.2 = eosFlag (E.frames ls.tick e.1)) ∧
      (∀ k ∈ videoKeys streams,
        (k, eosFlag (E.frames ls.tick k)) ∈ ls1.seg.m_streamsIsEOS) := by
  obtain ⟨hseg, htick⟩ := firstSegmentMpd_seg ls
  simp only [framesWritable, Bool.and_eq_true, decide_eq_true_eq, List.all_eq_true] at hwr
  simp only [flagsTracked, Bool.and_eq_true, decide_eq_true_eq, List.all_eq_true] at htr
  obtain ⟨⟨hden, hnum⟩, halloc⟩ := hwr
  obtain ⟨⟨⟨hk1, hk2⟩, he1⟩, he2⟩ := htr
  obtain ⟨ls1, h1, h2, h3, h4⟩ := streamPhase_flags E streams (firstSegmentMpd ls)
    (by rw [hseg]; exact hden) (by rw [hseg]; exact hnum)
    (by
      intro e he ctxs hc
      rw [hseg] at hc
      have := halloc e he
      rw [hc] at this
      simpa using this)
  rw [hseg, htick] at h3 h4
  obtain ⟨_, a2, _, a4⟩ := assignFlags_spec (fun k => keyFlag (E.frames ls.tick k))
    (videoKeys streams) ls.seg.m_framesIsKey hk1
  obtain ⟨_, b2, _, b4⟩ := assignFlags_spec (fun k => eosFlag (E.frames ls.tick k))
    (videoKeys streams) ls.seg.m_streamsIsEOS he1
  refine ⟨ls1, h1, ?_, ?_, ?_, ?_⟩
  · intro e he
    rw [h3] at he
    rcases a2 e he with h | h
    · exact h
    · exact absurd (hk2 e.1 (List.mem_map.2 ⟨e, h.1, rfl⟩)) h.2
  · intro k hk
    rw [h3]
    exact a4 k hk
  · intro e he
    rw [h4] at he
    rcases b2 e he with h | h
    · exact h
    · exact absurd (he2 e.1 (List.mem_map.2 ⟨e, h.1, rfl⟩)) h.2
  · intro k hk
    rw [h4]
    exact b4 k hk

/-- C16. In a tick whose frame writes are defined and whose flag maps are those
of the video streams, let `a` be a video stream. If a video stream `b` differs
from `a` in the key-frame flag or in the EOS flag of the tick, the pass of the
loop makes `VideoSegmentation` return `OMAF_ERROR_INVALID_DATA`, so the loop
ends in that tick. If every video stream has the flags of `a`, the checks
pass and set `m_nowKeyFrame` and `m_isEOS` to these flags. -/
theorem tick_flags_checked (E : Env) (streams : List (Nat × MediaStream))
    (ets : List (Nat × ExtractorTrack)) (ls : LoopState)
    (hwr : framesWritable ls.seg streams = true)
    (htr : flagsTracked ls.seg streams = true)
    (a : Nat) (va : MediaStream) (ha : (a, va) ∈ streams)
    (hva : va.mediaType = MediaType.VIDEOTYPE) :
    (∀ b vb, (b, vb) ∈ streams → vb.mediaType = MediaType.VIDEOTYPE →
      (keyFlag (E.frames ls.tick a) ≠ keyFlag (E.frames ls.tick b) ∨
        eosFlag (E.frames ls.tick a) ≠ eosFlag (E.frames ls.tick b)) →
      ∃ ls1, frameTick E streams ets ls = some (some OMAF_ERROR_INVALID_DATA, ls1) ∧
        ∀ fuel, frameLoopFrom E streams ets (fuel + 1) ls =
          some (OMAF_ERROR_INVALID_DATA, ls1)) ∧
    ((∀ b vb, (b, vb) ∈ streams → vb.mediaType = MediaType.VIDEOTYPE →
        keyFlag (E.frames ls.tick b) = keyFlag (E.frames ls.tick a) ∧
        eosFlag (E.frames ls.tick b) = eosFlag (E.frames ls.tick a)) →
      ∃ ls3, tickChecks E streams ls = some (none, ls3) ∧
        ls3.m_nowKeyFrame = keyFlag (E.frames ls.tick a) ∧
        ls3.m_isEOS = eosFlag (E.frames ls.tick a)) := by
  obtain ⟨ls1, hs, k1, k2, e1, e2⟩ := tickChecks_flags E streams ls hwr htr
  have hka : a ∈ videoKeys streams := (mem_videoKeys streams a).2 ⟨va, ha, hva⟩
  constructor
  · intro b vb hb hvb hdiff
    have hkb : b ∈ videoKeys streams := (mem_videoKeys streams b).2 ⟨vb, hb, hvb⟩
    have hcode : ∃ ls2, flagChecks ls1 = (some OMAF_ERROR_INVALID_DATA, ls2) := by
      unfold flagChecks
      cases hck : checkKeyFrames ls1.seg.m_framesIsKey with
      | error code =>
        have := checkKeyFrames_error _ _ hck
        subst this
        exact ⟨_, rfl⟩
      | ok frameIsKey =>
        have hed : eosFlag (E.frames ls.tick a) ≠ eosFlag (E.frames ls.tick b) := by
          rcases hdiff with hd | hd
          · have := checkKeyFrames_differ _ _ _ (k2 a hka) (k2 b hkb) hd
            rw [hck] at this
            cases this
          · exact hd
        have := checkEOS_differ ls1.seg.m_streamsIsEOS _ _ (e2 a hka) (e2 b hkb) hed
        simp only [this]
        exact ⟨_, rfl⟩
    obtain ⟨ls2, hls2⟩ := hcode
    have htick : frameTick E streams ets ls = some (some OMAF_ERROR_INVALID_DATA, ls2) := by
      simp only [frameTick, tickChecks, hs, hls2]
    refine ⟨ls2, htick, ?_⟩
    intro fuel
    simp only [frameLoopFrom, htick]
  · intro hall
    have hkall : ∀ e ∈ ls1.seg.m_framesIsKey, e.2 = keyFlag (E.frames ls.tick a) := by
      intro e he
      obtain ⟨h1, h2⟩ := k1 e he
      obtain ⟨vs, h3, h4⟩ := (mem_videoKeys streams e.1).1 h1
      rw [h2]
      exact (hall e.1 vs h3 h4).1
    have heall : ∀ e ∈ ls1.seg.m_streamsIsEOS, e.2 = eosFlag (E.frames ls.tick a) := by
      intro e he
      obtain ⟨h1, h2⟩ := e1 e he
      obtain ⟨vs, h3, h4⟩ := (mem_videoKeys streams e.1).1 h1
      rw [h2]
      exact (hall e.1 vs h3 h4).2
    have c1 := checkKeyFrames_ok _ _ _ (k2 a hka) hkall
    have c2 := checkEOS_ok ls1.seg.m_streamsIsEOS _ _ (e2 a hka) heall
    refine ⟨{ ls1 with
              m_nowKeyFrame := keyFlag (E.frames ls.tick a)
              m_isEOS := eosFlag (E.frames ls.tick a) }, ?_, rfl, rfl⟩
    simp only [tickChecks, hs, flagChecks, c1, c2]

set_option maxRecDepth 100000 in
theorem twoStreamsBuilt_writable : framesWritable twoStreamsBuilt twoStreams = true := by
  decide

set_option maxRecDepth 100000 in
theorem twoStreamsBuilt_tracked : flagsTracked twoStreamsBuilt twoStreams = true := by
  decide

/-- Witness for C16: on the two sample streams, when stream 0 delivers a key
frame and stream 1 a frame that is not a key frame, the tick returns
`OMAF_ERROR_INVALID_DATA`. -/
theorem tick_flags_checked_witness :
    ∃ ls1,
      frameTick mixedEnv twoStreams [] (LoopState.enter twoStreamsBuilt []) =
        some (some OMAF_ERROR_INVALID_DATA, ls1) ∧
      ∀ fuel, frameLoopFrom mixedEnv twoStreams [] (fuel + 1)
        (LoopState.enter twoStreamsBuilt []) = some (OMAF_ERROR_INVALID_DATA, ls1) :=
  (tick_flags_checked mixedEnv twoStreams [] (LoopState.enter twoStreamsBuilt [])
    twoStreamsBuilt_writable twoStreamsBuilt_tracked 0 (sampleStream 10000000 2 2 0)
    (List.mem_cons_self _ _) rfl).1 1 (sampleStream 5000000 2 2 0)
    (List.mem_cons_of_mem _ (List.mem_cons_self _ _)) rfl (Or.inl (by decide))

/-! ## Lemmas on the passes of the workers -/

theorem publishLoop_nil (E : Env) (ave last threadNum fuel : Nat) (threads : List Worker)
    (events : List Event) :
    publishLoop E ave last threadNum fuel [] threads events = some (none, threads, events) := by
  cases fuel <;> rfl

theorem publishLoop_spawn (E : Env) (ave last T : Nat) (ets : List (Nat × ExtractorTrack))
    (hA : 1 ≤ ave) (hL1 : 1 ≤ last) (hL2 : last ≤ ave)
    (hC : ets.length = T * ave + last) (hC16 : ets.length < 2 ^ 16)
    (hthr : ∀ n, E.createThread n = true) :
    ∀ (n k : Nat) (l : List (Nat × ExtractorTrack)) (threads : List Worker)
      (events : List Event) (fuel : Nat),
      threads.length = k → k + n = T + 1 → l = ets.drop (k * ave) → n ≤ fuel →
      ∃ ws evs,
        publishLoop E ave last (T + 1) fuel l threads events = some (none, threads ++ ws, evs) ∧
        ws.length = n ∧
        ∀ i, i < n → ∃ w, ws[i]? = some w ∧
          (ets[(k + i) * ave]?).map Prod.fst = some w.anchor ∧
          w.isLast = decide (ave ≠ last ∧ k + i + 1 = T + 1) ∧ w.running = true := by
  intro n
  induction n with
  | zero =>
    intro k l threads events fuel _ hk hl _
    have hkT : k = T + 1 := by omega
    have hle : ets.length ≤ k * ave := by
      rw [hkT, Nat.add_mul, hC]; omega
    have hnil : l = [] := by rw [hl]; exact List.drop_eq_nil_of_le hle
    subst hnil
    refine ⟨[], events, ?_, rfl, fun i hi => absurd hi (by omega)⟩
    rw [publishLoop_nil, List.append_nil]
  | succ n ih =>
    intro k l threads events fuel hlen hk hl hfuel
    obtain ⟨fuel1, rfl⟩ : ∃ f, fuel = f + 1 := ⟨fuel - 1, by omega⟩
    have hkT : k ≤ T := by omega
    have hmul : k * ave ≤ T * ave := Nat.mul_le_mul_right ave hkT
    have hTc : T ≤ ets.length := by
      have : T ≤ T * ave := Nat.le_mul_of_pos_right T (by omega)
      omega
    have hpos : k * ave < ets.length := by omega
    have hcons : l = ets[k * ave] :: ets.drop (k * ave + 1) := by
      rw [hl]; exact List.drop_eq_getElem_cons hpos
    have hanchor : (ets[(k + 0) * ave]?).map Prod.fst = some (ets[k * ave]).1 := by
      rw [Nat.add_zero, List.getElem?_eq_getElem hpos]; rfl
    rcases hx : ets[k * ave] with ⟨key, et⟩
    rw [hx] at hcons hanchor
    simp only at hanchor
    have hlt : threads.length < T + 1 := by omega
    have hmod : threads.length % 2 ^ 16 = threads.length := Nat.mod_eq_of_lt (by omega)
    by_cases hcase : ave = last ∨ k < T
    · have hcond : ave = last ∨ threads.length % 2 ^ 16 < T + 1 - 1 := by
        rw [hmod, hlen]
        rcases hcase with h | h
        · exact Or.inl h
        · exact Or.inr (by omega)
      have hroom : k * ave + ave ≤ ets.length := by
        rcases hcase with h | h
        · have : k * ave + ave ≤ T * ave + ave := by omega
          omega
        · have h1 : (k + 1) * ave ≤ T * ave := Nat.mul_le_mul_right ave (by omega)
          rw [Nat.add_mul, Nat.one_mul] at h1
          omega
      have hadv : advance ave l = some (ets.drop ((k + 1) * ave)) := by
        have hll : l.length = ets.length - k * ave := by rw [hl, List.length_drop]
        have h2 : ave ≤ l.length ∧ ave < 2 ^ 16 := by
          constructor
          · rw [hll]; omega
          · omega
        unfold advance
        have hk1 : (k + 1) * ave = k * ave + ave := by rw [Nat.add_mul, Nat.one_mul]
        rw [if_pos h2, hl, List.drop_drop, hk1]
      have hlen1 : (threads ++ [({ anchor := key, isLast := false, running := true } :
          Worker)]).length = k + 1 := by
        rw [List.length_append, hlen]; rfl
      obtain ⟨ws, evs, h1, h2, h3⟩ := ih (k + 1) (ets.drop ((k + 1) * ave))
        (threads ++ [{ anchor := key, isLast := false, running := true }])
        (events ++ [Event.SetFramesReady key] ++ [Event.StartExtractorTrackSegmentation key])
        fuel1 hlen1 (by omega) rfl (by omega)
      refine ⟨{ anchor := key, isLast := false, running := true } :: ws, evs,
        ?_, ?_, ?_⟩
      · rw [hcons] at hadv ⊢
        unfold publishLoop
        simp only [hlt, if_true, hcond, hthr, Bool.true_eq_false, if_false, hadv]
        rw [h1, List.append_assoc]
        rfl
      · rw [List.length_cons, h2]
      · intro i hi
        cases i with
        | zero =>
          refine ⟨_, List.getElem?_cons_zero, hanchor, ?_, rfl⟩
          have : ¬ (ave ≠ last ∧ k + 0 + 1 = T + 1) := by
            rcases hcase with h | h
            · exact fun x => x.1 h
            · exact fun x => by omega
          exact (decide_eq_false this).symm
        | succ i =>
          obtain ⟨w, w1, w2, w3, w4⟩ := h3 i (by omega)
          refine ⟨w, ?_, ?_, ?_, w4⟩
          · rw [List.getElem?_cons_succ]; exact w1
          · have : k + (i + 1) = k + 1 + i := by omega
            rw [this]; exact w2
          · have : k + (i + 1) + 1 = k + 1 + i + 1 := by omega
            rw [this]; exact w3
    · have hkeq : k = T := by
        by_contra hne
        exact hcase (Or.inr (by omega))
      have hne : ave ≠ last := fun h => hcase (Or.inl h)
      have hn0 : n = 0 := by omega
      have hcond : ¬ (ave = last ∨ threads.length % 2 ^ 16 < T + 1 - 1) := by
        rw [hmod, hlen]
        intro h
        rcases h with h | h
        · exact hne h
        · omega
      refine ⟨[{ anchor := key, isLast := true, running := true }],
        events ++ [Event.SetFramesReady key] ++ [Event.StartLastExtractorTrackSegmentation key],
        ?_, ?_, ?_⟩
      · rw [hcons]
        unfold publishLoop
        simp only [hlt, if_true, hcond, hthr, Bool.true_eq_false, if_false, publishLoop_nil]
      · rw [hn0]; rfl
      · intro i hi
        have hi0 : i = 0 := by omega
        subst hi0
        refine ⟨_, List.getElem?_cons_zero, hanchor, ?_, rfl⟩
        have : ave ≠ last ∧ k + 0 + 1 = T + 1 := ⟨hne, by omega⟩
        exact (decide_eq_true this).symm

theorem sevenExtractors_length : sevenExtractors.length = 7 := by
  simp [sevenExtractors]

/-- C29. The step `1000 / (frameRate.num / frameRate.den)` of lines 632 and
675 is free of a division by zero exactly when `frameRate.den` is not 0 and
`frameRate.den ≤ frameRate.num`; the step is then at most 1000, and it is 0
exactly when the integer quotient `num / den` exceeds 1000. -/
theorem presTimeStep_defined_iff (r : Rational) :
    ((presTimeStep r).isSome = true ↔ r.den ≠ 0 ∧ r.den ≤ r.num) ∧
    (∀ step, presTimeStep r = some step →
      step = 1000 / (r.num / r.den) ∧ 0 ≤ step ∧ step ≤ 1000 ∧
      (step = 0 ↔ 1000 < r.num / r.den)) := by
  constructor
  · unfold presTimeStep
    by_cases h1 : r.den = 0
    · simp [h1]
    · have hpos : 0 < r.den := Nat.pos_of_ne_zero h1
      by_cases h2 : r.num / r.den = 0
      · have := (Nat.div_eq_zero_iff hpos).1 h2
        simp only [h1, h2, if_true, if_false, Option.isSome_none, Bool.false_eq_true,
          ne_eq, not_false_eq_true, true_and, false_iff]
        omega
      · have : ¬ r.num < r.den := fun h => h2 ((Nat.div_eq_zero_iff hpos).2 h)
        simp only [h1, h2, if_false, Option.isSome_some, ne_eq, not_false_eq_true, true_and,
          true_iff]
        omega
  · intro step h
    unfold presTimeStep at h
    split at h
    · cases h
    · split at h
      · cases h
      · rename_i h1 h2
        have hs : step = 1000 / (r.num / r.den) := (Option.some.inj h).symm
        have hq : 0 < r.num / r.den := Nat.pos_of_ne_zero h2
        refine ⟨hs, Nat.zero_le _, ?_, ?_⟩
        · rw [hs]; exact Nat.div_le_self _ _
        · rw [hs, Nat.div_eq_zero_iff hq]

/-! ## Claim C28: a stream that is not H265 -/

theorem getVPSNalu_not_h265 (vs : MediaStream) (h : vs.codecId ≠ CODEC_ID_H265) :
    GetVPSNalu vs = none := by
  unfold GetVPSNalu
  rw [if_neg h]

/-- C28. For a video stream whose codec is not H265, `GetVPSNalu` returns
null; when `ConstructTileTrackSegCtx` reaches the stream, every video stream
before it having been accepted, it returns `OMAF_ERROR_INVALID_HEADER`,
whatever the SPS and PPS of the stream are, and the registries hold what the
streams before it left: no context, no track id and no tile index of the
stream itself is entered. -/
theorem not_h265_rejected (pre : List (Nat × MediaStream)) (k : Nat) (vs : MediaStream)
    (post : List (Nat × MediaStream)) (st : DefaultSegmentation)
    (hwf : allVideo streamWellFormed pre = true)
    (hv : vs.mediaType = MediaType.VIDEOTYPE)
    (hcodec : vs.codecId ≠ CODEC_ID_H265) :
    GetVPSNalu vs = none ∧
    ∃ st1, ConstructTileTrackSegCtx (pre ++ (k, vs) :: post) st =
        some (OMAF_ERROR_INVALID_HEADER, st1) ∧
      st1.m_streamSegCtx =
        (streamsDone (bitRateRanking (pre ++ (k, vs) :: post)) pre st).m_streamSegCtx ∧
      st1.m_trackSegCtx =
        (streamsDone (bitRateRanking (pre ++ (k, vs) :: post)) pre st).m_trackSegCtx ∧
      st1.m_allTileTracks =
        (streamsDone (bitRateRanking (pre ++ (k, vs) :: post)) pre st).m_allTileTracks ∧
      st1.m_tilesTrackIdxs =
        (streamsDone (bitRateRanking (pre ++ (k, vs) :: post)) pre st).m_tilesTrackIdxs ∧
      st1.m_trackIdStarter =
        (streamsDone (bitRateRanking (pre ++ (k, vs) :: post)) pre st).m_trackIdStarter := by
  have hvps := getVPSNalu_not_h265 vs hcodec
  have hmiss : naluMissing (GetVPSNalu vs) = true := by rw [hvps]; rfl
  have hh : headersPresent vs = false := by
    simp only [headersPresent, hmiss, Bool.not_true, Bool.false_and]
  have hcode : headerCode vs = OMAF_ERROR_INVALID_HEADER := by
    simp only [headerCode, hmiss, if_true]
  refine ⟨hvps,
    { streamsDone (bitRateRanking (pre ++ (k, vs) :: post)) pre st with
      m_frameRate := vs.frameRate
      m_projType := vs.projType
      m_videoSegInfo := some vs.segDur }, ?_, rfl, rfl, rfl, rfl, rfl⟩
  rw [construct_header_failure pre k vs post st hwf hv hh, hcode]

/-- Witness for C28: the H264 stream after a well-formed H265 stream. -/
theorem not_h265_rejected_witness :
    GetVPSNalu h264Stream = none ∧
    ∃ st1, ConstructTileTrackSegCtx h264Streams (DefaultSegmentation.fresh sampleSegInfo 1) =
        some (OMAF_ERROR_INVALID_HEADER, st1) ∧
      st1.m_streamSegCtx =
        (streamsDone (bitRateRanking h264Streams) [(0, sampleStream 10000000 2 2 0)]
          (DefaultSegmentation.fresh sampleSegInfo 1)).m_streamSegCtx ∧
      st1.m_trackSegCtx =
        (streamsDone (bitRateRanking h264Streams) [(0, sampleStream 10000000 2 2 0)]
          (DefaultSegmentation.fresh sampleSegInfo 1)).m_trackSegCtx ∧
      st1.m_allTileTracks =
        (streamsDone (bitRateRanking h264Streams) [(0, sampleStream 10000000 2 2 0)]
          (DefaultSegmentation.fresh sampleSegInfo 1)).m_allTileTracks ∧
      st1.m_tilesTrackIdxs =
        (streamsDone (bitRateRanking h264Streams) [(0, sampleStream 10000000 2 2 0)]
          (DefaultSegmentation.fresh sampleSegInfo 1)).m_tilesTrackIdxs ∧
      st1.m_trackIdStarter =
        (streamsDone (bitRateRanking h264Streams) [(0, sampleStream 10000000 2 2 0)]
          (DefaultSegmentation.fresh sampleSegInfo 1)).m_trackIdStarter :=
  not_h265_rejected [(0, sampleStream 10000000 2 2 0)] 1 h264Stream []
    (DefaultSegmentation.fresh sampleSegInfo 1) (by decide) rfl (by decide)

/-! ## Claim C30: the two registries of tile tracks -/

theorem tileStep_registries (k : Nat) (vs : MediaStream) (starter q i : Nat)
    (ls ls1 : TileLoop) (e : ErrorCode)
    (h0 : registriesAgree ls.seg)
    (h : tileStep k vs starter q i ls = some (e, ls1)) :
    ls1.seg.m_trackIdStarter = ls.seg.m_trackIdStarter ∧
    ls1.seg.m_projType = ls.seg.m_projType ∧
    ((e = ERROR_NONE ∧ (projectionOf ls.seg.m_projType).isSome = true ∧
        registriesAgree ls1.seg) ∨
      (e = OMAF_ERROR_INVALID_PROJECTIONTYPE ∧ projectionOf ls.seg.m_projType = none ∧
        ∀ x, x ∈ mapKeys ls1.seg.m_allTileTracks ↔
          x ∈ mapKeys ls1.seg.m_trackSegCtx ∨ x = starter + i)) := by
  unfold tileStep at h
  simp only at h
  split at h
  · cases h
  · split at h
    · rename_i hp
      simp only [Option.some.injEq, Prod.mk.injEq] at h
      obtain ⟨he, hls⟩ := h
      subst he hls
      refine ⟨rfl, rfl, Or.inr ⟨rfl, hp, ?_⟩⟩
      intro x
      show x ∈ mapKeys (mapInsert (starter + i) _ ls.seg.m_allTileTracks) ↔
        x ∈ mapKeys ls.seg.m_trackSegCtx ∨ x = starter + i
      rw [mem_mapKeys_mapInsert, h0 x]
      tauto
    · rename_i p hp
      simp only [Option.some.injEq, Prod.mk.injEq] at h
      obtain ⟨he, hls⟩ := h
      subst he hls
      refine ⟨rfl, rfl, Or.inl ⟨rfl, by rw [hp]; rfl, ?_⟩⟩
      intro x
      show x ∈ mapKeys (mapInsert (starter + i) _ ls.seg.m_allTileTracks) ↔
        x ∈ mapKeys (mapInsert (starter + i) _ ls.seg.m_trackSegCtx)
      rw [mem_mapKeys_mapInsert, mem_mapKeys_mapInsert, h0 x]

theorem tileLoop_registries (k : Nat) (vs : MediaStream) (starter q : Nat)
    (tiles : List Nat) :
    ∀ (ls ls1 : TileLoop) (e : ErrorCode), registriesAgree ls.seg →
      tileLoop k vs starter q tiles ls = some (e, ls1) →
      ls1.seg.m_trackIdStarter = ls.seg.m_trackIdStarter ∧
      ((e = ERROR_NONE ∧ registriesAgree ls1.seg) ∨
        (e = OMAF_ERROR_INVALID_PROJECTIONTYPE ∧
          projectionOf ls.seg.m_projType = none ∧
          ∃ i rest, tiles = i :: rest ∧
            ∀ x, x ∈ mapKeys ls1.seg.m_allTileTracks ↔
              x ∈ mapKeys ls1.seg.m_trackSegCtx ∨ x = starter + i)) := by
  induction tiles with
  | nil =>
    intro ls ls1 e h0 h
    simp only [tileLoop, Option.some.injEq, Prod.mk.injEq] at h
    obtain ⟨he, hls⟩ := h
    subst he hls
    exact ⟨rfl, Or.inl ⟨rfl, h0⟩⟩
  | cons i rest ih =>
    intro ls ls1 e h0 h
    simp only [tileLoop] at h
    cases hs : tileStep k vs starter q i ls with
    | none => rw [hs] at h; cases h
    | some r =>
      obtain ⟨e2, ls2⟩ := r
      rw [hs] at h
      simp only at h
      obtain ⟨s1, s2, s3⟩ := tileStep_registries k vs starter q i ls ls2 e2 h0 hs
      rcases s3 with ⟨he2, hp, hag⟩ | ⟨he2, hp, hx⟩
      · subst he2
        rw [if_pos rfl] at h
        obtain ⟨t1, t2⟩ := ih ls2 ls1 e hag h
        refine ⟨t1.trans s1, ?_⟩
        rcases t2 with t2 | ⟨_, hp2, _⟩
        · exact Or.inl t2
        · rw [s2] at hp2
          rw [hp2] at hp
          cases hp
      · subst he2
        rw [if_neg (by decide)] at h
        simp only [Option.some.injEq, Prod.mk.injEq] at h
        obtain ⟨he, hls⟩ := h
        subst he hls
        exact ⟨s1, Or.inr ⟨rfl, hp, i, rest, rfl, hx⟩⟩

theorem streamBody_registries (ranking : List Nat) (k : Nat) (vs : MediaStream)
    (st st1 : DefaultSegmentation) (e : ErrorCode)
    (h0 : registriesAgree st)
    (h : streamBody ranking k vs st = some (e, st1)) :
    (e ≠ OMAF_ERROR_INVALID_PROJECTIONTYPE → registriesAgree st1) ∧
    (e = OMAF_ERROR_INVALID_PROJECTIONTYPE →
      ∀ x, x ∈ mapKeys st1.m_allTileTracks ↔
        x ∈ mapKeys st1.m_trackSegCtx ∨ x = st1.m_trackIdStarter) := by
  unfold streamBody at h
  simp only at h
  split at h
  · simp only [Option.some.injEq, Prod.mk.injEq] at h
    obtain ⟨he, hst⟩ := h
    subst he hst
    exact ⟨fun _ => h0, fun hc => absurd hc (by decide)⟩
  · split at h
    · simp only [Option.some.injEq, Prod.mk.injEq] at h
      obtain ⟨he, hst⟩ := h
      subst he hst
      exact ⟨fun _ => h0, fun hc => absurd hc (by decide)⟩
    · split at h
      · simp only [Option.some.injEq, Prod.mk.injEq] at h
        obtain ⟨he, hst⟩ := h
        subst he hst
        exact ⟨fun _ => h0, fun hc => absurd hc (by decide)⟩
      · split at h
        · cases h
        · rename_i hn0
          split at h
          · cases h
          · rename_i e2 ls hl
            obtain ⟨t1, t2⟩ := tileLoop_registries k vs st.m_trackIdStarter _ _ _ ls e2 h0 hl
            rcases t2 with ⟨he2, hag⟩ | ⟨he2, _, i, rest, hrange, hx⟩
            · subst he2
              rw [if_pos rfl] at h
              simp only [Option.some.injEq, Prod.mk.injEq] at h
              obtain ⟨he, hst⟩ := h
              subst he hst
              exact ⟨fun _ => hag, fun hc => absurd hc (by decide)⟩
            · subst he2
              rw [if_neg (by decide)] at h
              simp only [Option.some.injEq, Prod.mk.injEq] at h
              obtain ⟨he, hst⟩ := h
              subst he hst
              refine ⟨fun hc => absurd rfl hc, fun _ => ?_⟩
              have hi : i = 0 := by
                obtain ⟨m, hm⟩ : ∃ m, tilesNum vs = m + 1 := ⟨tilesNum vs - 1, by omega⟩
                rw [hm, List.range_succ_eq_map] at hrange
                injection hrange with h1 _
                exact h1.symm
              subst hi
              intro x
              rw [hx x, t1]
              rfl

theorem streamLoop_registries (ranking : List Nat) (streams : List (Nat × MediaStream)) :
    ∀ (st st1 : DefaultSegmentation) (e : ErrorCode), registriesAgree st →
      streamLoop ranking streams st = some (e, st1) →
      (e ≠ OMAF_ERROR_INVALID_PROJECTIONTYPE → registriesAgree st1) ∧
      (e = OMAF_ERROR_INVALID_PROJECTIONTYPE →
        ∀ x, x ∈ mapKeys st1.m_allTileTracks ↔
          x ∈ mapKeys st1.m_trackSegCtx ∨ x = st1.m_trackIdStarter) := by
  induction streams with
  | nil =>
    intro st st1 e h0 h
    simp only [streamLoop, Option.some.injEq, Prod.mk.injEq] at h
    obtain ⟨he, hst⟩ := h
    subst he hst
    exact ⟨fun _ => h0, fun hc => absurd hc (by decide)⟩
  | cons p rest ih =>
    obtain ⟨k, ms⟩ := p
    intro st st1 e h0 h
    simp only [streamLoop] at h
    split at h
    · cases hb : streamBody ranking k ms st with
      | none => rw [hb] at h; cases h
      | some r =>
        obtain ⟨e2, st2⟩ := r
        rw [hb] at h
        simp only at h
        have hreg := streamBody_registries ranking k ms st st2 e2 h0 hb
        by_cases he2 : e2 = ERROR_NONE
        · rw [if_pos he2] at h
          exact ih st2 st1 e (hreg.1 (by rw [he2]; decide)) h
        · rw [if_neg he2] at h
          simp only [Option.some.injEq, Prod.mk.injEq] at h
          obtain ⟨he, hst⟩ := h
          subst he hst
          exact hreg
    · exact ih st st1 e h0 h

set_option maxRecDepth 100000 in
theorem badProjection_registries :
    (ConstructTileTrackSegCtx badProjectionStreams
        (DefaultSegmentation.fresh sampleSegInfo 1)).map
      (fun r => (r.1, mapKeys r.2.m_allTileTracks, mapKeys r.2.m_trackSegCtx,
        r.2.m_trackIdStarter)) =
      some (OMAF_ERROR_INVALID_PROJECTIONTYPE, [1, 2, 3, 4, 5], [1, 2, 3, 4], 5) := by
  decide

/-- Claim C30, as the code has it: the run on a well-formed stream followed by a
stream of an unknown projection returns `OMAF_ERROR_INVALID_PROJECTIONTYPE`
with track id 5, the first tile of the rejected stream, registered in
`m_allTileTracks` and absent from `m_trackSegCtx`. -/
theorem registries_differ_on_bad_projection :
    ∃ st1, ConstructTileTrackSegCtx badProjectionStreams
        (DefaultSegmentation.fresh sampleSegInfo 1) =
        some (OMAF_ERROR_INVALID_PROJECTIONTYPE, st1) ∧
      5 ∈ mapKeys st1.m_allTileTracks ∧ 5 ∉ mapKeys st1.m_trackSegCtx ∧
      ¬ registriesAgree st1 := by
  have h := badProjection_registries
  cases hr : ConstructTileTrackSegCtx badProjectionStreams
      (DefaultSegmentation.fresh sampleSegInfo 1) with
  | none => rw [hr] at h; cases h
  | some r =>
    obtain ⟨e, st1⟩ := r
    rw [hr] at h
    simp only [Option.map_some', Option.some.injEq, Prod.mk.injEq] at h
    obtain ⟨he, ha, ht, _⟩ := h
    subst he
    have h5 : 5 ∈ mapKeys st1.m_allTileTracks := by rw [ha]; decide
    have n5 : 5 ∉ mapKeys st1.m_trackSegCtx := by rw [ht]; decide
    exact ⟨st1, rfl, h5, n5, fun hag => n5 ((hag 5).1 h5)⟩

/-- Claim C30, amended: when `ConstructTileTrackSegCtx` is entered with the two
registries holding the same track ids, they hold the same track ids after every
return with a code other than `OMAF_ERROR_INVALID_PROJECTIONTYPE`; after a
return with that code `m_allTileTracks` holds the ids of `m_trackSegCtx` and
one more, the id `m_trackIdStarter` of the first tile of the rejected stream. -/
theorem registries_agree_unless_bad_projection (streams : List (Nat × MediaStream))
    (st st1 : DefaultSegmentation) (code : ErrorCode)
    (h0 : registriesAgree st)
    (hrun : ConstructTileTrackSegCtx streams st = some (code, st1)) :
    (code ≠ OMAF_ERROR_INVALID_PROJECTIONTYPE → registriesAgree st1) ∧
    (code = OMAF_ERROR_INVALID_PROJECTIONTYPE →
      ∀ x, x ∈ mapKeys st1.m_allTileTracks ↔
        x ∈ mapKeys st1.m_trackSegCtx ∨ x = st1.m_trackIdStarter) :=
  streamLoop_registries (bitRateRanking streams) streams st st1 code h0 hrun

theorem registries_agree_unless_bad_projection_witness :
    (ERROR_NONE ≠ OMAF_ERROR_INVALID_PROJECTIONTYPE → registriesAgree twoStreamsBuilt) ∧
    (ERROR_NONE = OMAF_ERROR_INVALID_PROJECTIONTYPE →
      ∀ x, x ∈ mapKeys twoStreamsBuilt.m_allTileTracks ↔
        x ∈ mapKeys twoStreamsBuilt.m_trackSegCtx ∨ x = twoStreamsBuilt.m_trackIdStarter) :=
  registries_agree_unless_bad_projection twoStreams
    (DefaultSegmentation.fresh sampleSegInfo 1) twoStreamsBuilt ERROR_NONE
    (fun _ => Iff.rfl) twoStreams_run

/-! ## Claim C22: `AddFrameInfo` -/

theorem addFrameInfo_valid (f : FrameBSInfo) (vs : VideoStream) (bytes : List Nat)
    (hdata : f.data = some bytes) (hpos : 0 < f.dataSize) (hlen : f.dataSize ≤ bytes.length) :
    AddFrameInfo (some f) vs =
      some (ERROR_NONE,
        { vs with
          m_frameInfoList := vs.m_frameInfoList ++
            [{ data := some (bytes.take f.dataSize), dataSize := f.dataSize, pts := f.pts,
               isKeyFrame := f.isKeyFrame }] }) := by
  simp only [AddFrameInfo, hdata, memcpy]
  rw [if_neg (by omega), if_pos hlen]

theorem addFrameInfo_cases (frameInfo : Option FrameBSInfo) (vs vs1 : VideoStream)
    (e : ErrorCode) (h : AddFrameInfo frameInfo vs = some (e, vs1)) :
    (e ≠ ERROR_NONE ∧ vs1 = vs) ∨
    (∃ f bytes, frameInfo = some f ∧ f.data = some bytes ∧ 0 < f.dataSize ∧
      f.dataSize ≤ bytes.length ∧ e = ERROR_NONE ∧
      vs1 = { vs with
        m_frameInfoList := vs.m_frameInfoList ++
          [{ data := some (bytes.take f.dataSize), dataSize := f.dataSize, pts := f.pts,
             isKeyFrame := f.isKeyFrame }] }) := by
  unfold AddFrameInfo at h
  cases frameInfo with
  | none =>
    simp only [Option.some.injEq, Prod.mk.injEq] at h
    exact Or.inl ⟨by rw [← h.1]; decide, h.2.symm⟩
  | some f =>
    simp only at h
    cases hd : f.data with
    | none =>
      rw [hd] at h
      simp only [Option.some.injEq, Prod.mk.injEq] at h
      exact Or.inl ⟨by rw [← h.1]; decide, h.2.symm⟩
    | some bytes =>
      rw [hd] at h
      simp only at h
      by_cases hz : f.dataSize = 0
      · rw [if_pos hz] at h
        simp only [Option.some.injEq, Prod.mk.injEq] at h
        exact Or.inl ⟨by rw [← h.1]; decide, h.2.symm⟩
      · rw [if_neg hz] at h
        by_cases hl : f.dataSize ≤ bytes.length
        · simp only [memcpy, if_pos hl, Option.some.injEq, Prod.mk.injEq] at h
          exact Or.inr ⟨f, bytes, rfl, hd, Nat.pos_of_ne_zero hz, hl, h.1.symm, h.2.symm⟩
        · simp only [memcpy, if_neg hl] at h
          cases h

/-- Claim C22: `AddFrameInfo` returns `OMAF_ERROR_NULL_PTR` for a null frame and
for a frame with a null data pointer, `OMAF_ERROR_DATA_SIZE` for a frame with
data and `dataSize` 0, and leaves the list of pending frames as it was in these
cases; for a frame with a positive `dataSize` and a buffer of that many bytes
it returns `ERROR_NONE` and appends one frame to the back of the list, with a
copy of the `dataSize` bytes and the `dataSize`, `pts` and `isKeyFrame` of the
input. A list in which every pending frame has data and a positive size keeps
that property through every call that returns. -/
theorem addFrameInfo_spec (vs : VideoStream) :
    AddFrameInfo none vs = some (OMAF_ERROR_NULL_PTR, vs) ∧
    (∀ f, f.data = none → AddFrameInfo (some f) vs = some (OMAF_ERROR_NULL_PTR, vs)) ∧
    (∀ f, f.data ≠ none → f.dataSize = 0 →
      AddFrameInfo (some f) vs = some (OMAF_ERROR_DATA_SIZE, vs)) ∧
    (∀ f bytes, f.data = some bytes → 0 < f.dataSize → f.dataSize ≤ bytes.length →
      AddFrameInfo (some f) vs =
        some (ERROR_NONE,
          { vs with
            m_frameInfoList := vs.m_frameInfoList ++
              [{ data := some (bytes.take f.dataSize), dataSize := f.dataSize, pts := f.pts,
                 isKeyFrame := f.isKeyFrame }] })) ∧
    (∀ frameInfo e vs1, pendingValid vs → AddFrameInfo frameInfo vs = some (e, vs1) →
      pendingValid vs1 ∧
        (e = ERROR_NONE → vs1.m_frameInfoList.length = vs.m_frameInfoList.length + 1) ∧
        (e ≠ ERROR_NONE → vs1 = vs)) := by
  refine ⟨rfl, ?_, ?_, ?_, ?_⟩
  · intro f hd
    simp only [AddFrameInfo, hd]
  · intro f hd hz
    cases hb : f.data with
    | none => exact absurd hb hd
    | some bytes => simp only [AddFrameInfo, hb, hz, if_true]
  · intro f bytes hd hpos hlen
    exact addFrameInfo_valid f vs bytes hd hpos hlen
  · intro frameInfo e vs1 hp h
    rcases addFrameInfo_cases frameInfo vs vs1 e h with ⟨he, hvs⟩ | ⟨f, bytes, _, _, hpos, _, he, hvs⟩
    · subst hvs
      exact ⟨hp, fun h0 => absurd h0 he, fun _ => rfl⟩
    · subst hvs he
      refine ⟨?_, fun _ => by simp, fun hne => absurd rfl hne⟩
      intro g hg
      simp only [List.mem_append, List.mem_singleton] at hg
      rcases hg with hg | hg
      · exact hp g hg
      · subst hg
        exact ⟨by simp, hpos⟩

theorem addFrameInfo_spec_witness :
    AddFrameInfo none (parsedStream 2 2 0) = some (OMAF_ERROR_NULL_PTR, parsedStream 2 2 0) ∧
    AddFrameInfo (some { data := some [0, 0, 1, 38], dataSize := 3, pts := 0, isKeyFrame := true })
        (parsedStream 2 2 0) =
      some (ERROR_NONE,
        { parsedStream 2 2 0 with
          m_frameInfoList := (parsedStream 2 2 0).m_frameInfoList ++
            [{ data := some [0, 0, 1], dataSize := 3, pts := 0, isKeyFrame := true }] }) :=
  ⟨(addFrameInfo_spec (parsedStream 2 2 0)).1,
    (addFrameInfo_spec (parsedStream 2 2 0)).2.2.2.1
      { data := some [0, 0, 1, 38], dataSize := 3, pts := 0, isKeyFrame := true }
      [0, 0, 1, 38] rfl (by decide) (by decide)⟩

/-! ## Claim C23: the queue of pending frames -/

theorem addFrames_valid (frames : List FrameBSInfo) :
    ∀ vs : VideoStream, (∀ f ∈ frames, validFrame f = true) →
      addFrames frames vs =
        some (List.replicate frames.length ERROR_NONE,
          { vs with
            m_frameInfoList := vs.m_frameInfoList ++
              frames.map (fun f =>
                { data := f.data.map (List.take f.dataSize), dataSize := f.dataSize,
                  pts := f.pts, isKeyFrame := f.isKeyFrame }) }) := by
  induction frames with
  | nil =>
    intro vs _
    simp [addFrames]
  | cons f rest ih =>
    intro vs hv
    have hf := hv f (List.mem_cons_self _ _)
    unfold validFrame at hf
    cases hd : f.data with
    | none => rw [hd] at hf; cases hf
    | some bytes =>
      rw [hd] at hf
      simp only [Bool.and_eq_true, decide_eq_true_eq] at hf
      simp only [addFrames]
      rw [addFrameInfo_valid f vs bytes hd hf.1 hf.2]
      simp only
      rw [ih _ (fun g hg => hv g (List.mem_cons_of_mem _ hg))]
      simp [List.replicate_succ, hd]

theorem setCurr_iterate (i : Nat) :
    ∀ vs : VideoStream, i ≤ vs.m_frameInfoList.length →
      (Nat.iterate SetCurrFrameInfo i vs).m_frameInfoList = vs.m_frameInfoList.drop i ∧
      (Nat.iterate SetCurrFrameInfo (i + 1) vs).m_currFrameInfo =
        (if i < vs.m_frameInfoList.length then vs.m_frameInfoList[i]?
          else (Nat.iterate SetCurrFrameInfo i vs).m_currFrameInfo) := by
  induction i with
  | zero =>
    intro vs _
    refine ⟨rfl, ?_⟩
    simp only [Function.iterate_succ, Function.iterate_zero, Function.comp, id]
    unfold SetCurrFrameInfo
    by_cases h : 0 < vs.m_frameInfoList.length
    · rw [if_pos h, if_pos h]
      cases hl : vs.m_frameInfoList with
      | nil => rw [hl] at h; cases h
      | cons a l => simp
    · rw [if_neg h, if_neg h]
  | succ i ih =>
    intro vs hi
    cases hl : vs.m_frameInfoList with
    | nil => rw [hl] at hi; cases hi
    | cons a l =>
      have hs : SetCurrFrameInfo vs = { vs with m_currFrameInfo := some a, m_frameInfoList := l } := by
        unfold SetCurrFrameInfo
        rw [if_pos (by rw [hl]; simp), hl]
        rfl
      have hil : i ≤ l.length := by rw [hl] at hi; simpa using hi
      obtain ⟨h1, h2⟩ := ih { vs with m_currFrameInfo := some a, m_frameInfoList := l } hil
      refine ⟨?_, ?_⟩
      · rw [Function.iterate_succ, Function.comp, hs, h1]
        rfl
      · rw [Function.iterate_succ, Function.comp, hs, h2]
        simp only [List.length_cons, Nat.add_lt_add_iff_right, List.getElem?_cons_succ]
        by_cases hlt : i < l.length
        · rw [if_pos hlt, if_pos hlt]
        · rw [if_neg hlt, if_neg hlt, Function.iterate_succ, Function.comp, hs]

/-- Claim C23: for every list of frames with data, positive size and a buffer of
`dataSize` bytes, added one after the other with `AddFrameInfo` to a stream
without pending frames, every call returns `ERROR_NONE`; then, for every `i`
below the number of frames, after `i + 1` calls of `SetCurrFrameInfo`
`GetCurrFrameInfo` returns a frame with the `dataSize` bytes, the `dataSize`,
the `pts` and the `isKeyFrame` of frame `i` of the list, and after as many
calls as there are frames no frame is pending. -/
theorem frame_queue_fifo (frames : List FrameBSInfo) (vs : VideoStream)
    (hempty : vs.m_frameInfoList = [])
    (hvalid : ∀ f ∈ frames, validFrame f = true) :
    ∃ vs1, addFrames frames vs = some (List.replicate frames.length ERROR_NONE, vs1) ∧
      vs1.m_frameInfoList.length = frames.length ∧
      (∀ i f, frames[i]? = some f →
        ∃ g, GetCurrFrameInfo (Nat.iterate SetCurrFrameInfo (i + 1) vs1) = some g ∧
          sameFrame f g ∧ g.data ≠ none) ∧
      (Nat.iterate SetCurrFrameInfo frames.length vs1).m_frameInfoList = [] := by
  refine ⟨_, addFrames_valid frames vs hvalid, ?_, ?_, ?_⟩
  · simp [hempty]
  · intro i f hf
    have hi : i < frames.length := by
      rcases List.getElem?_eq_some_iff.1 hf with ⟨hi, _⟩
      exact hi
    have hlen : ({ vs with
        m_frameInfoList := vs.m_frameInfoList ++
          frames.map (fun f =>
            ({ data := f.data.map (List.take f.dataSize), dataSize := f.dataSize,
               pts := f.pts, isKeyFrame := f.isKeyFrame } : FrameBSInfo)) } :
          VideoStream).m_frameInfoList.length = frames.length := by
      simp [hempty]
    obtain ⟨_, h2⟩ := setCurr_iterate i _ (by rw [hlen]; exact Nat.le_of_lt hi)
    rw [if_pos (by rw [hlen]; exact hi)] at h2
    refine ⟨{ data := f.data.map (List.take f.dataSize), dataSize := f.dataSize,
              pts := f.pts, isKeyFrame := f.isKeyFrame }, ?_, ?_, ?_⟩
    · unfold GetCurrFrameInfo
      rw [h2]
      simp [hempty, hf]
    · refine ⟨?_, rfl, rfl, rfl⟩
      cases hd : f.data with
      | none => rfl
      | some bytes => simp
    · have hv := hvalid f (by
        rcases List.getElem?_eq_some_iff.1 hf with ⟨hi2, he⟩
        rw [← he]
        exact List.getElem_mem hi2)
      unfold validFrame at hv
      cases hd : f.data with
      | none => rw [hd] at hv; cases hv
      | some bytes => simp
  · have hlen : ({ vs with
        m_frameInfoList := vs.m_frameInfoList ++
          frames.map (fun f =>
            ({ data := f.data.map (List.take f.dataSize), dataSize := f.dataSize,
               pts := f.pts, isKeyFrame := f.isKeyFrame } : FrameBSInfo)) } :
          VideoStream).m_frameInfoList.length = frames.length := by
      simp [hempty]
    obtain ⟨h1, _⟩ := setCurr_iterate frames.length _ (Nat.le_of_eq hlen.symm)
    rw [h1, ← hlen, List.drop_length]

theorem frame_queue_fifo_witness :
    ∃ vs1, addFrames sampleFrames (parsedStream 2 2 0) =
        some (List.replicate sampleFrames.length ERROR_NONE, vs1) ∧
      vs1.m_frameInfoList.length = sampleFrames.length ∧
      (∀ i f, sampleFrames[i]? = some f →
        ∃ g, GetCurrFrameInfo (Nat.iterate SetCurrFrameInfo (i + 1) vs1) = some g ∧
          sameFrame f g ∧ g.data ≠ none) ∧
      (Nat.iterate SetCurrFrameInfo sampleFrames.length vs1).m_frameInfoList = [] :=
  frame_queue_fifo sampleFrames (parsedStream 2 2 0) rfl (by decide)

/-! ## Claim C24: the source packing and the source coverage -/

theorem fillLoop_never {β : Type} (numRegions : Nat) (body : Nat → Option β)
    (hbig : 256 ≤ numRegions) :
    ∀ (fuel regionIdx : Nat) (arr : List β), regionIdx < 256 →
      fillLoop numRegions body fuel regionIdx arr = none := by
  intro fuel
  induction fuel with
  | zero => intro regionIdx arr _; rfl
  | succ fuel ih =>
    intro regionIdx arr hidx
    unfold fillLoop
    rw [if_pos (by omega)]
    split
    · exact ih _ _ (Nat.mod_lt _ (by decide))
    · rfl

theorem fillLoop_result {β : Type} (numRegions : Nat) (body : Nat → Option β)
    (hsmall : numRegions < 256) :
    ∀ (fuel regionIdx : Nat) (arr out : List β), regionIdx ≤ numRegions →
      arr.length = numRegions →
      fillLoop numRegions body fuel regionIdx arr = some out →
      out.length = numRegions ∧
        ∀ i, i < numRegions → out[i]? = if i < regionIdx then arr[i]? else body i := by
  intro fuel
  induction fuel with
  | zero => intro regionIdx arr out _ _ h; cases h
  | succ fuel ih =>
    intro regionIdx arr out hidx hlen h
    unfold fillLoop at h
    by_cases hlt : regionIdx < numRegions
    · rw [if_pos hlt] at h
      split at h
      · rename_i a b ha hb
        rw [Nat.mod_eq_of_lt (by omega)] at h
        obtain ⟨h1, h2⟩ := ih (regionIdx + 1) (arr.set regionIdx b) out (by omega)
          (by rw [List.length_set]; exact hlen) h
        refine ⟨h1, fun i hi => ?_⟩
        rw [h2 i hi]
        by_cases hi1 : i < regionIdx
        · rw [if_pos (by omega), if_pos hi1, List.getElem?_set_ne (by omega)]
        · rw [if_neg hi1]
          by_cases hi2 : i = regionIdx
          · subst hi2
            rw [if_pos (by omega), List.getElem?_set_self (by omega), hb]
          · rw [if_neg (by omega)]
      · cases h
    · rw [if_neg hlt] at h
      simp only [Option.some.injEq] at h
      subst h
      refine ⟨hlen, fun i hi => ?_⟩
      rw [if_pos (by omega)]

theorem fillLoop_total {β : Type} (numRegions : Nat) (body : Nat → Option β)
    (hsmall : numRegions < 256) (hbody : ∀ i, i < numRegions → (body i).isSome = true) :
    ∀ (fuel regionIdx : Nat) (arr : List β), regionIdx ≤ numRegions →
      arr.length = numRegions → numRegions - regionIdx < fuel →
      ∃ out, fillLoop numRegions body fuel regionIdx arr = some out := by
  intro fuel
  induction fuel with
  | zero => intro regionIdx arr _ _ h; omega
  | succ fuel ih =>
    intro regionIdx arr hidx hlen hfuel
    unfold fillLoop
    by_cases hlt : regionIdx < numRegions
    · rw [if_pos hlt]
      have hb := hbody regionIdx hlt
      cases hbv : body regionIdx with
      | none => rw [hbv] at hb; cases hb
      | some b =>
        have ha : arr[regionIdx]? = some (arr[regionIdx]) :=
          List.getElem?_eq_getElem (by omega)
        rw [ha]
        simp only
        rw [Nat.mod_eq_of_lt (by omega)]
        exact ih (regionIdx + 1) _ (by omega) (by rw [List.length_set]; exact hlen) (by omega)
    · rw [if_neg hlt]
      exact ⟨arr, rfl⟩

theorem fillRwpk_success (fuel : Nat) (vs vs1 : VideoStream)
    (h : FillRegionWisePacking fuel vs = some (ERROR_NONE, vs1)) :
    ∃ rwpk tiles regions, vs.m_srcRwpk = some rwpk ∧ vs.m_tilesInfo = some tiles ∧
      fillLoop (vs.m_tileInRow * vs.m_tileInCol)
          (fun regionIdx => (tiles[regionIdx]?).map fillRegion) fuel 0
          (List.replicate (vs.m_tileInRow * vs.m_tileInCol) zeroRegion) = some regions ∧
      vs1 = { vs with
        m_srcRwpk := some
          { rwpk with
            constituentPicMatching := 0
            numRegions := vs.m_tileInRow * vs.m_tileInCol
            projPicWidth := vs.m_width
            projPicHeight := vs.m_height
            packedPicWidth := vs.m_width
            packedPicHeight := vs.m_height
            rectRegionPacking := regions } } := by
  unfold FillRegionWisePacking at h
  cases hr : vs.m_srcRwpk with
  | none => rw [hr] at h; cases h
  | some rwpk =>
    rw [hr] at h
    simp only at h
    cases ht : vs.m_tilesInfo with
    | none => rw [ht] at h; cases h
    | some tiles =>
      rw [ht] at h
      simp only at h
      split at h
      · cases h
      · rename_i regions hl
        simp only [Option.some.injEq, Prod.mk.injEq, true_and] at h
        exact ⟨rwpk, tiles, regions, rfl, rfl, hl, h.symm⟩

theorem fillCovi_success (A : CoverageArith) (fuel : Nat) (vs vs1 : VideoStream)
    (h : FillContentCoverage A fuel vs = some (ERROR_NONE, vs1)) :
    ∃ covi rwpk spheres, vs.m_srcCovi = some covi ∧ vs.m_srcRwpk = some rwpk ∧
      fillLoop (vs.m_tileInRow * vs.m_tileInCol)
          (fun regionIdx =>
            (rwpk.rectRegionPacking[regionIdx]?).map (fillSphere A vs.m_width vs.m_height))
          fuel 0 (List.replicate (vs.m_tileInRow * vs.m_tileInCol) zeroSphere) = some spheres ∧
      vs1 = { vs with
        m_srcCovi := some
          { covi with
            coverageShapeType := if vs.m_projType = 0 then 1 else 0
            numRegions := vs.m_tileInRow * vs.m_tileInCol
            viewIdcPresenceFlag := false
            defaultViewIdc := 0
            sphereRegions := some spheres } } := by
  unfold FillContentCoverage at h
  cases hc : vs.m_srcCovi with
  | none => rw [hc] at h; cases h
  | some covi =>
    rw [hc] at h
    simp only at h
    cases hr : vs.m_srcRwpk with
    | none => rw [hr] at h; cases h
    | some rwpk =>
      rw [hr] at h
      simp only at h
      split at h
      · cases h
      · rename_i spheres hl
        simp only [Option.some.injEq, Prod.mk.injEq, true_and] at h
        exact ⟨covi, rwpk, spheres, rfl, rfl, hl, h.symm⟩

theorem fillCovi_total (A : CoverageArith) (vs : VideoStream) (rwpk : RegionWisePacking)
    (covi : ContentCoverage) (fuel : Nat)
    (hr : vs.m_srcRwpk = some rwpk) (hc : vs.m_srcCovi = some covi)
    (hsmall : vs.m_tileInRow * vs.m_tileInCol < 256)
    (hlen : vs.m_tileInRow * vs.m_tileInCol ≤ rwpk.rectRegionPacking.length)
    (hfuel : vs.m_tileInRow * vs.m_tileInCol < fuel) :
    ∃ vs2, FillContentCoverage A fuel vs = some (ERROR_NONE, vs2) := by
  obtain ⟨spheres, hspheres⟩ := fillLoop_total (vs.m_tileInRow * vs.m_tileInCol)
    (fun regionIdx =>
      (rwpk.rectRegionPacking[regionIdx]?).map (fillSphere A vs.m_width vs.m_height)) hsmall
    (fun i hi => by
      show ((rwpk.rectRegionPacking[i]?).map (fillSphere A vs.m_width vs.m_height)).isSome = true
      rw [List.getElem?_eq_getElem (by omega)]
      rfl)
    fuel 0 (List.replicate (vs.m_tileInRow * vs.m_tileInCol) zeroSphere) (Nat.zero_le _)
    (by simp) (by omega)
  unfold FillContentCoverage
  rw [hc, hr]
  simp only
  rw [hspheres]
  exact ⟨_, rfl⟩

theorem fill_total (A : CoverageArith) (vs : VideoStream) (rwpk : RegionWisePacking)
    (covi : ContentCoverage) (tiles : List TileInfo) (fuel1 fuel2 : Nat)
    (hr : vs.m_srcRwpk = some rwpk) (hc : vs.m_srcCovi = some covi)
    (ht : vs.m_tilesInfo = some tiles)
    (hsmall : vs.m_tileInRow * vs.m_tileInCol < 256)
    (hlen : vs.m_tileInRow * vs.m_tileInCol ≤ tiles.length)
    (h1 : vs.m_tileInRow * vs.m_tileInCol < fuel1)
    (h2 : vs.m_tileInRow * vs.m_tileInCol < fuel2) :
    ∃ vs1 vs2, FillRegionWisePacking fuel1 vs = some (ERROR_NONE, vs1) ∧
      FillContentCoverage A fuel2 vs1 = some (ERROR_NONE, vs2) := by
  obtain ⟨regions, hregions⟩ := fillLoop_total (vs.m_tileInRow * vs.m_tileInCol)
    (fun regionIdx => (tiles[regionIdx]?).map fillRegion) hsmall
    (fun i hi => by
      show ((tiles[i]?).map fillRegion).isSome = true
      rw [List.getElem?_eq_getElem (by omega)]
      rfl)
    fuel1 0 (List.replicate (vs.m_tileInRow * vs.m_tileInCol) zeroRegion) (Nat.zero_le _)
    (by simp) (by omega)
  have hres := fillLoop_result _ _ hsmall fuel1 0 _ regions (Nat.zero_le _) (by simp) hregions
  have e1 : FillRegionWisePacking fuel1 vs = some (ERROR_NONE,
      { vs with
        m_srcRwpk := some
          { rwpk with
            constituentPicMatching := 0
            numRegions := vs.m_tileInRow * vs.m_tileInCol
            projPicWidth := vs.m_width
            projPicHeight := vs.m_height
            packedPicWidth := vs.m_width
            packedPicHeight := vs.m_height
            rectRegionPacking := regions } }) := by
    unfold FillRegionWisePacking
    rw [hr, ht]
    simp only
    rw [hregions]
  obtain ⟨vs2, e2⟩ := fillCovi_total A
    { vs with
      m_srcRwpk := some
        { rwpk with
          constituentPicMatching := 0
          numRegions := vs.m_tileInRow * vs.m_tileInCol
          projPicWidth := vs.m_width
          projPicHeight := vs.m_height
          packedPicWidth := vs.m_width
          packedPicHeight := vs.m_height
          rectRegionPacking := regions } }
    _ covi fuel2 rfl hc hsmall (Nat.le_of_eq hres.1.symm) h2
  exact ⟨_, vs2, e1, e2⟩

/-- Claim C24, as the code has it: on a parsed stream of 2 by 2 tiles both fill
functions return `ERROR_NONE`, and region 0 of the packing has
`gbNotUsedForPredFlag` set, so not every guard-band member is 0. -/
theorem fill_sets_gbNotUsedForPredFlag :
    ∃ vs1 vs2 rwpk r, FillRegionWisePacking 5 (parsedStream 2 2 0) = some (ERROR_NONE, vs1) ∧
      FillContentCoverage integerArith 5 vs1 = some (ERROR_NONE, vs2) ∧
      vs2.m_srcRwpk = some rwpk ∧ rwpk.rectRegionPacking[0]? = some r ∧
      r.gbNotUsedForPredFlag = true :=
  ⟨_, _, _, _, rfl, rfl, rfl, rfl, rfl⟩

/-- Claim C24, amended: when `FillRegionWisePacking` and then
`FillContentCoverage` return `ERROR_NONE`, the grid has fewer than 256 tiles,
the packing and the coverage both have `numRegions` equal to
`m_tileInRow * m_tileInCol` and arrays of that length, the projected and the
packed picture sizes of the packing are the width and the height of the stream,
and for every tile `i` region `i` has the position and the size of the tile as
projected and as packed rectangle, `transformType` 0, `guardBandFlag` 0, guard
band widths, heights and types 0, and `gbNotUsedForPredFlag` set. -/
theorem fill_rwpk_covi (A : CoverageArith) (fuel1 fuel2 : Nat) (vs vs1 vs2 : VideoStream)
    (h1 : FillRegionWisePacking fuel1 vs = some (ERROR_NONE, vs1))
    (h2 : FillContentCoverage A fuel2 vs1 = some (ERROR_NONE, vs2)) :
    ∃ rwpk covi tiles spheres,
      vs2.m_srcRwpk = some rwpk ∧ vs2.m_srcCovi = some covi ∧
      vs.m_tilesInfo = some tiles ∧ covi.sphereRegions = some spheres ∧
      vs.m_tileInRow * vs.m_tileInCol < 256 ∧
      rwpk.numRegions = vs.m_tileInRow * vs.m_tileInCol ∧
      covi.numRegions = vs.m_tileInRow * vs.m_tileInCol ∧
      rwpk.rectRegionPacking.length = vs.m_tileInRow * vs.m_tileInCol ∧
      spheres.length = vs.m_tileInRow * vs.m_tileInCol ∧
      rwpk.projPicWidth = vs.m_width ∧ rwpk.projPicHeight = vs.m_height ∧
      rwpk.packedPicWidth = vs.m_width ∧ rwpk.packedPicHeight = vs.m_height ∧
      ∀ i, i < vs.m_tileInRow * vs.m_tileInCol →
        ∃ t r, tiles[i]? = some t ∧ rwpk.rectRegionPacking[i]? = some r ∧
          r.projRegLeft = t.horizontalPos ∧ r.projRegTop = t.verticalPos ∧
          r.projRegWidth = t.tileWidth ∧ r.projRegHeight = t.tileHeight ∧
          r.packedRegLeft = t.horizontalPos ∧ r.packedRegTop = t.verticalPos ∧
          r.packedRegWidth = t.tileWidth ∧ r.packedRegHeight = t.tileHeight ∧
          r.transformType = 0 ∧ r.guardBandFlag = false ∧
          r.leftGbWidth = 0 ∧ r.rightGbWidth = 0 ∧ r.topGbHeight = 0 ∧
          r.bottomGbHeight = 0 ∧ r.gbType0 = 0 ∧ r.gbType1 = 0 ∧ r.gbType2 = 0 ∧
          r.gbType3 = 0 ∧ r.gbNotUsedForPredFlag = true := by
  obtain ⟨rwpk0, tiles, regions, hr0, ht, hloop1, hvs1⟩ := fillRwpk_success fuel1 vs vs1 h1
  obtain ⟨covi0, rwpk1, spheres, hc0, hr1, hloop2, hvs2⟩ := fillCovi_success A fuel2 vs1 vs2 h2
  have hgeo : vs1.m_tileInRow * vs1.m_tileInCol = vs.m_tileInRow * vs.m_tileInCol := by
    rw [hvs1]
  rw [hgeo] at hloop2
  have hsmall : vs.m_tileInRow * vs.m_tileInCol < 256 := by
    by_contra hbig
    have := fillLoop_never (vs.m_tileInRow * vs.m_tileInCol)
      (fun regionIdx => (tiles[regionIdx]?).map fillRegion) (by omega) fuel1 0
      (List.replicate (vs.m_tileInRow * vs.m_tileInCol) zeroRegion) (by decide)
    rw [this] at hloop1
    cases hloop1
  have hres1 := fillLoop_result _ _ hsmall fuel1 0 _ regions (Nat.zero_le _) (by simp) hloop1
  have hres2 := fillLoop_result _ _ hsmall fuel2 0 _ spheres (Nat.zero_le _) (by simp) hloop2
  have hrw : rwpk1 =
      { rwpk0 with
        constituentPicMatching := 0
        numRegions := vs.m_tileInRow * vs.m_tileInCol
        projPicWidth := vs.m_width
        projPicHeight := vs.m_height
        packedPicWidth := vs.m_width
        packedPicHeight := vs.m_height
        rectRegionPacking := regions } := by
    rw [hvs1] at hr1
    simp only [Option.some.injEq] at hr1
    exact hr1.symm
  refine ⟨rwpk1,
    { covi0 with
      coverageShapeType := if vs1.m_projType = 0 then 1 else 0
      numRegions := vs1.m_tileInRow * vs1.m_tileInCol
      viewIdcPresenceFlag := false
      defaultViewIdc := 0
      sphereRegions := some spheres },
    tiles, spheres, ?_, ?_, ht, rfl, hsmall, ?_, hgeo, ?_, hres2.1, ?_, ?_, ?_, ?_, ?_⟩
  · rw [hvs2]
    exact hr1
  · rw [hvs2]
  · rw [hrw]
  · rw [hrw]
    exact hres1.1
  · rw [hrw]
  · rw [hrw]
  · rw [hrw]
  · rw [hrw]
  · intro i hi
    have hreg := hres1.2 i hi
    rw [if_neg (Nat.not_lt_zero i)] at hreg
    have hlen : i < regions.length := by rw [hres1.1]; exact hi
    rw [List.getElem?_eq_getElem hlen] at hreg
    cases hti : tiles[i]? with
    | none => rw [hti] at hreg; cases hreg
    | some t =>
      rw [hti] at hreg
      refine ⟨t, fillRegion t, rfl, ?_, rfl, rfl, rfl, rfl, rfl, rfl, rfl, rfl, rfl, rfl, rfl,
        rfl, rfl, rfl, rfl, rfl, rfl, rfl, rfl⟩
      rw [hrw]
      show regions[i]? = _
      rw [List.getElem?_eq_getElem hlen]
      exact hreg

theorem fill_rwpk_covi_witness :
    FillRegionWisePacking 5 (parsedStream 2 2 0) = some (ERROR_NONE, packedStream) ∧
    FillContentCoverage integerArith 5 packedStream = some (ERROR_NONE, coveredStream) ∧
    ∃ rwpk covi tiles spheres,
      coveredStream.m_srcRwpk = some rwpk ∧ coveredStream.m_srcCovi = some covi ∧
      (parsedStream 2 2 0).m_tilesInfo = some tiles ∧ covi.sphereRegions = some spheres ∧
      (parsedStream 2 2 0).m_tileInRow * (parsedStream 2 2 0).m_tileInCol < 256 ∧
      rwpk.numRegions = (parsedStream 2 2 0).m_tileInRow * (parsedStream 2 2 0).m_tileInCol ∧
      covi.numRegions = (parsedStream 2 2 0).m_tileInRow * (parsedStream 2 2 0).m_tileInCol ∧
      rwpk.rectRegionPacking.length =
        (parsedStream 2 2 0).m_tileInRow * (parsedStream 2 2 0).m_tileInCol ∧
      spheres.length = (parsedStream 2 2 0).m_tileInRow * (parsedStream 2 2 0).m_tileInCol ∧
      rwpk.projPicWidth = (parsedStream 2 2 0).m_width ∧
      rwpk.projPicHeight = (parsedStream 2 2 0).m_height ∧
      rwpk.packedPicWidth = (parsedStream 2 2 0).m_width ∧
      rwpk.packedPicHeight = (parsedStream 2 2 0).m_height ∧
      ∀ i, i < (parsedStream 2 2 0).m_tileInRow * (parsedStream 2 2 0).m_tileInCol →
        ∃ t r, tiles[i]? = some t ∧ rwpk.rectRegionPacking[i]? = some r ∧
          r.projRegLeft = t.horizontalPos ∧ r.projRegTop = t.verticalPos ∧
          r.projRegWidth = t.tileWidth ∧ r.projRegHeight = t.tileHeight ∧
          r.packedRegLeft = t.horizontalPos ∧ r.packedRegTop = t.verticalPos ∧
          r.packedRegWidth = t.tileWidth ∧ r.packedRegHeight = t.tileHeight ∧
          r.transformType = 0 ∧ r.guardBandFlag = false ∧
          r.leftGbWidth = 0 ∧ r.rightGbWidth = 0 ∧ r.topGbHeight = 0 ∧
          r.bottomGbHeight = 0 ∧ r.gbType0 = 0 ∧ r.gbType1 = 0 ∧ r.gbType2 = 0 ∧
          r.gbType3 = 0 ∧ r.gbNotUsedForPredFlag = true :=
  ⟨rfl, rfl,
    fill_rwpk_covi integerArith 5 5 (parsedStream 2 2 0) packedStream coveredStream rfl rfl⟩

/-! ## Claim C27: the counters and the presentation time of a track -/

theorem metaAfter_step (step : Nat) (flags : List (Bool × Bool)) (isKeyFrame isEOS : Bool)
    (c : TrackSegmentCtx) (h : metaAfter step flags c.codedMeta) :
    metaAfter step (flags ++ [(isKeyFrame, isEOS)])
      (advanceFrame step (markFrame isKeyFrame isEOS c)).codedMeta := by
  obtain ⟨h1, h2, h3, _⟩ := h
  refine ⟨?_, ?_, ?_, ?_⟩
  · show c.codedMeta.presIndex + 1 = _
    rw [h1, List.length_append]
    rfl
  · show c.codedMeta.codingIndex + 1 = _
    rw [h2, List.length_append]
    rfl
  · show ({ num := c.codedMeta.presTime.num + step, den := 1000 } : RatU64) = _
    rw [h3, List.length_append]
    show ({ num := flags.length * step + step, den := 1000 } : RatU64) = _
    rw [List.length_singleton, Nat.add_mul, Nat.one_mul]
  · intro k e hl
    simp only [List.getLast?_append, List.getLast?_singleton, Option.or_some,
      Option.some.injEq, Prod.mk.injEq] at hl
    obtain ⟨hk, he⟩ := hl
    subst hk he
    refine ⟨?_, rfl⟩
    show (if isKeyFrame = true then FrameType.IDR else FrameType.NONIDR) = FrameType.IDR ↔ _
    cases isKeyFrame <;> simp

theorem writeVideo_frame (W : Writer) (k : Nat) (vs : MediaStream) (isKeyFrame isEOS : Bool)
    (st st1 : DefaultSegmentation) (calls calls1 : List WriterCall) (e : ErrorCode)
    (h : WriteSegmentForEachVideo W k vs isKeyFrame isEOS st calls = some (e, st1, calls1)) :
    st1.m_frameRate = st.m_frameRate ∧ st1.m_extractorSegCtx = st.m_extractorSegCtx ∧
    ∀ k2, k2 ≠ k → mapFind k2 st1.m_streamSegCtx = mapFind k2 st.m_streamSegCtx := by
  unfold WriteSegmentForEachVideo at h
  cases hf : mapFind k st.m_streamSegCtx with
  | none =>
    rw [hf] at h
    simp only [Option.some.injEq, Prod.mk.injEq] at h
    rw [← h.2.1]
    exact ⟨rfl, rfl, fun _ _ => rfl⟩
  | some ctxs =>
    rw [hf] at h
    simp only at h
    split at h
    · cases h
    · simp only [Option.some.injEq, Prod.mk.injEq] at h
      rw [← h.2.1]
      exact ⟨rfl, rfl, fun k2 hk => mapFind_mapAssign_ne k k2 _ _ hk⟩

theorem writeVideo_success (W : Writer) (k : Nat) (vs : MediaStream) (isKeyFrame isEOS : Bool)
    (st st1 : DefaultSegmentation) (calls calls1 : List WriterCall)
    (h : WriteSegmentForEachVideo W k vs isKeyFrame isEOS st calls =
      some (ERROR_NONE, st1, calls1)) :
    ∃ ctxs ctxs1, mapFind k st.m_streamSegCtx = some ctxs ∧
      mapFind k st1.m_streamSegCtx = some ctxs1 ∧
      ∀ j, ctxs1[j]? =
        if j < tilesNum vs then
          (ctxs[j]?).map (fun c =>
            advanceFrame (1000 / (st.m_frameRate.num / st.m_frameRate.den))
              (markFrame isKeyFrame isEOS c))
        else ctxs[j]? := by
  unfold WriteSegmentForEachVideo at h
  cases hf : mapFind k st.m_streamSegCtx with
  | none =>
    rw [hf] at h
    simp only [Option.some.injEq, Prod.mk.injEq] at h
    exact absurd h.1 (by decide)
  | some ctxs =>
    rw [hf] at h
    simp only at h
    split at h
    · cases h
    · rename_i ret ctxs1 segNum calls2 hw
      simp only [Option.some.injEq, Prod.mk.injEq] at h
      obtain ⟨hret, hst, _⟩ := h
      subst hret
      refine ⟨ctxs, ctxs1, rfl, ?_, ?_⟩
      · rw [← hst]
        exact mapFind_mapAssign_self k ctxs1 _
      · intro j
        have := writeTiles_success W st.m_frameRate isKeyFrame isEOS (tilesNum vs) 0 ctxs
          st.m_segNum calls ctxs1 segNum calls2 hw j
        rw [this]
        by_cases hj : j < tilesNum vs
        · rw [if_pos ⟨Nat.zero_le _, by omega⟩, if_pos hj]
        · rw [if_neg (fun hx => hj (by omega)), if_neg hj]

theorem writeExtractor_frame (W : Writer) (key : Nat) (isKeyFrame isEOS : Bool)
    (st st1 : DefaultSegmentation) (calls calls1 : List WriterCall) (e : ErrorCode)
    (h : WriteSegmentForEachExtractorTrack W key isKeyFrame isEOS st calls =
      some (e, st1, calls1)) :
    st1.m_frameRate = st.m_frameRate ∧ st1.m_streamSegCtx = st.m_streamSegCtx ∧
    ∀ k2, k2 ≠ key → mapFind k2 st1.m_extractorSegCtx = mapFind k2 st.m_extractorSegCtx := by
  unfold WriteSegmentForEachExtractorTrack at h
  cases hf : mapFind key st.m_extractorSegCtx with
  | none =>
    rw [hf] at h
    simp only [Option.some.injEq, Prod.mk.injEq] at h
    rw [← h.2.1]
    exact ⟨rfl, rfl, fun _ _ => rfl⟩
  | some ctx =>
    rw [hf] at h
    simp only at h
    split at h
    · simp only [Option.some.injEq, Prod.mk.injEq] at h
      rw [← h.2.1]
      exact ⟨rfl, rfl, fun k2 hk => mapFind_mapAssign_ne key k2 _ _ hk⟩
    · split at h
      · simp only [Option.some.injEq, Prod.mk.injEq] at h
        rw [← h.2.1]
        exact ⟨rfl, rfl, fun k2 hk => mapFind_mapAssign_ne key k2 _ _ hk⟩
      · split at h
        · cases h
        · simp only [Option.some.injEq, Prod.mk.injEq] at h
          rw [← h.2.1]
          exact ⟨rfl, rfl, fun k2 hk => mapFind_mapAssign_ne key k2 _ _ hk⟩

theorem writeExtractor_cases (W : Writer) (key : Nat) (isKeyFrame isEOS : Bool)
    (st st1 : DefaultSegmentation) (calls calls1 : List WriterCall) (e : ErrorCode)
    (ctx : TrackSegmentCtx) (hf : mapFind key st.m_extractorSegCtx = some ctx)
    (h : WriteSegmentForEachExtractorTrack W key isKeyFrame isEOS st calls =
      some (e, st1, calls1)) :
    (e = ERROR_NONE ∧
      mapFind key st1.m_extractorSegCtx =
        some (advanceFrame (1000 / (st.m_frameRate.num / st.m_frameRate.den))
          { markFrame isKeyFrame isEOS ctx with
            extractorTrackNalu := W.naluAfter calls (markFrame isKeyFrame isEOS ctx) })) ∨
    (e ≠ ERROR_NONE ∧
      (∃ nalu, mapFind key st1.m_extractorSegCtx =
        some { markFrame isKeyFrame isEOS ctx with extractorTrackNalu := nalu }) ∧
      (ctx.dashSegmenter = true →
        e = W.segmentData calls ctx.trackIdx ∧
        calls1 = calls ++ [WriterCall.SegmentData ctx.trackIdx])) := by
  unfold WriteSegmentForEachExtractorTrack at h
  rw [hf] at h
  simp only at h
  split at h
  · rename_i hd
    simp only [Option.some.injEq, Prod.mk.injEq] at h
    rw [← h.1, ← h.2.1]
    refine Or.inr ⟨by decide, ⟨_, mapFind_mapAssign_self key _ _⟩, fun hd2 => ?_⟩
    have hd3 : ctx.dashSegmenter = false := hd
    rw [hd3] at hd2
    cases hd2
  · split at h
    · rename_i hd hr
      simp only [Option.some.injEq, Prod.mk.injEq] at h
      rw [← h.1, ← h.2.1, ← h.2.2]
      exact Or.inr ⟨hr, ⟨_, mapFind_mapAssign_self key _ _⟩, fun _ => ⟨rfl, rfl⟩⟩
    · split at h
      · cases h
      · rename_i hd hr step hs
        simp only [Option.some.injEq, Prod.mk.injEq] at h
        rw [← h.1, ← h.2.1]
        have hstep : step = 1000 / (st.m_frameRate.num / st.m_frameRate.den) := by
          unfold presTimeStep at hs
          split at hs
          · cases hs
          · split at hs
            · cases hs
            · exact (Option.some.inj hs).symm
        subst hstep
        exact Or.inl ⟨rfl, mapFind_mapAssign_self key _ _⟩

theorem writeRun_video (W : Writer) (k : Nat) (vs : MediaStream) (ops : List WriteOp) :
    ∀ (st st1 : DefaultSegmentation) (calls calls1 : List WriterCall)
      (done : List (Bool × Bool)) (ctxs : List TrackSegmentCtx),
      (∀ op ∈ ops, ∀ vs2 key eos, op = WriteOp.video k vs2 key eos →
        tilesNum vs2 = tilesNum vs) →
      mapFind k st.m_streamSegCtx = some ctxs →
      (∀ i c, i < tilesNum vs → ctxs[i]? = some c →
        metaAfter (1000 / (st.m_frameRate.num / st.m_frameRate.den)) done c.codedMeta) →
      writeRun W ops st calls = some (ERROR_NONE, st1, calls1) →
      ∃ ctxs1, mapFind k st1.m_streamSegCtx = some ctxs1 ∧ ctxs1.length = ctxs.length ∧
        ∀ i c, i < tilesNum vs → ctxs1[i]? = some c →
          metaAfter (1000 / (st.m_frameRate.num / st.m_frameRate.den))
            (done ++ videoWrites k ops) c.codedMeta := by
  induction ops with
  | nil =>
    intro st st1 calls calls1 done ctxs _ hf hm hrun
    simp only [writeRun, Option.some.injEq, Prod.mk.injEq, true_and] at hrun
    rw [← hrun.1]
    refine ⟨ctxs, hf, rfl, ?_⟩
    simpa [videoWrites] using hm
  | cons op rest ih =>
    intro st st1 calls calls1 done ctxs hops hf hm hrun
    simp only [writeRun] at hrun
    cases hw : writeOp W op st calls with
    | none => rw [hw] at hrun; cases hrun
    | some r =>
      obtain ⟨e, st2, calls2⟩ := r
      rw [hw] at hrun
      simp only at hrun
      by_cases he : e = ERROR_NONE
      · subst he
        rw [if_pos rfl] at hrun
        have hrest : ∀ op2 ∈ rest, ∀ vs2 key eos, op2 = WriteOp.video k vs2 key eos →
            tilesNum vs2 = tilesNum vs :=
          fun op2 h2 => hops op2 (List.mem_cons_of_mem _ h2)
        cases op with
        | video k2 vs2 key eos =>
          simp only [writeOp] at hw
          obtain ⟨hfr, _, hother⟩ := writeVideo_frame W k2 vs2 key eos st st2 calls calls2 _ hw
          by_cases hk : k2 = k
          · subst hk
            have htn : tilesNum vs2 = tilesNum vs :=
              hops _ (List.mem_cons_self _ _) vs2 key eos rfl
            obtain ⟨ctxs0, ctxs2, hf0, hf2, hj⟩ :=
              writeVideo_success W k2 vs2 key eos st st2 calls calls2 hw
            rw [hf] at hf0
            cases hf0
            have hlen : ctxs2.length = ctxs.length := by
              rcases Nat.lt_trichotomy ctxs2.length ctxs.length with hlt | heq | hgt
              · have h1 := hj ctxs2.length
                rw [List.getElem?_eq_none (Nat.le_refl _)] at h1
                rw [List.getElem?_eq_getElem hlt] at h1
                split at h1 <;> cases h1
              · exact heq
              · have h1 := hj ctxs.length
                rw [List.getElem?_eq_none (Nat.le_refl _)] at h1
                rw [List.getElem?_eq_getElem hgt] at h1
                split at h1 <;> cases h1
            obtain ⟨ctxs1, g1, g2, g3⟩ := ih st2 st1 calls2 calls1 (done ++ [(key, eos)]) ctxs2
              hrest hf2 (by
                intro i c hi hc
                rw [hj i, if_pos (by rw [htn]; exact hi)] at hc
                cases hci : ctxs[i]? with
                | none => rw [hci] at hc; cases hc
                | some c0 =>
                  rw [hci] at hc
                  simp only [Option.map_some', Option.some.injEq] at hc
                  rw [← hc, hfr]
                  exact metaAfter_step _ done key eos c0 (hm i c0 hi hci)) hrun
            refine ⟨ctxs1, g1, g2.trans hlen, ?_⟩
            intro i c hi hc
            have := g3 i c hi hc
            rw [hfr] at this
            simpa [videoWrites, List.append_assoc] using this
          · obtain ⟨ctxs1, g1, g2, g3⟩ := ih st2 st1 calls2 calls1 done ctxs hrest
              (by rw [hother k (fun hx => hk hx.symm)]; exact hf)
              (by rw [hfr]; exact hm) hrun
            refine ⟨ctxs1, g1, g2, ?_⟩
            intro i c hi hc
            have := g3 i c hi hc
            rw [hfr] at this
            simpa [videoWrites, hk] using this
        | extractorTrack key2 key eos =>
          simp only [writeOp] at hw
          obtain ⟨hfr, hsame, _⟩ :=
            writeExtractor_frame W key2 key eos st st2 calls calls2 _ hw
          obtain ⟨ctxs1, g1, g2, g3⟩ := ih st2 st1 calls2 calls1 done ctxs hrest
            (by rw [hsame]; exact hf) (by rw [hfr]; exact hm) hrun
          refine ⟨ctxs1, g1, g2, ?_⟩
          intro i c hi hc
          have := g3 i c hi hc
          rw [hfr] at this
          simpa [videoWrites] using this
      · rw [if_neg he] at hrun
        simp only [Option.some.injEq, Prod.mk.injEq] at hrun
        exact absurd hrun.1 he

theorem writeRun_extractor (W : Writer) (key : Nat) (ops : List WriteOp) :
    ∀ (st st1 : DefaultSegmentation) (calls calls1 : List WriterCall)
      (done : List (Bool × Bool)) (ctx : TrackSegmentCtx),
      mapFind key st.m_extractorSegCtx = some ctx →
      metaAfter (1000 / (st.m_frameRate.num / st.m_frameRate.den)) done ctx.codedMeta →
      writeRun W ops st calls = some (ERROR_NONE, st1, calls1) →
      ∃ ctx1, mapFind key st1.m_extractorSegCtx = some ctx1 ∧
        metaAfter (1000 / (st.m_frameRate.num / st.m_frameRate.den))
          (done ++ extractorWrites key ops) ctx1.codedMeta := by
  induction ops with
  | nil =>
    intro st st1 calls calls1 done ctx hf hm hrun
    simp only [writeRun, Option.some.injEq, Prod.mk.injEq, true_and] at hrun
    rw [← hrun.1]
    refine ⟨ctx, hf, ?_⟩
    simpa [extractorWrites] using hm
  | cons op rest ih =>
    intro st st1 calls calls1 done ctx hf hm hrun
    simp only [writeRun] at hrun
    cases hw : writeOp W op st calls with
    | none => rw [hw] at hrun; cases hrun
    | some r =>
      obtain ⟨e, st2, calls2⟩ := r
      rw [hw] at hrun
      simp only at hrun
      by_cases he : e = ERROR_NONE
      · subst he
        rw [if_pos rfl] at hrun
        cases op with
        | video k2 vs2 k e2 =>
          simp only [writeOp] at hw
          obtain ⟨hfr, hsame, _⟩ := writeVideo_frame W k2 vs2 k e2 st st2 calls calls2 _ hw
          obtain ⟨ctx1, g1, g2⟩ := ih st2 st1 calls2 calls1 done ctx
            (by rw [hsame]; exact hf) (by rw [hfr]; exact hm) hrun
          refine ⟨ctx1, g1, ?_⟩
          rw [hfr] at g2
          simpa [extractorWrites] using g2
        | extractorTrack key2 k e2 =>
          simp only [writeOp] at hw
          obtain ⟨hfr, _, hother⟩ :=
            writeExtractor_frame W key2 k e2 st st2 calls calls2 _ hw
          by_cases hk : key2 = key
          · subst hk
            rcases writeExtractor_cases W key2 k e2 st st2 calls calls2 _ ctx hf hw with
              ⟨_, hadv⟩ | ⟨hne, _⟩
            · obtain ⟨ctx1, g1, g2⟩ := ih st2 st1 calls2 calls1 (done ++ [(k, e2)]) _ hadv
                (by rw [hfr]; exact metaAfter_step _ done k e2 ctx hm) hrun
              refine ⟨ctx1, g1, ?_⟩
              rw [hfr] at g2
              simpa [extractorWrites, List.append_assoc] using g2
            · exact absurd rfl hne
          · obtain ⟨ctx1, g1, g2⟩ := ih st2 st1 calls2 calls1 done ctx
              (by rw [hother key (fun hx => hk hx.symm)]; exact hf)
              (by rw [hfr]; exact hm) hrun
            refine ⟨ctx1, g1, ?_⟩
            rw [hfr] at g2
            simpa [extractorWrites, hk] using g2
      · rw [if_neg he] at hrun
        simp only [Option.some.injEq, Prod.mk.injEq] at hrun
        exact absurd hrun.1 he

theorem writeTiles_failure (W : Writer) (frameRate : Rational) (isKeyFrame isEOS : Bool) :
    ∀ (n tileIdx : Nat) (ctxs : List TrackSegmentCtx) (segNum : Nat) (calls : List WriterCall)
      (e : ErrorCode) (ctxs1 : List TrackSegmentCtx) (segNum1 : Nat)
      (calls1 : List WriterCall),
      writeTiles W frameRate isKeyFrame isEOS n tileIdx ctxs segNum calls =
        some (e, ctxs1, segNum1, calls1) →
      e ≠ ERROR_NONE →
      ∃ m c, tileIdx ≤ m ∧ m < tileIdx + n ∧ ctxs[m]? = some c ∧
        ((c.dashSegmenter = false ∧ e = OMAF_ERROR_NULL_PTR ∧ ctxs1[m]? = some c) ∨
          (c.dashSegmenter = true ∧ ctxs1[m]? = some (markFrame isKeyFrame isEOS c) ∧
            ∃ calls0, calls1 = calls0 ++ [WriterCall.SegmentData c.trackIdx] ∧
              e = W.segmentData calls0 c.trackIdx)) := by
  intro n
  induction n with
  | zero =>
    intro tileIdx ctxs segNum calls e ctxs1 segNum1 calls1 h he
    simp only [writeTiles, Option.some.injEq, Prod.mk.injEq] at h
    exact absurd h.1.symm he
  | succ n ih =>
    intro tileIdx ctxs segNum calls e ctxs1 segNum1 calls1 h he
    unfold writeTiles at h
    cases hc : ctxs[tileIdx]? with
    | none => rw [hc] at h; cases h
    | some ctx =>
      rw [hc] at h
      simp only at h
      have hlt : tileIdx < ctxs.length := by
        rcases Nat.lt_or_ge tileIdx ctxs.length with h1 | h1
        · exact h1
        · rw [List.getElem?_eq_none h1] at hc; cases hc
      by_cases hd : ctx.dashSegmenter = false
      · rw [if_pos hd] at h
        simp only [Option.some.injEq, Prod.mk.injEq] at h
        refine ⟨tileIdx, ctx, Nat.le_refl _, by omega, hc, Or.inl ⟨hd, h.1.symm, ?_⟩⟩
        rw [← h.2.1]
        exact hc
      · rw [if_neg hd] at h
        have hdt : ctx.dashSegmenter = true := by
          cases hb : ctx.dashSegmenter with
          | false => exact absurd hb hd
          | true => rfl
        by_cases hr : W.segmentData calls (markFrame isKeyFrame isEOS ctx).trackIdx ≠ ERROR_NONE
        · rw [if_pos hr] at h
          simp only [Option.some.injEq, Prod.mk.injEq] at h
          refine ⟨tileIdx, ctx, Nat.le_refl _, by omega, hc, Or.inr ⟨hdt, ?_, calls, ?_, ?_⟩⟩
          · rw [← h.2.1, List.getElem?_set_self hlt]
          · rw [← h.2.2.2]
            rfl
          · rw [← h.1]
            rfl
        · rw [if_neg hr] at h
          cases hs : presTimeStep frameRate with
          | none => rw [hs] at h; cases h
          | some step =>
            rw [hs] at h
            simp only at h
            obtain ⟨m, c, hm1, hm2, hm3, hm4⟩ := ih _ _ _ _ _ _ _ _ h he
            refine ⟨m, c, by omega, by omega, ?_, hm4⟩
            rw [List.getElem?_set_ne (by omega)] at hm3
            exact hm3

theorem writeVideo_failure (W : Writer) (k : Nat) (vs : MediaStream) (isKeyFrame isEOS : Bool)
    (st st1 : DefaultSegmentation) (calls calls1 : List WriterCall) (e : ErrorCode)
    (ctxs : List TrackSegmentCtx) (hf : mapFind k st.m_streamSegCtx = some ctxs)
    (h : WriteSegmentForEachVideo W k vs isKeyFrame isEOS st calls = some (e, st1, calls1))
    (he : e ≠ ERROR_NONE) :
    ∃ m c c1 ctxs1, m < tilesNum vs ∧ mapFind k st1.m_streamSegCtx = some ctxs1 ∧
      ctxs[m]? = some c ∧ ctxs1[m]? = some c1 ∧
      (c.dashSegmenter = true →
        ∃ calls0, calls1 = calls0 ++ [WriterCall.SegmentData c.trackIdx] ∧
          e = W.segmentData calls0 c.trackIdx) ∧
      c1.codedMeta.presIndex = c.codedMeta.presIndex ∧
      c1.codedMeta.codingIndex = c.codedMeta.codingIndex ∧
      c1.codedMeta.presTime = c.codedMeta.presTime := by
  unfold WriteSegmentForEachVideo at h
  rw [hf] at h
  simp only at h
  split at h
  · cases h
  · rename_i ret ctxs1 segNum calls2 hw
    simp only [Option.some.injEq, Prod.mk.injEq] at h
    obtain ⟨hret, hst, hcalls⟩ := h
    subst hret hcalls
    obtain ⟨m, c, _, hm2, hm3, hm4⟩ :=
      writeTiles_failure W st.m_frameRate isKeyFrame isEOS (tilesNum vs) 0 ctxs st.m_segNum
        calls ret ctxs1 segNum calls2 hw he
    have hfind : mapFind k st1.m_streamSegCtx = some ctxs1 := by
      rw [← hst]
      exact mapFind_mapAssign_self k ctxs1 _
    rcases hm4 with ⟨hd, _, hc1⟩ | ⟨_, hc1, hcalls⟩
    · refine ⟨m, c, c, ctxs1, by omega, hfind, hm3, hc1, fun hd2 => ?_, rfl, rfl, rfl⟩
      rw [hd] at hd2
      cases hd2
    · exact ⟨m, c, markFrame isKeyFrame isEOS c, ctxs1, by omega, hfind, hm3, hc1,
        fun _ => hcalls, rfl, rfl, rfl⟩

/-- Claim C27: from contexts with both counters 0 and presentation time 0/1000,
as the two constructions leave them, after a run of calls of the write
functions that all return `ERROR_NONE` every tile track of a stream and every
extractor track has `presIndex` and `codingIndex` equal to the number `n` of
calls made for it and `presTime` equal to `n * (1000 / (num / den))` over 1000,
with integer divisions; after at least one call its `type` is IDR exactly when
the last call was flagged as a key frame and its `isEOS` is the flag of the last
call. A call that returns another code leaves the counters and the
presentation time of the context it stopped at as they were; when a writer
exists for that context the code is the one `SegmentData` returned for it. -/
theorem frame_counters (W : Writer) (st : DefaultSegmentation) :
    (∀ k vs ops calls st1 calls1 ctxs,
      (∀ op ∈ ops, ∀ vs2 key eos, op = WriteOp.video k vs2 key eos →
        tilesNum vs2 = tilesNum vs) →
      mapFind k st.m_streamSegCtx = some ctxs →
      (∀ i c, i < tilesNum vs → ctxs[i]? = some c →
        c.codedMeta.presIndex = 0 ∧ c.codedMeta.codingIndex = 0 ∧
          c.codedMeta.presTime = ⟨0, 1000⟩) →
      writeRun W ops st calls = some (ERROR_NONE, st1, calls1) →
      ∃ ctxs1, mapFind k st1.m_streamSegCtx = some ctxs1 ∧ ctxs1.length = ctxs.length ∧
        ∀ i c, i < tilesNum vs → ctxs1[i]? = some c →
          metaAfter (1000 / (st.m_frameRate.num / st.m_frameRate.den))
            (videoWrites k ops) c.codedMeta) ∧
    (∀ key ops calls st1 calls1 ctx,
      mapFind key st.m_extractorSegCtx = some ctx →
      ctx.codedMeta.presIndex = 0 ∧ ctx.codedMeta.codingIndex = 0 ∧
        ctx.codedMeta.presTime = ⟨0, 1000⟩ →
      writeRun W ops st calls = some (ERROR_NONE, st1, calls1) →
      ∃ ctx1, mapFind key st1.m_extractorSegCtx = some ctx1 ∧
        metaAfter (1000 / (st.m_frameRate.num / st.m_frameRate.den))
          (extractorWrites key ops) ctx1.codedMeta) ∧
    (∀ k vs isKeyFrame isEOS calls e st1 calls1 ctxs,
      mapFind k st.m_streamSegCtx = some ctxs →
      WriteSegmentForEachVideo W k vs isKeyFrame isEOS st calls = some (e, st1, calls1) →
      e ≠ ERROR_NONE →
      ∃ m c c1 ctxs1, m < tilesNum vs ∧ mapFind k st1.m_streamSegCtx = some ctxs1 ∧
        ctxs[m]? = some c ∧ ctxs1[m]? = some c1 ∧
        (c.dashSegmenter = true →
          ∃ calls0, calls1 = calls0 ++ [WriterCall.SegmentData c.trackIdx] ∧
            e = W.segmentData calls0 c.trackIdx) ∧
        c1.codedMeta.presIndex = c.codedMeta.presIndex ∧
        c1.codedMeta.codingIndex = c.codedMeta.codingIndex ∧
        c1.codedMeta.presTime = c.codedMeta.presTime) ∧
    (∀ key isKeyFrame isEOS calls e st1 calls1 ctx,
      mapFind key st.m_extractorSegCtx = some ctx →
      WriteSegmentForEachExtractorTrack W key isKeyFrame isEOS st calls =
        some (e, st1, calls1) →
      e ≠ ERROR_NONE →
      ∃ ctx1, mapFind key st1.m_extractorSegCtx = some ctx1 ∧
        (ctx.dashSegmenter = true →
          e = W.segmentData calls ctx.trackIdx ∧
          calls1 = calls ++ [WriterCall.SegmentData ctx.trackIdx]) ∧
        ctx1.codedMeta.presIndex = ctx.codedMeta.presIndex ∧
        ctx1.codedMeta.codingIndex = ctx.codedMeta.codingIndex ∧
        ctx1.codedMeta.presTime = ctx.codedMeta.presTime) := by
  refine ⟨?_, ?_, ?_, ?_⟩
  · intro k vs ops calls st1 calls1 ctxs hops hf ht hrun
    have := writeRun_video W k vs ops st st1 calls calls1 [] ctxs hops hf
      (fun i c hi hc => by
        obtain ⟨h1, h2, h3⟩ := ht i c hi hc
        refine ⟨h1, h2, ?_, fun _ _ hl => by cases hl⟩
        rw [h3, List.length_nil, Nat.zero_mul])
      hrun
    simpa using this
  · intro key ops calls st1 calls1 ctx hf ht hrun
    have := writeRun_extractor W key ops st st1 calls calls1 [] ctx hf
      (by
        obtain ⟨h1, h2, h3⟩ := ht
        refine ⟨h1, h2, ?_, fun _ _ hl => by cases hl⟩
        rw [h3, List.length_nil, Nat.zero_mul])
      hrun
    simpa using this
  · intro k vs isKeyFrame isEOS calls e st1 calls1 ctxs hf h he
    exact writeVideo_failure W k vs isKeyFrame isEOS st st1 calls calls1 e ctxs hf h he
  · intro key isKeyFrame isEOS calls e st1 calls1 ctx hf h he
    rcases writeExtractor_cases W key isKeyFrame isEOS st st1 calls calls1 e ctx hf h with
      ⟨h0, _⟩ | ⟨_, ⟨nalu, hfind⟩, hcalls⟩
    · exact absurd h0 he
    · exact ⟨_, hfind, hcalls, rfl, rfl, rfl⟩

set_option maxRecDepth 100000 in
theorem ntscBuilt_template :
    (mapFind 0 ntscBuilt.m_streamSegCtx).map
        (fun ctxs => ctxs.map (fun c =>
          (c.codedMeta.presIndex, c.codedMeta.codingIndex, c.codedMeta.presTime))) =
      some [(0, 0, ⟨0, 1000⟩)] ∧
    (writeRun sampleWriter ntscWrites ntscBuilt []).map (fun r => r.1) = some ERROR_NONE ∧
    tilesNum ntscStream = 1 := by
  decide

theorem frame_counters_witness :
    ∃ st1 calls1 ctxs1,
      writeRun sampleWriter ntscWrites ntscBuilt [] = some (ERROR_NONE, st1, calls1) ∧
      mapFind 0 st1.m_streamSegCtx = some ctxs1 ∧
      ∀ i c, i < tilesNum ntscStream → ctxs1[i]? = some c →
        metaAfter (1000 / (ntscBuilt.m_frameRate.num / ntscBuilt.m_frameRate.den))
          (videoWrites 0 ntscWrites) c.codedMeta := by
  obtain ⟨ht, hr, _⟩ := ntscBuilt_template
  cases hrun : writeRun sampleWriter ntscWrites ntscBuilt [] with
  | none => rw [hrun] at hr; cases hr
  | some r =>
    obtain ⟨e, st1, calls1⟩ := r
    rw [hrun] at hr
    simp only [Option.map_some', Option.some.injEq] at hr
    subst hr
    cases hf : mapFind 0 ntscBuilt.m_streamSegCtx with
    | none => rw [hf] at ht; cases ht
    | some ctxs =>
      rw [hf] at ht
      simp only [Option.map_some', Option.some.injEq] at ht
      obtain ⟨ctxs1, h1, _, h3⟩ :=
        (frame_counters sampleWriter ntscBuilt).1 0 ntscStream ntscWrites [] st1 calls1 ctxs
          (by
            intro op hop vs2 key eos hop2
            subst hop2
            simp only [ntscWrites, List.mem_cons, WriteOp.video.injEq, List.mem_singleton,
              List.mem_nil_iff, or_false] at hop
            rcases hop with h | h | h <;> rw [h.2.1])
          hf
          (by
            intro i c hi hc
            rw [ntscBuilt_template.2.2] at hi
            have hi0 : i = 0 := by omega
            subst hi0
            have hm : (ctxs.map (fun c =>
                (c.codedMeta.presIndex, c.codedMeta.codingIndex, c.codedMeta.presTime)))[0]? =
                some (0, 0, ⟨0, 1000⟩) := by rw [ht]; rfl
            rw [List.getElem?_map, hc] at hm
            simp only [Option.map_some', Option.some.injEq, Prod.mk.injEq] at hm
            exact hm)
          hrun
      exact ⟨st1, calls1, ctxs1, rfl, h1, h3⟩

/-! ## The shape of the state after each part of a tick -/

theorem readyKeys_append (a b : List Event) :
    readyKeys (a ++ b) = readyKeys a ++ readyKeys b := by
  unfold readyKeys
  rw [List.filterMap_append]

theorem readyKeys_map (l : List (Nat × ExtractorTrack)) :
    readyKeys (l.map (fun e => Event.SetFramesReady e.1)) = mapKeys l := by
  induction l with
  | nil => rfl
  | cons e rest ih =>
    unfold readyKeys at ih ⊢
    simp only [List.map_cons, List.filterMap_cons, mapKeys]
    rw [ih]
    rfl

theorem publishLoop_publish (E : Env) (ave last threadNum : Nat) (threads : List Worker)
    (hfull : threadNum ≤ threads.length) :
    ∀ (l : List (Nat × ExtractorTrack)) (fuel : Nat) (events : List Event),
      l.length ≤ fuel →
      publishLoop E ave last threadNum fuel l threads events =
        some (none, threads, events ++ l.map (fun e => Event.SetFramesReady e.1)) := by
  intro l
  induction l with
  | nil =>
    intro fuel events _
    rw [publishLoop_nil]
    simp
  | cons e rest ih =>
    obtain ⟨key, et⟩ := e
    intro fuel events hfuel
    obtain ⟨fuel1, rfl⟩ : ∃ f, fuel = f + 1 := ⟨fuel - 1, by
      simp only [List.length_cons] at hfuel
      omega⟩
    unfold publishLoop
    simp only
    rw [if_neg (by omega)]
    rw [ih fuel1 _ (by simp only [List.length_cons] at hfuel; omega)]
    simp [List.append_assoc]

theorem publishLoop_spawn_ready (E : Env) (ave last T : Nat)
    (ets : List (Nat × ExtractorTrack))
    (hA : 1 ≤ ave) (hL1 : 1 ≤ last) (hL2 : last ≤ ave)
    (hC : ets.length = T * ave + last) (hC16 : ets.length < 2 ^ 16)
    (hthr : ∀ n, E.createThread n = true) :
    ∀ (n k : Nat) (l : List (Nat × ExtractorTrack)) (threads : List Worker)
      (events : List Event) (fuel : Nat),
      threads.length = k → k + n = T + 1 → l = ets.drop (k * ave) → n ≤ fuel →
      ∃ ws evs,
        publishLoop E ave last (T + 1) fuel l threads events = some (none, threads ++ ws, evs) ∧
        readyKeys evs = readyKeys events ++ ws.map (fun w => w.anchor) ∧
        mpdCalls evs = mpdCalls events := by
  intro n
  induction n with
  | zero =>
    intro k l threads events fuel _ hk hl _
    have hkT : k = T + 1 := by omega
    have hle : ets.length ≤ k * ave := by
      rw [hkT, Nat.add_mul, hC]; omega
    have hnil : l = [] := by rw [hl]; exact List.drop_eq_nil_of_le hle
    subst hnil
    refine ⟨[], events, ?_, ?_, rfl⟩
    · rw [publishLoop_nil, List.append_nil]
    · simp
  | succ n ih =>
    intro k l threads events fuel hlen hk hl hfuel
    obtain ⟨fuel1, rfl⟩ : ∃ f, fuel = f + 1 := ⟨fuel - 1, by omega⟩
    have hkT : k ≤ T := by omega
    have hmul : k * ave ≤ T * ave := Nat.mul_le_mul_right ave hkT
    have hTc : T ≤ ets.length := by
      have : T ≤ T * ave := Nat.le_mul_of_pos_right T (by omega)
      omega
    have hpos : k * ave < ets.length := by omega
    have hcons : l = ets[k * ave] :: ets.drop (k * ave + 1) := by
      rw [hl]; exact List.drop_eq_getElem_cons hpos
    rcases hx : ets[k * ave] with ⟨key, et⟩
    rw [hx] at hcons
    have hlt : threads.length < T + 1 := by omega
    have hmod : threads.length % 2 ^ 16 = threads.length := Nat.mod_eq_of_lt (by omega)
    by_cases hcase : ave = last ∨ k < T
    · have hcond : ave = last ∨ threads.length % 2 ^ 16 < T + 1 - 1 := by
        rw [hmod, hlen]
        rcases hcase with h | h
        · exact Or.inl h
        · exact Or.inr (by omega)
      have hroom : k * ave + ave ≤ ets.length := by
        rcases hcase with h | h
        · have : k * ave + ave ≤ T * ave + ave := by omega
          omega
        · have h1 : (k + 1) * ave ≤ T * ave := Nat.mul_le_mul_right ave (by omega)
          rw [Nat.add_mul, Nat.one_mul] at h1
          omega
      have hadv : advance ave l = some (ets.drop ((k + 1) * ave)) := by
        have hll : l.length = ets.length - k * ave := by rw [hl, List.length_drop]
        have h2 : ave ≤ l.length ∧ ave < 2 ^ 16 := by
          constructor
          · rw [hll]; omega
          · omega
        unfold advance
        have hk1 : (k + 1) * ave = k * ave + ave := by rw [Nat.add_mul, Nat.one_mul]
        rw [if_pos h2, hl, List.drop_drop, hk1]
      have hlen1 : (threads ++ [({ anchor := key, isLast := false, running := true } :
          Worker)]).length = k + 1 := by
        rw [List.length_append, hlen]; rfl
      obtain ⟨ws, evs, h1, h2, h3⟩ := ih (k + 1) (ets.drop ((k + 1) * ave))
        (threads ++ [{ anchor := key, isLast := false, running := true }])
        (events ++ [Event.SetFramesReady key] ++ [Event.StartExtractorTrackSegmentation key])
        fuel1 hlen1 (by omega) rfl (by omega)
      refine ⟨{ anchor := key, isLast := false, running := true } :: ws, evs, ?_, ?_, ?_⟩
      · rw [hcons] at hadv ⊢
        unfold publishLoop
        simp only [hlt, if_true, hcond, hthr, Bool.true_eq_false, if_false, hadv]
        rw [h1, List.append_assoc]
        rfl
      · rw [h2, readyKeys_append, readyKeys_append]
        simp [readyKeys, List.append_assoc]
      · rw [h3]
        simp [mpdCalls, isMpdCall, List.filter_append]
    · have hkeq : k = T := by
        by_contra hne
        exact hcase (Or.inr (by omega))
      have hne : ave ≠ last := fun h => hcase (Or.inl h)
      have hn0 : n = 0 := by omega
      have hcond : ¬ (ave = last ∨ threads.length % 2 ^ 16 < T + 1 - 1) := by
        rw [hmod, hlen]
        intro h
        rcases h with h | h
        · exact hne h
        · omega
      refine ⟨[{ anchor := key, isLast := true, running := true }],
        events ++ [Event.SetFramesReady key] ++ [Event.StartLastExtractorTrackSegmentation key],
        ?_, ?_, ?_⟩
      · rw [hcons]
        unfold publishLoop
        simp only [hlt, if_true, hcond, hthr, Bool.true_eq_false, if_false, publishLoop_nil]
      · rw [readyKeys_append, readyKeys_append]
        simp [readyKeys]
      · simp [mpdCalls, isMpdCall, List.filter_append]

theorem anchors_filterMap (g : Nat → Option Nat) :
    ∀ (ws : List Worker) (n k : Nat), ws.length = n →
      (∀ i, i < n → ∃ w, ws[i]? = some w ∧ g (k + i) = some w.anchor) →
      ws.map (fun w => w.anchor) = (List.range' k n).filterMap g := by
  intro ws
  induction ws with
  | nil =>
    intro n k hn _
    simp only [List.length_nil] at hn
    subst hn
    rfl
  | cons w rest ih =>
    intro n k hn h
    simp only [List.length_cons] at hn
    subst hn
    obtain ⟨w0, hw0, hg0⟩ := h 0 (by omega)
    simp only [List.getElem?_cons_zero, Option.some.injEq] at hw0
    subst hw0
    rw [Nat.add_zero] at hg0
    rw [List.range'_succ, List.filterMap_cons, hg0]
    simp only [List.map_cons, List.cons.injEq, true_and]
    apply ih rest.length (k + 1) rfl
    intro i hi
    obtain ⟨w1, hw1, hg1⟩ := h (i + 1) (by omega)
    refine ⟨w1, ?_, ?_⟩
    · simpa using hw1
    · have : k + 1 + i = k + (i + 1) := by omega
      rw [this]
      exact hg1

theorem range_filterMap_getElem {α : Type} (f : α → Nat) :
    ∀ (l : List α) (k : Nat) (full : List α), full.drop k = l →
      (List.range' k l.length).filterMap (fun i => (full[i]?).map f) = l.map f := by
  intro l
  induction l with
  | nil => intro k full _; rfl
  | cons a rest ih =>
    intro k full h
    have hk : full[k]? = some a := by
      have := congrArg (fun x => x[0]?) h
      simpa using this
    have hrest : full.drop (k + 1) = rest := by
      have := congrArg (fun x => x.drop 1) h
      simpa [List.drop_drop, Nat.add_comm] using this
    rw [List.length_cons, List.range'_succ, List.filterMap_cons, hk]
    simp only [Option.map_some', List.map_cons, List.cons.injEq, true_and]
    exact ih (k + 1) full hrest

theorem length_filterMap_of_isSome {α β : Type} (g : α → Option β) :
    ∀ l : List α, (∀ a ∈ l, (g a).isSome = true) → (l.filterMap g).length = l.length := by
  intro l
  induction l with
  | nil => intro _; rfl
  | cons a rest ih =>
    intro h
    obtain ⟨b, hb⟩ := Option.isSome_iff_exists.mp (h a (List.mem_cons_self a rest))
    rw [List.filterMap_cons, hb, List.length_cons, List.length_cons,
      ih (fun x hx => h x (List.mem_cons_of_mem a hx))]

theorem anchors_all_iff (ave last T : Nat) (ets : List (Nat × ExtractorTrack))
    (hA : 1 ≤ ave) (hL1 : 1 ≤ last) (hL2 : last ≤ ave)
    (hC : ets.length = T * ave + last) :
    (List.range (T + 1)).filterMap (fun k => (ets[k * ave]?).map Prod.fst) = mapKeys ets ↔
      ave = 1 ∨ ets.length = 1 := by
  have hTa : T ≤ T * ave := Nat.le_mul_of_pos_right T (by omega)
  constructor
  · intro h
    have hlen := congrArg List.length h
    have hall : ∀ k ∈ List.range (T + 1),
        ((fun k => (ets[k * ave]?).map Prod.fst) k).isSome = true := by
      intro k hk
      have hk1 : k < T + 1 := List.mem_range.mp hk
      have hmul : k * ave ≤ T * ave := Nat.mul_le_mul_right ave (by omega)
      have hlt : k * ave < ets.length := by omega
      simp only [List.getElem?_eq_getElem hlt, Option.map_some', Option.isSome_some]
    rw [length_filterMap_of_isSome _ _ hall, List.length_range] at hlen
    unfold mapKeys at hlen
    rw [List.length_map] at hlen
    by_cases hT : T = 0
    · right
      subst hT
      omega
    · left
      by_contra hne
      have h2 : 2 ≤ ave := by omega
      have : T * 2 ≤ T * ave := Nat.mul_le_mul_left T h2
      omega
  · intro h
    have hlen : ets.length = T + 1 ∧ ∀ k, k < T + 1 → k * ave = k := by
      rcases h with h | h
      · subst h
        exact ⟨by omega, fun k _ => Nat.mul_one k⟩
      · have hT : T = 0 := by
          by_contra hne
          have : 1 ≤ T := by omega
          omega
        subst hT
        refine ⟨h, fun k hk => ?_⟩
        have : k = 0 := by omega
        subst this
        exact Nat.zero_mul ave
    have hcongr : (List.range (T + 1)).filterMap (fun k => (ets[k * ave]?).map Prod.fst) =
        (List.range (T + 1)).filterMap (fun k => (ets[k]?).map Prod.fst) := by
      apply List.filterMap_congr
      intro k hk
      rw [hlen.2 k (List.mem_range.mp hk)]
    have := range_filterMap_getElem (Prod.fst : Nat × ExtractorTrack → Nat) ets 0 ets
      (by simp)
    rw [hlen.1] at this
    rw [hcongr, List.range_eq_range', this]
    rfl

set_option maxRecDepth 100000 in
theorem sevenExtractors_publish :
    (computeSharding sevenBuilt).map
        (fun st => (st.m_aveETPerSegThread, st.m_lastETPerSegThread, st.m_threadNumForET)) =
      some (3, 1, 3) ∧
    (publishLoop mixedEnv 3 1 3 11 sevenExtractors [] []).map
        (fun r => (r.1, r.2.1.length, readyKeys r.2.2)) = some (none, 3, [0, 3, 6]) ∧
    mapKeys sevenExtractors = [0, 1, 2, 3, 4, 5, 6] := by
  decide

/-- Claim C26, as the code has it: with seven extractor tracks and three tracks
per worker the sharding is 3, 1, 3, and the publish and spawn loop of the tick
that creates the three workers calls `SetFramesReady` on the tracks 0, 3 and 6
only, of the tracks 0 to 6 of the map. -/
theorem spawn_tick_publishes_anchors_only :
    (computeSharding sevenBuilt).map
        (fun st => (st.m_aveETPerSegThread, st.m_lastETPerSegThread, st.m_threadNumForET)) =
      some (3, 1, 3) ∧
    (publishLoop mixedEnv 3 1 3 11 sevenExtractors [] []).map
        (fun r => (r.1, r.2.1.length, readyKeys r.2.2)) = some (none, 3, [0, 3, 6]) ∧
    mapKeys sevenExtractors = [0, 1, 2, 3, 4, 5, 6] :=
  sevenExtractors_publish

/-- Claim C26, amended: with the sharding `ave`, `last` and `T + 1` workers of
`ets.length = T * ave + last` extractor tracks and every thread created, the
publish and spawn loop of the tick that creates the workers returns with
`T + 1` workers and has called `SetFramesReady` on the anchor tracks, the
tracks at the positions `0`, `ave`, ..., `T * ave` of the map, and on no other
track; the calls made are those on every track of the map exactly when `ave`
is 1 or the map holds a single track. In a tick in which the workers exist
already the loop calls `SetFramesReady` on every track of the map, in the
order of the map, and creates no worker. -/
theorem publish_ready (E : Env) (ave last T : Nat) (ets : List (Nat × ExtractorTrack))
    (hA : 1 ≤ ave) (hL1 : 1 ≤ last) (hL2 : last ≤ ave)
    (hC : ets.length = T * ave + last) (hC16 : ets.length < 2 ^ 16)
    (hthr : ∀ n, E.createThread n = true) :
    (∀ events, ∃ ws evs,
      publishLoop E ave last (T + 1) (ets.length + (T + 1) + 1) ets [] events =
        some (none, ws, evs) ∧
      ws.length = T + 1 ∧
      readyKeys evs =
        readyKeys events ++
          (List.range (T + 1)).filterMap (fun k => (ets[k * ave]?).map Prod.fst) ∧
      (readyKeys evs = readyKeys events ++ mapKeys ets ↔ ave = 1 ∨ ets.length = 1)) ∧
    (∀ threads events, T + 1 ≤ threads.length →
      publishLoop E ave last (T + 1) (ets.length + (T + 1) + 1) ets threads events =
        some (none, threads, events ++ ets.map (fun e => Event.SetFramesReady e.1)) ∧
      readyKeys (events ++ ets.map (fun e => Event.SetFramesReady e.1)) =
        readyKeys events ++ mapKeys ets) := by
  constructor
  · intro events
    obtain ⟨ws, evs, h1, h2, h3⟩ := publishLoop_spawn E ave last T ets hA hL1 hL2 hC hC16 hthr
      (T + 1) 0 ets [] events (ets.length + (T + 1) + 1) rfl (by omega) (by simp) (by omega)
    obtain ⟨ws2, evs2, g1, g2, _⟩ := publishLoop_spawn_ready E ave last T ets hA hL1 hL2 hC
      hC16 hthr (T + 1) 0 ets [] events (ets.length + (T + 1) + 1) rfl (by omega) (by simp)
      (by omega)
    rw [h1] at g1
    simp only [List.nil_append, Option.some.injEq, Prod.mk.injEq, true_and] at g1
    obtain ⟨hws, hevs⟩ := g1
    subst hws hevs
    have hanch : ws.map (fun w => w.anchor) =
        (List.range (T + 1)).filterMap (fun k => (ets[k * ave]?).map Prod.fst) := by
      rw [List.range_eq_range']
      apply anchors_filterMap (fun k => (ets[k * ave]?).map Prod.fst) ws (T + 1) 0 h2
      intro i hi
      obtain ⟨w, w1, w2, _, _⟩ := h3 i hi
      exact ⟨w, w1, w2⟩
    refine ⟨ws, evs, ?_, h2, ?_, ?_⟩
    · rw [h1, List.nil_append]
    · rw [g2, hanch]
    · rw [g2, hanch, List.append_cancel_left_eq]
      exact anchors_all_iff ave last T ets hA hL1 hL2 hC
  · intro threads events hfull
    refine ⟨publishLoop_publish E ave last (T + 1) threads hfull ets _ events (by omega), ?_⟩
    rw [readyKeys_append, readyKeys_map]

theorem publish_ready_witness :
    (∀ events, ∃ ws evs,
      publishLoop mixedEnv 3 1 (2 + 1) (sevenExtractors.length + (2 + 1) + 1) sevenExtractors
          [] events = some (none, ws, evs) ∧
      ws.length = 2 + 1 ∧
      readyKeys evs =
        readyKeys events ++
          (List.range (2 + 1)).filterMap (fun k => (sevenExtractors[k * 3]?).map Prod.fst) ∧
      (readyKeys evs = readyKeys events ++ mapKeys sevenExtractors ↔
        3 = 1 ∨ sevenExtractors.length = 1)) ∧
    (∀ threads events, 2 + 1 ≤ threads.length →
      publishLoop mixedEnv 3 1 (2 + 1) (sevenExtractors.length + (2 + 1) + 1) sevenExtractors
          threads events =
        some (none, threads,
          events ++ sevenExtractors.map (fun e => Event.SetFramesReady e.1)) ∧
      readyKeys (events ++ sevenExtractors.map (fun e => Event.SetFramesReady e.1)) =
        readyKeys events ++ mapKeys sevenExtractors) :=
  publish_ready mixedEnv 3 1 2 sevenExtractors (by decide) (by decide) (by decide)
    (by rw [sevenExtractors_length]) (by rw [sevenExtractors_length]; decide) (fun _ => rfl)

/-! ## Claim C25: the prefix of an extractor track -/

theorem trackCalls_calm (key : Nat) (evs : List Event)
    (h : ∀ e ∈ evs, isWorkerCall e = false) : trackCalls key evs = [] := by
  unfold trackCalls
  rw [List.filter_eq_nil_iff]
  intro e he
  have := h e he
  cases e <;> simp_all [isWorkerCall]

theorem segmentCalls_zero (key : Nat) (starts : Nat → Bool) (pre : Nalu) (first : Nat) :
    segmentCalls key starts pre first 0 = [] := rfl

theorem servedOver_same (starts : Nat → Nat → Bool) (pre : Nat → Nalu) (key : Nat)
    (m m1 : List (Nat × TrackSegmentCtx)) (evs : List Event)
    (hm : mapFind key m1 = mapFind key m) (h : trackCalls key evs = []) :
    servedOver starts pre key m evs m1 := by
  intro c hc hb
  refine ⟨c, by rw [hm, hc], hb, rfl, Nat.le_refl _, ?_⟩
  rw [h, Nat.sub_self]
  rfl

theorem servedRun_same (starts : Nat → Nat → Bool) (pre : Nat → Nalu) (ls ls1 : LoopState)
    (evs : List Event) (hev : ls1.events = ls.events ++ evs)
    (hno : ∀ e ∈ evs, isWorkerCall e = false)
    (hmap : ls1.seg.m_extractorSegCtx = ls.seg.m_extractorSegCtx) :
    servedRun starts pre ls ls1 :=
  ⟨evs, hev, fun key =>
    servedOver_same starts pre key _ _ evs (by rw [hmap]) (trackCalls_calm key evs hno)⟩

theorem servedRun_refl (starts : Nat → Nat → Bool) (pre : Nat → Nalu) (ls : LoopState) :
    servedRun starts pre ls ls :=
  servedRun_same starts pre ls ls [] (by rw [List.append_nil]) (fun _ he => by cases he) rfl

end VROmafPacking
